import Mathlib

/-!
BusTub storage core: buffer pool, LRU replacer and B+tree index.

A shallow embedding of `src/buffer/lru_replacer.cpp`, `src/buffer/buffer_pool_manager.cpp`,
`src/storage/page/b_plus_tree_leaf_page.cpp`, `src/storage/page/b_plus_tree_internal_page.cpp`,
`src/storage/index/b_plus_tree.cpp` and `src/storage/index/index_iterator.cpp`, followed by
theorems about them.

Conventions of the embedding.

* A C++ object that is mutated in place becomes a value that is passed in and returned.
* A `Page *`, and a node pointer obtained from it by `reinterpret_cast`, is the index of a
  frame of the pool's page array (`none` is `nullptr`); reads and writes through the pointer are
  reads and writes of that frame in the current pool state.
* `int`, `page_id_t`, `frame_id_t` are `Int`; no run in the statements below reaches `2^31`.
* A call that cannot return normally (a failed `assert`, an invalid memory access, a second
  acquisition of a mutex already held, an exception that is not caught) yields `Except.error`
  with the reason. The calls are
  made by one thread, one after the other.
* Loops and recursions of the code that have no structural bound take a budget (`fuel`);
  `Fault.out_of_fuel` reports that the budget was too small.
* Code of the repository that is not among the sources (disk manager, header page, page
  latch, transaction, accessors of the common node header) is modelled from the
  specification; each such definition says so.
-/

namespace bustub

/-! ## Common types (`common/config.h`) -/

abbrev page_id_t := Int

abbrev frame_id_t := Int

def INVALID_PAGE_ID : page_id_t := -1

def HEADER_PAGE_ID : page_id_t := 0

/-- Reasons for which a call does not return normally. -/
inductive Fault where
  /-- A mutex or latch is acquired while it is already held: the call blocks forever. -/
  | deadlock
  /-- An `assert` fails. -/
  | assertion
  /-- An invalid memory access: a null `Page *` is dereferenced, or `memmove` is given a
  negative length. -/
  | segfault
  /-- An exception `std::out_of_range` is thrown and not caught. -/
  | out_of_range
  /-- The recursion budget of the embedding is used up (not a behaviour of the code). -/
  | out_of_fuel
  deriving DecidableEq, Repr

/-! ## Page contents -/

abbrev KeyType := Int

/-- Values stored in a node: a record id in a leaf, a child page id in an internal page. -/
abbrev ValueType := Int

abbrev MappingType := KeyType × ValueType

/-- The comparator of the index: negative, zero or positive. -/
def comparator (a b : KeyType) : Int :=
  if a < b then -1 else if a = b then 0 else 1

inductive IndexPageType where
  | INVALID_INDEX_PAGE
  | LEAF_PAGE
  | INTERNAL_PAGE
  deriving DecidableEq, Repr

/-- The bytes of a page seen as a B+tree node: the header shared by both node kinds
(`BPlusTreePage`), the `next_page_id_` of a leaf, and the slot array. Slots at and beyond
`size_` are memory that the code leaves as it is. -/
structure BPlusTreePage where
  page_type_ : IndexPageType
  size_ : Int
  max_size_ : Int
  parent_page_id_ : page_id_t
  page_id_ : page_id_t
  next_page_id_ : page_id_t
  array : Int → MappingType

/-- The node view of zeroed bytes. -/
def BPlusTreePage.zero : BPlusTreePage :=
  { page_type_ := IndexPageType.INVALID_INDEX_PAGE, size_ := 0, max_size_ := 0,
    parent_page_id_ := 0, page_id_ := 0, next_page_id_ := 0, array := fun _ => (0, 0) }

/-- The `PAGE_SIZE` bytes of a page, under the two layouts the code overlays on them: a B+tree
node (`reinterpret_cast<BPlusTreePage *>`) and the header page's list of
`(index name, root page id)` records (`reinterpret_cast<HeaderPage *>`). -/
structure PageData where
  node : BPlusTreePage
  records : List (String × page_id_t)

/-- The bytes after `ResetMemory()`: all zero. -/
def PageData.zero : PageData :=
  { node := BPlusTreePage.zero, records := [] }

/-- Reader/writer latch of a page, as seen by one thread: the number of read holds and whether
the write hold is taken. -/
structure ReaderWriterLatch where
  readers : Nat := 0
  writer : Bool := false
  deriving DecidableEq, Repr

/-- A frame of the pool: the page image and its metadata. A frame that has not held a page yet
has zeroed bytes, page id `INVALID_PAGE_ID`, pin count 0 and is clean. -/
structure Page where
  data_ : PageData := PageData.zero
  page_id_ : page_id_t := INVALID_PAGE_ID
  pin_count_ : Int := 0
  is_dirty_ : Bool := false
  rwlatch_ : ReaderWriterLatch := {}

/-! ## Disk manager -/

/-- Modelled from the spec: the disk manager, which is not part of the sources. It exposes
`read_page(id, buffer)`, `write_page(id, buffer)`, `allocate_page()` returning monotonically
increasing ids, and `deallocate_page(id)`. The state is the next id to hand out and the bytes
stored under each id. -/
structure DiskManager where
  next_page_id_ : page_id_t
  pages : page_id_t → PageData

namespace DiskManager

def ReadPage (d : DiskManager) (page_id : page_id_t) : PageData :=
  d.pages page_id

def WritePage (d : DiskManager) (page_id : page_id_t) (data : PageData) : DiskManager :=
  { d with pages := fun p => if p = page_id then data else d.pages p }

def AllocatePage (d : DiskManager) : page_id_t × DiskManager :=
  (d.next_page_id_, { d with next_page_id_ := d.next_page_id_ + 1 })

def DeallocatePage (d : DiskManager) (_page_id : page_id_t) : DiskManager :=
  d

/-- A disk on which nothing was written; ids are handed out from `HEADER_PAGE_ID + 1`. -/
def fresh : DiskManager :=
  { next_page_id_ := HEADER_PAGE_ID + 1, pages := fun _ => PageData.zero }

end DiskManager

/-! ## LRU replacer (`src/buffer/lru_replacer.cpp`) -/

/-- The replacer: `lru_bucket_list` with the most recently unpinned frame at the front, and the
keys of `lru_map`. The iterator that `lru_map` stores under a frame designates the list node
that `Unpin` pushed for that frame. -/
structure LRUReplacer where
  num_pages : Nat
  lru_bucket_list : List frame_id_t := []
  lru_map : List frame_id_t := []
  deriving DecidableEq, Repr

namespace LRUReplacer

def Size (r : LRUReplacer) : Nat :=
  r.lru_map.length

/-- The call `Victim(&frame_id)`: returns the flag, the value left in `*frame_id`, and the
replacer. (`back()` of an empty list, which C++ leaves undefined, keeps `*frame_id`; the list is
empty only when the map is, see `ReplOk`.) -/
def Victim (r : LRUReplacer) (frame_id : frame_id_t) : Bool × frame_id_t × LRUReplacer :=
  if r.Size = 0 then
    (false, frame_id, r)
  else
    let f := r.lru_bucket_list.getLastD frame_id
    (true, f, { r with lru_map := r.lru_map.filter (fun g => g ≠ f),
                       lru_bucket_list := r.lru_bucket_list.dropLast })

/-- The method `Pin`. `lru_map[frame_id]` designates the list node of `frame_id`; the list holds
a frame at most once (see `Consistent`), so erasing that node erases `frame_id` from the list. -/
def Pin (r : LRUReplacer) (frame_id : frame_id_t) : LRUReplacer :=
  if frame_id ∉ r.lru_map then
    r
  else
    { r with lru_bucket_list := r.lru_bucket_list.erase frame_id,
             lru_map := r.lru_map.filter (fun g => g ≠ frame_id) }

def Unpin (r : LRUReplacer) (frame_id : frame_id_t) : LRUReplacer :=
  if frame_id ∈ r.lru_map then
    r
  else
    { r with lru_bucket_list := frame_id :: r.lru_bucket_list,
             lru_map := frame_id :: r.lru_map }

/-- The calls `Unpin(f1)`, ..., `Unpin(fn)`, in this order. -/
def unpinAll (r : LRUReplacer) : List frame_id_t → LRUReplacer
  | [] => r
  | f :: fs => unpinAll (r.Unpin f) fs

/-- What a call of `Victim` hands to its caller: the frame stored in `*frame_id` when the flag
is true, nothing when it is false. -/
def victimResult (r : LRUReplacer) : Option frame_id_t × LRUReplacer :=
  let (flag, f, r1) := r.Victim (-1)
  (if flag then some f else none, r1)

/-- The call `Victim` made `k` times in a row: the results in call order. -/
def victims : Nat → LRUReplacer → List (Option frame_id_t) × LRUReplacer
  | 0, r => ([], r)
  | k + 1, r =>
    let (x, r1) := r.victimResult
    let (xs, r2) := victims k r1
    (x :: xs, r2)

/-- The calls a user of the replacer can make. -/
inductive Op where
  | unpin (f : frame_id_t)
  | pin (f : frame_id_t)
  | victim
  deriving DecidableEq, Repr

/-- A call together with what it returned. -/
inductive Event where
  | unpin (f : frame_id_t)
  | pin (f : frame_id_t)
  | victim (returned : Option frame_id_t)
  deriving DecidableEq, Repr

/-- A sequence of calls on the replacer: the events in call order and the final replacer. -/
def run : List Op → LRUReplacer → List Event × LRUReplacer
  | [], r => ([], r)
  | Op.unpin f :: ops, r =>
    let (es, r1) := run ops (r.Unpin f)
    (Event.unpin f :: es, r1)
  | Op.pin f :: ops, r =>
    let (es, r1) := run ops (r.Pin f)
    (Event.pin f :: es, r1)
  | Op.victim :: ops, r =>
    let (x, r1) := r.victimResult
    let (es, r2) := run ops r1
    (Event.victim x :: es, r2)

/-- Whether the last event that named `f` (`pin(f)`, `unpin(f)`) or returned `f` (`victim`) is
`unpin(f)`, given the answer `m` for the events before these. -/
def lastIsUnpin (f : frame_id_t) : List Event → Bool → Bool
  | [], m => m
  | Event.unpin g :: es, m => lastIsUnpin f es (if g = f then true else m)
  | Event.pin g :: es, m => lastIsUnpin f es (if g = f then false else m)
  | Event.victim (some g) :: es, m => lastIsUnpin f es (if g = f then false else m)
  | Event.victim none :: es, m => lastIsUnpin f es m

/-- The list holds no frame twice and `lru_map` has exactly the frames of the list as keys, each
once. -/
structure Consistent (r : LRUReplacer) : Prop where
  nodup : r.lru_bucket_list.Nodup
  map_nodup : r.lru_map.Nodup
  sync : ∀ f, f ∈ r.lru_map ↔ f ∈ r.lru_bucket_list

end LRUReplacer

/-! ## Buffer pool manager (`src/buffer/buffer_pool_manager.cpp`) -/

/-- The buffer pool. `latch_` records whether the pool mutex is held. -/
structure BufferPoolManager where
  pool_size_ : Nat
  pages_ : frame_id_t → Page
  page_table_ : page_id_t → Option frame_id_t
  free_list_ : List frame_id_t
  replacer_ : LRUReplacer
  disk_manager_ : DiskManager
  latch_ : Bool := false

namespace BufferPoolManager

/-- The constructor: every frame is on the free list, in index order. -/
def new (pool_size : Nat) (disk_manager : DiskManager) : BufferPoolManager :=
  { pool_size_ := pool_size,
    pages_ := fun _ => {},
    page_table_ := fun _ => none,
    free_list_ := (List.range pool_size).map (fun i : Nat => (i : Int)),
    replacer_ := { num_pages := pool_size },
    disk_manager_ := disk_manager }

/-- Assignment through `Page *page = pages_ + frame_id`. -/
def setPage (bpm : BufferPoolManager) (frame_id : frame_id_t) (page : Page) :
    BufferPoolManager :=
  { bpm with pages_ := fun f => if f = frame_id then page else bpm.pages_ f }

/-- The statement `page_table_.erase(page_id)`. -/
def tableErase (t : page_id_t → Option frame_id_t) (page_id : page_id_t) :
    page_id_t → Option frame_id_t :=
  fun p => if p = page_id then none else t p

/-- The statement `page_table_[page_id] = frame_id`. -/
def tableSet (t : page_id_t → Option frame_id_t) (page_id : page_id_t) (frame_id : frame_id_t) :
    page_id_t → Option frame_id_t :=
  fun p => if p = page_id then some frame_id else t p

/-- The statement `std::scoped_lock bpm_slk{latch_}` on entry. The pool latch is a mutex (its
declaration is in `buffer_pool_manager.h`, which is not among the sources; the specification
calls it the pool's single mutex): a thread that asks for it while holding it never gets it. -/
def lock (bpm : BufferPoolManager) : Except Fault BufferPoolManager :=
  if bpm.latch_ then .error Fault.deadlock else .ok { bpm with latch_ := true }

/-- The release of `bpm_slk` at the end of its scope. -/
def unlock (bpm : BufferPoolManager) : BufferPoolManager :=
  { bpm with latch_ := false }

def FetchPageImpl (bpm : BufferPoolManager) (page_id : page_id_t) :
    Except Fault (Option frame_id_t × BufferPoolManager) := do
  let bpm ← bpm.lock
  match bpm.page_table_ page_id with
  | some frame_id =>
    let page := bpm.pages_ frame_id
    let bpm := bpm.setPage frame_id { page with pin_count_ := page.pin_count_ + 1 }
    return (some frame_id, bpm.unlock)
  | none =>
    if bpm.free_list_.isEmpty && bpm.replacer_.Size == 0 then
      return (none, bpm.unlock)
    else
      let (frame_id, bpm) : frame_id_t × BufferPoolManager :=
        match bpm.free_list_ with
        | f :: rest => (f, { bpm with free_list_ := rest })
        | [] =>
          let (_, f, r) := bpm.replacer_.Victim (-1)
          (f, { bpm with replacer_ := r,
                         page_table_ := tableErase bpm.page_table_ (bpm.pages_ f).page_id_ })
      let page := bpm.pages_ frame_id
      let disk := if page.is_dirty_ then bpm.disk_manager_.WritePage page.page_id_ page.data_
                  else bpm.disk_manager_
      let bpm := { bpm with disk_manager_ := disk,
                            page_table_ := tableSet bpm.page_table_ page_id frame_id }
      let page := { page with page_id_ := page_id, data_ := PageData.zero }
      let page := { page with pin_count_ := 1, is_dirty_ := false }
      let page := { page with data_ := bpm.disk_manager_.ReadPage page_id }
      return (some frame_id, (bpm.setPage frame_id page).unlock)

def UnpinPageImpl (bpm : BufferPoolManager) (page_id : page_id_t) (is_dirty : Bool) :
    Except Fault (Bool × BufferPoolManager) := do
  let bpm ← bpm.lock
  match bpm.page_table_ page_id with
  | none => return (false, bpm.unlock)
  | some frame_id =>
    let page := bpm.pages_ frame_id
    if page.pin_count_ = 0 then
      return (false, bpm.unlock)
    else
      let page := if is_dirty = true then { page with is_dirty_ := true } else page
      let page := { page with pin_count_ := page.pin_count_ - 1 }
      let bpm := bpm.setPage frame_id page
      let bpm := if page.pin_count_ = 0 then
                   { bpm with replacer_ := bpm.replacer_.Unpin frame_id }
                 else bpm
      return (true, bpm.unlock)

def FlushPageImpl (bpm : BufferPoolManager) (page_id : page_id_t) :
    Except Fault (Bool × BufferPoolManager) := do
  let bpm ← bpm.lock
  match bpm.page_table_ page_id with
  | some frame_id =>
    let page := bpm.pages_ frame_id
    let bpm := { bpm with disk_manager_ := bpm.disk_manager_.WritePage page_id page.data_ }
    let bpm := bpm.setPage frame_id { page with is_dirty_ := false }
    return (true, bpm.unlock)
  | none => return (false, bpm.unlock)

/-- The call `NewPageImpl(&page_id)`: on success the id written to `*page_id` and the frame. -/
def NewPageImpl (bpm : BufferPoolManager) :
    Except Fault (Option (page_id_t × frame_id_t) × BufferPoolManager) := do
  let bpm ← bpm.lock
  if bpm.free_list_.isEmpty && bpm.replacer_.Size == 0 then
    return (none, bpm.unlock)
  else
    let (frame_id, bpm) : frame_id_t × BufferPoolManager :=
      match bpm.free_list_ with
      | f :: rest => (f, { bpm with free_list_ := rest })
      | [] =>
        let (_, f, r) := bpm.replacer_.Victim (-1)
        let page := bpm.pages_ f
        let disk := if page.is_dirty_ then bpm.disk_manager_.WritePage page.page_id_ page.data_
                    else bpm.disk_manager_
        (f, { bpm with replacer_ := r,
                       page_table_ := tableErase bpm.page_table_ page.page_id_,
                       disk_manager_ := disk })
    let page := bpm.pages_ frame_id
    let (new_page_id, disk) := bpm.disk_manager_.AllocatePage
    let bpm := { bpm with disk_manager_ := disk,
                          page_table_ := tableSet bpm.page_table_ new_page_id frame_id }
    let page := { page with data_ := PageData.zero }
    let page := { page with page_id_ := new_page_id, is_dirty_ := true, pin_count_ := 1 }
    return (some (new_page_id, frame_id), (bpm.setPage frame_id page).unlock)

def DeletePageImpl (bpm : BufferPoolManager) (page_id : page_id_t) :
    Except Fault (Bool × BufferPoolManager) := do
  let bpm ← bpm.lock
  match bpm.page_table_ page_id with
  | none => return (true, bpm.unlock)
  | some frame_id =>
    if (bpm.pages_ frame_id).pin_count_ > 0 then
      return (false, bpm.unlock)
    else
      -- `FlushPageImpl` takes `latch_` itself, while this call holds it
      let bpm ← if (bpm.pages_ frame_id).is_dirty_ then
                  (do let (_, b) ← FlushPageImpl bpm page_id
                      pure b)
                else pure bpm
      let bpm := { bpm with page_table_ := tableErase bpm.page_table_ page_id }
      let page := bpm.pages_ frame_id
      let page := { page with data_ := PageData.zero }
      let page := { page with page_id_ := INVALID_PAGE_ID, pin_count_ := 0 }
      let bpm := bpm.setPage frame_id page
      let bpm := { bpm with free_list_ := frame_id :: bpm.free_list_,
                            disk_manager_ := bpm.disk_manager_.DeallocatePage page_id }
      return (true, bpm.unlock)

/-- The loop of `FlushAllPagesImpl` over the frames `i, i+1, ..., pool_size_ - 1`. -/
def FlushAllPagesLoop (bpm : BufferPoolManager) : List frame_id_t →
    Except Fault BufferPoolManager
  | [] => pure bpm
  | i :: rest => do
    let (_, bpm) ← FlushPageImpl bpm (bpm.pages_ i).page_id_
    FlushAllPagesLoop bpm rest

def FlushAllPagesImpl (bpm : BufferPoolManager) : Except Fault BufferPoolManager :=
  FlushAllPagesLoop bpm ((List.range bpm.pool_size_).map (fun i : Nat => (i : Int)))

/-- The disk after the statement `if (page->is_dirty_) WritePage(page->page_id_, page->data_)`
on the frame `pg` that is about to be reused. -/
def evictWrite (disk : DiskManager) (pg : Page) : DiskManager :=
  if pg.is_dirty_ then disk.WritePage pg.page_id_ pg.data_ else disk

/-- The pool state that a call returned, or `bpm` when the call did not return. -/
def stateOf {α : Type} (bpm : BufferPoolManager) (x : Except Fault (α × BufferPoolManager)) :
    BufferPoolManager :=
  match x with
  | .ok (_, b) => b
  | .error _ => bpm

/-- The calls `new_page` made `k` times in a row; the results in call order. -/
def newPages : Nat → BufferPoolManager →
    Except Fault (List (Option (page_id_t × frame_id_t)) × BufferPoolManager)
  | 0, bpm => pure ([], bpm)
  | k + 1, bpm => do
    let (r, bpm) ← NewPageImpl bpm
    let (rs, bpm) ← newPages k bpm
    pure (r :: rs, bpm)

/-- The pool of size `n` over disk `d` in which the frames `0, ..., k-1` hold the pages
`d.next_page_id_, ..., d.next_page_id_ + k - 1`, new, pinned once and dirty, and the other frames
are on the free list. -/
def filledPool (n : Nat) (d : DiskManager) (k : Nat) : BufferPoolManager :=
  { pool_size_ := n,
    pages_ := fun f => if 0 ≤ f ∧ f < (k : Int) then
                { page_id_ := d.next_page_id_ + f, pin_count_ := 1, is_dirty_ := true }
              else {},
    page_table_ := fun p => if d.next_page_id_ ≤ p ∧ p < d.next_page_id_ + (k : Int) then
                     some (p - d.next_page_id_)
                   else none,
    free_list_ := (List.range' k (n - k)).map (fun i : Nat => (i : Int)),
    replacer_ := { num_pages := n },
    disk_manager_ := { d with next_page_id_ := d.next_page_id_ + (k : Int) } }

/-- The pool after `FlushPageImpl(pages_[i].page_id_)` for the frames `i` of `done`: every page
that is resident and whose id is held by a frame of `done` is written to disk, and its frame is
clean. -/
def flushedPool (b : BufferPoolManager) (done : List frame_id_t) : BufferPoolManager :=
  { b with
    pages_ := fun g =>
      if done.any (fun i => b.page_table_ (b.pages_ i).page_id_ == some g) then
        { (b.pages_ g) with is_dirty_ := false }
      else b.pages_ g,
    disk_manager_ :=
      { b.disk_manager_ with
        pages := fun p =>
          match b.page_table_ p with
          | some g =>
            if done.any (fun i => (b.pages_ i).page_id_ == p) then (b.pages_ g).data_
            else b.disk_manager_.pages p
          | none => b.disk_manager_.pages p } }

/-- The pool can supply a frame for page `p`: the page is resident, or a frame is free, or the
replacer holds a candidate. -/
def CanFetch (b : BufferPoolManager) (p : page_id_t) : Prop :=
  b.page_table_ p ≠ none ∨ b.free_list_ ≠ [] ∨ b.replacer_.lru_map ≠ []

/-- A caller that holds a `Page *` to frame `frame_id` overwrites the page bytes. -/
def writeData (bpm : BufferPoolManager) (frame_id : frame_id_t) (data : PageData) :
    BufferPoolManager :=
  bpm.setPage frame_id { (bpm.pages_ frame_id) with data_ := data }

/-- The calls a user of the pool can make: the public operations, and a write to the bytes of
a frame through the `Page *` the user holds. -/
inductive Call where
  | fetch_page (p : page_id_t)
  | new_page
  | unpin_page (p : page_id_t) (is_dirty : Bool)
  | flush_page (p : page_id_t)
  | delete_page (p : page_id_t)
  | flush_all_pages
  | write_data (f : frame_id_t) (data : PageData)

/-- One call that returns. `Step c ids b ids' b'`: the call `c` takes the pool from `b` to `b'`,
where `ids` are the page ids that `new_page` has returned so far and `ids'` those returned
after the call. `fetch_page` is called only with ids that `new_page` returned before, or with
ids below the disk's id counter (ids that the disk handed out earlier or reserves, such as
`HEADER_PAGE_ID` on a fresh disk). -/
inductive Step : Call → List page_id_t → BufferPoolManager → List page_id_t →
    BufferPoolManager → Prop where
  | fetch_page {ids b p r b'} : (p ∈ ids ∨ p < b.disk_manager_.next_page_id_) →
      b.FetchPageImpl p = .ok (r, b') →
      Step (Call.fetch_page p) ids b ids b'
  | new_page {ids b p f b'} : b.NewPageImpl = .ok (some (p, f), b') →
      Step Call.new_page ids b (p :: ids) b'
  | new_page_none {ids b b'} : b.NewPageImpl = .ok (none, b') →
      Step Call.new_page ids b ids b'
  | unpin_page {ids b p is_dirty r b'} : b.UnpinPageImpl p is_dirty = .ok (r, b') →
      Step (Call.unpin_page p is_dirty) ids b ids b'
  | flush_page {ids b p r b'} : b.FlushPageImpl p = .ok (r, b') →
      Step (Call.flush_page p) ids b ids b'
  | delete_page {ids b p r b'} : b.DeletePageImpl p = .ok (r, b') →
      Step (Call.delete_page p) ids b ids b'
  | flush_all_pages {ids b b'} : b.FlushAllPagesImpl = .ok b' →
      Step Call.flush_all_pages ids b ids b'
  | write_data {ids b} (f : frame_id_t) (data : PageData) :
      Step (Call.write_data f data) ids b ids (b.writeData f data)

/-- A sequence of calls, each of which returns. -/
inductive Calls : List Call → List page_id_t → BufferPoolManager → List page_id_t →
    BufferPoolManager → Prop where
  | nil {ids b} : Calls [] ids b ids b
  | cons {c cs ids b ids1 b1 ids2 b2} : Step c ids b ids1 b1 → Calls cs ids1 b1 ids2 b2 →
      Calls (c :: cs) ids b ids2 b2

/-- The states of a pool of size `n` over the disk `d` that some sequence of calls leads to from
the constructor; `ids` are the page ids that `new_page` returned on the way. -/
def Run (n : Nat) (d : DiskManager) (ids : List page_id_t) (b : BufferPoolManager) : Prop :=
  ∃ cs, Calls cs [] (BufferPoolManager.new n d) ids b

/-- The facts about the replacer that the pool relies on: its list holds frames of the pool,
none twice, and `lru_map` has exactly the frames of the list as keys. -/
structure ReplOk (n : Nat) (r : LRUReplacer) : Prop where
  range : ∀ f ∈ r.lru_bucket_list, 0 ≤ f ∧ f < (n : Int)
  nodup : r.lru_bucket_list.Nodup
  sync : ∀ f, f ∈ r.lru_map ↔ f ∈ r.lru_bucket_list

/-- The page-table invariant of the pool, with the facts about the free list, the replacer and
the disk's id counter that keep it true. -/
structure Inv (b : BufferPoolManager) : Prop where
  latch : b.latch_ = false
  table_frame : ∀ p f, b.page_table_ p = some f →
    0 ≤ f ∧ f < (b.pool_size_ : Int) ∧ (b.pages_ f).page_id_ = p ∧ f ∉ b.free_list_
  table_ids : ∀ p f, b.page_table_ p = some f → p < b.disk_manager_.next_page_id_
  free_nodup : b.free_list_.Nodup
  free_range : ∀ f ∈ b.free_list_, 0 ≤ f ∧ f < (b.pool_size_ : Int)
  free_clean : ∀ f ∈ b.free_list_, (b.pages_ f).is_dirty_ = false
  cover : ∀ f, 0 ≤ f → f < (b.pool_size_ : Int) → f ∈ b.free_list_ ∨ ∃ p, b.page_table_ p = some f
  repl : ReplOk b.pool_size_ b.replacer_

/-- The invariant as it is carried along a run: with the bound on the ids returned so far. -/
def Good (ids : List page_id_t) (b : BufferPoolManager) : Prop :=
  Inv b ∧ ∀ p ∈ ids, p < b.disk_manager_.next_page_id_

end BufferPoolManager

/-! ### Example pools -/

open BufferPoolManager

/-- Page bytes that differ from zeroed bytes. -/
def exampleData : PageData :=
  { node := BPlusTreePage.zero, records := [("index", 7)] }

/-- A pool of one frame over a fresh disk. -/
def w0 : BufferPoolManager := BufferPoolManager.new 1 DiskManager.fresh

/-- After `new_page`: page 1 in frame 0, pinned. -/
def w1 : BufferPoolManager := stateOf w0 w0.NewPageImpl

/-- After the caller has written `exampleData` to the page. -/
def w2 : BufferPoolManager := w1.writeData 0 exampleData

/-- After `unpin_page(1, true)`. -/
def w3 : BufferPoolManager := stateOf w2 (w2.UnpinPageImpl 1 true)

/-- After a second `new_page`, which takes frame 0 for page 2. -/
def w4 : BufferPoolManager := stateOf w3 w3.NewPageImpl

/-- After `unpin_page(2, false)`. -/
def w5 : BufferPoolManager := stateOf w4 (w4.UnpinPageImpl 2 false)

/-- After `fetch_page(1)`. -/
def w6 : BufferPoolManager := stateOf w5 (w5.FetchPageImpl 1)

/-- A pool of one frame after `new_page` and `unpin_page(1, false)`: page 1 is resident in
frame 0, unpinned, and frame 0 is in the replacer. -/
def v2 : BufferPoolManager := stateOf w1 (w1.UnpinPageImpl 1 false)

/-- After `fetch_page(1)` on `v2`. -/
def v3 : BufferPoolManager := stateOf v2 (v2.FetchPageImpl 1)

/-- After `new_page` on `v3`. -/
def v4 : BufferPoolManager := stateOf v3 v3.NewPageImpl

/-- After `unpin_page(2, false)` on `w4`, then `fetch_page(2)`: page 2 is resident in frame 0 and
pinned. -/
def u6 : BufferPoolManager := stateOf w5 (w5.FetchPageImpl 2)

/-- After `fetch_page(1)` on `u6`. -/
def u7 : BufferPoolManager := stateOf u6 (u6.FetchPageImpl 1)

/-- A pool of two frames after one `new_page`. -/
def x1 : BufferPoolManager :=
  stateOf (BufferPoolManager.new 2 DiskManager.fresh)
    (BufferPoolManager.new 2 DiskManager.fresh).NewPageImpl

/-- After `flush_page(1)` on `v2`: page 1 is resident in frame 0, unpinned and clean. -/
def y1 : BufferPoolManager := stateOf v2 (v2.FlushPageImpl 1)

/-- After `delete_page(1)` on `y1`. -/
def y2 : BufferPoolManager := stateOf y1 (y1.DeletePageImpl 1)

/-- After `new_page` on `y2`, which takes frame 0 from the free list for page 2. -/
def y3 : BufferPoolManager := stateOf y2 y2.NewPageImpl

/-- After a second `new_page`, on `y3`. -/
def y4 : BufferPoolManager := stateOf y3 y3.NewPageImpl

/-- A pool of two frames after `new_page` and `unpin_page(1, true)`. -/
def x2 : BufferPoolManager := stateOf x1 (x1.UnpinPageImpl 1 true)

/-! ## Reader/writer latch and transaction -/

namespace ReaderWriterLatch

/-- Modelled from the spec: the per-page reader/writer latch (`rwlatch.h` is not part of the
sources): readers share, writers are exclusive. A thread that asks for a latch it cannot get
blocks forever, since no other thread runs. -/
def WLock (l : ReaderWriterLatch) : Except Fault ReaderWriterLatch :=
  if l.writer = true ∨ 0 < l.readers then .error Fault.deadlock
  else .ok { l with writer := true }

/-- Modelled from the spec: release of the write hold. -/
def WUnlock (l : ReaderWriterLatch) : ReaderWriterLatch :=
  { l with writer := false }

/-- Modelled from the spec: a read hold is granted unless the write hold is taken. -/
def RLock (l : ReaderWriterLatch) : Except Fault ReaderWriterLatch :=
  if l.writer = true then .error Fault.deadlock
  else .ok { l with readers := l.readers + 1 }

/-- Modelled from the spec: release of one read hold; without a read hold the count stays at
zero. -/
def RUnlock (l : ReaderWriterLatch) : ReaderWriterLatch :=
  { l with readers := l.readers - 1 }

end ReaderWriterLatch

/-- Modelled from the spec: the transaction context (`concurrency/transaction.h` is not part of
the sources): the ordered list of latched frames acquired during a descent and the set of page
ids to deallocate on unwind. -/
structure Transaction where
  page_set_ : List frame_id_t := []
  deleted_page_set_ : List page_id_t := []
  deriving DecidableEq, Repr

namespace Transaction

def AddIntoPageSet (txn : Transaction) (page : frame_id_t) : Transaction :=
  { txn with page_set_ := txn.page_set_ ++ [page] }

def AddIntoDeletedPageSet (txn : Transaction) (page_id : page_id_t) : Transaction :=
  if page_id ∈ txn.deleted_page_set_ then txn
  else { txn with deleted_page_set_ := txn.deleted_page_set_ ++ [page_id] }

end Transaction

/-! ## Header page -/

namespace HeaderPage

/-- Modelled from the spec: the header page (`header_page.cpp` is not part of the sources) maps
index names to root page ids; `InsertRecord(name, pid)` adds a record for a name that has
none. -/
def InsertRecord (records : List (String × page_id_t)) (name : String) (root_id : page_id_t) :
    Bool × List (String × page_id_t) :=
  if records.any (fun r => r.1 == name) then (false, records)
  else (true, records ++ [(name, root_id)])

/-- Modelled from the spec: `UpdateRecord(name, pid)` replaces the root page id of the
existing record of `name`. -/
def UpdateRecord (records : List (String × page_id_t)) (name : String) (root_id : page_id_t) :
    Bool × List (String × page_id_t) :=
  if records.any (fun r => r.1 == name) then
    (true, records.map (fun r => if r.1 == name then (name, root_id) else r))
  else (false, records)

end HeaderPage

/-! ## Node pages: the common header (`BPlusTreePage`) -/

namespace BPlusTreePage

/-- Modelled from the spec: `IsLeafPage()` of the common header (`b_plus_tree_page.cpp` is not
part of the sources): the page type is `LEAF`. -/
def IsLeafPage (nd : BPlusTreePage) : Bool :=
  nd.page_type_ == IndexPageType.LEAF_PAGE

/-- Modelled from the spec: `IsRootPage()`: the root is the node without parent. -/
def IsRootPage (nd : BPlusTreePage) : Bool :=
  nd.parent_page_id_ == INVALID_PAGE_ID

/-- Modelled from the spec: `GetMinSize()`: `⌈max_size/2⌉` for an internal node and for a
leaf. -/
def GetMinSize (nd : BPlusTreePage) : Int :=
  Int.tdiv (nd.max_size_ + 1) 2

/-- Modelled from the spec: `IncreaseSize(amount)` adds `amount` to the entry count. -/
def IncreaseSize (nd : BPlusTreePage) (amount : Int) : BPlusTreePage :=
  { nd with size_ := nd.size_ + amount }

/-- The assignment `array[index] = item`. -/
def setSlot (nd : BPlusTreePage) (index : Int) (item : MappingType) : BPlusTreePage :=
  { nd with array := fun i => if i = index then item else nd.array i }

/-- The assignment `array[index].first = key`. -/
def setSlotKey (nd : BPlusTreePage) (index : Int) (key : KeyType) : BPlusTreePage :=
  nd.setSlot index (key, (nd.array index).2)

/-- The assignment `array[index].second = value`. -/
def setSlotValue (nd : BPlusTreePage) (index : Int) (value : ValueType) : BPlusTreePage :=
  nd.setSlot index ((nd.array index).1, value)

/-- The call `memmove(array + dst, array + src, count * sizeof(MappingType))`. -/
def memmove (nd : BPlusTreePage) (dst src count : Int) : Except Fault BPlusTreePage :=
  if count < 0 then .error Fault.segfault
  else .ok { nd with array := fun i =>
               if dst ≤ i ∧ i < dst + count then nd.array (i - dst + src) else nd.array i }

end BPlusTreePage

/-- The statement `assert(c)`. -/
def assert (c : Bool) : Except Fault Unit :=
  if c then .ok () else .error Fault.assertion

/-! ## Leaf pages (`src/storage/page/b_plus_tree_leaf_page.cpp`) -/

namespace BPlusTreeLeafPage

/-- The method `Init`. `leaf_max_size` is the value of
`(PAGE_SIZE - sizeof(BPlusTreeLeafPage)) / (sizeof(KeyType) + sizeof(ValueType))`. -/
def Init (nd : BPlusTreePage) (leaf_max_size : Int) (page_id : page_id_t)
    (parent_id : page_id_t) : BPlusTreePage :=
  { nd with page_type_ := IndexPageType.LEAF_PAGE, size_ := 0, page_id_ := page_id,
            parent_page_id_ := parent_id, next_page_id_ := INVALID_PAGE_ID,
            max_size_ := leaf_max_size }

def KeyAt (nd : BPlusTreePage) (index : Int) : Except Fault KeyType := do
  assert (decide (0 ≤ index ∧ index < nd.size_))
  pure (nd.array index).1

def GetItem (nd : BPlusTreePage) (index : Int) : Except Fault MappingType := do
  assert (decide (0 ≤ index ∧ index < nd.size_))
  pure (nd.array index)

/-- The loop of `KeyIndex`, `i` running up from 0 while `i < GetSize()`. -/
def keyIndexLoop (nd : BPlusTreePage) (key : KeyType) : Nat → Int → Int
  | 0, _ => nd.size_
  | count + 1, i =>
    if comparator key (nd.array i).1 ≤ 0 then i else keyIndexLoop nd key count (i + 1)

def KeyIndex (nd : BPlusTreePage) (key : KeyType) : Int :=
  keyIndexLoop nd key nd.size_.toNat 0

/-- The binary search of `Insert`; the result is the final `high`. Each turn narrows
`high - low`, so `fuel = high - low` turns are enough. -/
def insertSearch (nd : BPlusTreePage) (key : KeyType) : Nat → Int → Int → Except Fault Int
  | 0, low, high =>
    if low < high ∧ low + 1 ≠ high then .error Fault.out_of_fuel else .ok high
  | fuel + 1, low, high =>
    if low < high ∧ low + 1 ≠ high then
      let mid := low + Int.tdiv (high - low) 2
      if comparator key (nd.array mid).1 < 0 then insertSearch nd key fuel low mid
      else if comparator key (nd.array mid).1 > 0 then insertSearch nd key fuel mid high
      else .error Fault.assertion
    else .ok high

def Insert (nd : BPlusTreePage) (key : KeyType) (value : ValueType) :
    Except Fault (Int × BPlusTreePage) := do
  let last ← if nd.size_ = 0 then pure true
             else do
               let k ← KeyAt nd (nd.size_ - 1)
               pure (decide (comparator key k > 0))
  let nd ←
    if last then
      pure (nd.setSlot nd.size_ (key, value))
    else if comparator key (nd.array 0).1 < 0 then do
      let nd ← nd.memmove 1 0 nd.size_
      pure (nd.setSlot 0 (key, value))
    else do
      let high ← insertSearch nd key (nd.size_ - 1).toNat 0 (nd.size_ - 1)
      let nd ← nd.memmove (high + 1) high (nd.size_ - high)
      pure (nd.setSlot high (key, value))
  let nd := nd.IncreaseSize 1
  assert (decide (nd.size_ ≤ nd.max_size_))
  pure (nd.size_, nd)

/-- The binary search of `Lookup`: the value found, if any. -/
def lookupSearch (nd : BPlusTreePage) (key : KeyType) :
    Nat → Int → Int → Except Fault (Option ValueType)
  | 0, low, high => if low ≤ high then .error Fault.out_of_fuel else .ok none
  | fuel + 1, low, high =>
    if low ≤ high then do
      let mid := low + Int.tdiv (high - low) 2
      let k ← KeyAt nd mid
      if comparator key k > 0 then lookupSearch nd key fuel (mid + 1) high
      else if comparator key k < 0 then lookupSearch nd key fuel low (mid - 1)
      else pure (some (nd.array mid).2)
    else .ok none

/-- The method `Lookup(key, value, comparator)`: `some v` when it returns true and stores `v`
in `value`, `none` when it returns false. -/
def Lookup (nd : BPlusTreePage) (key : KeyType) : Except Fault (Option ValueType) := do
  let out ← if nd.size_ = 0 then pure true
            else do
              let k0 ← KeyAt nd 0
              if comparator key k0 < 0 then pure true
              else do
                let k1 ← KeyAt nd (nd.size_ - 1)
                pure (decide (comparator key k1 > 0))
  if out then pure none
  else lookupSearch nd key nd.size_.toNat 0 (nd.size_ - 1)

/-- The binary search of `RemoveAndDeleteRecord`, with the deletion at the slot found. Each turn
narrows `high - low`. -/
def removeSearch (nd : BPlusTreePage) (key : KeyType) :
    Nat → Int → Int → Except Fault BPlusTreePage
  | 0, low, high => if low ≤ high then .error Fault.out_of_fuel else .ok nd
  | fuel + 1, low, high =>
    if low ≤ high then do
      let mid := low + Int.tdiv (high - low) 2
      let k ← KeyAt nd mid
      if comparator key k > 0 then removeSearch nd key fuel (mid + 1) high
      else if comparator key k < 0 then removeSearch nd key fuel low (mid - 1)
      else do
        let nd ← nd.memmove mid (mid + 1) (nd.size_ - mid - 1)
        pure (nd.IncreaseSize (-1))
    else .ok nd

def RemoveAndDeleteRecord (nd : BPlusTreePage) (key : KeyType) :
    Except Fault (Int × BPlusTreePage) := do
  let out ← if nd.size_ = 0 then pure true
            else do
              let k0 ← KeyAt nd 0
              if comparator key k0 < 0 then pure true
              else do
                let k1 ← KeyAt nd (nd.size_ - 1)
                pure (decide (comparator key k1 > 0))
  if out then pure (nd.size_, nd)
  else do
    let nd ← removeSearch nd key nd.size_.toNat 0 (nd.size_ - 1)
    pure (nd.size_, nd)

end BPlusTreeLeafPage

/-! ## Code that works on pages through the buffer pool -/

/-- Computations on the buffer pool that may fail to return. -/
abbrev PoolM := StateT BufferPoolManager (Except Fault)

namespace PoolM

/-- The wrapper `BufferPoolManager::FetchPage`. -/
def FetchPage (page_id : page_id_t) : PoolM (Option frame_id_t) :=
  fun bpm => bpm.FetchPageImpl page_id

/-- The wrapper `BufferPoolManager::UnpinPage`. -/
def UnpinPage (page_id : page_id_t) (is_dirty : Bool) : PoolM Bool :=
  fun bpm => bpm.UnpinPageImpl page_id is_dirty

/-- The wrapper `BufferPoolManager::DeletePage`. -/
def DeletePage (page_id : page_id_t) : PoolM Bool :=
  fun bpm => bpm.DeletePageImpl page_id

def NewPageImpl : PoolM (Option (page_id_t × frame_id_t)) :=
  fun bpm => bpm.NewPageImpl

/-- The use of a `Page *`: a null pointer cannot be used. -/
def deref (page : Option frame_id_t) : PoolM frame_id_t :=
  match page with
  | some f => pure f
  | none => throw Fault.segfault

def check (c : Bool) : PoolM Unit :=
  liftM (assert c)

/-- The frame behind a `Page *`. -/
def readPage (page : frame_id_t) : PoolM Page := do
  return (← get).pages_ page

/-- The node that `reinterpret_cast<BPlusTreePage *>(page->GetData())` points to. -/
def readNode (page : frame_id_t) : PoolM BPlusTreePage := do
  return ((← get).pages_ page).data_.node

/-- A write through a node pointer. -/
def writeNode (page : frame_id_t) (nd : BPlusTreePage) : PoolM Unit :=
  modify fun bpm =>
    bpm.setPage page { (bpm.pages_ page) with
      data_ := { (bpm.pages_ page).data_ with node := nd } }

def modifyNode (page : frame_id_t) (g : BPlusTreePage → BPlusTreePage) : PoolM Unit := do
  let nd ← readNode page
  writeNode page (g nd)

/-- A method of a node that may fail, called through a node pointer. -/
def onNode {α : Type} (page : frame_id_t)
    (g : BPlusTreePage → Except Fault (α × BPlusTreePage)) : PoolM α := do
  let nd ← readNode page
  let (a, nd) ← liftM (g nd)
  writeNode page nd
  pure a

def setLatch (page : frame_id_t) (l : ReaderWriterLatch) : PoolM Unit :=
  modify fun bpm => bpm.setPage page { (bpm.pages_ page) with rwlatch_ := l }

def RLatch (page : frame_id_t) : PoolM Unit := do
  let l ← liftM (ReaderWriterLatch.RLock ((← get).pages_ page).rwlatch_)
  setLatch page l

def WLatch (page : frame_id_t) : PoolM Unit := do
  let l ← liftM (ReaderWriterLatch.WLock ((← get).pages_ page).rwlatch_)
  setLatch page l

def RUnlatch (page : frame_id_t) : PoolM Unit := do
  setLatch page (ReaderWriterLatch.RUnlock ((← get).pages_ page).rwlatch_)

def WUnlatch (page : frame_id_t) : PoolM Unit := do
  setLatch page (ReaderWriterLatch.WUnlock ((← get).pages_ page).rwlatch_)

/-- The loop `for (i = 0; i < size; ++i) array[start + i] = *items++`, where `items` points
to slot `from_index` of the node in frame `from_page`; `count` turns are left. -/
def copyItems (self : frame_id_t) (start : Int) (from_page : frame_id_t) (from_index : Int) :
    Nat → Int → PoolM Unit
  | 0, _ => pure ()
  | count + 1, i => do
    let src ← readNode from_page
    modifyNode self (fun nd => nd.setSlot (start + i) (src.array (from_index + i)))
    copyItems self start from_page from_index count (i + 1)

end PoolM

/-! ## Internal pages (`src/storage/page/b_plus_tree_internal_page.cpp`) -/

namespace BPlusTreeInternalPage

/-- The method `Init`. `internal_max_size` is the value of
`(PAGE_SIZE - sizeof(BPlusTreeInternalPage)) / (sizeof(KeyType) + sizeof(ValueType))`. -/
def Init (nd : BPlusTreePage) (internal_max_size : Int) (page_id : page_id_t)
    (parent_id : page_id_t) : BPlusTreePage :=
  { nd with page_type_ := IndexPageType.INTERNAL_PAGE, size_ := 1, page_id_ := page_id,
            parent_page_id_ := parent_id, max_size_ := internal_max_size }

def KeyAt (nd : BPlusTreePage) (index : Int) : Except Fault KeyType := do
  assert (decide (0 ≤ index ∧ index < nd.size_))
  pure (nd.array index).1

def SetKeyAt (nd : BPlusTreePage) (index : Int) (key : KeyType) :
    Except Fault BPlusTreePage := do
  assert (decide (0 ≤ index ∧ index < nd.size_))
  pure (nd.setSlotKey index key)

def ValueAt (nd : BPlusTreePage) (index : Int) : Except Fault ValueType := do
  assert (decide (0 ≤ index ∧ index < nd.size_))
  pure (nd.array index).2

def SetValueAt (nd : BPlusTreePage) (index : Int) (value : ValueType) :
    Except Fault BPlusTreePage := do
  assert (decide (0 ≤ index ∧ index < nd.size_))
  pure (nd.setSlotValue index value)

/-- The binary search of `Lookup`; each turn narrows `high - low`. -/
def lookupSearch (nd : BPlusTreePage) (key : KeyType) : Nat → Int → Int → Except Fault ValueType
  | 0, low, high =>
    if low < high ∧ low + 1 ≠ high then .error Fault.out_of_fuel else .ok (nd.array low).2
  | fuel + 1, low, high =>
    if low < high ∧ low + 1 ≠ high then
      let mid := low + Int.tdiv (high - low) 2
      if comparator key (nd.array mid).1 < 0 then lookupSearch nd key fuel low mid
      else if comparator key (nd.array mid).1 > 0 then lookupSearch nd key fuel mid high
      else .ok (nd.array mid).2
    else .ok (nd.array low).2

def Lookup (nd : BPlusTreePage) (key : KeyType) : Except Fault ValueType := do
  assert (decide (nd.size_ > 1))
  if comparator key (nd.array 1).1 < 0 then
    pure (nd.array 0).2
  else if comparator key (nd.array (nd.size_ - 1)).1 ≥ 0 then
    pure (nd.array (nd.size_ - 1)).2
  else
    lookupSearch nd key (nd.size_ - 2).toNat 1 (nd.size_ - 1)

def PopulateNewRoot (nd : BPlusTreePage) (old_value : ValueType) (new_key : KeyType)
    (new_value : ValueType) : Except Fault BPlusTreePage := do
  assert (decide (nd.size_ = 1))
  let nd := nd.setSlotValue 0 old_value
  let nd := nd.setSlot 1 (new_key, new_value)
  pure (nd.IncreaseSize 1)

/-- The loop of `InsertNodeAfter`, `i` running down from `GetSize()` while `i > 0`. -/
def insertNodeAfterLoop (old_value : ValueType) (new_key : KeyType) (new_value : ValueType) :
    Nat → Int → BPlusTreePage → BPlusTreePage
  | 0, _, nd => nd
  | count + 1, i, nd =>
    if (nd.array (i - 1)).2 = old_value then
      (nd.setSlot i (new_key, new_value)).IncreaseSize 1
    else
      insertNodeAfterLoop old_value new_key new_value count (i - 1)
        (nd.setSlot i (nd.array (i - 1)))

def InsertNodeAfter (nd : BPlusTreePage) (old_value : ValueType) (new_key : KeyType)
    (new_value : ValueType) : Int × BPlusTreePage :=
  let nd := insertNodeAfterLoop old_value new_key new_value nd.size_.toNat nd.size_ nd
  (nd.size_, nd)

/-- The loop of `ValueIndex`, `i` running up from 0 while `i < GetSize()`. -/
def valueIndexLoop (nd : BPlusTreePage) (value : ValueType) : Nat → Int → Int
  | 0, _ => nd.size_
  | count + 1, i =>
    if (nd.array i).2 = value then i else valueIndexLoop nd value count (i + 1)

def ValueIndex (nd : BPlusTreePage) (value : ValueType) : Int :=
  valueIndexLoop nd value nd.size_.toNat 0

/-- The loop of `Remove`, `i` running up from `index` while `i < GetSize() - 1`. -/
def removeLoop : Nat → Int → BPlusTreePage → BPlusTreePage
  | 0, _, nd => nd
  | count + 1, i, nd => removeLoop count (i + 1) (nd.setSlot i (nd.array (i + 1)))

def Remove (nd : BPlusTreePage) (index : Int) : Except Fault BPlusTreePage := do
  assert (decide (0 ≤ index ∧ index < nd.size_))
  let nd := removeLoop (nd.size_ - 1 - index).toNat index nd
  pure (nd.IncreaseSize (-1))

open PoolM

def CopyHalfFrom (self : frame_id_t) (from_page : frame_id_t) (from_index : Int) (size : Int) :
    PoolM Unit := do
  let nd ← readNode self
  check (!nd.IsLeafPage && decide (nd.size_ = 1) && decide (size > 0))
  copyItems self 0 from_page from_index size.toNat 0
  modifyNode self (fun nd => nd.IncreaseSize (size - 1))

/-- The loop of `MoveHalfTo` that gives the moved children their new parent; it runs while
`index < GetSize()`. -/
def moveHalfLoop (self recipient : frame_id_t) : Nat → Int → PoolM Unit
  | 0, index => do
    let nd ← readNode self
    if index < nd.size_ then throw Fault.out_of_fuel else pure ()
  | fuel + 1, index => do
    let nd ← readNode self
    if index < nd.size_ then
      let v ← liftM (ValueAt nd index)
      let page ← FetchPage v
      let child ← deref page
      let r ← readNode recipient
      modifyNode child (fun c => { c with parent_page_id_ := r.page_id_ })
      let c ← readNode child
      let r ← readNode recipient
      check (c.parent_page_id_ == r.page_id_)
      let _ ← UnpinPage c.page_id_ true
      moveHalfLoop self recipient fuel (index + 1)
    else pure ()

def MoveHalfTo (self recipient : frame_id_t) : PoolM Unit := do
  let nd ← readNode self
  let half := Int.tdiv (nd.size_ + 1) 2
  CopyHalfFrom recipient self (nd.size_ - half) half
  let nd ← readNode self
  moveHalfLoop self recipient half.toNat (nd.size_ - half)
  modifyNode self (fun nd => nd.IncreaseSize (-1 * half))

/-- The method `CopyAllFrom(items, size, buffer_pool_manager)`, where `items` points to slot
`from_index` of the node in frame `from_page`. -/
def CopyAllFrom (self : frame_id_t) (from_page : frame_id_t) (from_index : Int) (size : Int) :
    PoolM Unit := do
  let nd ← readNode self
  check (decide (nd.size_ + size ≤ nd.max_size_))
  let start := nd.size_
  copyItems self start from_page from_index size.toNat 0
  modifyNode self (fun nd => nd.IncreaseSize size)

/-- The statements that give the child with page id `child_page_id` the parent `recipient`:
fetch, `SetParentPageId`, the `assert`, and the unpin. -/
def adoptChild (recipient : frame_id_t) (child_page_id : page_id_t) : PoolM Unit := do
  let page ← FetchPage child_page_id
  let child ← deref page
  let r ← readNode recipient
  modifyNode child (fun c => { c with parent_page_id_ := r.page_id_ })
  let c ← readNode child
  let r ← readNode recipient
  check (c.parent_page_id_ == r.page_id_)
  let _ ← UnpinPage c.page_id_ true

/-- The loop of `MoveAllTo` that gives the moved children their new parent; it runs while
`index < GetSize()`. -/
def moveAllLoop (self recipient : frame_id_t) : Nat → Int → PoolM Unit
  | 0, index => do
    let nd ← readNode self
    if index < nd.size_ then throw Fault.out_of_fuel else pure ()
  | fuel + 1, index => do
    let nd ← readNode self
    if index < nd.size_ then
      let v ← liftM (ValueAt nd index)
      adoptChild recipient v
      moveAllLoop self recipient fuel (index + 1)
    else pure ()

def MoveAllTo (self recipient : frame_id_t) (index_in_parent : Int) : PoolM Unit := do
  let nd ← readNode self
  let page ← FetchPage nd.parent_page_id_
  let parent ← deref page
  let pnd ← readNode parent
  let k ← liftM (KeyAt pnd index_in_parent)
  let _ ← onNode self (fun nd => do
    let nd ← SetKeyAt nd 0 k
    pure ((), nd))
  let pnd ← readNode parent
  let v ← liftM (ValueAt pnd index_in_parent)
  let nd ← readNode self
  check (v == nd.page_id_)
  let pnd ← readNode parent
  let _ ← UnpinPage pnd.page_id_ true
  let nd ← readNode self
  CopyAllFrom recipient self 0 nd.size_
  let nd ← readNode self
  moveAllLoop self recipient nd.size_.toNat 0

def CopyLastFrom (self : frame_id_t) (pair : MappingType) : PoolM Unit := do
  let nd ← readNode self
  check (decide (nd.size_ + 1 ≤ nd.max_size_))
  let page ← FetchPage nd.parent_page_id_
  let parent ← deref page
  let pnd ← readNode parent
  let nd ← readNode self
  let index := ValueIndex pnd nd.page_id_
  let key ← liftM (KeyAt pnd (index + 1))
  modifyNode self (fun nd => (nd.setSlot nd.size_ (key, pair.2)).IncreaseSize 1)
  let _ ← onNode parent (fun p => do
    let p ← SetKeyAt p (index + 1) pair.1
    pure ((), p))
  let pnd ← readNode parent
  let _ ← UnpinPage pnd.page_id_ true

def MoveFirstToEndOf (self recipient : frame_id_t) : PoolM Unit := do
  let nd ← readNode self
  check (decide (nd.size_ > 1))
  let k1 ← liftM (KeyAt nd 1)
  let v0 ← liftM (ValueAt nd 0)
  let pair : MappingType := (k1, v0)
  let child_page_id ← liftM (ValueAt nd 0)
  let v1 ← liftM (ValueAt nd 1)
  let _ ← onNode self (fun nd => do
    let nd ← SetValueAt nd 0 v1
    pure ((), nd))
  let _ ← onNode self (fun nd => do
    let nd ← Remove nd 1
    pure ((), nd))
  CopyLastFrom recipient pair
  adoptChild recipient child_page_id

def CopyFirstFrom (self : frame_id_t) (pair : MappingType) (parent_index : Int) :
    PoolM Unit := do
  let nd ← readNode self
  check (decide (nd.size_ + 1 < nd.max_size_))
  let page ← FetchPage nd.parent_page_id_
  let parent ← deref page
  let pnd ← readNode parent
  let key ← liftM (KeyAt pnd parent_index)
  let _ ← onNode parent (fun p => do
    let p ← SetKeyAt p parent_index pair.1
    pure ((), p))
  modifyNode self (fun nd => (InsertNodeAfter nd (nd.array 0).2 key (nd.array 0).2).2)
  modifyNode self (fun nd => nd.setSlotValue 0 pair.2)
  let pnd ← readNode parent
  let _ ← UnpinPage pnd.page_id_ true

def MoveLastToFrontOf (self recipient : frame_id_t) (parent_index : Int) : PoolM Unit := do
  let nd ← readNode self
  check (decide (nd.size_ > 1))
  modifyNode self (fun nd => nd.IncreaseSize (-1))
  let nd ← readNode self
  let pair := nd.array nd.size_
  let child_page_id := pair.2
  CopyFirstFrom recipient pair parent_index
  adoptChild recipient child_page_id

end BPlusTreeInternalPage

namespace BPlusTreeLeafPage

open PoolM

def CopyNFrom (self : frame_id_t) (from_page : frame_id_t) (from_index : Int) (size : Int) :
    PoolM Unit := do
  let nd ← readNode self
  check (nd.IsLeafPage && decide (nd.size_ = 0))
  copyItems self 0 from_page from_index size.toNat 0
  modifyNode self (fun nd => nd.IncreaseSize size)

def MoveHalfTo (self recipient : frame_id_t) : PoolM Unit := do
  let nd ← readNode self
  check (decide (nd.size_ > 0))
  let size := Int.tdiv nd.size_ 2
  CopyNFrom recipient self (nd.size_ - size) size
  modifyNode self (fun nd => nd.IncreaseSize (-1 * size))

/-- The method `CopyAllFrom(items, size)`, where `items` points to slot `from_index` of the node
in frame `from_page`. -/
def CopyAllFrom (self : frame_id_t) (from_page : frame_id_t) (from_index : Int) (size : Int) :
    PoolM Unit := do
  let nd ← readNode self
  check (decide (nd.size_ + size ≤ nd.max_size_))
  let start := nd.size_
  copyItems self start from_page from_index size.toNat 0
  modifyNode self (fun nd => nd.IncreaseSize size)

def MoveAllTo (self recipient : frame_id_t) : PoolM Unit := do
  let nd ← readNode self
  CopyAllFrom recipient self 0 nd.size_
  let nd ← readNode self
  modifyNode recipient (fun r => { r with next_page_id_ := nd.next_page_id_ })

def CopyLastFrom (self : frame_id_t) (item : MappingType) : PoolM Unit := do
  let nd ← readNode self
  check (decide (nd.size_ + 1 ≤ nd.max_size_))
  modifyNode self (fun nd => (nd.setSlot nd.size_ item).IncreaseSize 1)

def MoveFirstToEndOf (self recipient : frame_id_t) : PoolM Unit := do
  let nd ← readNode self
  let pair ← liftM (GetItem nd 0)
  modifyNode self (fun nd => nd.IncreaseSize (-1))
  let _ ← onNode self (fun nd => do
    let nd ← nd.memmove 0 1 nd.size_
    pure ((), nd))
  CopyLastFrom recipient pair
  let nd ← readNode self
  let page ← FetchPage nd.parent_page_id_
  let parent ← deref page
  let pnd ← readNode parent
  let nd ← readNode self
  let _ ← onNode parent (fun p => do
    let p ← BPlusTreeInternalPage.SetKeyAt p (BPlusTreeInternalPage.ValueIndex pnd nd.page_id_)
      pair.1
    pure ((), p))
  let nd ← readNode self
  let _ ← UnpinPage nd.parent_page_id_ true

def CopyFirstFrom (self : frame_id_t) (item : MappingType) (parentIndex : Int) :
    PoolM Unit := do
  let nd ← readNode self
  check (decide (nd.size_ + 1 < nd.max_size_))
  let _ ← onNode self (fun nd => do
    let nd ← nd.memmove 1 0 nd.size_
    pure ((), nd))
  modifyNode self (fun nd => nd.IncreaseSize 1)
  modifyNode self (fun nd => nd.setSlot 0 item)
  let nd ← readNode self
  let page ← FetchPage nd.parent_page_id_
  let parent ← deref page
  let _ ← onNode parent (fun p => do
    let p ← BPlusTreeInternalPage.SetKeyAt p parentIndex item.1
    pure ((), p))
  let nd ← readNode self
  let _ ← UnpinPage nd.parent_page_id_ true

def MoveLastToFrontOf (self recipient : frame_id_t) (parentIndex : Int) : PoolM Unit := do
  let nd ← readNode self
  let pair ← liftM (GetItem nd (nd.size_ - 1))
  modifyNode self (fun nd => nd.IncreaseSize (-1))
  CopyFirstFrom recipient pair parentIndex

end BPlusTreeLeafPage

/-! ## The B+tree (`src/storage/index/b_plus_tree.cpp`) -/

inductive Operation where
  | READONLY
  | INSERT
  | DELETE
  deriving DecidableEq, Repr

/-- The tree object, with the buffer pool it points to. `leaf_max_size` and `internal_max_size`
are the capacities that `Init` gives to the nodes (see `BPlusTreeLeafPage.Init`). `mutex_` is the
mutex that `Insert` takes, `root_latch_` the one behind `lockRoot()`/`unlockRoot()`, and
`root_is_locked` the thread-local flag. -/
structure BPlusTree where
  index_name_ : String
  root_page_id_ : page_id_t
  buffer_pool_manager_ : BufferPoolManager
  leaf_max_size : Int
  internal_max_size : Int
  mutex_ : Bool := false
  root_latch_ : Bool := false
  root_is_locked : Bool := false

/-- What a call on the tree works on: the tree, the object that the `transaction` argument
points to (`none` for `nullptr`), and the value found in memory obtained by `new page_id_t`,
which the code reads before writing it. -/
structure World where
  tree : BPlusTree
  transaction : Option Transaction := none
  uninitialized : page_id_t := 0

/-- Computations on the tree that may fail to return. -/
abbrev TreeM := StateT World (Except Fault)

namespace BPlusTree

/-- The constructor; the `root_page_id` argument is not used. -/
def new (name : String) (buffer_pool_manager : BufferPoolManager) (leaf_max_size : Int)
    (internal_max_size : Int) (_root_page_id : page_id_t) : BPlusTree :=
  { index_name_ := name, root_page_id_ := INVALID_PAGE_ID,
    buffer_pool_manager_ := buffer_pool_manager,
    leaf_max_size := leaf_max_size, internal_max_size := internal_max_size }

def IsEmpty (t : BPlusTree) : Bool :=
  t.root_page_id_ == INVALID_PAGE_ID

/-- A call on the buffer pool through `buffer_pool_manager_`. -/
def pool {α : Type} (x : PoolM α) : TreeM α :=
  fun w => do
    let (a, bpm) ← x w.tree.buffer_pool_manager_
    pure (a, { w with tree := { w.tree with buffer_pool_manager_ := bpm } })

def getTree : TreeM BPlusTree := do
  return (← get).tree

def modifyTree (g : BPlusTree → BPlusTree) : TreeM Unit :=
  modify fun w => { w with tree := g w.tree }

/-- Modelled from the spec: `lockRoot()` (declared in `b_plus_tree.h`, which is not part of the
sources) acquires the tree-wide root latch, a mutex protecting root-page-id changes. -/
def lockRoot : TreeM Unit := do
  let t ← getTree
  if t.root_latch_ then throw Fault.deadlock
  else modifyTree fun t => { t with root_latch_ := true }

/-- Modelled from the spec: `unlockRoot()` releases the tree-wide root latch. -/
def unlockRoot : TreeM Unit :=
  modifyTree fun t => { t with root_latch_ := false }

def UpdateRootPageId (insert_record : Bool) : TreeM Unit := do
  let page ← pool (PoolM.FetchPage HEADER_PAGE_ID)
  let header_page ← pool (PoolM.deref page)
  let t ← getTree
  let records := (t.buffer_pool_manager_.pages_ header_page).data_.records
  let records :=
    if insert_record then (HeaderPage.InsertRecord records t.index_name_ t.root_page_id_).2
    else (HeaderPage.UpdateRecord records t.index_name_ t.root_page_id_).2
  pool (modify fun bpm =>
    bpm.setPage header_page { (bpm.pages_ header_page) with
      data_ := { (bpm.pages_ header_page).data_ with records := records } })
  let _ ← pool (PoolM.UnpinPage HEADER_PAGE_ID true)

def UnlockUnpinPages (op : Operation) : TreeM Unit := do
  match (← get).transaction with
  | none => pure ()
  | some txn =>
    for page in txn.page_set_ do
      if op = Operation.READONLY then
        pool (PoolM.RUnlatch page)
        let pg ← pool (PoolM.readPage page)
        let _ ← pool (PoolM.UnpinPage pg.page_id_ false)
      else
        pool (PoolM.WUnlatch page)
        let pg ← pool (PoolM.readPage page)
        let _ ← pool (PoolM.UnpinPage pg.page_id_ true)
    modify fun w => { w with transaction := some { txn with page_set_ := [] } }
    for page_id in txn.deleted_page_set_ do
      let _ ← pool (PoolM.DeletePage page_id)
    modify fun w => { w with
      transaction := some { page_set_ := [], deleted_page_set_ := [] } }
    if (← getTree).root_is_locked then
      modifyTree fun t => { t with root_is_locked := false }
      unlockRoot

def isSafe (node : BPlusTreePage) (op : Operation) : Bool :=
  if op = Operation.INSERT then decide (node.size_ < node.max_size_)
  else if op = Operation.DELETE then decide (node.size_ > node.GetMinSize + 1)
  else true

def AddIntoPageSet (page : frame_id_t) : TreeM Unit :=
  modify fun w => { w with transaction := w.transaction.map (fun txn => txn.AddIntoPageSet page) }

/-- The loop of `FindLeafPage`: `parent` is the variable `parent`, `node` the frame that the
variable `node` points into. One unit of `fuel` per level of the descent. -/
def findLeafLoop (key : KeyType) (leftMost : Bool) (op : Operation) :
    Nat → frame_id_t → frame_id_t → TreeM frame_id_t
  | 0, _, node => do
    let nd ← pool (PoolM.readNode node)
    if nd.IsLeafPage then pure node else throw Fault.out_of_fuel
  | fuel + 1, parent, node => do
    let nd ← pool (PoolM.readNode node)
    if nd.IsLeafPage then pure node
    else
      let parent_page_id := nd.page_id_
      let child_page_id ←
        if leftMost then liftM (BPlusTreeInternalPage.ValueAt nd 0)
        else liftM (BPlusTreeInternalPage.Lookup nd key)
      let child ← pool (PoolM.FetchPage child_page_id)
      let child ← pool (PoolM.deref child)
      if op = Operation.READONLY then
        pool (PoolM.RLatch child)
        UnlockUnpinPages op
      else
        pool (PoolM.WLatch child)
      let cnd ← pool (PoolM.readNode child)
      liftM (assert (cnd.parent_page_id_ == parent_page_id))
      if op ≠ Operation.READONLY ∧ isSafe cnd op = true then
        UnlockUnpinPages op
      match (← get).transaction with
      | some _ =>
        AddIntoPageSet child
        findLeafLoop key leftMost op fuel parent child
      | none =>
        pool (PoolM.RUnlatch parent)
        let pg ← pool (PoolM.readPage parent)
        let _ ← pool (PoolM.UnpinPage pg.page_id_ false)
        findLeafLoop key leftMost op fuel child child

/-- The method `FindLeafPage`: the frame of the leaf, or `none` for `nullptr`. -/
def FindLeafPage (fuel : Nat) (key : KeyType) (leftMost : Bool) (op : Operation) :
    TreeM (Option frame_id_t) := do
  if op ≠ Operation.READONLY then
    lockRoot
    modifyTree fun t => { t with root_is_locked := true }
  let t ← getTree
  if t.IsEmpty then
    return none
  let parent ← pool (PoolM.FetchPage t.root_page_id_)
  let parent ← pool (PoolM.deref parent)
  if op = Operation.READONLY then
    pool (PoolM.RLatch parent)
  else
    pool (PoolM.WLatch parent)
  AddIntoPageSet parent
  let leaf ← findLeafLoop key leftMost op fuel parent parent
  return some leaf

def GetValue (fuel : Nat) (key : KeyType) (result : List ValueType) :
    TreeM (Bool × List ValueType) := do
  let leaf ← FindLeafPage fuel key false Operation.READONLY
  match leaf with
  | none => return (false, result)
  | some leaf =>
    let nd ← pool (PoolM.readNode leaf)
    let found ← liftM (BPlusTreeLeafPage.Lookup nd key)
    let (ret, result) :=
      match found with
      | some value => (true, result ++ [value])
      | none => (false, result)
    UnlockUnpinPages Operation.READONLY
    if (← get).transaction.isNone then
      let nd ← pool (PoolM.readNode leaf)
      let page_id := nd.page_id_
      let page ← pool (PoolM.FetchPage page_id)
      let page ← pool (PoolM.deref page)
      pool (PoolM.RUnlatch page)
      let _ ← pool (PoolM.UnpinPage page_id false)
      let _ ← pool (PoolM.UnpinPage page_id false)
    return (ret, result)

/-- The method `StartNewTree`. The id of the new page is written to `*root_page_id_ptr`, a copy
of `root_page_id_` on the heap, and is not read again. `page->GetData()` only computes an
address; the page is first accessed through `root` in `Init`, after `UpdateRootPageId`. -/
def StartNewTree (key : KeyType) (value : ValueType) : TreeM Unit := do
  let page ← pool PoolM.NewPageImpl
  UpdateRootPageId true
  let root ← pool (PoolM.deref (page.map Prod.snd))
  let t ← getTree
  pool (PoolM.modifyNode root
    (fun nd => BPlusTreeLeafPage.Init nd t.leaf_max_size t.root_page_id_ INVALID_PAGE_ID))
  let _ ← pool (PoolM.onNode root (fun nd => BPlusTreeLeafPage.Insert nd key value))
  let nd ← pool (PoolM.readNode root)
  let _ ← pool (PoolM.UnpinPage nd.page_id_ true)

/-- The template `Split`, for a leaf (`leaf = true`) or an internal page. -/
def Split (leaf : Bool) (node : frame_id_t) : TreeM frame_id_t := do
  let page_id := (← get).uninitialized
  let page ← pool PoolM.NewPageImpl
  let new_node ← pool (PoolM.deref (page.map Prod.snd))
  let t ← getTree
  if leaf then
    pool (PoolM.modifyNode new_node
      (fun nd => BPlusTreeLeafPage.Init nd t.leaf_max_size page_id INVALID_PAGE_ID))
    pool (BPlusTreeLeafPage.MoveHalfTo node new_node)
  else
    pool (PoolM.modifyNode new_node
      (fun nd => BPlusTreeInternalPage.Init nd t.internal_max_size page_id INVALID_PAGE_ID))
    pool (BPlusTreeInternalPage.MoveHalfTo node new_node)
  return new_node

/-- The first loop of the full-parent branch of `InsertIntoParent`: it fills `copy` from
`internal`, with the new pair behind the slot of `old_node`. The loop runs while
`i <= internal->GetSize()`. -/
def fillCopyLoop (internal copy old_node new_node : frame_id_t) (key : KeyType) :
    Nat → Int → Int → PoolM Unit
  | 0, i, _ => do
    let ind ← PoolM.readNode internal
    if i ≤ ind.size_ then throw Fault.out_of_fuel else pure ()
  | fuel + 1, i, j => do
    let ind ← PoolM.readNode internal
    if i ≤ ind.size_ then
      let v ← liftM (BPlusTreeInternalPage.ValueAt ind (i - 1))
      let old ← PoolM.readNode old_node
      let j ←
        if v = old.page_id_ then do
          let _ ← PoolM.onNode copy (fun c => do
            let c ← BPlusTreeInternalPage.SetKeyAt c j key
            pure ((), c))
          let nw ← PoolM.readNode new_node
          let _ ← PoolM.onNode copy (fun c => do
            let c ← BPlusTreeInternalPage.SetValueAt c j nw.page_id_
            pure ((), c))
          pure (j + 1)
        else pure j
      let ind ← PoolM.readNode internal
      if i < ind.size_ then
        let k ← liftM (BPlusTreeInternalPage.KeyAt ind i)
        let _ ← PoolM.onNode copy (fun c => do
          let c ← BPlusTreeInternalPage.SetKeyAt c j k
          pure ((), c))
        let ind ← PoolM.readNode internal
        let v ← liftM (BPlusTreeInternalPage.ValueAt ind i)
        let _ ← PoolM.onNode copy (fun c => do
          let c ← BPlusTreeInternalPage.SetValueAt c j v
          pure ((), c))
      fillCopyLoop internal copy old_node new_node key fuel (i + 1) (j + 1)
    else pure ()

/-- The second loop of the full-parent branch of `InsertIntoParent`: it copies the pairs left
in `copy` back to `internal`, from slot 1 on. The loop runs while `i < copy->GetSize()`. -/
def copyBackLoop (internal copy : frame_id_t) : Nat → Int → PoolM Unit
  | 0, i => do
    let c ← PoolM.readNode copy
    if i < c.size_ then throw Fault.out_of_fuel else pure ()
  | fuel + 1, i => do
    let c ← PoolM.readNode copy
    if i < c.size_ then
      let k ← liftM (BPlusTreeInternalPage.KeyAt c i)
      let _ ← PoolM.onNode internal (fun nd => do
        let nd ← BPlusTreeInternalPage.SetKeyAt nd (i + 1) k
        pure ((), nd))
      let c ← PoolM.readNode copy
      let v ← liftM (BPlusTreeInternalPage.ValueAt c i)
      let _ ← PoolM.onNode internal (fun nd => do
        let nd ← BPlusTreeInternalPage.SetValueAt nd (i + 1) v
        pure ((), nd))
      copyBackLoop internal copy fuel (i + 1)
    else pure ()

/-- The statement `node->SetParentPageId(id)` through a node pointer. -/
def SetParentPageId (node : frame_id_t) (parent_id : page_id_t) : PoolM Unit :=
  PoolM.modifyNode node (fun nd => { nd with parent_page_id_ := parent_id })

/-- The method `InsertIntoParent`; one unit of `fuel` per recursive call. -/
def InsertIntoParent : Nat → frame_id_t → KeyType → frame_id_t → TreeM Unit
  | 0, _, _, _ => throw Fault.out_of_fuel
  | fuel + 1, old_node, key, new_node => do
    let old ← pool (PoolM.readNode old_node)
    if old.IsRootPage then
      -- the id of the new page is written to `*root_page_id_ptr`
      let page ← pool PoolM.NewPageImpl
      let root ← pool (PoolM.deref (page.map Prod.snd))
      let pg ← pool (PoolM.readPage root)
      liftM (assert (pg.pin_count_ == 1))
      let t ← getTree
      pool (PoolM.modifyNode root (fun nd =>
        BPlusTreeInternalPage.Init nd t.internal_max_size t.root_page_id_ INVALID_PAGE_ID))
      let old ← pool (PoolM.readNode old_node)
      let nw ← pool (PoolM.readNode new_node)
      let _ ← pool (PoolM.onNode root (fun nd => do
        let nd ← BPlusTreeInternalPage.PopulateNewRoot nd old.page_id_ key nw.page_id_
        pure ((), nd)))
      pool (SetParentPageId old_node t.root_page_id_)
      pool (SetParentPageId new_node t.root_page_id_)
      UpdateRootPageId false
      let nw ← pool (PoolM.readNode new_node)
      let _ ← pool (PoolM.UnpinPage nw.page_id_ true)
      let rt ← pool (PoolM.readNode root)
      let _ ← pool (PoolM.UnpinPage rt.page_id_ true)
    else
      let page ← pool (PoolM.FetchPage old.parent_page_id_)
      let internal ← pool (PoolM.deref page)
      let ind ← pool (PoolM.readNode internal)
      if ind.size_ < ind.max_size_ then
        let old ← pool (PoolM.readNode old_node)
        let nw ← pool (PoolM.readNode new_node)
        let _ ← pool (PoolM.onNode internal (fun nd =>
          pure (BPlusTreeInternalPage.InsertNodeAfter nd old.page_id_ key nw.page_id_)))
        let ind ← pool (PoolM.readNode internal)
        pool (SetParentPageId new_node ind.page_id_)
        let nw ← pool (PoolM.readNode new_node)
        let _ ← pool (PoolM.UnpinPage nw.page_id_ true)
      else
        let page_id := (← get).uninitialized
        let page ← pool PoolM.NewPageImpl
        let copy ← pool (PoolM.deref (page.map Prod.snd))
        let pg ← pool (PoolM.readPage copy)
        liftM (assert (pg.pin_count_ == 1))
        let t ← getTree
        pool (PoolM.modifyNode copy (fun nd =>
          BPlusTreeInternalPage.Init nd t.internal_max_size page_id INVALID_PAGE_ID))
        let ind ← pool (PoolM.readNode internal)
        pool (PoolM.modifyNode copy (fun nd => { nd with size_ := ind.size_ }))
        pool (fillCopyLoop internal copy old_node new_node key ind.size_.toNat 1 0)
        let c ← pool (PoolM.readNode copy)
        liftM (assert (c.size_ == c.max_size_))
        let internal2 ← Split false copy
        let c ← pool (PoolM.readNode copy)
        pool (PoolM.modifyNode internal (fun nd => { nd with size_ := c.size_ + 1 }))
        pool (copyBackLoop internal copy c.size_.toNat 0)
        let i2 ← pool (PoolM.readNode internal2)
        let k0 ← liftM (BPlusTreeInternalPage.KeyAt i2 0)
        if comparator key k0 < 0 then
          let ind ← pool (PoolM.readNode internal)
          pool (SetParentPageId new_node ind.page_id_)
        else if comparator key k0 = 0 then
          pool (SetParentPageId new_node i2.page_id_)
        else
          pool (SetParentPageId new_node i2.page_id_)
          let i2 ← pool (PoolM.readNode internal2)
          pool (SetParentPageId old_node i2.page_id_)
        let nw ← pool (PoolM.readNode new_node)
        let _ ← pool (PoolM.UnpinPage nw.page_id_ true)
        let c ← pool (PoolM.readNode copy)
        let _ ← pool (PoolM.UnpinPage c.page_id_ false)
        let c ← pool (PoolM.readNode copy)
        let _ ← pool (PoolM.DeletePage c.page_id_)
        let i2 ← pool (PoolM.readNode internal2)
        let k0 ← liftM (BPlusTreeInternalPage.KeyAt i2 0)
        InsertIntoParent fuel internal k0 internal2
      let ind ← pool (PoolM.readNode internal)
      let _ ← pool (PoolM.UnpinPage ind.page_id_ true)

def InsertIntoLeaf (fuel : Nat) (key : KeyType) (value : ValueType) : TreeM Bool := do
  let leaf ← FindLeafPage fuel key false Operation.INSERT
  match leaf with
  | none => return false
  | some leaf =>
    let nd ← pool (PoolM.readNode leaf)
    let v ← liftM (BPlusTreeLeafPage.Lookup nd key)
    if v.isSome then
      UnlockUnpinPages Operation.INSERT
      return false
    if nd.size_ < nd.max_size_ then
      let _ ← pool (PoolM.onNode leaf (fun nd => BPlusTreeLeafPage.Insert nd key value))
    else
      let leaf2 ← Split true leaf
      let nd2 ← pool (PoolM.readNode leaf2)
      let k0 ← liftM (BPlusTreeLeafPage.KeyAt nd2 0)
      if comparator key k0 < 0 then
        let _ ← pool (PoolM.onNode leaf (fun nd => BPlusTreeLeafPage.Insert nd key value))
      else
        let _ ← pool (PoolM.onNode leaf2 (fun nd => BPlusTreeLeafPage.Insert nd key value))
      let nd ← pool (PoolM.readNode leaf)
      let a ← liftM (BPlusTreeLeafPage.KeyAt nd 0)
      let nd2 ← pool (PoolM.readNode leaf2)
      let b ← liftM (BPlusTreeLeafPage.KeyAt nd2 0)
      if comparator a b < 0 then
        let nd ← pool (PoolM.readNode leaf)
        pool (PoolM.modifyNode leaf2 (fun n2 => { n2 with next_page_id_ := nd.next_page_id_ }))
        let nd2 ← pool (PoolM.readNode leaf2)
        pool (PoolM.modifyNode leaf (fun n => { n with next_page_id_ := nd2.page_id_ }))
      else
        let nd ← pool (PoolM.readNode leaf)
        pool (PoolM.modifyNode leaf2 (fun n2 => { n2 with next_page_id_ := nd.page_id_ }))
      let nd2 ← pool (PoolM.readNode leaf2)
      let k0 ← liftM (BPlusTreeLeafPage.KeyAt nd2 0)
      InsertIntoParent fuel leaf k0 leaf2
    UnlockUnpinPages Operation.INSERT
    return true

/-- The statements of `InsertIntoLeaf` on a leaf without room, from the call of `Split` to the
placement of the pair; the result is the frame of the new leaf. -/
def splitAndInsert (key : KeyType) (value : ValueType) (leaf : frame_id_t) :
    TreeM frame_id_t := do
  let leaf2 ← Split true leaf
  let nd2 ← pool (PoolM.readNode leaf2)
  let k0 ← liftM (BPlusTreeLeafPage.KeyAt nd2 0)
  if comparator key k0 < 0 then
    let _ ← pool (PoolM.onNode leaf (fun nd => BPlusTreeLeafPage.Insert nd key value))
  else
    let _ ← pool (PoolM.onNode leaf2 (fun nd => BPlusTreeLeafPage.Insert nd key value))
  pure leaf2

/-- The statement `// chain together` of `InsertIntoLeaf`. -/
def chainTogether (leaf leaf2 : frame_id_t) : TreeM Unit := do
  let nd ← pool (PoolM.readNode leaf)
  let a ← liftM (BPlusTreeLeafPage.KeyAt nd 0)
  let nd2 ← pool (PoolM.readNode leaf2)
  let b ← liftM (BPlusTreeLeafPage.KeyAt nd2 0)
  if comparator a b < 0 then
    let nd ← pool (PoolM.readNode leaf)
    pool (PoolM.modifyNode leaf2 (fun n2 => { n2 with next_page_id_ := nd.next_page_id_ }))
    let nd2 ← pool (PoolM.readNode leaf2)
    pool (PoolM.modifyNode leaf (fun n => { n with next_page_id_ := nd2.page_id_ }))
  else
    let nd ← pool (PoolM.readNode leaf)
    pool (PoolM.modifyNode leaf2 (fun n2 => { n2 with next_page_id_ := nd.page_id_ }))

/-- The statements of `InsertIntoLeaf` that follow the placement of the pair: `// chain
together`, the call of `InsertIntoParent`, and the release of the pages. -/
def chainAndPromote (fuel : Nat) (leaf leaf2 : frame_id_t) : TreeM Bool := do
  chainTogether leaf leaf2
  let nd2 ← pool (PoolM.readNode leaf2)
  let k0 ← liftM (BPlusTreeLeafPage.KeyAt nd2 0)
  InsertIntoParent fuel leaf k0 leaf2
  UnlockUnpinPages Operation.INSERT
  return true

/-- The method `Insert`. The `lock_guard` on `mutex_` is held until the method returns. -/
def Insert (fuel : Nat) (key : KeyType) (value : ValueType) : TreeM Bool := do
  if (← getTree).mutex_ then throw Fault.deadlock
  modifyTree fun t => { t with mutex_ := true }
  if (← getTree).IsEmpty then
    StartNewTree key value
    modifyTree fun t => { t with mutex_ := false }
    return true
  let r ← InsertIntoLeaf fuel key value
  modifyTree fun t => { t with mutex_ := false }
  return r

/-- The method `AdjustRoot`; `old_root_node` is the frame that the argument points into. -/
def AdjustRoot (old_root_node : frame_id_t) : TreeM Bool := do
  let nd ← pool (PoolM.readNode old_root_node)
  if nd.IsLeafPage then
    if nd.size_ = 0 then
      modifyTree fun t => { t with root_page_id_ := INVALID_PAGE_ID }
      UpdateRootPageId false
      pure true
    else pure false
  else if nd.size_ = 1 then
    let v ← liftM (BPlusTreeInternalPage.ValueAt nd 0)
    modifyTree fun t => { t with root_page_id_ := v }
    UpdateRootPageId false
    let t ← getTree
    let page ← pool (PoolM.FetchPage t.root_page_id_)
    let new_root ← pool (PoolM.deref page)
    pool (SetParentPageId new_root INVALID_PAGE_ID)
    let t ← getTree
    let _ ← pool (PoolM.UnpinPage t.root_page_id_ true)
    pure true
  else pure false

/-- The statement `transaction->AddIntoPageSet(page)` without a null check. -/
def addIntoPageSet (page : frame_id_t) : TreeM Unit := do
  match (← get).transaction with
  | none => throw Fault.segfault
  | some txn => modify fun w => { w with transaction := some (txn.AddIntoPageSet page) }

/-- The statement `transaction->AddIntoDeletedPageSet(page_id)`. -/
def AddIntoDeletedPageSet (page_id : page_id_t) : TreeM Unit := do
  match (← get).transaction with
  | none => throw Fault.segfault
  | some txn => modify fun w => { w with transaction := some (txn.AddIntoDeletedPageSet page_id) }

/-- The template `Redistribute`, for leaves (`leaf = true`) or internal pages. -/
def Redistribute (leaf : Bool) (neighbor_node node : frame_id_t) (index : Int) : TreeM Unit := do
  if index = 0 then
    if leaf then pool (BPlusTreeLeafPage.MoveFirstToEndOf neighbor_node node)
    else pool (BPlusTreeInternalPage.MoveFirstToEndOf neighbor_node node)
  else
    let nd ← pool (PoolM.readNode node)
    let page ← pool (PoolM.FetchPage nd.parent_page_id_)
    let parent ← pool (PoolM.deref page)
    let pnd ← pool (PoolM.readNode parent)
    let nd ← pool (PoolM.readNode node)
    let idx := BPlusTreeInternalPage.ValueIndex pnd nd.page_id_
    let _ ← pool (PoolM.UnpinPage pnd.page_id_ false)
    if leaf then pool (BPlusTreeLeafPage.MoveLastToFrontOf neighbor_node node idx)
    else pool (BPlusTreeInternalPage.MoveLastToFrontOf neighbor_node node idx)

/-- The template `Coalesce`, for leaves (`leaf = true`) or internal pages; `again` is the call
`CoalesceOrRedistribute(parent, transaction)`. -/
def Coalesce (again : frame_id_t → TreeM Bool) (leaf : Bool)
    (neighbor_node node parent : frame_id_t) (index : Int) : TreeM Unit := do
  if leaf then pool (BPlusTreeLeafPage.MoveAllTo node neighbor_node)
  else pool (BPlusTreeInternalPage.MoveAllTo node neighbor_node index)
  let _ ← pool (PoolM.onNode parent (fun p => do
    let p ← BPlusTreeInternalPage.Remove p index
    pure ((), p)))
  if (← again parent) then
    let pnd ← pool (PoolM.readNode parent)
    AddIntoDeletedPageSet pnd.page_id_

/-- The template `CoalesceOrRedistribute`, for a leaf (`leaf = true`) or an internal page; one
unit of `fuel` per level. -/
def CoalesceOrRedistribute : Nat → Bool → frame_id_t → TreeM Bool
  | 0, _, _ => throw Fault.out_of_fuel
  | fuel + 1, leaf, node => do
    let nd ← pool (PoolM.readNode node)
    if nd.IsRootPage then
      AdjustRoot node
    else if (if nd.IsLeafPage then decide (nd.size_ ≥ nd.GetMinSize)
             else decide (nd.size_ > nd.GetMinSize)) then
      pure false
    else
      let page ← pool (PoolM.FetchPage nd.parent_page_id_)
      let parent ← pool (PoolM.deref page)
      let pnd ← pool (PoolM.readNode parent)
      let nd ← pool (PoolM.readNode node)
      let value_index := BPlusTreeInternalPage.ValueIndex pnd nd.page_id_
      liftM (assert (decide (value_index ≠ pnd.size_)))
      let sibling_page_id ←
        if value_index = 0 then liftM (BPlusTreeInternalPage.ValueAt pnd (value_index + 1))
        else liftM (BPlusTreeInternalPage.ValueAt pnd (value_index - 1))
      let page ← pool (PoolM.FetchPage sibling_page_id)
      let sibling ← pool (PoolM.deref page)
      pool (PoolM.WLatch sibling)
      addIntoPageSet sibling
      let snd ← pool (PoolM.readNode sibling)
      let nd ← pool (PoolM.readNode node)
      if snd.size_ + nd.size_ > nd.max_size_ then
        let pnd ← pool (PoolM.readNode parent)
        let _ ← pool (PoolM.UnpinPage pnd.page_id_ true)
        if value_index = 0 then Redistribute leaf sibling node 0
        else Redistribute leaf sibling node 1
        pure false
      else
        let ret ←
          if value_index = 0 then do
            Coalesce (CoalesceOrRedistribute fuel false) leaf node sibling parent 1
            AddIntoDeletedPageSet sibling_page_id
            pure false
          else do
            Coalesce (CoalesceOrRedistribute fuel false) leaf sibling node parent value_index
            pure true
        let pnd ← pool (PoolM.readNode parent)
        let _ ← pool (PoolM.UnpinPage pnd.page_id_ true)
        pure ret

/-- The statement `if (CoalesceOrRedistribute(leaf, transaction))
transaction->AddIntoDeletedPageSet(leaf->GetPageId());` of `Remove`. -/
def coalesceOrRedistributeLeaf (fuel : Nat) (leaf : frame_id_t) : TreeM Unit := do
  if (← CoalesceOrRedistribute fuel true leaf) then
    let nd ← pool (PoolM.readNode leaf)
    AddIntoDeletedPageSet nd.page_id_

/-- The statements of `Remove` on the leaf that `FindLeafPage` returned, up to the call of
`UnlockUnpinPages`. -/
def removeFromLeaf (fuel : Nat) (key : KeyType) (leaf : frame_id_t) : TreeM Unit := do
  let nd ← pool (PoolM.readNode leaf)
  let size_before_deletion := nd.size_
  let size ← pool (PoolM.onNode leaf (fun nd => BPlusTreeLeafPage.RemoveAndDeleteRecord nd key))
  if size ≠ size_before_deletion then
    coalesceOrRedistributeLeaf fuel leaf

/-- The method `Remove`. -/
def Remove (fuel : Nat) (key : KeyType) : TreeM Unit := do
  if (← getTree).IsEmpty then
    pure ()
  else
    let leaf ← FindLeafPage fuel key false Operation.DELETE
    match leaf with
    | none => pure ()
    | some leaf =>
      removeFromLeaf fuel key leaf
      UnlockUnpinPages Operation.DELETE

/-- A call that passes `nullptr` as its `transaction` argument. -/
def withNullTransaction {α : Type} (x : TreeM α) : TreeM α :=
  fun w => do
    let (a, w') ← x { w with transaction := none }
    pure (a, { w' with transaction := w.transaction })

/-- The computation `x` leaves the root page id as it is whenever it returns. -/
def KeepsRoot {α : Type} (x : TreeM α) : Prop :=
  ∀ w a w', x w = .ok (a, w') → w'.tree.root_page_id_ = w.tree.root_page_id_

end BPlusTree

/-! ## Index iterator (`src/storage/index/index_iterator.cpp`) -/

/-- The iterator object: `leaf_` is the frame that the leaf pointer points into (`none` for
`nullptr`); `buff_pool_manager_` is the pool of the tree. -/
structure IndexIterator where
  leaf_ : Option frame_id_t
  index_ : Int
  deriving DecidableEq, Repr

namespace IndexIterator

open PoolM

/-- The destructor. -/
def destroy (it : IndexIterator) : PoolM Unit := do
  let leaf ← deref it.leaf_
  let nd ← readNode leaf
  let page ← FetchPage nd.page_id_
  let page ← deref page
  RUnlatch page
  let nd ← readNode leaf
  let _ ← UnpinPage nd.page_id_ false
  let nd ← readNode leaf
  let _ ← UnpinPage nd.page_id_ false

def isEnd (it : IndexIterator) : PoolM Bool :=
  match it.leaf_ with
  | none => pure true
  | some leaf => do
    let nd ← readNode leaf
    pure (decide (it.index_ = nd.size_) && decide (nd.next_page_id_ = INVALID_PAGE_ID))

/-- The operator `*`. -/
def get (it : IndexIterator) : PoolM MappingType := do
  if (← it.isEnd) then throw Fault.out_of_range
  let leaf ← deref it.leaf_
  let nd ← readNode leaf
  liftM (BPlusTreeLeafPage.GetItem nd it.index_)

/-- The operator `++`. -/
def next (it : IndexIterator) : PoolM IndexIterator := do
  let index := it.index_ + 1
  let leaf ← deref it.leaf_
  let nd ← readNode leaf
  if index = nd.size_ ∧ nd.next_page_id_ ≠ INVALID_PAGE_ID then
    let next_page_id := nd.next_page_id_
    let page ← FetchPage next_page_id
    let page ← deref page
    RLatch page
    let nd ← readNode leaf
    let cur ← FetchPage nd.page_id_
    let cur ← deref cur
    RUnlatch cur
    let nd ← readNode leaf
    let _ ← UnpinPage nd.page_id_ false
    let nd ← readNode leaf
    let _ ← UnpinPage nd.page_id_ false
    let next_leaf ← readNode page
    check next_leaf.IsLeafPage
    pure { leaf_ := some page, index_ := 0 }
  else
    pure { it with index_ := index }

/-- The operator `==`. -/
def eq (it itr : IndexIterator) : Bool :=
  if itr.index_ = it.index_ then true else false

/-- The operator `!=`. -/
def ne (it itr : IndexIterator) : Bool :=
  if itr.index_ ≠ it.index_ then true else false

end IndexIterator

namespace BPlusTree

/-- The method `begin()`: `FindLeafPage(key, true)` with the default arguments `READONLY` and
`nullptr`. -/
def begin_ (fuel : Nat) : TreeM IndexIterator := do
  let leaf ← withNullTransaction (FindLeafPage fuel 0 true Operation.READONLY)
  pure { leaf_ := leaf, index_ := 0 }

/-- The method `Begin(key)`: `FindLeafPage(key, false)` with the default arguments `READONLY`
and `nullptr`. -/
def Begin (fuel : Nat) (key : KeyType) : TreeM IndexIterator := do
  let leaf ← withNullTransaction (FindLeafPage fuel key false Operation.READONLY)
  let index ←
    match leaf with
    | some leaf => do
      let nd ← pool (PoolM.readNode leaf)
      pure (BPlusTreeLeafPage.KeyIndex nd key)
    | none => pure 0
  pure { leaf_ := leaf, index_ := index }

/-- The loop of `end()`: `while (!leaf_page.isEnd()) ++leaf_page`. -/
def endLoop : Nat → IndexIterator → PoolM IndexIterator
  | 0, it => do
    if (← it.isEnd) then pure it else throw Fault.out_of_fuel
  | fuel + 1, it => do
    if (← it.isEnd) then pure it
    else
      let it ← it.next
      endLoop fuel it

/-- The method `end()`; the local `leaf_page` is the object returned. -/
def end_ (fuel : Nat) : TreeM IndexIterator := do
  let leaf_page ← begin_ fuel
  pool (endLoop fuel leaf_page)

/-- The turns of the loop `for (it = begin(); it != end(); ++it) visit(*it)`: the pairs given to
`visit` so far, in order. The iterator made by `end()` is destroyed after the comparison. -/
def scanLoop (fuel : Nat) : Nat → IndexIterator → List MappingType →
    TreeM (List MappingType × IndexIterator)
  | 0, _, _ => throw Fault.out_of_fuel
  | turns + 1, it, visited => do
    let e ← end_ fuel
    let go := it.ne e
    pool e.destroy
    if go then
      let item ← pool it.get
      let it ← pool it.next
      scanLoop fuel turns it (visited ++ [item])
    else pure (visited, it)

/-- The loop `for (it = begin(); it != end(); ++it) visit(*it)` with the destruction of `it`
at its end: the pairs given to `visit`, in order. -/
def scan (fuel : Nat) : TreeM (List MappingType) := do
  let it ← begin_ fuel
  let (visited, it) ← scanLoop fuel fuel it []
  pool it.destroy
  pure visited

end BPlusTree

/-! ### Example trees -/

/-- The world that a call on the tree returned, or `w` when the call did not return. -/
def worldOf {α : Type} (w : World) (x : Except Fault (α × World)) : World :=
  match x with
  | .ok (_, w') => w'
  | .error _ => w

/-- The value that a call on the tree returned, if it returned. -/
def resultOf {α : Type} (x : Except Fault (α × World)) : Option α :=
  match x with
  | .ok (a, _) => some a
  | .error _ => none

/-- A tree named `index`, just constructed, over a pool of three frames and a fresh disk, with
nodes of capacity 4, called without transaction. -/
def tw0 : World :=
  { tree := BPlusTree.new "index" (BufferPoolManager.new 3 DiskManager.fresh) 4 4
      INVALID_PAGE_ID }

/-- After `insert(1, 100)` on `tw0`. -/
def tw1 : World := worldOf tw0 (BPlusTree.Insert 8 1 100 tw0)

/-- After `insert(1, 200)` on `tw1`. -/
def tw2 : World := worldOf tw1 (BPlusTree.Insert 8 1 200 tw1)

/-! ### Example trees built by hand -/

/-- A leaf node with the given header fields and pairs. -/
def leafNode (page_id parent_id next_id : page_id_t) (max_size : Int)
    (items : List MappingType) : BPlusTreePage :=
  { page_type_ := IndexPageType.LEAF_PAGE, size_ := items.length, max_size_ := max_size,
    parent_page_id_ := parent_id, page_id_ := page_id, next_page_id_ := next_id,
    array := fun i => if 0 ≤ i then items.getD i.toNat (0, 0) else (0, 0) }

/-- An internal node with the given header fields and pairs. -/
def internalNode (page_id parent_id : page_id_t) (max_size : Int)
    (items : List MappingType) : BPlusTreePage :=
  { page_type_ := IndexPageType.INTERNAL_PAGE, size_ := items.length, max_size_ := max_size,
    parent_page_id_ := parent_id, page_id_ := page_id, next_page_id_ := 0,
    array := fun i => if 0 ≤ i then items.getD i.toNat (0, 0) else (0, 0) }

/-- The pool after, for each node of `nodes`: `new_page`, a write of the node to the new page,
and `unpin_page` of the new page as dirty. On a pool just constructed over a fresh disk the
node number `k` (from 0) is then in frame `k` as page `k + 1`. -/
def poolWith (b : BufferPoolManager) : List BPlusTreePage → BufferPoolManager
  | [] => b
  | nd :: nodes =>
    match b.NewPageImpl with
    | .ok (some (p, f), b1) =>
      let b2 := b1.writeData f { (b1.pages_ f).data_ with node := nd }
      poolWith (stateOf b2 (b2.UnpinPageImpl p true)) nodes
    | _ => b

/-- A tree named `index` with root page `root` over the pool `b`, with nodes of capacity
`max_size`, called with a transaction whose sets are empty; an uninitialised `page_id_t` reads
as 77. -/
def treeOver (b : BufferPoolManager) (root : page_id_t) (max_size : Int) : World :=
  { tree := { (BPlusTree.new "index" b max_size max_size INVALID_PAGE_ID) with
              root_page_id_ := root },
    transaction := some {},
    uninitialized := 77 }

/-- A tree with nodes of capacity 4: the leaves `{1, 2, 3}` (page 1) and `{4, 5}` (page 2),
chained, under the internal root page 3. -/
def scanWorld : World :=
  treeOver (poolWith (BufferPoolManager.new 6 DiskManager.fresh)
    [leafNode 1 3 2 4 [(1, 10), (2, 20), (3, 30)],
     leafNode 2 3 INVALID_PAGE_ID 4 [(4, 40), (5, 50)],
     internalNode 3 INVALID_PAGE_ID 4 [(0, 1), (4, 2)]]) 3 4

/-- A leaf (page 1) under an internal root (page 2) that has this one child left. -/
def adjustWorld : World :=
  treeOver (poolWith (BufferPoolManager.new 6 DiskManager.fresh)
    [leafNode 1 2 INVALID_PAGE_ID 4 [(1, 10), (2, 20)],
     internalNode 2 INVALID_PAGE_ID 4 [(0, 1)]]) 2 4

/-- The calls `insert(k, v)` for the pairs of a list, in order: what each returned. -/
def insertAll (fuel : Nat) : List MappingType → TreeM (List Bool)
  | [] => pure []
  | (k, v) :: rest => do
    let r ← BPlusTree.Insert fuel k v
    let rs ← insertAll fuel rest
    pure (r :: rs)

/-- A leaf root (page 1) of capacity 4 that holds the keys 1, 2, 3, 4. -/
def rootLeafWorld : World :=
  treeOver (poolWith (BufferPoolManager.new 6 DiskManager.fresh)
    [leafNode 1 INVALID_PAGE_ID INVALID_PAGE_ID 4 [(1, 10), (2, 20), (3, 30), (4, 40)]]) 1 4

/-- A leaf root (page 1) of capacity 3 that holds the keys 10, 20, 30. -/
def oddLeafWorld : World :=
  treeOver (poolWith (BufferPoolManager.new 6 DiskManager.fresh)
    [leafNode 1 INVALID_PAGE_ID INVALID_PAGE_ID 3 [(10, 1), (20, 2), (30, 3)]]) 1 3

/-- A tree named `index`, just constructed, over a pool of ten frames and a fresh disk, with
nodes of capacity 4, called with a transaction whose sets are empty. -/
def iw0 : World :=
  { tree := BPlusTree.new "index" (BufferPoolManager.new 10 DiskManager.fresh) 4 4
      INVALID_PAGE_ID, transaction := some {}, uninitialized := 77 }

/-- After the five inserts on `iw0`. -/
def iw5 : World :=
  worldOf iw0 (insertAll 8 [(1, 10), (2, 20), (3, 30), (4, 40), (5, 50)] iw0)

/-- After `insert(5, 50)` on `rootLeafWorld`. -/
def rootLeafWorld1 : World := worldOf rootLeafWorld (BPlusTree.Insert 8 5 50 rootLeafWorld)

/-- After `insert(5, 500)` on `oddLeafWorld`. -/
def oddLeafWorld1 : World := worldOf oddLeafWorld (BPlusTree.Insert 8 5 500 oddLeafWorld)

/-- A leaf root (page 1) of capacity 339 that holds the keys 1, ..., 339. -/
def bigLeafWorld : World :=
  treeOver (poolWith (BufferPoolManager.new 6 DiskManager.fresh)
    [leafNode 1 INVALID_PAGE_ID INVALID_PAGE_ID 339
      ((List.range 339).map (fun i : Nat => (((i : Int) + 1), (i : Int))))]) 1 339

/-- After `insert(0, 0)` on `bigLeafWorld`. -/
def bigLeafWorld1 : World := worldOf bigLeafWorld (BPlusTree.Insert 8 0 0 bigLeafWorld)

/-! ### What the examples below read off a world -/

/-- The pairs in the slots `0, ..., size - 1` of a node. -/
def BPlusTreePage.slots (nd : BPlusTreePage) : List MappingType :=
  (List.range nd.size_.toNat).map (fun i : Nat => nd.array i)

/-- The reason for which a call did not return, if it did not. -/
def faultOf {α : Type} (x : Except Fault α) : Option Fault :=
  match x with
  | .ok _ => none
  | .error e => some e

/-- What a method of a node returned, with the pairs of the node it left. -/
def nodeResultOf {α : Type} (x : Except Fault (α × BPlusTreePage)) :
    Option (α × List MappingType) :=
  match x with
  | .ok (a, nd) => some (a, nd.slots)
  | .error _ => none

/-- The node in frame `f` of the pool of `w`. -/
def World.node (w : World) (f : frame_id_t) : BPlusTreePage :=
  (w.tree.buffer_pool_manager_.pages_ f).data_.node

/-- A tree with nodes of capacity 4: the leaves `{1, 2}` (page 1) and `{4, 5, 6, 7}` (page 2),
chained, under the internal root page 3 with separator 4. -/
def redistributeRightWorld : World :=
  treeOver (poolWith (BufferPoolManager.new 8 DiskManager.fresh)
    [leafNode 1 3 2 4 [(1, 10), (2, 20)],
     leafNode 2 3 INVALID_PAGE_ID 4 [(4, 40), (5, 50), (6, 60), (7, 70)],
     internalNode 3 INVALID_PAGE_ID 4 [(0, 1), (4, 2)]]) 3 4

/-- After `remove(2)` on `redistributeRightWorld`. -/
def redistributeRightWorld1 : World :=
  worldOf redistributeRightWorld (BPlusTree.Remove 8 2 redistributeRightWorld)

/-- A tree with nodes of capacity 4: the leaves `{1, 2, 3, 4}` (page 1) and `{6, 7}` (page 2),
chained, under the internal root page 3 with separator 6. -/
def redistributeLeftWorld : World :=
  treeOver (poolWith (BufferPoolManager.new 8 DiskManager.fresh)
    [leafNode 1 3 2 4 [(1, 10), (2, 20), (3, 30), (4, 40)],
     leafNode 2 3 INVALID_PAGE_ID 4 [(6, 60), (7, 70)],
     internalNode 3 INVALID_PAGE_ID 4 [(0, 1), (6, 2)]]) 3 4

/-- After `remove(7)` on `redistributeLeftWorld`. -/
def redistributeLeftWorld1 : World :=
  worldOf redistributeLeftWorld (BPlusTree.Remove 8 7 redistributeLeftWorld)

/-- The world `rootLeafWorld` in which an uninitialised `page_id_t` reads as 0. -/
def rootLeafWorldZero : World := { rootLeafWorld with uninitialized := 0 }

/-- After `insert(5, 50)` on `rootLeafWorldZero`. -/
def rootLeafWorldZero1 : World :=
  worldOf rootLeafWorldZero (BPlusTree.Insert 8 5 50 rootLeafWorldZero)

/-- The world `w` with the pool `b` and the transaction `txn`. -/
def World.put (w : World) (b : BufferPoolManager) (txn : Transaction) : World :=
  { w with tree := { w.tree with buffer_pool_manager_ := b }, transaction := some txn }

/-- The value that a call returned, if it returned. -/
def valueOf {α σ : Type} (x : Except Fault (α × σ)) : Option α :=
  match x with
  | .ok (a, _) => some a
  | .error _ => none

/-- A tree with nodes of capacity 4: the leaves `{1, 2, 3}` (page 1) and `{5, 6}` (page 2),
chained, under the internal root page 3 with separator 5. -/
def gapWorld : World :=
  treeOver (poolWith (BufferPoolManager.new 6 DiskManager.fresh)
    [leafNode 1 3 2 4 [(1, 10), (2, 20), (3, 30)],
     leafNode 2 3 INVALID_PAGE_ID 4 [(5, 50), (6, 60)],
     internalNode 3 INVALID_PAGE_ID 4 [(0, 1), (5, 2)]]) 3 4

/-- After `Begin(4)` on `gapWorld`. -/
def gapWorld1 : World := worldOf gapWorld (BPlusTree.Begin 8 4 gapWorld)

/-- A tree with nodes of capacity 4 whose root, page 5, is full: it has the leaves of the pages
1 to 4 as children. The leaf of page 1 has just been split: page 6 holds its upper half and is
not yet in the parent. Page `k` is in frame `k - 1`. -/
def splitParentWorld : World :=
  treeOver (poolWith (BufferPoolManager.new 16 DiskManager.fresh)
    [leafNode 1 5 6 4 [(1, 10), (2, 20)],
     leafNode 2 5 3 4 [(10, 100), (11, 110)],
     leafNode 3 5 4 4 [(20, 200), (21, 210)],
     leafNode 4 5 INVALID_PAGE_ID 4 [(30, 300), (31, 310)],
     internalNode 5 INVALID_PAGE_ID 4 [(0, 1), (10, 2), (20, 3), (30, 4)],
     leafNode 6 INVALID_PAGE_ID 2 4 [(3, 30), (4, 40), (5, 50)]]) 5 4

/-- After `InsertIntoParent(old, 3, new)` on `splitParentWorld`, with `old` the leaf of page 1
(frame 0) and `new` the leaf of page 6 (frame 5). -/
def splitParentWorld1 : World :=
  worldOf splitParentWorld (BPlusTree.InsertIntoParent 8 0 3 5 splitParentWorld)

/-- A tree with nodes of capacity 4 whose root, page 3, has the leaves of the pages 1 and 2 as
children. The leaf of page 1 has just been split: page 4 (frame 3) holds its upper half and is
not yet in the parent. -/
def roomWorld : World :=
  treeOver (poolWith (BufferPoolManager.new 6 DiskManager.fresh)
    [leafNode 1 3 4 4 [(1, 10), (2, 20)],
     leafNode 2 3 INVALID_PAGE_ID 4 [(5, 50), (6, 60)],
     internalNode 3 INVALID_PAGE_ID 4 [(0, 1), (5, 2)],
     leafNode 4 INVALID_PAGE_ID 2 4 [(3, 30), (4, 40)]]) 3 4

/-- A pool whose frame 0 holds an internal node with four children that is not the root. -/
def wideWorld : World :=
  treeOver (poolWith (BufferPoolManager.new 2 DiskManager.fresh)
    [internalNode 1 9 4 [(0, 11), (5, 12), (7, 13), (9, 14)]]) 9 4

/-- After `FindLeafPage(4, INSERT)` on `gapWorld`. -/
def gapWorldFound : World :=
  worldOf gapWorld (BPlusTree.FindLeafPage 8 4 false Operation.INSERT gapWorld)

/-- After `RemoveAndDeleteRecord(5)` on the leaf of page 2 (frame 1) of
`redistributeRightWorld`. -/
def fullLeafWorld1 : World :=
  worldOf redistributeRightWorld (BPlusTree.pool (PoolM.onNode 1
    (fun nd => BPlusTreeLeafPage.RemoveAndDeleteRecord nd 5)) redistributeRightWorld)

/-- After `Remove(1)` on the internal node in frame 0 of `wideWorld`. -/
def wideWorld1 : World :=
  worldOf wideWorld (BPlusTree.pool (PoolM.onNode 0 (fun nd => do
    let nd ← BPlusTreeInternalPage.Remove nd 1
    pure ((), nd))) wideWorld)

/-- The frames that `FindLeafPage` visits from the node in frame `node` down to a leaf, when
every page on the way is resident: `table` is the page table and `nodes` gives the node in each
frame. One unit of `fuel` per level. -/
def descend (table : page_id_t → Option frame_id_t) (nodes : frame_id_t → BPlusTreePage)
    (key : KeyType) (leftMost : Bool) : Nat → frame_id_t → Option (List frame_id_t)
  | 0, node => if (nodes node).IsLeafPage then some [node] else none
  | fuel + 1, node =>
    if (nodes node).IsLeafPage then some [node]
    else
      match (if leftMost then BPlusTreeInternalPage.ValueAt (nodes node) 0
             else BPlusTreeInternalPage.Lookup (nodes node) key) with
      | .ok p =>
        match table p with
        | some c => (descend table nodes key leftMost fuel c).map (fun rest => node :: rest)
        | none => none
      | .error _ => none

/-- The page set after the descent through the frames `path`, entered with the page set `held`:
for READONLY, and at a node that is safe for `op`, what was held is released before the node is
added. -/
def crab (nodes : frame_id_t → BPlusTreePage) (op : Operation) :
    List frame_id_t → List frame_id_t → List frame_id_t
  | held, [] => held
  | held, c :: rest =>
    crab nodes op
      (if op = Operation.READONLY ∨ BPlusTree.isSafe (nodes c) op = true then [c]
       else held ++ [c]) rest

/-- What the page set of a writer is like: a suffix `held` of the path walked so far that
starts at the root or at a safe node and has no safe node after its first. -/
def Crabbed (nodes : frame_id_t → BPlusTreePage) (op : Operation)
    (path held : List frame_id_t) : Prop :=
  ∃ pre, path = pre ++ held ∧ held ≠ [] ∧
    (pre = [] ∨ ∃ x, held.head? = some x ∧ BPlusTree.isSafe (nodes x) op = true) ∧
    ∀ x ∈ held.tail, BPlusTree.isSafe (nodes x) op = false

/-- The keys in the slots `start, ..., size - 1` of a node are strictly increasing. -/
def BPlusTreePage.SortedFrom (nd : BPlusTreePage) (start : Nat) : Prop :=
  ∀ j : Nat, j < nd.size_.toNat → ∀ i : Nat, i < j → start ≤ i →
    (nd.array i).1 < (nd.array j).1

instance (nd : BPlusTreePage) (start : Nat) : Decidable (nd.SortedFrom start) := by
  unfold BPlusTreePage.SortedFrom
  infer_instance

/-- A leaf of capacity 4 with the keys 1, 2, 3. -/
def exampleLeaf : BPlusTreePage :=
  leafNode 1 INVALID_PAGE_ID INVALID_PAGE_ID 4 [(1, 10), (2, 20), (3, 30)]

/-- An internal node of capacity 4 with the children 1, 2, 3 and the separators 4 and 7. -/
def exampleInternal : BPlusTreePage :=
  internalNode 4 INVALID_PAGE_ID 4 [(0, 1), (4, 2), (7, 3)]

/-! ### The nodes in the frames of a pool -/

/-- The node in frame `f` of the pool. -/
def BufferPoolManager.node (b : BufferPoolManager) (f : frame_id_t) : BPlusTreePage :=
  (b.pages_ f).data_.node

/-- The pool has its latch free, the page table `table`, and the node `nodes f` in each frame
`f`. -/
def BufferPoolManager.Holds (b : BufferPoolManager) (table : page_id_t → Option frame_id_t)
    (nodes : frame_id_t → BPlusTreePage) : Prop :=
  b.latch_ = false ∧ b.page_table_ = table ∧ ∀ g, b.node g = nodes g

/-- The node map `nodes` with the node of frame `f` replaced by `nd`. -/
def setNode (nodes : frame_id_t → BPlusTreePage) (f : frame_id_t) (nd : BPlusTreePage) :
    frame_id_t → BPlusTreePage :=
  fun g => if g = f then nd else nodes g

/-- The node `nd` with the slots `a`. -/
def BPlusTreePage.withArray (nd : BPlusTreePage) (a : Int → MappingType) : BPlusTreePage :=
  { nd with array := a }

/-- Two nodes that differ at most in `parent_page_id_`. -/
def BPlusTreePage.SameButParent (a b : BPlusTreePage) : Prop :=
  { a with parent_page_id_ := 0 } = { b with parent_page_id_ := 0 }

/-- Closed form of internal `Remove(index)`: the node without the slot `index`. -/
def BPlusTreePage.withoutSlot (nd : BPlusTreePage) (index : Int) : BPlusTreePage :=
  (nd.withArray fun j =>
    if index ≤ j ∧ j < nd.size_ - 1 then nd.array (j + 1) else nd.array j).IncreaseSize (-1)

namespace BufferPoolManager

/-! ### What each call computes, case by case -/

theorem FetchPageImpl_resident (b : BufferPoolManager) (p : page_id_t) (f : frame_id_t)
    (hl : b.latch_ = false) (ht : b.page_table_ p = some f) :
    FetchPageImpl b p = .ok (some f,
      b.setPage f { (b.pages_ f) with pin_count_ := (b.pages_ f).pin_count_ + 1 }) := by
  obtain ⟨n, pages, table, free, repl, disk, latch⟩ := b
  simp only at hl ht
  subst hl
  simp [FetchPageImpl, lock, unlock, setPage, ht, bind, Except.bind, pure, Except.pure]

theorem FetchPageImpl_exhausted (b : BufferPoolManager) (p : page_id_t)
    (hl : b.latch_ = false) (ht : b.page_table_ p = none) (hf : b.free_list_ = [])
    (hr : b.replacer_.lru_map = []) :
    FetchPageImpl b p = .ok (none, b) := by
  obtain ⟨n, pages, table, free, repl, disk, latch⟩ := b
  simp only at hl ht hf hr
  subst hl hf
  simp [FetchPageImpl, lock, unlock, ht, bind, Except.bind, pure, Except.pure,
    LRUReplacer.Size, hr]

theorem FetchPageImpl_free (b : BufferPoolManager) (p : page_id_t) (f : frame_id_t)
    (rest : List frame_id_t)
    (hl : b.latch_ = false) (ht : b.page_table_ p = none) (hf : b.free_list_ = f :: rest) :
    FetchPageImpl b p = .ok (some f,
      { b with free_list_ := rest,
               disk_manager_ := evictWrite b.disk_manager_ (b.pages_ f),
               page_table_ := tableSet b.page_table_ p f,
               pages_ := fun g => if g = f then
                 { (b.pages_ f) with page_id_ := p, pin_count_ := 1, is_dirty_ := false,
                                     data_ := (evictWrite b.disk_manager_ (b.pages_ f)).ReadPage p }
                 else b.pages_ g }) := by
  obtain ⟨n, pages, table, free, repl, disk, latch⟩ := b
  simp only at hl ht hf
  subst hl hf
  simp [FetchPageImpl, lock, unlock, setPage, ht, bind, Except.bind, pure, Except.pure,
    evictWrite]

theorem FetchPageImpl_victim (b : BufferPoolManager) (p : page_id_t)
    (hl : b.latch_ = false) (ht : b.page_table_ p = none) (hf : b.free_list_ = [])
    (hr : b.replacer_.lru_map ≠ []) :
    FetchPageImpl b p = .ok (some (b.replacer_.lru_bucket_list.getLastD (-1)),
      let f := b.replacer_.lru_bucket_list.getLastD (-1)
      { b with replacer_ := (b.replacer_.Victim (-1)).2.2,
               disk_manager_ := evictWrite b.disk_manager_ (b.pages_ f),
               page_table_ := tableSet (tableErase b.page_table_ (b.pages_ f).page_id_) p f,
               pages_ := fun g => if g = f then
                 { (b.pages_ f) with page_id_ := p, pin_count_ := 1, is_dirty_ := false,
                                     data_ := (evictWrite b.disk_manager_ (b.pages_ f)).ReadPage p }
                 else b.pages_ g }) := by
  obtain ⟨n, pages, table, free, repl, disk, latch⟩ := b
  simp only at hl ht hf hr
  subst hl hf
  have hs : repl.lru_map.length ≠ 0 := by
    intro h; exact hr (List.length_eq_zero.mp h)
  simp [FetchPageImpl, lock, unlock, setPage, ht, bind, Except.bind, pure, Except.pure,
    evictWrite, LRUReplacer.Victim, LRUReplacer.Size, hs, hr]

theorem NewPageImpl_exhausted (b : BufferPoolManager)
    (hl : b.latch_ = false) (hf : b.free_list_ = []) (hr : b.replacer_.lru_map = []) :
    NewPageImpl b = .ok (none, b) := by
  obtain ⟨n, pages, table, free, repl, disk, latch⟩ := b
  simp only at hl hf hr
  subst hl hf
  simp [NewPageImpl, lock, unlock, bind, Except.bind, pure, Except.pure, LRUReplacer.Size, hr]

theorem NewPageImpl_free (b : BufferPoolManager) (f : frame_id_t) (rest : List frame_id_t)
    (hl : b.latch_ = false) (hf : b.free_list_ = f :: rest) :
    NewPageImpl b = .ok (some (b.disk_manager_.next_page_id_, f),
      { b with free_list_ := rest,
               disk_manager_ := b.disk_manager_.AllocatePage.2,
               page_table_ := tableSet b.page_table_ b.disk_manager_.next_page_id_ f,
               pages_ := fun g => if g = f then
                 { (b.pages_ f) with page_id_ := b.disk_manager_.next_page_id_, pin_count_ := 1,
                                     is_dirty_ := true, data_ := PageData.zero }
                 else b.pages_ g }) := by
  obtain ⟨n, pages, table, free, repl, disk, latch⟩ := b
  simp only at hl hf
  subst hl hf
  simp [NewPageImpl, lock, unlock, setPage, bind, Except.bind, pure, Except.pure,
    DiskManager.AllocatePage]

theorem NewPageImpl_victim (b : BufferPoolManager)
    (hl : b.latch_ = false) (hf : b.free_list_ = []) (hr : b.replacer_.lru_map ≠ []) :
    NewPageImpl b = .ok (some (b.disk_manager_.next_page_id_,
        b.replacer_.lru_bucket_list.getLastD (-1)),
      let f := b.replacer_.lru_bucket_list.getLastD (-1)
      { b with replacer_ := (b.replacer_.Victim (-1)).2.2,
               disk_manager_ := (evictWrite b.disk_manager_ (b.pages_ f)).AllocatePage.2,
               page_table_ := tableSet (tableErase b.page_table_ (b.pages_ f).page_id_)
                 b.disk_manager_.next_page_id_ f,
               pages_ := fun g => if g = f then
                 { (b.pages_ f) with page_id_ := b.disk_manager_.next_page_id_, pin_count_ := 1,
                                     is_dirty_ := true, data_ := PageData.zero }
                 else b.pages_ g }) := by
  obtain ⟨n, pages, table, free, repl, disk, latch⟩ := b
  simp only at hl hf hr
  subst hl hf
  have hs : repl.lru_map.length ≠ 0 := by
    intro h; exact hr (List.length_eq_zero.mp h)
  by_cases hd : (pages (repl.lru_bucket_list.getLast?.getD (-1))).is_dirty_ = true <;>
  simp [NewPageImpl, lock, unlock, setPage, bind, Except.bind, pure, Except.pure,
    evictWrite, LRUReplacer.Victim, LRUReplacer.Size, hs, hr, DiskManager.AllocatePage,
    DiskManager.WritePage, hd]

theorem UnpinPageImpl_absent (b : BufferPoolManager) (p : page_id_t) (dirty : Bool)
    (hl : b.latch_ = false) (ht : b.page_table_ p = none) :
    UnpinPageImpl b p dirty = .ok (false, b) := by
  obtain ⟨n, pages, table, free, repl, disk, latch⟩ := b
  simp only at hl ht
  subst hl
  simp [UnpinPageImpl, lock, unlock, ht, bind, Except.bind, pure, Except.pure]

theorem UnpinPageImpl_unpinned (b : BufferPoolManager) (p : page_id_t) (dirty : Bool)
    (f : frame_id_t)
    (hl : b.latch_ = false) (ht : b.page_table_ p = some f) (hp : (b.pages_ f).pin_count_ = 0) :
    UnpinPageImpl b p dirty = .ok (false, b) := by
  obtain ⟨n, pages, table, free, repl, disk, latch⟩ := b
  simp only at hl ht hp
  subst hl
  simp [UnpinPageImpl, lock, unlock, ht, hp, bind, Except.bind, pure, Except.pure]

theorem UnpinPageImpl_pinned (b : BufferPoolManager) (p : page_id_t) (dirty : Bool)
    (f : frame_id_t)
    (hl : b.latch_ = false) (ht : b.page_table_ p = some f) (hp : (b.pages_ f).pin_count_ ≠ 0) :
    UnpinPageImpl b p dirty = .ok (true,
      { b with pages_ := fun g => if g = f then
                 { (b.pages_ f) with is_dirty_ := ((b.pages_ f).is_dirty_ || dirty),
                                     pin_count_ := (b.pages_ f).pin_count_ - 1 }
                 else b.pages_ g,
               replacer_ := if (b.pages_ f).pin_count_ - 1 = 0 then b.replacer_.Unpin f
                            else b.replacer_ }) := by
  obtain ⟨n, pages, table, free, repl, disk, latch⟩ := b
  simp only at hl ht hp
  subst hl
  by_cases h1 : (pages f).pin_count_ - 1 = 0 <;> cases dirty <;>
  simp [UnpinPageImpl, lock, unlock, setPage, ht, hp, h1, bind, Except.bind, pure, Except.pure]

theorem FlushPageImpl_absent (b : BufferPoolManager) (p : page_id_t)
    (hl : b.latch_ = false) (ht : b.page_table_ p = none) :
    FlushPageImpl b p = .ok (false, b) := by
  obtain ⟨n, pages, table, free, repl, disk, latch⟩ := b
  simp only at hl ht
  subst hl
  simp [FlushPageImpl, lock, unlock, ht, bind, Except.bind, pure, Except.pure]

theorem FlushPageImpl_resident (b : BufferPoolManager) (p : page_id_t) (f : frame_id_t)
    (hl : b.latch_ = false) (ht : b.page_table_ p = some f) :
    FlushPageImpl b p = .ok (true,
      { b with disk_manager_ := b.disk_manager_.WritePage p (b.pages_ f).data_,
               pages_ := fun g => if g = f then { (b.pages_ f) with is_dirty_ := false }
                                  else b.pages_ g }) := by
  obtain ⟨n, pages, table, free, repl, disk, latch⟩ := b
  simp only at hl ht
  subst hl
  simp [FlushPageImpl, lock, unlock, setPage, ht, bind, Except.bind, pure, Except.pure]

theorem FlushPageImpl_latched (b : BufferPoolManager) (p : page_id_t) (hl : b.latch_ = true) :
    FlushPageImpl b p = .error Fault.deadlock := by
  simp [FlushPageImpl, lock, hl, bind, Except.bind]

theorem DeletePageImpl_absent (b : BufferPoolManager) (p : page_id_t)
    (hl : b.latch_ = false) (ht : b.page_table_ p = none) :
    DeletePageImpl b p = .ok (true, b) := by
  obtain ⟨n, pages, table, free, repl, disk, latch⟩ := b
  simp only at hl ht
  subst hl
  simp [DeletePageImpl, lock, unlock, ht, bind, Except.bind, pure, Except.pure]

theorem DeletePageImpl_pinned (b : BufferPoolManager) (p : page_id_t) (f : frame_id_t)
    (hl : b.latch_ = false) (ht : b.page_table_ p = some f) (hp : 0 < (b.pages_ f).pin_count_) :
    DeletePageImpl b p = .ok (false, b) := by
  obtain ⟨n, pages, table, free, repl, disk, latch⟩ := b
  simp only at hl ht hp
  subst hl
  simp [DeletePageImpl, lock, unlock, ht, hp, bind, Except.bind, pure, Except.pure]

theorem DeletePageImpl_dirty (b : BufferPoolManager) (p : page_id_t) (f : frame_id_t)
    (hl : b.latch_ = false) (ht : b.page_table_ p = some f) (hp : ¬ 0 < (b.pages_ f).pin_count_)
    (hd : (b.pages_ f).is_dirty_ = true) :
    DeletePageImpl b p = .error Fault.deadlock := by
  obtain ⟨n, pages, table, free, repl, disk, latch⟩ := b
  simp only at hl ht hp hd
  subst hl
  simp [DeletePageImpl, FlushPageImpl, lock, unlock, ht, hp, hd, bind, Except.bind, pure,
    Except.pure]

theorem DeletePageImpl_clean (b : BufferPoolManager) (p : page_id_t) (f : frame_id_t)
    (hl : b.latch_ = false) (ht : b.page_table_ p = some f) (hp : ¬ 0 < (b.pages_ f).pin_count_)
    (hd : (b.pages_ f).is_dirty_ = false) :
    DeletePageImpl b p = .ok (true,
      { b with page_table_ := tableErase b.page_table_ p,
               free_list_ := f :: b.free_list_,
               pages_ := fun g => if g = f then
                 { (b.pages_ f) with data_ := PageData.zero, page_id_ := INVALID_PAGE_ID,
                                     pin_count_ := 0 }
                 else b.pages_ g }) := by
  obtain ⟨n, pages, table, free, repl, disk, latch⟩ := b
  simp only at hl ht hp hd
  subst hl
  simp [DeletePageImpl, lock, unlock, setPage, ht, hp, hd, bind, Except.bind, pure,
    Except.pure, DiskManager.DeallocatePage]

/-! ### The replacer part of the invariant -/

theorem getLastD_eq_getLast (l : List frame_id_t) (x : frame_id_t) (h : l ≠ []) :
    l.getLastD x = l.getLast h := by
  rw [List.getLastD_eq_getLast?, List.getLast?_eq_getLast _ h]
  rfl

theorem getLastD_mem (l : List frame_id_t) (x : frame_id_t) (h : l ≠ []) :
    l.getLastD x ∈ l := by
  rw [getLastD_eq_getLast l x h]
  exact List.getLast_mem h

theorem dropLast_append_getLastD (l : List frame_id_t) (x : frame_id_t) (h : l ≠ []) :
    l.dropLast ++ [l.getLastD x] = l := by
  rw [getLastD_eq_getLast l x h]
  exact List.dropLast_append_getLast h

theorem ReplOk_Unpin (n : Nat) (r : LRUReplacer) (f : frame_id_t) (h : ReplOk n r)
    (hf : 0 ≤ f ∧ f < (n : Int)) : ReplOk n (r.Unpin f) := by
  unfold LRUReplacer.Unpin
  split
  · exact h
  · rename_i hm
    refine ⟨?_, ?_, ?_⟩
    · intro g hg
      simp only [List.mem_cons] at hg
      rcases hg with rfl | hg
      · exact hf
      · exact h.range g hg
    · simp only [List.nodup_cons]
      exact ⟨fun hc => hm ((h.sync f).mpr hc), h.nodup⟩
    · intro g
      simp only [List.mem_cons, h.sync g]

theorem ReplOk_Victim (n : Nat) (r : LRUReplacer) (x : frame_id_t) (h : ReplOk n r)
    (hne : r.lru_map ≠ []) :
    ReplOk n (r.Victim x).2.2 ∧ r.lru_bucket_list.getLastD x ∈ r.lru_bucket_list := by
  have hl : r.lru_bucket_list ≠ [] := by
    intro hc
    cases hm : r.lru_map with
    | nil => exact hne hm
    | cons a t =>
      have : a ∈ r.lru_bucket_list := (h.sync a).mp (by rw [hm]; simp)
      rw [hc] at this
      simp at this
  have hs : r.Size ≠ 0 := by
    unfold LRUReplacer.Size
    intro hc
    exact hne (List.length_eq_zero.mp hc)
  have hmem := getLastD_mem r.lru_bucket_list x hl
  have hsplit := dropLast_append_getLastD r.lru_bucket_list x hl
  have hnd : (r.lru_bucket_list.dropLast ++ [r.lru_bucket_list.getLastD x]).Nodup := by
    rw [hsplit]; exact h.nodup
  rw [List.nodup_append] at hnd
  refine ⟨?_, hmem⟩
  unfold LRUReplacer.Victim
  rw [if_neg hs]
  refine ⟨?_, ?_, ?_⟩
  · intro g hg
    exact h.range g (List.mem_of_mem_dropLast hg)
  · exact hnd.1
  · intro g
    simp only [List.mem_filter, decide_eq_true_eq, h.sync g]
    constructor
    · rintro ⟨hg, hne'⟩
      have : g ∈ r.lru_bucket_list.dropLast ++ [r.lru_bucket_list.getLastD x] := by
        rw [hsplit]; exact hg
      rcases List.mem_append.mp this with h1 | h1
      · exact h1
      · simp only [List.mem_singleton] at h1
        exact absurd h1 hne'
    · intro hg
      refine ⟨List.mem_of_mem_dropLast hg, ?_⟩
      intro hc
      exact hnd.2.2 hg (by simp [hc]) 

/-! ### Preservation of the invariant -/

theorem Inv_new (n : Nat) (d : DiskManager) : Inv (BufferPoolManager.new n d) := by
  refine ⟨rfl, ?_, ?_, ?_, ?_, ?_, ?_, ?_⟩
  · intro p f h; simp [BufferPoolManager.new] at h
  · intro p f h; simp [BufferPoolManager.new] at h
  · simp only [BufferPoolManager.new]
    exact (List.nodup_range n).map (fun a c h => by exact_mod_cast h)
  · intro f hf
    simp only [BufferPoolManager.new, List.mem_map, List.mem_range] at hf
    obtain ⟨a, ha, rfl⟩ := hf
    simp only [BufferPoolManager.new]
    constructor
    · exact Int.natCast_nonneg a
    · exact_mod_cast ha
  · intro f _; rfl
  · intro f h0 hn
    left
    simp only [BufferPoolManager.new, List.mem_map, List.mem_range] at hn ⊢
    refine ⟨f.toNat, ?_, ?_⟩
    · omega
    · exact Int.toNat_of_nonneg h0
  · refine ⟨?_, ?_, ?_⟩
    · intro f hf; simp [BufferPoolManager.new] at hf
    · simp [BufferPoolManager.new]
    · intro f; simp [BufferPoolManager.new]

/-- Frame `f` is handed out for page `p`: it leaves the free list (if it was there), the entry
that mapped to it (if any) goes, and `p` is mapped to it. -/
theorem Inv_install (b b' : BufferPoolManager) (p : page_id_t) (f : frame_id_t)
    (hI : Inv b) (hsize : b'.pool_size_ = b.pool_size_) (hlatch : b'.latch_ = false)
    (hfr : 0 ≤ f ∧ f < (b.pool_size_ : Int))
    (htable : ∀ x, b'.page_table_ x =
      if x = p then some f else if b.page_table_ x = some f then none else b.page_table_ x)
    (hpages : ∀ g, g ≠ f → b'.pages_ g = b.pages_ g)
    (hpid : (b'.pages_ f).page_id_ = p)
    (hfree : b'.free_list_ = b.free_list_.erase f)
    (hp : b.page_table_ p = none)
    (hpnext : p < b'.disk_manager_.next_page_id_)
    (hnext : b.disk_manager_.next_page_id_ ≤ b'.disk_manager_.next_page_id_)
    (hrepl : ReplOk b.pool_size_ b'.replacer_) : Inv b' := by
  have hmem : ∀ g, g ∈ b'.free_list_ ↔ g ≠ f ∧ g ∈ b.free_list_ := by
    intro g; rw [hfree]; exact hI.free_nodup.mem_erase_iff
  refine ⟨hlatch, ?_, ?_, ?_, ?_, ?_, ?_, ?_⟩
  · intro x g hx
    rw [htable] at hx
    rw [hsize]
    by_cases hxp : x = p
    · rw [if_pos hxp] at hx
      cases hx
      refine ⟨hfr.1, hfr.2, ?_, ?_⟩
      · rw [hpid, hxp]
      · rw [hmem]; simp
    · rw [if_neg hxp] at hx
      by_cases hxf : b.page_table_ x = some f
      · rw [if_pos hxf] at hx; cases hx
      · rw [if_neg hxf] at hx
        have hgf : g ≠ f := by rintro rfl; exact hxf hx
        obtain ⟨h1, h2, h3, h4⟩ := hI.table_frame x g hx
        refine ⟨h1, h2, ?_, ?_⟩
        · rw [hpages g hgf]; exact h3
        · rw [hmem]; exact fun hc => h4 hc.2
  · intro x g hx
    rw [htable] at hx
    by_cases hxp : x = p
    · rw [hxp]; exact hpnext
    · rw [if_neg hxp] at hx
      by_cases hxf : b.page_table_ x = some f
      · rw [if_pos hxf] at hx; cases hx
      · rw [if_neg hxf] at hx
        exact lt_of_lt_of_le (hI.table_ids x g hx) hnext
  · rw [hfree]; exact hI.free_nodup.erase f
  · intro g hg
    rw [hsize]
    exact hI.free_range g ((hmem g).mp hg).2
  · intro g hg
    obtain ⟨h1, h2⟩ := (hmem g).mp hg
    rw [hpages g h1]
    exact hI.free_clean g h2
  · intro g h0 hn
    rw [hsize] at hn
    by_cases hgf : g = f
    · right
      refine ⟨p, ?_⟩
      rw [htable, if_pos rfl, hgf]
    · rcases hI.cover g h0 hn with h1 | ⟨x, hx⟩
      · left; exact (hmem g).mpr ⟨hgf, h1⟩
      · right
        refine ⟨x, ?_⟩
        have hxp : x ≠ p := by rintro rfl; rw [hp] at hx; cases hx
        have hxf : b.page_table_ x ≠ some f := by
          rw [hx]; intro hc; cases hc; exact hgf rfl
        rw [htable, if_neg hxp, if_neg hxf]
        exact hx
  · rw [hsize]; exact hrepl

/-- Only flags, pin counts or bytes of frames change, and no frame of the free list becomes
dirty. -/
theorem Inv_meta (b b' : BufferPoolManager)
    (hI : Inv b) (hsize : b'.pool_size_ = b.pool_size_) (hlatch : b'.latch_ = false)
    (htable : b'.page_table_ = b.page_table_)
    (hpid : ∀ g, (b'.pages_ g).page_id_ = (b.pages_ g).page_id_)
    (hfree : b'.free_list_ = b.free_list_)
    (hclean : ∀ g ∈ b.free_list_, (b'.pages_ g).is_dirty_ = false)
    (hnext : b.disk_manager_.next_page_id_ ≤ b'.disk_manager_.next_page_id_)
    (hrepl : ReplOk b.pool_size_ b'.replacer_) : Inv b' := by
  refine ⟨hlatch, ?_, ?_, ?_, ?_, ?_, ?_, ?_⟩
  · intro x g hx
    rw [htable] at hx
    rw [hsize, hpid, hfree]
    exact hI.table_frame x g hx
  · intro x g hx
    rw [htable] at hx
    exact lt_of_lt_of_le (hI.table_ids x g hx) hnext
  · rw [hfree]; exact hI.free_nodup
  · intro g hg
    rw [hfree] at hg
    rw [hsize]; exact hI.free_range g hg
  · intro g hg
    rw [hfree] at hg
    exact hclean g hg
  · intro g h0 hn
    rw [hsize] at hn
    rw [hfree, htable]
    exact hI.cover g h0 hn
  · rw [hsize]; exact hrepl

theorem evictWrite_next (d : DiskManager) (pg : Page) :
    (evictWrite d pg).next_page_id_ = d.next_page_id_ := by
  unfold evictWrite
  split <;> rfl

/-- With an empty free list, the frame at the back of a non-empty replacer holds a resident
page, and erasing that page's entry erases exactly the entries that map to the frame. -/
theorem victim_entry (b : BufferPoolManager) (hI : Inv b) (hf : b.free_list_ = [])
    (hr : b.replacer_.lru_map ≠ []) :
    let f := b.replacer_.lru_bucket_list.getLastD (-1)
    (0 ≤ f ∧ f < (b.pool_size_ : Int)) ∧ b.page_table_ (b.pages_ f).page_id_ = some f ∧
      ∀ x, tableErase b.page_table_ (b.pages_ f).page_id_ x =
        if b.page_table_ x = some f then none else b.page_table_ x := by
  intro f
  have hmem := (ReplOk_Victim b.pool_size_ b.replacer_ (-1) hI.repl hr).2
  have hrange := hI.repl.range f hmem
  have hres : b.page_table_ (b.pages_ f).page_id_ = some f := by
    rcases hI.cover f hrange.1 hrange.2 with h | ⟨x, hx⟩
    · rw [hf] at h; simp at h
    · have := (hI.table_frame x f hx).2.2.1
      rw [this]; exact hx
  refine ⟨hrange, hres, ?_⟩
  intro x
  unfold tableErase
  by_cases hx : x = (b.pages_ f).page_id_
  · rw [if_pos hx, hx, hres, if_pos rfl]
  · rw [if_neg hx]
    by_cases hxf : b.page_table_ x = some f
    · exact absurd ((hI.table_frame x f hxf).2.2.1).symm hx
    · rw [if_neg hxf]

theorem FetchPageImpl_Inv (b b' : BufferPoolManager) (p : page_id_t) (r : Option frame_id_t)
    (hI : Inv b) (hp : p < b.disk_manager_.next_page_id_)
    (h : FetchPageImpl b p = .ok (r, b')) :
    Inv b' ∧ b'.pool_size_ = b.pool_size_ ∧
      b'.disk_manager_.next_page_id_ = b.disk_manager_.next_page_id_ := by
  cases ht : b.page_table_ p with
  | some f =>
    rw [FetchPageImpl_resident b p f hI.latch ht] at h
    cases h
    refine ⟨?_, rfl, rfl⟩
    refine Inv_meta b _ hI rfl hI.latch rfl ?_ rfl ?_ (le_refl _) hI.repl
    · intro g
      simp only [setPage]
      split
      · rename_i hg; rw [hg]
      · rfl
    · intro g hg
      simp only [setPage]
      have hgf : g ≠ f := by rintro rfl; exact (hI.table_frame p g ht).2.2.2 hg
      rw [if_neg hgf]
      exact hI.free_clean g hg
  | none =>
    cases hf : b.free_list_ with
    | cons f rest =>
      rw [FetchPageImpl_free b p f rest hI.latch ht hf] at h
      cases h
      have hfm : f ∈ b.free_list_ := by rw [hf]; simp
      refine ⟨?_, rfl, evictWrite_next _ _⟩
      refine Inv_install b _ p f hI rfl hI.latch (hI.free_range f hfm) ?_ ?_ ?_ ?_ ht ?_ ?_
        hI.repl
      · intro x
        simp only [tableSet]
        by_cases hx : x = p
        · simp [hx]
        · rw [if_neg hx, if_neg hx]
          have : b.page_table_ x ≠ some f := fun hc => (hI.table_frame x f hc).2.2.2 hfm
          rw [if_neg this]
      · intro g hg; simp only [if_neg hg]
      · simp
      · have hnd := hI.free_nodup
        rw [hf] at hnd ⊢
        simp
      · simp only [evictWrite_next]; exact hp
      · simp only [evictWrite_next]; exact le_refl _
    | nil =>
      by_cases hr : b.replacer_.lru_map = []
      · rw [FetchPageImpl_exhausted b p hI.latch ht hf hr] at h
        cases h
        exact ⟨hI, rfl, rfl⟩
      · rw [FetchPageImpl_victim b p hI.latch ht hf hr] at h
        cases h
        obtain ⟨hrange, hres, hers⟩ := victim_entry b hI hf hr
        refine ⟨?_, rfl, evictWrite_next _ _⟩
        refine Inv_install b _ p _ hI rfl hI.latch hrange ?_ ?_ ?_ ?_ ht ?_ ?_
          (ReplOk_Victim b.pool_size_ b.replacer_ (-1) hI.repl hr).1
        · intro x
          simp only [tableSet]
          by_cases hx : x = p
          · simp [hx]
          · rw [if_neg hx, if_neg hx]
            exact hers x
        · intro g hg; simp only [if_neg hg]
        · simp
        · simp [hf]
        · simp only [evictWrite_next]; exact hp
        · simp only [evictWrite_next]; exact le_refl _

theorem NewPageImpl_Inv (b b' : BufferPoolManager) (r : Option (page_id_t × frame_id_t))
    (hI : Inv b) (h : NewPageImpl b = .ok (r, b')) :
    Inv b' ∧ b'.pool_size_ = b.pool_size_ ∧
      b.disk_manager_.next_page_id_ ≤ b'.disk_manager_.next_page_id_ ∧
      ∀ q f, r = some (q, f) → q < b'.disk_manager_.next_page_id_ := by
  have hnone : b.page_table_ b.disk_manager_.next_page_id_ = none := by
    cases hc : b.page_table_ b.disk_manager_.next_page_id_ with
    | none => rfl
    | some g => exact absurd (hI.table_ids _ g hc) (lt_irrefl _)
  cases hf : b.free_list_ with
  | cons f rest =>
    rw [NewPageImpl_free b f rest hI.latch hf] at h
    cases h
    have hfm : f ∈ b.free_list_ := by rw [hf]; simp
    refine ⟨?_, rfl, by simp [DiskManager.AllocatePage], ?_⟩
    · refine Inv_install b _ b.disk_manager_.next_page_id_ f hI rfl hI.latch
        (hI.free_range f hfm) ?_ ?_ ?_ ?_ hnone ?_ ?_ hI.repl
      · intro x
        simp only [tableSet]
        by_cases hx : x = b.disk_manager_.next_page_id_
        · simp [hx]
        · rw [if_neg hx, if_neg hx]
          have : b.page_table_ x ≠ some f := fun hc => (hI.table_frame x f hc).2.2.2 hfm
          rw [if_neg this]
      · intro g hg; simp only [if_neg hg]
      · simp
      · have hnd := hI.free_nodup
        rw [hf] at hnd ⊢
        simp
      · simp [DiskManager.AllocatePage]
      · simp [DiskManager.AllocatePage]
    · intro q g hq
      cases hq
      simp [DiskManager.AllocatePage]
  | nil =>
    by_cases hr : b.replacer_.lru_map = []
    · rw [NewPageImpl_exhausted b hI.latch hf hr] at h
      cases h
      refine ⟨hI, rfl, le_refl _, ?_⟩
      intro q g hq; cases hq
    · rw [NewPageImpl_victim b hI.latch hf hr] at h
      cases h
      obtain ⟨hrange, hres, hers⟩ := victim_entry b hI hf hr
      refine ⟨?_, rfl, by simp [DiskManager.AllocatePage, evictWrite_next], ?_⟩
      · refine Inv_install b _ b.disk_manager_.next_page_id_ _ hI rfl hI.latch hrange
          ?_ ?_ ?_ ?_ hnone ?_ ?_ (ReplOk_Victim b.pool_size_ b.replacer_ (-1) hI.repl hr).1
        · intro x
          simp only [tableSet]
          by_cases hx : x = b.disk_manager_.next_page_id_
          · simp [hx]
          · rw [if_neg hx, if_neg hx]
            exact hers x
        · intro g hg; simp only [if_neg hg]
        · simp
        · simp [hf]
        · simp [DiskManager.AllocatePage, evictWrite_next]
        · simp [DiskManager.AllocatePage, evictWrite_next]
      · intro q g hq
        cases hq
        simp [DiskManager.AllocatePage, evictWrite_next]

theorem UnpinPageImpl_Inv (b b' : BufferPoolManager) (p : page_id_t) (dirty r : Bool)
    (hI : Inv b) (h : UnpinPageImpl b p dirty = .ok (r, b')) :
    Inv b' ∧ b'.pool_size_ = b.pool_size_ ∧ b'.disk_manager_ = b.disk_manager_ ∧
      b'.page_table_ = b.page_table_ := by
  cases ht : b.page_table_ p with
  | none =>
    rw [UnpinPageImpl_absent b p dirty hI.latch ht] at h
    cases h
    exact ⟨hI, rfl, rfl, rfl⟩
  | some f =>
    by_cases hp : (b.pages_ f).pin_count_ = 0
    · rw [UnpinPageImpl_unpinned b p dirty f hI.latch ht hp] at h
      cases h
      exact ⟨hI, rfl, rfl, rfl⟩
    · rw [UnpinPageImpl_pinned b p dirty f hI.latch ht hp] at h
      cases h
      refine ⟨?_, rfl, rfl, rfl⟩
      have hfr := hI.table_frame p f ht
      refine Inv_meta b _ hI rfl hI.latch rfl ?_ rfl ?_ (le_refl _) ?_
      · intro g
        by_cases hg : g = f
        · simp only [hg, if_true]
        · simp only [if_neg hg]
      · intro g hg
        have hgf : g ≠ f := by rintro rfl; exact hfr.2.2.2 hg
        simp only [if_neg hgf]
        exact hI.free_clean g hg
      · show ReplOk b.pool_size_
          (if (b.pages_ f).pin_count_ - 1 = 0 then b.replacer_.Unpin f else b.replacer_)
        split
        · exact ReplOk_Unpin _ _ _ hI.repl ⟨hfr.1, hfr.2.1⟩
        · exact hI.repl

theorem FlushPageImpl_Inv (b b' : BufferPoolManager) (p : page_id_t) (r : Bool)
    (hI : Inv b) (h : FlushPageImpl b p = .ok (r, b')) :
    Inv b' ∧ b'.pool_size_ = b.pool_size_ ∧
      b'.disk_manager_.next_page_id_ = b.disk_manager_.next_page_id_ ∧
      b'.page_table_ = b.page_table_ := by
  cases ht : b.page_table_ p with
  | none =>
    rw [FlushPageImpl_absent b p hI.latch ht] at h
    cases h
    exact ⟨hI, rfl, rfl, rfl⟩
  | some f =>
    rw [FlushPageImpl_resident b p f hI.latch ht] at h
    cases h
    refine ⟨?_, rfl, rfl, rfl⟩
    refine Inv_meta b _ hI rfl hI.latch rfl ?_ rfl ?_ (le_refl _) hI.repl
    · intro g
      by_cases hg : g = f
      · simp only [hg, if_true]
      · simp only [if_neg hg]
    · intro g hg
      by_cases hgf : g = f
      · simp only [hgf, if_true]
      · simp only [if_neg hgf]
        exact hI.free_clean g hg

theorem DeletePageImpl_Inv (b b' : BufferPoolManager) (p : page_id_t) (r : Bool)
    (hI : Inv b) (h : DeletePageImpl b p = .ok (r, b')) :
    Inv b' ∧ b'.pool_size_ = b.pool_size_ ∧ b'.disk_manager_ = b.disk_manager_ := by
  cases ht : b.page_table_ p with
  | none =>
    rw [DeletePageImpl_absent b p hI.latch ht] at h
    cases h
    exact ⟨hI, rfl, rfl⟩
  | some f =>
    by_cases hp : 0 < (b.pages_ f).pin_count_
    · rw [DeletePageImpl_pinned b p f hI.latch ht hp] at h
      cases h
      exact ⟨hI, rfl, rfl⟩
    · cases hd : (b.pages_ f).is_dirty_ with
      | true =>
        rw [DeletePageImpl_dirty b p f hI.latch ht hp hd] at h
        cases h
      | false =>
        rw [DeletePageImpl_clean b p f hI.latch ht hp hd] at h
        cases h
        refine ⟨?_, rfl, rfl⟩
        have hfr := hI.table_frame p f ht
        have hinj : ∀ x g, b.page_table_ x = some g → x ≠ p → g ≠ f := by
          intro x g hx hxp hgf
          rw [hgf] at hx
          exact hxp ((hI.table_frame x f hx).2.2.1.symm.trans hfr.2.2.1)
        refine ⟨hI.latch, ?_, ?_, ?_, ?_, ?_, ?_, hI.repl⟩
        · intro x g hx
          simp only [tableErase] at hx
          by_cases hxp : x = p
          · rw [if_pos hxp] at hx; cases hx
          · rw [if_neg hxp] at hx
            have hgf := hinj x g hx hxp
            obtain ⟨h1, h2, h3, h4⟩ := hI.table_frame x g hx
            refine ⟨h1, h2, ?_, ?_⟩
            · simp only [if_neg hgf]; exact h3
            · simp only [List.mem_cons, not_or]
              exact ⟨hgf, h4⟩
        · intro x g hx
          simp only [tableErase] at hx
          by_cases hxp : x = p
          · rw [if_pos hxp] at hx; cases hx
          · rw [if_neg hxp] at hx
            exact hI.table_ids x g hx
        · simp only [List.nodup_cons]
          exact ⟨hfr.2.2.2, hI.free_nodup⟩
        · intro g hg
          simp only [List.mem_cons] at hg
          rcases hg with rfl | hg
          · exact ⟨hfr.1, hfr.2.1⟩
          · exact hI.free_range g hg
        · intro g hg
          by_cases hgf : g = f
          · simp only [hgf, if_true]; exact hd
          · simp only [if_neg hgf]
            simp only [List.mem_cons] at hg
            rcases hg with h1 | h1
            · exact absurd h1 hgf
            · exact hI.free_clean g h1
        · intro g h0 hn
          by_cases hgf : g = f
          · left; simp [hgf]
          · rcases hI.cover g h0 hn with h1 | ⟨x, hx⟩
            · left; exact List.mem_cons_of_mem _ h1
            · right
              refine ⟨x, ?_⟩
              have hxp : x ≠ p := by
                rintro rfl
                rw [ht] at hx; cases hx; exact hgf rfl
              simp only [tableErase, if_neg hxp]
              exact hx

theorem FlushAllPagesLoop_Inv (l : List frame_id_t) (b b' : BufferPoolManager)
    (hI : Inv b) (h : FlushAllPagesLoop b l = .ok b') :
    Inv b' ∧ b'.pool_size_ = b.pool_size_ ∧
      b'.disk_manager_.next_page_id_ = b.disk_manager_.next_page_id_ ∧
      b'.page_table_ = b.page_table_ := by
  induction l generalizing b with
  | nil =>
    simp only [FlushAllPagesLoop, pure, Except.pure] at h
    cases h
    exact ⟨hI, rfl, rfl, rfl⟩
  | cons i rest ih =>
    simp only [FlushAllPagesLoop, bind, Except.bind] at h
    cases hfl : FlushPageImpl b (b.pages_ i).page_id_ with
    | error e => rw [hfl] at h; cases h
    | ok rb =>
      obtain ⟨r, b1⟩ := rb
      rw [hfl] at h
      obtain ⟨hI1, hs1, hn1, ht1⟩ := FlushPageImpl_Inv b b1 _ r hI hfl
      obtain ⟨hI2, hs2, hn2, ht2⟩ := ih b1 hI1 h
      exact ⟨hI2, hs2.trans hs1, hn2.trans hn1, ht2.trans ht1⟩

theorem writeData_Inv (b : BufferPoolManager) (f : frame_id_t) (data : PageData)
    (hI : Inv b) : Inv (b.writeData f data) := by
  refine Inv_meta b _ hI rfl hI.latch rfl ?_ rfl ?_ (le_refl _) hI.repl
  · intro g
    simp only [writeData, setPage]
    by_cases hg : g = f
    · simp only [hg, if_true]
    · simp only [if_neg hg]
  · intro g hg
    simp only [writeData, setPage]
    by_cases hgf : g = f
    · simp only [hgf, if_true]
      rw [← hgf]; exact hI.free_clean g hg
    · simp only [if_neg hgf]
      exact hI.free_clean g hg

theorem Step_Good (c : Call) (ids ids' : List page_id_t) (b b' : BufferPoolManager)
    (hG : Good ids b) (h : Step c ids b ids' b') :
    Good ids' b' ∧ b'.pool_size_ = b.pool_size_ := by
  obtain ⟨hI, hids⟩ := hG
  cases h with
  | fetch_page hp hc =>
    obtain ⟨hI1, hs1, hn1⟩ := FetchPageImpl_Inv _ _ _ _ hI (hp.elim (hids _) id) hc
    exact ⟨⟨hI1, fun q hq => by rw [hn1]; exact hids q hq⟩, hs1⟩
  | new_page hc =>
    obtain ⟨hI1, hs1, hn1, hq1⟩ := NewPageImpl_Inv _ _ _ hI hc
    refine ⟨⟨hI1, ?_⟩, hs1⟩
    intro q hq
    simp only [List.mem_cons] at hq
    rcases hq with rfl | hq
    · exact hq1 _ _ rfl
    · exact lt_of_lt_of_le (hids q hq) hn1
  | new_page_none hc =>
    obtain ⟨hI1, hs1, hn1, _⟩ := NewPageImpl_Inv _ _ _ hI hc
    exact ⟨⟨hI1, fun q hq => lt_of_lt_of_le (hids q hq) hn1⟩, hs1⟩
  | unpin_page hc =>
    obtain ⟨hI1, hs1, hn1, _⟩ := UnpinPageImpl_Inv _ _ _ _ _ hI hc
    exact ⟨⟨hI1, fun q hq => by rw [hn1]; exact hids q hq⟩, hs1⟩
  | flush_page hc =>
    obtain ⟨hI1, hs1, hn1, _⟩ := FlushPageImpl_Inv _ _ _ _ hI hc
    exact ⟨⟨hI1, fun q hq => by rw [hn1]; exact hids q hq⟩, hs1⟩
  | delete_page hc =>
    obtain ⟨hI1, hs1, hn1⟩ := DeletePageImpl_Inv _ _ _ _ hI hc
    exact ⟨⟨hI1, fun q hq => by rw [hn1]; exact hids q hq⟩, hs1⟩
  | flush_all_pages hc =>
    obtain ⟨hI1, hs1, hn1, _⟩ := FlushAllPagesLoop_Inv _ _ _ hI hc
    exact ⟨⟨hI1, fun q hq => by rw [hn1]; exact hids q hq⟩, hs1⟩
  | write_data f data =>
    exact ⟨⟨writeData_Inv _ f data hI, hids⟩, rfl⟩

theorem Calls_Good (cs : List Call) (ids ids' : List page_id_t) (b b' : BufferPoolManager)
    (hG : Good ids b) (h : Calls cs ids b ids' b') :
    Good ids' b' ∧ b'.pool_size_ = b.pool_size_ := by
  induction h with
  | nil => exact ⟨hG, rfl⟩
  | cons hs _ ih =>
    obtain ⟨hG1, hs1⟩ := Step_Good _ _ _ _ _ hG hs
    obtain ⟨hG2, hs2⟩ := ih hG1
    exact ⟨hG2, hs2.trans hs1⟩

/-- Every state of a run satisfies the invariant, has the pool size it was built with, and
every id that `new_page` returned is below the disk's id counter. -/
theorem Run_Inv (n : Nat) (d : DiskManager) (ids : List page_id_t) (b : BufferPoolManager)
    (h : Run n d ids b) :
    Inv b ∧ b.pool_size_ = n ∧ ∀ p ∈ ids, p < b.disk_manager_.next_page_id_ := by
  obtain ⟨cs, hcs⟩ := h
  obtain ⟨⟨hI, hids⟩, hs⟩ :=
    Calls_Good cs _ _ _ _ ⟨Inv_new n d, fun p hp => by simp at hp⟩ hcs
  exact ⟨hI, hs, hids⟩

theorem evictWrite_pages_clean (d : DiskManager) (pg : Page) (h : pg.is_dirty_ = false) :
    evictWrite d pg = d := by
  simp [evictWrite, h]

theorem evictWrite_pages_ne (d : DiskManager) (pg : Page) (q : page_id_t)
    (h : q ≠ pg.page_id_) : (evictWrite d pg).pages q = d.pages q := by
  unfold evictWrite
  split
  · simp only [DiskManager.WritePage, if_neg h]
  · rfl

theorem evictWrite_pages_dirty (d : DiskManager) (pg : Page) (h : pg.is_dirty_ = true) :
    (evictWrite d pg).pages pg.page_id_ = pg.data_ := by
  simp [evictWrite, h, DiskManager.WritePage]

theorem FetchPageImpl_away (b b' : BufferPoolManager) (p q : page_id_t)
    (r : Option frame_id_t) (hI : Inv b) (hpq : p ≠ q) (hq : b.page_table_ q = none)
    (h : FetchPageImpl b p = .ok (r, b')) :
    b'.page_table_ q = none ∧ b'.disk_manager_.pages q = b.disk_manager_.pages q := by
  have hqp : q ≠ p := fun hc => hpq hc.symm
  cases ht : b.page_table_ p with
  | some f =>
    rw [FetchPageImpl_resident b p f hI.latch ht] at h
    cases h
    exact ⟨hq, rfl⟩
  | none =>
    cases hf : b.free_list_ with
    | cons f rest =>
      rw [FetchPageImpl_free b p f rest hI.latch ht hf] at h
      cases h
      have hfm : f ∈ b.free_list_ := by rw [hf]; simp
      refine ⟨?_, ?_⟩
      · simp only [tableSet, if_neg hqp]; exact hq
      · simp only [evictWrite_pages_clean _ _ (hI.free_clean f hfm)]
    | nil =>
      by_cases hr : b.replacer_.lru_map = []
      · rw [FetchPageImpl_exhausted b p hI.latch ht hf hr] at h
        cases h
        exact ⟨hq, rfl⟩
      · rw [FetchPageImpl_victim b p hI.latch ht hf hr] at h
        cases h
        obtain ⟨_, hres, _⟩ := victim_entry b hI hf hr
        refine ⟨?_, ?_⟩
        · simp only [tableSet, if_neg hqp, tableErase]
          split
          · rfl
          · exact hq
        · apply evictWrite_pages_ne
          intro hc
          rw [← hc, hq] at hres
          cases hres

theorem FetchPageImpl_reads (b b' : BufferPoolManager) (q : page_id_t) (g : frame_id_t)
    (hI : Inv b) (hq : b.page_table_ q = none)
    (h : FetchPageImpl b q = .ok (some g, b')) :
    (b'.pages_ g).data_ = b.disk_manager_.pages q := by
  cases hf : b.free_list_ with
  | cons f rest =>
    rw [FetchPageImpl_free b q f rest hI.latch hq hf] at h
    have hfm : f ∈ b.free_list_ := by rw [hf]; simp
    cases h
    simp only [if_true, evictWrite_pages_clean _ _ (hI.free_clean _ hfm), DiskManager.ReadPage]
  | nil =>
    by_cases hr : b.replacer_.lru_map = []
    · rw [FetchPageImpl_exhausted b q hI.latch hq hf hr] at h
      cases h
    · rw [FetchPageImpl_victim b q hI.latch hq hf hr] at h
      cases h
      obtain ⟨_, hres, _⟩ := victim_entry b hI hf hr
      simp only [if_true, DiskManager.ReadPage]
      apply evictWrite_pages_ne
      intro hc
      rw [← hc, hq] at hres
      cases hres

theorem FetchPageImpl_evicts (b b' : BufferPoolManager) (p q : page_id_t) (f : frame_id_t)
    (hI : Inv b) (hq : b.page_table_ q = some f) (hd : (b.pages_ f).is_dirty_ = true)
    (hp : b.page_table_ p = none) (h : FetchPageImpl b p = .ok (some f, b')) :
    b'.page_table_ q = none ∧ b'.disk_manager_.pages q = (b.pages_ f).data_ := by
  have hfr := hI.table_frame q f hq
  have hqp : q ≠ p := by rintro rfl; rw [hp] at hq; cases hq
  cases hf : b.free_list_ with
  | cons f' rest =>
    rw [FetchPageImpl_free b p f' rest hI.latch hp hf] at h
    cases h
    exact absurd (by rw [hf]; simp) hfr.2.2.2
  | nil =>
    by_cases hr : b.replacer_.lru_map = []
    · rw [FetchPageImpl_exhausted b p hI.latch hp hf hr] at h
      cases h
    · rw [FetchPageImpl_victim b p hI.latch hp hf hr] at h
      simp only [Except.ok.injEq, Prod.mk.injEq, Option.some.injEq] at h
      obtain ⟨h1, h2⟩ := h
      subst h2
      rw [h1]
      refine ⟨?_, ?_⟩
      · simp only [tableSet, if_neg hqp, tableErase, hfr.2.2.1, if_true]
      · have := evictWrite_pages_dirty b.disk_manager_ (b.pages_ f) hd
        rw [hfr.2.2.1] at this
        exact this

theorem NewPageImpl_away (b b' : BufferPoolManager) (q : page_id_t)
    (r : Option (page_id_t × frame_id_t)) (hI : Inv b) (hq : b.page_table_ q = none)
    (hqn : q < b.disk_manager_.next_page_id_) (h : NewPageImpl b = .ok (r, b')) :
    b'.page_table_ q = none ∧ b'.disk_manager_.pages q = b.disk_manager_.pages q := by
  have hqp : q ≠ b.disk_manager_.next_page_id_ := ne_of_lt hqn
  cases hf : b.free_list_ with
  | cons f rest =>
    rw [NewPageImpl_free b f rest hI.latch hf] at h
    cases h
    refine ⟨?_, rfl⟩
    simp only [tableSet, if_neg hqp]; exact hq
  | nil =>
    by_cases hr : b.replacer_.lru_map = []
    · rw [NewPageImpl_exhausted b hI.latch hf hr] at h
      cases h
      exact ⟨hq, rfl⟩
    · rw [NewPageImpl_victim b hI.latch hf hr] at h
      cases h
      obtain ⟨_, hres, _⟩ := victim_entry b hI hf hr
      refine ⟨?_, ?_⟩
      · simp only [tableSet, if_neg hqp, tableErase]
        split
        · rfl
        · exact hq
      · show (evictWrite b.disk_manager_ _).pages q = _
        apply evictWrite_pages_ne
        intro hc
        rw [← hc, hq] at hres
        cases hres

theorem NewPageImpl_evicts (b b' : BufferPoolManager) (p q : page_id_t) (f : frame_id_t)
    (hI : Inv b) (hq : b.page_table_ q = some f) (hd : (b.pages_ f).is_dirty_ = true)
    (h : NewPageImpl b = .ok (some (p, f), b')) :
    b'.page_table_ q = none ∧ b'.disk_manager_.pages q = (b.pages_ f).data_ := by
  have hfr := hI.table_frame q f hq
  have hqp : q ≠ b.disk_manager_.next_page_id_ := ne_of_lt (hI.table_ids q f hq)
  cases hf : b.free_list_ with
  | cons f' rest =>
    rw [NewPageImpl_free b f' rest hI.latch hf] at h
    cases h
    exact absurd (by rw [hf]; simp) hfr.2.2.2
  | nil =>
    by_cases hr : b.replacer_.lru_map = []
    · rw [NewPageImpl_exhausted b hI.latch hf hr] at h
      cases h
    · rw [NewPageImpl_victim b hI.latch hf hr] at h
      simp only [Except.ok.injEq, Prod.mk.injEq, Option.some.injEq] at h
      obtain ⟨⟨_, h1⟩, h2⟩ := h
      subst h2
      rw [h1]
      refine ⟨?_, ?_⟩
      · simp only [tableSet, if_neg hqp, tableErase, hfr.2.2.1, if_true]
      · have := evictWrite_pages_dirty b.disk_manager_ (b.pages_ f) hd
        rw [hfr.2.2.1] at this
        exact this

theorem FlushPageImpl_away (b b' : BufferPoolManager) (p q : page_id_t) (r : Bool)
    (hI : Inv b) (hq : b.page_table_ q = none) (h : FlushPageImpl b p = .ok (r, b')) :
    b'.disk_manager_.pages q = b.disk_manager_.pages q := by
  cases ht : b.page_table_ p with
  | none =>
    rw [FlushPageImpl_absent b p hI.latch ht] at h
    cases h
    rfl
  | some f =>
    rw [FlushPageImpl_resident b p f hI.latch ht] at h
    cases h
    have hqp : q ≠ p := by rintro rfl; rw [ht] at hq; cases hq
    simp only [DiskManager.WritePage, if_neg hqp]

theorem DeletePageImpl_away (b b' : BufferPoolManager) (p q : page_id_t) (r : Bool)
    (hI : Inv b) (hq : b.page_table_ q = none) (h : DeletePageImpl b p = .ok (r, b')) :
    b'.page_table_ q = none := by
  cases ht : b.page_table_ p with
  | none =>
    rw [DeletePageImpl_absent b p hI.latch ht] at h
    cases h
    exact hq
  | some f =>
    by_cases hp : 0 < (b.pages_ f).pin_count_
    · rw [DeletePageImpl_pinned b p f hI.latch ht hp] at h
      cases h
      exact hq
    · cases hd : (b.pages_ f).is_dirty_ with
      | true =>
        rw [DeletePageImpl_dirty b p f hI.latch ht hp hd] at h
        cases h
      | false =>
        rw [DeletePageImpl_clean b p f hI.latch ht hp hd] at h
        cases h
        simp only [tableErase]
        split
        · rfl
        · exact hq

theorem FlushAllPagesLoop_away (l : List frame_id_t) (b b' : BufferPoolManager) (q : page_id_t)
    (hI : Inv b) (hq : b.page_table_ q = none) (h : FlushAllPagesLoop b l = .ok b') :
    b'.disk_manager_.pages q = b.disk_manager_.pages q := by
  induction l generalizing b with
  | nil =>
    simp only [FlushAllPagesLoop, pure, Except.pure] at h
    cases h
    rfl
  | cons i rest ih =>
    simp only [FlushAllPagesLoop, bind, Except.bind] at h
    cases hfl : FlushPageImpl b (b.pages_ i).page_id_ with
    | error e => rw [hfl] at h; cases h
    | ok rb =>
      obtain ⟨r, b1⟩ := rb
      rw [hfl] at h
      obtain ⟨hI1, _, _, ht1⟩ := FlushPageImpl_Inv b b1 _ r hI hfl
      have h1 := FlushPageImpl_away b b1 _ q r hI hq hfl
      have h2 := ih b1 hI1 (by rw [ht1]; exact hq) h
      exact h2.trans h1

/-- A call other than `fetch_page(q)` leaves a non-resident page `q` non-resident and leaves
the bytes stored under `q` on disk as they are. -/
theorem Step_away (c : Call) (ids ids' : List page_id_t) (b b' : BufferPoolManager)
    (q : page_id_t) (hG : Good ids b) (h : Step c ids b ids' b')
    (hq : b.page_table_ q = none) (hqn : q < b.disk_manager_.next_page_id_)
    (hc : c ≠ Call.fetch_page q) :
    b'.page_table_ q = none ∧ q < b'.disk_manager_.next_page_id_ ∧
      b'.disk_manager_.pages q = b.disk_manager_.pages q := by
  obtain ⟨hI, hids⟩ := hG
  cases h with
  | @fetch_page _ _ p _ _ hp hf =>
    have hpq : p ≠ q := by rintro rfl; exact hc rfl
    obtain ⟨h1, h2⟩ := FetchPageImpl_away _ _ p q _ hI hpq hq hf
    obtain ⟨_, _, hn1⟩ := FetchPageImpl_Inv _ _ _ _ hI (hp.elim (hids _) id) hf
    exact ⟨h1, by rw [hn1]; exact hqn, h2⟩
  | new_page hf =>
    obtain ⟨h1, h2⟩ := NewPageImpl_away _ _ q _ hI hq hqn hf
    obtain ⟨_, _, hn1, _⟩ := NewPageImpl_Inv _ _ _ hI hf
    exact ⟨h1, lt_of_lt_of_le hqn hn1, h2⟩
  | new_page_none hf =>
    obtain ⟨h1, h2⟩ := NewPageImpl_away _ _ q _ hI hq hqn hf
    obtain ⟨_, _, hn1, _⟩ := NewPageImpl_Inv _ _ _ hI hf
    exact ⟨h1, lt_of_lt_of_le hqn hn1, h2⟩
  | unpin_page hf =>
    obtain ⟨_, _, hd1, ht1⟩ := UnpinPageImpl_Inv _ _ _ _ _ hI hf
    exact ⟨by rw [ht1]; exact hq, by rw [hd1]; exact hqn, by rw [hd1]⟩
  | flush_page hf =>
    obtain ⟨_, _, hn1, ht1⟩ := FlushPageImpl_Inv _ _ _ _ hI hf
    exact ⟨by rw [ht1]; exact hq, by rw [hn1]; exact hqn,
      FlushPageImpl_away _ _ _ q _ hI hq hf⟩
  | delete_page hf =>
    obtain ⟨_, _, hd1⟩ := DeletePageImpl_Inv _ _ _ _ hI hf
    exact ⟨DeletePageImpl_away _ _ _ q _ hI hq hf, by rw [hd1]; exact hqn, by rw [hd1]⟩
  | flush_all_pages hf =>
    obtain ⟨_, _, hn1, ht1⟩ := FlushAllPagesLoop_Inv _ _ _ hI hf
    exact ⟨by rw [ht1]; exact hq, by rw [hn1]; exact hqn,
      FlushAllPagesLoop_away _ _ _ q hI hq hf⟩
  | write_data f data =>
    exact ⟨hq, hqn, rfl⟩

theorem Calls_away (cs : List Call) (ids ids' : List page_id_t) (b b' : BufferPoolManager)
    (q : page_id_t) (hG : Good ids b) (h : Calls cs ids b ids' b')
    (hq : b.page_table_ q = none) (hqn : q < b.disk_manager_.next_page_id_)
    (hc : Call.fetch_page q ∉ cs) :
    Good ids' b' ∧ b'.page_table_ q = none ∧
      b'.disk_manager_.pages q = b.disk_manager_.pages q := by
  induction h with
  | nil => exact ⟨hG, hq, rfl⟩
  | @cons c cs ids b ids1 b1 ids2 b2 hs _ ih =>
    have hne : c ≠ Call.fetch_page q := by
      rintro rfl; exact hc (List.mem_cons_self _ _)
    obtain ⟨hG1, _⟩ := Step_Good _ _ _ _ _ hG hs
    obtain ⟨h1, h2, h3⟩ := Step_away c ids ids1 b b1 q hG hs hq hqn hne
    obtain ⟨hG2, h4, h5⟩ := ih hG1 h1 h2 (fun hm => hc (List.mem_cons_of_mem _ hm))
    exact ⟨hG2, h4, h5.trans h3⟩

theorem filledPool_zero (n : Nat) (d : DiskManager) :
    filledPool n d 0 = BufferPoolManager.new n d := by
  simp only [filledPool, BufferPoolManager.new, Nat.cast_zero, add_zero, Nat.sub_zero,
    List.range_eq_range', BufferPoolManager.mk.injEq, true_and, and_true]
  refine ⟨?_, ?_⟩
  · funext f
    have : ¬ (0 ≤ f ∧ f < 0) := fun h => absurd h.2 (not_lt.mpr h.1)
    rw [if_neg this]
  · funext p
    have : ¬ (d.next_page_id_ ≤ p ∧ p < d.next_page_id_) :=
      fun h => absurd h.2 (not_lt.mpr h.1)
    rw [if_neg this]

theorem NewPageImpl_filledPool (n : Nat) (d : DiskManager) (k : Nat) (hk : k < n) :
    (filledPool n d k).NewPageImpl =
      .ok (some (d.next_page_id_ + (k : Int), (k : Int)), filledPool n d (k + 1)) := by
  have hfree : (filledPool n d k).free_list_ =
      (k : Int) :: (List.range' (k + 1) (n - (k + 1))).map (fun i : Nat => (i : Int)) := by
    have : n - k = (n - (k + 1)) + 1 := by omega
    simp only [filledPool, this, List.range'_succ, List.map_cons]
  rw [NewPageImpl_free _ _ _ rfl hfree]
  simp only [filledPool, DiskManager.AllocatePage, Nat.cast_add, Nat.cast_one,
    Except.ok.injEq, Prod.mk.injEq, BufferPoolManager.mk.injEq, DiskManager.mk.injEq, true_and,
    and_true]
  refine ⟨?_, ?_, ?_⟩
  · funext (f : Int)
    by_cases hf : f = (k : Int)
    · subst hf
      have h1 : (0 : Int) ≤ (k : Int) ∧ (k : Int) < (k : Int) + 1 := by omega
      have h2 : ¬ ((0 : Int) ≤ (k : Int) ∧ (k : Int) < (k : Int)) := by omega
      simp only [if_true, if_pos h1, if_neg h2]
    · rw [if_neg hf]
      by_cases h1 : 0 ≤ f ∧ f < (k : Int)
      · have h2 : 0 ≤ f ∧ f < (k : Int) + 1 := by omega
        rw [if_pos h1, if_pos h2]
      · have h2 : ¬ (0 ≤ f ∧ f < (k : Int) + 1) := by omega
        rw [if_neg h1, if_neg h2]
  · funext (p : Int)
    simp only [tableSet]
    obtain ⟨nx, hnx⟩ : ∃ nx : Int, nx = d.next_page_id_ := ⟨_, rfl⟩
    rw [← hnx]
    by_cases hp : p = nx + (k : Int)
    · subst hp
      have h1 : nx ≤ nx + (k : Int) ∧
          nx + (k : Int) < nx + ((k : Int) + 1) := by omega
      rw [if_pos rfl, if_pos h1]
      congr 1
      ring
    · rw [if_neg hp]
      by_cases h1 : nx ≤ p ∧ p < nx + (k : Int)
      · have h2 : nx ≤ p ∧ p < nx + ((k : Int) + 1) := by omega
        rw [if_pos h1, if_pos h2]
      · have h2 : ¬ (nx ≤ p ∧ p < nx + ((k : Int) + 1)) := by omega
        rw [if_neg h1, if_neg h2]
  · rw [add_assoc]

theorem newPages_filledPool (n : Nat) (d : DiskManager) (j k : Nat) (h : k + j ≤ n) :
    newPages j (filledPool n d k) =
      .ok ((List.range' k j).map
        (fun i : Nat => some (d.next_page_id_ + (i : Int), (i : Int))), filledPool n d (k + j)) := by
  induction j generalizing k with
  | zero => rfl
  | succ j ih =>
    have h1 := ih (k + 1) (by omega)
    have h2 : k + 1 + j = k + (j + 1) := by omega
    simp only [newPages, bind, Except.bind, NewPageImpl_filledPool n d k (by omega), h1,
      pure, Except.pure, List.range'_succ, List.map_cons, h2]

theorem filledPool_full_free (n : Nat) (d : DiskManager) :
    (filledPool n d n).free_list_ = [] := by
  simp [filledPool]

end BufferPoolManager

/-! ## The claims about the buffer pool -/

/-- C7. In every state that a pool of size `n` reaches from its constructor (`fetch_page` being
called only with ids that `new_page` returned before, or that lie below the disk's id counter):
whenever the page table maps `p` to `f`, frame `f` holds page id `p` and is not on the free
list; and every frame `0 ≤ f < n` is either on the free list exactly once and the image of no
page-table entry, or off the free list and the image of exactly one page-table entry. -/
theorem page_table_invariant (n : Nat) (d : DiskManager) (ids : List page_id_t)
    (b : BufferPoolManager) (h : Run n d ids b) :
    (∀ p f, b.page_table_ p = some f → (b.pages_ f).page_id_ = p ∧ f ∉ b.free_list_) ∧
    (∀ f : frame_id_t, 0 ≤ f → f < (n : Int) →
      (b.free_list_.count f = 1 ∧ ∀ p, b.page_table_ p ≠ some f) ∨
      (f ∉ b.free_list_ ∧ ∃! p, b.page_table_ p = some f)) := by
  obtain ⟨hI, hs, _⟩ := Run_Inv n d ids b h
  refine ⟨fun p f hp => ⟨(hI.table_frame p f hp).2.2.1, (hI.table_frame p f hp).2.2.2⟩, ?_⟩
  intro f h0 hn
  rw [← hs] at hn
  rcases hI.cover f h0 hn with hfree | ⟨p, hp⟩
  · left
    refine ⟨List.count_eq_one_of_mem hI.free_nodup hfree, ?_⟩
    intro p hp
    exact (hI.table_frame p f hp).2.2.2 hfree
  · right
    refine ⟨(hI.table_frame p f hp).2.2.2, p, hp, ?_⟩
    intro q hq
    exact ((hI.table_frame q f hq).2.2.1).symm.trans (hI.table_frame p f hp).2.2.1

/-- Witness for C7: the pool of two frames after one `new_page`. -/
theorem page_table_invariant_witness :
    Run 2 DiskManager.fresh [1] x1 ∧
    (∀ p f, x1.page_table_ p = some f → (x1.pages_ f).page_id_ = p ∧ f ∉ x1.free_list_) ∧
    (∀ f : frame_id_t, 0 ≤ f → f < ((2 : Nat) : Int) →
      (x1.free_list_.count f = 1 ∧ ∀ p, x1.page_table_ p ≠ some f) ∨
      (f ∉ x1.free_list_ ∧ ∃! p, x1.page_table_ p = some f)) :=
  have hrun : Run 2 DiskManager.fresh [1] x1 :=
    ⟨[Call.new_page],
      Calls.cons (Step.new_page rfl :
        Step Call.new_page [] (BufferPoolManager.new 2 DiskManager.fresh) [1] x1) Calls.nil⟩
  ⟨hrun, page_table_invariant 2 DiskManager.fresh [1] x1 hrun⟩

/-- C8. From the constructor of a pool of size `n`, `n` calls of `new_page` in a row succeed;
call number `i` returns frame `i`, so the frames are pairwise distinct, and a frame handed out
has pin count 1 after every one of these calls. After them `new_page`, and `fetch_page` of any
page that is not resident, return none and give back the pool state unchanged: page table,
frames, free list, replacer and disk (with its id counter). -/
theorem pool_exhaustion (n : Nat) (d : DiskManager) :
    ∃ b : BufferPoolManager,
      newPages n (BufferPoolManager.new n d) =
        .ok ((List.range n).map
          (fun i : Nat => some (d.next_page_id_ + (i : Int), (i : Int))), b) ∧
      ((List.range n).map (fun i : Nat => (i : Int))).Nodup ∧
      (∀ j i : Nat, i < j → j ≤ n → ∃ rs bj,
        newPages j (BufferPoolManager.new n d) = .ok (rs, bj) ∧ (bj.pages_ i).pin_count_ = 1) ∧
      b.NewPageImpl = .ok (none, b) ∧
      ∀ p, b.page_table_ p = none → b.FetchPageImpl p = .ok (none, b) := by
  refine ⟨filledPool n d n, ?_, ?_, ?_, ?_, ?_⟩
  · have := newPages_filledPool n d n 0 (by omega)
    rw [filledPool_zero, Nat.zero_add] at this
    rw [this, List.range_eq_range']
  · exact (List.nodup_range n).map (fun a c h => by exact_mod_cast h)
  · intro j i hi hj
    have := newPages_filledPool n d j 0 (by omega)
    rw [filledPool_zero, Nat.zero_add] at this
    refine ⟨_, _, this, ?_⟩
    have hin : (0 : Int) ≤ (i : Int) ∧ (i : Int) < (j : Int) := by omega
    simp only [filledPool, if_pos hin]
  · exact NewPageImpl_exhausted _ rfl (filledPool_full_free n d) rfl
  · intro p hp
    exact FetchPageImpl_exhausted _ p rfl hp (filledPool_full_free n d) rfl

/-- C9. In a pool of size `n` filled by `n` calls of `new_page`, let `p` be the page that call
number `i < n` returned (it sits in frame `i`). After `unpin_page(p, false)` the next `new_page`
succeeds and returns frame `i` with the id that the disk hands out next: `p` is no longer in the
page table, the new id is mapped to frame `i`, the frame has pin count 1, is dirty and its bytes
are zero; every other frame and every other page-table entry is as it was. -/
theorem eviction_after_unpin (n : Nat) (d : DiskManager) (i : Nat) (hi : i < n) :
    ∃ (rs : List (Option (page_id_t × frame_id_t))) (b0 b1 b2 : BufferPoolManager),
      newPages n (BufferPoolManager.new n d) = .ok (rs, b0) ∧
      rs.get? i = some (some (d.next_page_id_ + (i : Int), (i : Int))) ∧
      b0.UnpinPageImpl (d.next_page_id_ + (i : Int)) false = .ok (true, b1) ∧
      b1.NewPageImpl = .ok (some (d.next_page_id_ + (n : Int), (i : Int)), b2) ∧
      b0.page_table_ (d.next_page_id_ + (i : Int)) = some (i : Int) ∧
      b2.page_table_ (d.next_page_id_ + (i : Int)) = none ∧
      b2.page_table_ (d.next_page_id_ + (n : Int)) = some (i : Int) ∧
      (b2.pages_ i).page_id_ = d.next_page_id_ + (n : Int) ∧
      (b2.pages_ i).pin_count_ = 1 ∧
      (b2.pages_ i).is_dirty_ = true ∧
      (b2.pages_ i).data_ = PageData.zero ∧
      (∀ g : frame_id_t, g ≠ (i : Int) → b2.pages_ g = b0.pages_ g) ∧
      (∀ q : page_id_t, q ≠ d.next_page_id_ + (i : Int) → q ≠ d.next_page_id_ + (n : Int) →
        b2.page_table_ q = b0.page_table_ q) := by
  have hrun := newPages_filledPool n d n 0 (by omega)
  rw [filledPool_zero, Nat.zero_add] at hrun
  have hin : (0 : Int) ≤ (i : Int) ∧ (i : Int) < (n : Int) := by omega
  have ht : (filledPool n d n).page_table_ (d.next_page_id_ + (i : Int)) = some (i : Int) := by
    have h1 : d.next_page_id_ ≤ d.next_page_id_ + (i : Int) ∧
        d.next_page_id_ + (i : Int) < d.next_page_id_ + (n : Int) :=
      ⟨by linarith, by linarith⟩
    simp only [filledPool, if_pos h1]
    congr 1
    ring
  have hpg : (filledPool n d n).pages_ (i : Int) =
      { page_id_ := d.next_page_id_ + (i : Int), pin_count_ := 1, is_dirty_ := true } := by
    simp only [filledPool, if_pos hin]
  have hpin : ((filledPool n d n).pages_ (i : Int)).pin_count_ ≠ 0 := by
    rw [hpg]; exact one_ne_zero
  have hu := UnpinPageImpl_pinned (filledPool n d n) _ false (i : Int) rfl ht hpin
  generalize hb1 : ({ (filledPool n d n) with
      pages_ := fun g => if g = (i : Int) then
        { ((filledPool n d n).pages_ (i : Int)) with
            is_dirty_ := (((filledPool n d n).pages_ (i : Int)).is_dirty_ || false),
            pin_count_ := ((filledPool n d n).pages_ (i : Int)).pin_count_ - 1 }
        else (filledPool n d n).pages_ g,
      replacer_ := if ((filledPool n d n).pages_ (i : Int)).pin_count_ - 1 = 0 then
          (filledPool n d n).replacer_.Unpin (i : Int)
        else (filledPool n d n).replacer_ } : BufferPoolManager) = b1 at hu
  have hl1 : b1.latch_ = false := by rw [← hb1]; rfl
  have hf1 : b1.free_list_ = [] := by rw [← hb1]; exact filledPool_full_free n d
  have hr1 : b1.replacer_ = { num_pages := n, lru_bucket_list := [(i : Int)], lru_map := [(i : Int)] } := by
    rw [← hb1]
    simp only [hpg]
    simp [filledPool, LRUReplacer.Unpin]
  have hp1 : ∀ g, b1.pages_ g = if g = (i : Int) then
      { page_id_ := d.next_page_id_ + (i : Int), pin_count_ := 0, is_dirty_ := true }
      else (filledPool n d n).pages_ g := by
    intro g
    rw [← hb1]
    by_cases hg : g = (i : Int)
    · simp only [hg, if_true, hpg, Bool.or_false]
      rfl
    · simp only [if_neg hg]
  have ht1 : b1.page_table_ = (filledPool n d n).page_table_ := by rw [← hb1]
  have hd1 : b1.disk_manager_ = (filledPool n d n).disk_manager_ := by rw [← hb1]
  have hv := NewPageImpl_victim b1 hl1 hf1 (by rw [hr1]; simp)
  have hlast : b1.replacer_.lru_bucket_list.getLastD (-1) = (i : Int) := by rw [hr1]; rfl
  have hnext : b1.disk_manager_.next_page_id_ = d.next_page_id_ + (n : Int) := by rw [hd1]; rfl
  rw [hlast, hnext] at hv
  refine ⟨_, filledPool n d n, b1, _, hrun, ?_, hu, hv, ht, ?_⟩
  · rw [List.get?_eq_getElem?, List.getElem?_map, List.getElem?_range' _ _ (by omega)]
    simp
  · have hne : d.next_page_id_ + (i : Int) ≠ d.next_page_id_ + (n : Int) := by
      intro h; have : (i : Int) = n := by linarith
      omega
    simp only [hlast, hnext, hp1, if_true, tableSet, tableErase, ht1, if_neg hne]
    refine ⟨trivial, trivial, trivial, trivial, trivial, trivial, ?_, ?_⟩
    · intro g hg
      simp only [if_neg hg]
    · intro q hq1 hq2
      simp only [if_neg hq1, if_neg hq2]

/-- Witness for C9: pool of size 3 over a fresh disk, the page of the second call (page 2, in
frame 1) is unpinned. -/
theorem eviction_after_unpin_witness :
    (1 : Nat) < 3 ∧
    ∃ (rs : List (Option (page_id_t × frame_id_t))) (b0 b1 b2 : BufferPoolManager),
      newPages 3 (BufferPoolManager.new 3 DiskManager.fresh) = .ok (rs, b0) ∧
      rs.get? 1 = some (some (2, 1)) ∧
      b0.UnpinPageImpl 2 false = .ok (true, b1) ∧
      b1.NewPageImpl = .ok (some (4, 1), b2) ∧
      b2.page_table_ 2 = none ∧ b2.page_table_ 4 = some 1 ∧
      (b2.pages_ 1).pin_count_ = 1 ∧ (b2.pages_ 1).is_dirty_ = true ∧
      (b2.pages_ 1).data_ = PageData.zero ∧
      ∀ g : frame_id_t, g ≠ 1 → b2.pages_ g = b0.pages_ g := by
  refine ⟨by decide, ?_⟩
  obtain ⟨rs, b0, b1, b2, h1, h2, h3, h4, _, h6, h7, _, h9, h10, h11, h12, _⟩ :=
    eviction_after_unpin 3 DiskManager.fresh 1 (by decide)
  exact ⟨rs, b0, b1, b2, h1, h2, h3, h4, h6, h7, h9, h10, h11, h12⟩

/-- C10. Let `b` be a state that a pool reaches from its constructor (`fetch_page` being called
only with ids that `new_page` returned before, or that lie below the disk's id counter), in
which page `q` is resident in frame `f` and the frame is dirty. If `fetch_page(p)` for another
page `p`, or `new_page`, returns frame `f` (it evicts `q`), then afterwards the disk holds under
id `q` exactly the bytes that frame `f` held before the call. Consequently, after any further
calls that do not fetch `q`, a `fetch_page(q)` that returns a frame returns it with those
bytes. -/
theorem dirty_victim_written_back (n : Nat) (d : DiskManager) (ids : List page_id_t)
    (b : BufferPoolManager) (h : Run n d ids b) (q : page_id_t) (f : frame_id_t)
    (hq : b.page_table_ q = some f) (hd : (b.pages_ f).is_dirty_ = true) :
    (∀ p b1, (p ∈ ids ∨ p < b.disk_manager_.next_page_id_) → p ≠ q →
      b.FetchPageImpl p = .ok (some f, b1) →
      b1.disk_manager_.pages q = (b.pages_ f).data_ ∧
      ∀ cs ids2 b2 g b3, Calls cs ids b1 ids2 b2 → Call.fetch_page q ∉ cs →
        b2.FetchPageImpl q = .ok (some g, b3) → (b3.pages_ g).data_ = (b.pages_ f).data_) ∧
    (∀ p b1, b.NewPageImpl = .ok (some (p, f), b1) →
      b1.disk_manager_.pages q = (b.pages_ f).data_ ∧
      ∀ cs ids2 b2 g b3, Calls cs (p :: ids) b1 ids2 b2 → Call.fetch_page q ∉ cs →
        b2.FetchPageImpl q = .ok (some g, b3) → (b3.pages_ g).data_ = (b.pages_ f).data_) := by
  obtain ⟨hI, _, hids⟩ := Run_Inv n d ids b h
  have hG : Good ids b := ⟨hI, hids⟩
  have hqn := hI.table_ids q f hq
  have hfr := hI.table_frame q f hq
  constructor
  · intro p b1 hp hpq hf
    have hpt : b.page_table_ p = none := by
      cases ht : b.page_table_ p with
      | none => rfl
      | some f' =>
        rw [FetchPageImpl_resident b p f' hI.latch ht] at hf
        simp only [Except.ok.injEq, Prod.mk.injEq, Option.some.injEq] at hf
        rw [hf.1] at ht
        exact absurd ((hI.table_frame p f ht).2.2.1.symm.trans hfr.2.2.1) hpq
    obtain ⟨h1, h2⟩ := FetchPageImpl_evicts b b1 p q f hI hq hd hpt hf
    obtain ⟨hG1, _⟩ := Step_Good _ _ _ _ _ hG (Step.fetch_page hp hf)
    obtain ⟨_, _, hn1⟩ := FetchPageImpl_Inv _ _ _ _ hI (hp.elim (hids _) id) hf
    refine ⟨h2, ?_⟩
    intro cs ids2 b2 g b3 hcs hnot hf2
    obtain ⟨hG2, h3, h4⟩ := Calls_away cs _ _ _ _ q hG1 hcs h1 (by rw [hn1]; exact hqn) hnot
    rw [FetchPageImpl_reads b2 b3 q g hG2.1 h3 hf2, h4, h2]
  · intro p b1 hf
    obtain ⟨h1, h2⟩ := NewPageImpl_evicts b b1 p q f hI hq hd hf
    obtain ⟨hG1, _⟩ := Step_Good _ _ _ _ _ hG (Step.new_page hf)
    obtain ⟨_, _, hn1, _⟩ := NewPageImpl_Inv _ _ _ hI hf
    refine ⟨h2, ?_⟩
    intro cs ids2 b2 g b3 hcs hnot hf2
    obtain ⟨hG2, h3, h4⟩ := Calls_away cs _ _ _ _ q hG1 hcs h1 (lt_of_lt_of_le hqn hn1) hnot
    rw [FetchPageImpl_reads b2 b3 q g hG2.1 h3 hf2, h4, h2]

theorem w3_run : Run 1 DiskManager.fresh [1] w3 :=
  ⟨[Call.new_page, Call.write_data 0 exampleData, Call.unpin_page 1 true],
    Calls.cons (Step.new_page rfl : Step Call.new_page [] w0 [1] w1)
      (Calls.cons (Step.write_data 0 exampleData : Step _ [1] w1 [1] w2)
        (Calls.cons (Step.unpin_page (r := true) rfl :
          Step (Call.unpin_page 1 true) [1] w2 [1] w3) Calls.nil))⟩

/-- Witness for C10: in a pool of one frame, page 1 is created, written, unpinned as dirty and
evicted by `new_page`; after `unpin_page(2, false)`, `fetch_page(1)` brings the written bytes
back. -/
theorem dirty_victim_written_back_witness :
    Run 1 DiskManager.fresh [1] w3 ∧ w3.page_table_ 1 = some 0 ∧
      (w3.pages_ 0).is_dirty_ = true ∧ (w3.pages_ 0).data_ = exampleData ∧
      w3.NewPageImpl = .ok (some (2, 0), w4) ∧
      w5.FetchPageImpl 1 = .ok (some 0, w6) ∧
      w4.disk_manager_.pages 1 = exampleData ∧ (w6.pages_ 0).data_ = exampleData :=
  have hnew : w3.NewPageImpl = .ok (some (2, 0), w4) := rfl
  have hfetch : w5.FetchPageImpl 1 = .ok (some 0, w6) := rfl
  have h := (dirty_victim_written_back 1 DiskManager.fresh [1] w3 w3_run 1 0 rfl rfl).2 2 w4 hnew
  ⟨w3_run, rfl, rfl, rfl, hnew, hfetch, h.1,
    h.2 [Call.unpin_page 2 false] [2, 1] w5 0 w6
      (Calls.cons (Step.unpin_page (r := true) rfl :
        Step (Call.unpin_page 2 false) [2, 1] w4 [2, 1] w5) Calls.nil)
      (by simp) hfetch⟩

theorem v3_run : Run 1 DiskManager.fresh [1] v3 :=
  ⟨[Call.new_page, Call.unpin_page 1 false, Call.fetch_page 1],
    Calls.cons (Step.new_page rfl : Step Call.new_page [] w0 [1] w1)
      (Calls.cons (Step.unpin_page (r := true) rfl :
          Step (Call.unpin_page 1 false) [1] w1 [1] v2)
        (Calls.cons (Step.fetch_page (r := some 0) (Or.inl (by simp)) rfl :
          Step (Call.fetch_page 1) [1] v2 [1] v3) Calls.nil))⟩

theorem u6_run : Run 1 DiskManager.fresh [2, 1] u6 := by
  obtain ⟨cs, hcs⟩ := w3_run
  have h1 : Calls [Call.new_page, Call.unpin_page 2 false, Call.fetch_page 2] [1] w3 [2, 1] u6 :=
    Calls.cons (Step.new_page rfl : Step Call.new_page [1] w3 [2, 1] w4)
      (Calls.cons (Step.unpin_page (r := true) rfl :
          Step (Call.unpin_page 2 false) [2, 1] w4 [2, 1] w5)
        (Calls.cons (Step.fetch_page (r := some 0) (Or.inl (by simp)) rfl :
          Step (Call.fetch_page 2) [2, 1] w5 [2, 1] u6) Calls.nil))
  have happ : ∀ (cs1 : List Call) (i1 i2 : List page_id_t) (b1 b2 : BufferPoolManager),
      Calls cs1 i1 b1 i2 b2 → ∀ (cs2 : List Call) (i3 : List page_id_t)
      (b3 : BufferPoolManager), Calls cs2 i2 b2 i3 b3 → Calls (cs1 ++ cs2) i1 b1 i3 b3 := by
    intro cs1 i1 i2 b1 b2 h
    induction h with
    | nil => intro cs2 i3 b3 h2; exact h2
    | cons hs _ ih => intro cs2 i3 b3 h2; exact Calls.cons hs (ih cs2 i3 b3 h2)
  exact ⟨_, happ _ _ _ _ _ hcs _ _ _ h1⟩

/-- C4, at the failing input. A pool of one frame over a fresh disk. After `new_page` (page 1),
`unpin_page(1, false)` and `fetch_page(1)`, page 1 is resident in frame 0 with pin count 1; yet
`new_page` returns frame 0 for page 2 and page 1 is gone from the page table. In the same way,
with page 2 resident in frame 0 and pinned once, `fetch_page(1)` returns frame 0 for page 1 and
page 2 is gone from the page table. -/
theorem pinned_frame_evicted :
    (Run 1 DiskManager.fresh [1] v3 ∧ v3.page_table_ 1 = some 0 ∧
      (v3.pages_ 0).pin_count_ = 1 ∧ v3.NewPageImpl = .ok (some (2, 0), v4) ∧
      v4.page_table_ 1 = none ∧ (v4.pages_ 0).page_id_ = 2) ∧
    (Run 1 DiskManager.fresh [2, 1] u6 ∧ u6.page_table_ 2 = some 0 ∧
      (u6.pages_ 0).pin_count_ = 1 ∧ u6.FetchPageImpl 1 = .ok (some 0, u7) ∧
      u7.page_table_ 2 = none ∧ (u7.pages_ 0).page_id_ = 1) :=
  ⟨⟨v3_run, rfl, rfl, rfl, rfl, rfl⟩, ⟨u6_run, rfl, rfl, rfl, rfl, rfl⟩⟩

/-- C5, at the failing input. In the pool `v2` page 1 is resident in frame 0, unpinned, and
frame 0 is in the replacer. `fetch_page(1)` returns frame 0 and raises its pin count from 0 to
1, but the replacer still holds frame 0, in its list and in its map. -/
theorem fetch_resident_keeps_replacer_entry :
    v2.page_table_ 1 = some 0 ∧ (v2.pages_ 0).pin_count_ = 0 ∧
    v2.replacer_.lru_bucket_list = [0] ∧
    v2.FetchPageImpl 1 = .ok (some 0, v3) ∧ (v3.pages_ 0).pin_count_ = 1 ∧
    v3.replacer_.lru_bucket_list = [0] ∧ v3.replacer_.lru_map = [0] ∧
    v3.replacer_.Size = 1 :=
  ⟨rfl, rfl, rfl, rfl, rfl, rfl, rfl, rfl⟩

/-- C6, at the failing input. The pool `v3` is reached from the constructor by `new_page`,
`unpin_page(1, false)`, `fetch_page(1)`; in it the replacer holds frame 0, whose pin count
is 1. -/
theorem replacer_holds_pinned_frame :
    Run 1 DiskManager.fresh [1] v3 ∧ (0 : frame_id_t) ∈ v3.replacer_.lru_bucket_list ∧
    (v3.pages_ 0).pin_count_ = 1 :=
  ⟨v3_run, by decide, rfl⟩

/-! ## Theorems about the B+tree -/

namespace BPlusTree

theorem KeepsRoot_pool {α : Type} (x : PoolM α) : KeepsRoot (pool x) := by
  intro w a w' h
  simp only [pool, bind, Except.bind] at h
  cases hx : x w.tree.buffer_pool_manager_ with
  | error e => rw [hx] at h; cases h
  | ok r =>
    rw [hx] at h
    simp only [pure, Except.pure, Except.ok.injEq, Prod.mk.injEq] at h
    rw [← h.2]

theorem KeepsRoot_bind {α β : Type} (x : TreeM α) (f : α → TreeM β)
    (hx : KeepsRoot x) (hf : ∀ a, KeepsRoot (f a)) : KeepsRoot (x >>= f) := by
  intro w b w' h
  simp only [bind, StateT.bind, Except.bind] at h
  cases hxw : x w with
  | error e => rw [hxw] at h; cases h
  | ok r =>
    obtain ⟨a, w1⟩ := r
    rw [hxw] at h
    exact (hf a w1 b w' h).trans (hx w a w1 hxw)

theorem KeepsRoot_pure {α : Type} (a : α) : KeepsRoot (pure a : TreeM α) := by
  intro w b w' h
  simp only [pure, StateT.pure, Except.pure, Except.ok.injEq, Prod.mk.injEq] at h
  rw [← h.2]

theorem KeepsRoot_getTree : KeepsRoot getTree := by
  intro w b w' h
  simp only [getTree, bind, StateT.bind, get, getThe, MonadStateOf.get, StateT.get, pure,
    StateT.pure, Except.pure, Except.bind, Except.ok.injEq, Prod.mk.injEq] at h
  rw [← h.2]

theorem KeepsRoot_UpdateRootPageId (b : Bool) : KeepsRoot (UpdateRootPageId b) := by
  unfold UpdateRootPageId
  refine KeepsRoot_bind _ _ (KeepsRoot_pool _) (fun page => ?_)
  refine KeepsRoot_bind _ _ (KeepsRoot_pool _) (fun hp => ?_)
  refine KeepsRoot_bind _ _ KeepsRoot_getTree (fun t => ?_)
  refine KeepsRoot_bind _ _ (KeepsRoot_pool _) (fun _ => ?_)
  refine KeepsRoot_bind _ _ (KeepsRoot_pool _) (fun _ => ?_)
  exact KeepsRoot_pure _

theorem KeepsRoot_StartNewTree (key : KeyType) (value : ValueType) :
    KeepsRoot (StartNewTree key value) := by
  unfold StartNewTree
  refine KeepsRoot_bind _ _ (KeepsRoot_pool _) (fun page => ?_)
  refine KeepsRoot_bind _ _ (KeepsRoot_UpdateRootPageId _) (fun _ => ?_)
  refine KeepsRoot_bind _ _ (KeepsRoot_pool _) (fun root => ?_)
  refine KeepsRoot_bind _ _ KeepsRoot_getTree (fun t => ?_)
  refine KeepsRoot_bind _ _ (KeepsRoot_pool _) (fun _ => ?_)
  refine KeepsRoot_bind _ _ (KeepsRoot_pool _) (fun _ => ?_)
  refine KeepsRoot_bind _ _ (KeepsRoot_pool _) (fun nd => ?_)
  refine KeepsRoot_bind _ _ (KeepsRoot_pool _) (fun _ => ?_)
  exact KeepsRoot_pure _

/-- On an empty tree `GetValue` returns false and changes nothing. -/
theorem GetValue_empty (fuel : Nat) (key : KeyType) (result : List ValueType) (w : World)
    (h : w.tree.root_page_id_ = INVALID_PAGE_ID) :
    GetValue fuel key result w = .ok ((false, result), w) := by
  simp [GetValue, FindLeafPage, getTree, IsEmpty, h, bind, StateT.bind, Except.bind, pure,
    StateT.pure, Except.pure, get, getThe, MonadStateOf.get, StateT.get]

/-- On an empty tree `Insert` is `StartNewTree` under the mutex. -/
theorem Insert_empty (fuel : Nat) (key : KeyType) (value : ValueType) (w : World)
    (h : w.tree.root_page_id_ = INVALID_PAGE_ID) (r : Bool) (w' : World)
    (hr : Insert fuel key value w = .ok (r, w')) :
    r = true ∧ w'.tree.root_page_id_ = INVALID_PAGE_ID := by
  unfold Insert at hr
  by_cases hm : w.tree.mutex_ = true
  · simp [getTree, bind, StateT.bind, Except.bind, pure, StateT.pure, Except.pure, get,
      getThe, MonadStateOf.get, StateT.get, hm, throw, throwThe, MonadExceptOf.throw,
      StateT.lift, liftM, monadLift, MonadLift.monadLift] at hr
  · simp only [getTree, bind, StateT.bind, Except.bind, pure, StateT.pure, Except.pure, get,
      getThe, MonadStateOf.get, StateT.get, modifyTree, modify, modifyGet,
      MonadStateOf.modifyGet, StateT.modifyGet, hm, IsEmpty, h, beq_self_eq_true, if_true,
      Bool.false_eq_true, if_false] at hr
    generalize hs : StartNewTree key value _ = res at hr
    cases res with
    | error e => cases hr
    | ok res =>
      obtain ⟨u, w2⟩ := res
      simp only [Except.ok.injEq, Prod.mk.injEq] at hr
      obtain ⟨h1, h2⟩ := hr
      have h3 := KeepsRoot_StartNewTree key value _ u w2 hs
      refine ⟨h1.symm, ?_⟩
      rw [← h2]
      exact h3

end BPlusTree

/-! ## The claims about the B+tree -/

/-- C1, at the failing input. On the tree `tw0`, which is empty, `insert(1, 100)` returns true,
whatever the recursion budget; in the state it leaves, `get_value(1)` returns false and no
value. -/
theorem insert_then_get_value_misses :
    tw0.tree.IsEmpty = true ∧
    (∀ fuel : Nat, resultOf (BPlusTree.Insert fuel 1 100 tw0) = some true) ∧
    (∀ fuel : Nat, BPlusTree.GetValue fuel 1 [] tw1 = .ok ((false, []), tw1)) :=
  ⟨rfl, fun _ => rfl, fun fuel => BPlusTree.GetValue_empty fuel 1 [] tw1 rfl⟩

/-- C2, at the failing input. After `insert(1, 100)` has returned true on the empty tree `tw0`,
`insert(1, 200)` returns true as well, and it changes the state: the pool hands out a second
page (page 2, in frame 2), which receives the pair `(1, 200)` and stays pinned. `get_value(1)`
returns false afterwards. -/
theorem duplicate_insert_accepted :
    resultOf (BPlusTree.Insert 8 1 100 tw0) = some true ∧
    resultOf (BPlusTree.Insert 8 1 200 tw1) = some true ∧
    tw1.tree.buffer_pool_manager_.page_table_ 2 = none ∧
    tw2.tree.buffer_pool_manager_.page_table_ 2 = some 2 ∧
    (tw2.tree.buffer_pool_manager_.pages_ 2).data_.node.size_ = 1 ∧
    (tw2.tree.buffer_pool_manager_.pages_ 2).data_.node.array 0 = (1, 200) ∧
    (tw2.tree.buffer_pool_manager_.pages_ 2).pin_count_ = 1 ∧
    BPlusTree.GetValue 8 1 [] tw2 = .ok ((false, []), tw2) :=
  ⟨rfl, rfl, rfl, rfl, rfl, rfl, rfl, BPlusTree.GetValue_empty 8 1 [] tw2 rfl⟩

/-- C3, at the failing input. `insert(1, 100)` on the empty tree `tw0` returns true. The pool
has allocated page 1 (frame 0) for the leaf, and the leaf has parent `INVALID_PAGE_ID` and holds
exactly the pair `(1, 100)`. But `root_page_id_` is still `INVALID_PAGE_ID`, the tree reports
empty, the leaf carries page id `INVALID_PAGE_ID`, the header record of the index carries
`INVALID_PAGE_ID`, and the leaf's page is still pinned. -/
theorem start_new_tree_root_stays_invalid :
    resultOf (BPlusTree.Insert 8 1 100 tw0) = some true ∧
    tw1.tree.buffer_pool_manager_.page_table_ 1 = some 0 ∧
    (tw1.tree.buffer_pool_manager_.pages_ 0).data_.node.page_type_ = IndexPageType.LEAF_PAGE ∧
    (tw1.tree.buffer_pool_manager_.pages_ 0).data_.node.parent_page_id_ = INVALID_PAGE_ID ∧
    (tw1.tree.buffer_pool_manager_.pages_ 0).data_.node.size_ = 1 ∧
    (tw1.tree.buffer_pool_manager_.pages_ 0).data_.node.array 0 = (1, 100) ∧
    tw1.tree.root_page_id_ = INVALID_PAGE_ID ∧
    tw1.tree.IsEmpty = true ∧
    (tw1.tree.buffer_pool_manager_.pages_ 0).data_.node.page_id_ = INVALID_PAGE_ID ∧
    tw1.tree.buffer_pool_manager_.page_table_ HEADER_PAGE_ID = some 1 ∧
    (tw1.tree.buffer_pool_manager_.pages_ 1).data_.records = [("index", INVALID_PAGE_ID)] ∧
    (tw1.tree.buffer_pool_manager_.pages_ 0).pin_count_ = 1 :=
  ⟨rfl, rfl, rfl, rfl, rfl, rfl, rfl, rfl, rfl, rfl, rfl, rfl⟩

/-! ## Theorems about the replacer -/

namespace LRUReplacer

theorem Consistent_new (n : Nat) : Consistent { num_pages := n } :=
  ⟨List.nodup_nil, List.nodup_nil, fun _ => Iff.rfl⟩

theorem Consistent_length (r : LRUReplacer) (h : Consistent r) :
    r.Size = r.lru_bucket_list.length := by
  unfold Size
  exact List.Perm.length_eq ((List.perm_ext_iff_of_nodup h.map_nodup h.nodup).mpr h.sync)

theorem Consistent_Unpin (r : LRUReplacer) (f : frame_id_t) (h : Consistent r) :
    Consistent (r.Unpin f) := by
  unfold Unpin
  split
  · exact h
  · rename_i hm
    refine ⟨?_, ?_, ?_⟩
    · simp only [List.nodup_cons]
      exact ⟨fun hc => hm ((h.sync f).mpr hc), h.nodup⟩
    · simp only [List.nodup_cons]
      exact ⟨hm, h.map_nodup⟩
    · intro g
      simp only [List.mem_cons, h.sync g]

theorem Consistent_Pin (r : LRUReplacer) (f : frame_id_t) (h : Consistent r) :
    Consistent (r.Pin f) ∧ (∀ g, g ∈ (r.Pin f).lru_bucket_list ↔ g ∈ r.lru_bucket_list ∧ g ≠ f) := by
  unfold Pin
  split
  · rename_i hm
    refine ⟨h, fun g => ⟨fun hg => ⟨hg, ?_⟩, fun hg => hg.1⟩⟩
    rintro rfl
    exact hm ((h.sync g).mpr hg)
  · refine ⟨⟨h.nodup.erase f, h.map_nodup.filter _, ?_⟩, ?_⟩
    · intro g
      simp only [List.mem_filter, decide_eq_true_eq, h.nodup.mem_erase_iff, h.sync g]
      exact And.comm
    · intro g
      simp only [h.nodup.mem_erase_iff]
      exact And.comm

theorem victimResult_empty (r : LRUReplacer) (h : Consistent r) (hl : r.lru_bucket_list = []) :
    r.victimResult = (none, r) := by
  have hs : r.Size = 0 := by rw [Consistent_length r h, hl]; rfl
  simp [victimResult, Victim, hs]

theorem victimResult_append (r : LRUReplacer) (h : Consistent r) (l : List frame_id_t)
    (f : frame_id_t) (hl : r.lru_bucket_list = l ++ [f]) :
    ∃ r1, r.victimResult = (some f, r1) ∧ Consistent r1 ∧ r1.lru_bucket_list = l ∧
      r1.num_pages = r.num_pages := by
  have hs : r.Size ≠ 0 := by rw [Consistent_length r h, hl]; simp
  have hnd : (l ++ [f]).Nodup := hl ▸ h.nodup
  rw [List.nodup_append] at hnd
  refine ⟨{ r with lru_map := r.lru_map.filter (fun g => g ≠ f), lru_bucket_list := l },
    ?_, ⟨hnd.1, h.map_nodup.filter _, ?_⟩, rfl, rfl⟩
  · simp only [victimResult, Victim, if_neg hs, hl, List.getLastD_concat, if_true,
      List.dropLast_concat]
  · intro g
    simp only [List.mem_filter, decide_eq_true_eq, h.sync g, hl, List.mem_append,
      List.mem_singleton]
    constructor
    · rintro ⟨hg | hg, hne⟩
      · exact hg
      · exact absurd hg hne
    · intro hg
      refine ⟨Or.inl hg, ?_⟩
      rintro rfl
      exact hnd.2.2 hg (by simp)

theorem victims_all (l : List frame_id_t) (r : LRUReplacer) (h : Consistent r)
    (hl : r.lru_bucket_list = l) :
    victims l.length r = (l.reverse.map some, { num_pages := r.num_pages }) := by
  induction l using List.reverseRecOn generalizing r with
  | nil =>
    obtain ⟨n, lst, mp⟩ := r
    simp only at hl
    subst hl
    have hm : mp = [] := by
      cases mp with
      | nil => rfl
      | cons a t => exact absurd ((h.sync a).mp (by simp)) (by simp)
    subst hm
    rfl
  | append_singleton l f ih =>
    obtain ⟨r1, h1, hc1, hl1, hn1⟩ := victimResult_append r h l f hl
    simp only [List.length_append, List.length_singleton, victims, h1, ih r1 hc1 hl1, hn1,
      List.reverse_append, List.reverse_singleton, List.singleton_append, List.map_cons]

theorem unpinAll_append (r : LRUReplacer) (fs : List frame_id_t) (f : frame_id_t) :
    unpinAll r (fs ++ [f]) = (unpinAll r fs).Unpin f := by
  induction fs generalizing r with
  | nil => rfl
  | cons g fs ih => exact ih (r.Unpin g)

theorem Consistent_unpinAll (r : LRUReplacer) (fs : List frame_id_t) (h : Consistent r) :
    Consistent (unpinAll r fs) := by
  induction fs generalizing r with
  | nil => exact h
  | cons g fs ih => exact ih _ (Consistent_Unpin r g h)

theorem unpinAll_new (n : Nat) (fs : List frame_id_t) (h : fs.Nodup) :
    unpinAll { num_pages := n } fs =
      { num_pages := n, lru_bucket_list := fs.reverse, lru_map := fs.reverse } := by
  induction fs using List.reverseRecOn with
  | nil => rfl
  | append_singleton fs f ih =>
    rw [List.nodup_append] at h
    rw [unpinAll_append, ih h.1]
    have hf : f ∉ fs.reverse := by
      intro hc
      exact h.2.2 (List.mem_reverse.mp hc) (by simp)
    simp only [Unpin, if_neg hf, List.reverse_append, List.reverse_singleton,
      List.singleton_append]

theorem victims_part (l2 l1 : List frame_id_t) (r : LRUReplacer) (h : Consistent r)
    (hl : r.lru_bucket_list = l1 ++ l2) :
    ∃ r1, victims l2.length r = (l2.reverse.map some, r1) ∧ Consistent r1 ∧
      r1.lru_bucket_list = l1 ∧ r1.num_pages = r.num_pages := by
  induction l2 using List.reverseRecOn generalizing r with
  | nil => exact ⟨r, rfl, h, by simpa using hl, rfl⟩
  | append_singleton l2 f ih =>
    rw [← List.append_assoc] at hl
    obtain ⟨r1, h1, hc1, hl1, hn1⟩ := victimResult_append r h (l1 ++ l2) f hl
    obtain ⟨r2, h2, hc2, hl2, hn2⟩ := ih r1 hc1 hl1
    refine ⟨r2, ?_, hc2, hl2, hn2.trans hn1⟩
    simp only [List.length_append, List.length_singleton, victims, h1, h2,
      List.reverse_append, List.reverse_singleton, List.singleton_append, List.map_cons]

theorem mem_Unpin (r : LRUReplacer) (h : Consistent r) (g f : frame_id_t) :
    f ∈ (r.Unpin g).lru_bucket_list ↔ f = g ∨ f ∈ r.lru_bucket_list := by
  unfold Unpin
  split
  · rename_i hm
    constructor
    · exact Or.inr
    · rintro (rfl | hf)
      · exact (h.sync f).mp hm
      · exact hf
  · simp only [List.mem_cons]

theorem run_spec (ops : List Op) (r : LRUReplacer) (m : frame_id_t → Bool) (h : Consistent r)
    (hm : ∀ f, f ∈ r.lru_bucket_list ↔ m f = true) :
    Consistent (run ops r).2 ∧
    ∀ f, f ∈ (run ops r).2.lru_bucket_list ↔ lastIsUnpin f (run ops r).1 (m f) = true := by
  induction ops generalizing r m with
  | nil => exact ⟨h, hm⟩
  | cons op ops ih =>
    cases op with
    | unpin g =>
      have := ih (r.Unpin g) (fun f => if g = f then true else m f) (Consistent_Unpin r g h)
        (fun f => by
          rw [mem_Unpin r h, hm f]
          by_cases hg : g = f
          · simp [hg]
          · simp [hg, Ne.symm hg])
      simpa only [run, lastIsUnpin] using this
    | pin g =>
      obtain ⟨hc, hmem⟩ := Consistent_Pin r g h
      have := ih (r.Pin g) (fun f => if g = f then false else m f) hc
        (fun f => by
          rw [hmem f, hm f]
          by_cases hg : g = f
          · simp [hg]
          · simp [hg, Ne.symm hg])
      simpa only [run, lastIsUnpin] using this
    | victim =>
      rcases List.eq_nil_or_concat r.lru_bucket_list with hl | ⟨l, g, hl⟩
      · have h1 := victimResult_empty r h hl
        have := ih r m h hm
        simpa only [run, h1, lastIsUnpin] using this
      · rw [List.concat_eq_append] at hl
        obtain ⟨r1, h1, hc1, hl1, _⟩ := victimResult_append r h l g hl
        have hnd : (l ++ [g]).Nodup := hl ▸ h.nodup
        rw [List.nodup_append] at hnd
        have := ih r1 (fun f => if g = f then false else m f) hc1
          (fun f => by
            rw [hl1]
            have hmf := hm f
            rw [hl] at hmf
            by_cases hg : g = f
            · subst hg
              simp only [if_true, Bool.false_eq_true, iff_false]
              intro hc
              exact hnd.2.2 hc (by simp)
            · simp only [if_neg hg, ← hmf, List.mem_append, List.mem_singleton]
              constructor
              · exact Or.inl
              · rintro (hf | hf)
                · exact hf
                · exact absurd hf.symm hg)
        simpa only [run, h1, lastIsUnpin] using this

end LRUReplacer

/-! ## The claims about the replacer -/

/-- C14. Starting from an empty replacer, after `Unpin(f1)`, ..., `Unpin(fn)` for pairwise
distinct frames, `n` calls of `Victim` in a row return `f1`, ..., `fn` in exactly this order and
leave the replacer empty; after the first `k` of them the replacer holds exactly the frames not
yet returned; and `Victim` on the empty replacer returns false and leaves it empty. -/
theorem lru_order (n : Nat) (fs : List frame_id_t) (h : fs.Nodup) :
    LRUReplacer.victims fs.length (LRUReplacer.unpinAll { num_pages := n } fs) =
      (fs.map some, { num_pages := n }) ∧
    (∀ k, k ≤ fs.length →
      (LRUReplacer.victims k (LRUReplacer.unpinAll { num_pages := n } fs)).1 =
        (fs.take k).map some ∧
      (LRUReplacer.victims k (LRUReplacer.unpinAll { num_pages := n } fs)).2.lru_bucket_list =
        (fs.drop k).reverse) ∧
    LRUReplacer.victimResult { num_pages := n } = (none, { num_pages := n }) := by
  have hc := LRUReplacer.Consistent_unpinAll _ fs (LRUReplacer.Consistent_new n)
  have hu := LRUReplacer.unpinAll_new n fs h
  refine ⟨?_, ?_, rfl⟩
  · have := LRUReplacer.victims_all fs.reverse _ hc (by rw [hu])
    simpa only [List.length_reverse, List.reverse_reverse, hu] using this
  · intro k hk
    obtain ⟨r1, h1, _, hl1, _⟩ := LRUReplacer.victims_part (fs.take k).reverse (fs.drop k).reverse
      _ hc (by rw [hu, ← List.reverse_append, List.take_append_drop])
    rw [List.length_reverse, List.length_take, Nat.min_eq_left hk, List.reverse_reverse] at h1
    rw [h1]
    exact ⟨rfl, hl1⟩

/-- Witness for C14: the frames 2, 0, 1. -/
theorem lru_order_witness :
    ([2, 0, 1] : List frame_id_t).Nodup ∧
    LRUReplacer.victims 3 (LRUReplacer.unpinAll { num_pages := 3 } [2, 0, 1]) =
      ([some 2, some 0, some 1], { num_pages := 3 }) :=
  ⟨by decide, (lru_order 3 [2, 0, 1] (by decide)).1⟩

/-- C15. In a replacer whose list and index agree: `Unpin(f)` on a frame that is already in the
replacer changes nothing (neither order nor size); `Unpin(f)` on a frame that is absent puts `f`
at the front of the list, raises the size by one, and `f` is returned by `Victim` after all the
frames that were candidates before, which come out in the same order as without the call. -/
theorem first_unpin_wins (r : LRUReplacer) (h : LRUReplacer.Consistent r) (f : frame_id_t) :
    (f ∈ r.lru_bucket_list → r.Unpin f = r) ∧
    (f ∉ r.lru_bucket_list →
      (r.Unpin f).lru_bucket_list = f :: r.lru_bucket_list ∧
      (r.Unpin f).Size = r.Size + 1 ∧
      (LRUReplacer.victims r.Size r).1 = r.lru_bucket_list.reverse.map some ∧
      (LRUReplacer.victims (r.Size + 1) (r.Unpin f)).1 =
        (LRUReplacer.victims r.Size r).1 ++ [some f]) := by
  constructor
  · intro hf
    simp only [LRUReplacer.Unpin, if_pos ((h.sync f).mpr hf)]
  · intro hf
    have hm : f ∉ r.lru_map := fun hc => hf ((h.sync f).mp hc)
    have hu : r.Unpin f = { r with lru_bucket_list := f :: r.lru_bucket_list,
                                   lru_map := f :: r.lru_map } := by
      simp only [LRUReplacer.Unpin, if_neg hm]
    have hc := LRUReplacer.Consistent_Unpin r f h
    have h1 := LRUReplacer.victims_all r.lru_bucket_list r h rfl
    have h2 := LRUReplacer.victims_all (f :: r.lru_bucket_list) (r.Unpin f) hc (by rw [hu])
    rw [← LRUReplacer.Consistent_length r h] at h1
    rw [List.length_cons, ← LRUReplacer.Consistent_length r h] at h2
    refine ⟨by rw [hu], ?_, ?_, ?_⟩
    · rw [hu]; rfl
    · rw [h1]
    · rw [h1, h2]
      simp only [List.reverse_cons, List.map_append, List.map_cons, List.map_nil]

/-- Witness for C15: the replacer after `Unpin(0)`, `Unpin(1)`; a second `Unpin(0)` changes
nothing, and after `Unpin(2)` the victims are 0, 1, 2. -/
theorem first_unpin_wins_witness :
    LRUReplacer.Consistent { num_pages := 3, lru_bucket_list := [1, 0], lru_map := [1, 0] } ∧
    ({ num_pages := 3, lru_bucket_list := [1, 0], lru_map := [1, 0] } : LRUReplacer).Unpin 0 =
      { num_pages := 3, lru_bucket_list := [1, 0], lru_map := [1, 0] } ∧
    (LRUReplacer.victims 3
      (({ num_pages := 3, lru_bucket_list := [1, 0], lru_map := [1, 0] } : LRUReplacer).Unpin 2)).1
      = [some 0, some 1, some 2] :=
  have hc : LRUReplacer.Consistent
      { num_pages := 3, lru_bucket_list := [1, 0], lru_map := [1, 0] } :=
    ⟨by decide, by decide, fun _ => Iff.rfl⟩
  ⟨hc, (first_unpin_wins _ hc 0).1 (by decide),
    ((first_unpin_wins _ hc 2).2 (by decide)).2.2.2⟩

/-- C16. After any sequence of `Unpin`, `Pin` and `Victim` calls on a replacer that was empty at
the start: a frame `f` is in the list exactly when the last call that named `f` or returned `f`
was `Unpin(f)`; no frame is in the list twice; the index `lru_map` holds exactly the frames of
the list, each once; `Size()` is the number of frames in the list; `Pin(f)` leaves a replacer
without `f`, and changes nothing when `f` is absent. -/
theorem replacer_membership (n : Nat) (ops : List LRUReplacer.Op) :
    (∀ f, f ∈ (LRUReplacer.run ops { num_pages := n }).2.lru_bucket_list ↔
      LRUReplacer.lastIsUnpin f (LRUReplacer.run ops { num_pages := n }).1 false = true) ∧
    (LRUReplacer.run ops { num_pages := n }).2.lru_bucket_list.Nodup ∧
    (LRUReplacer.run ops { num_pages := n }).2.lru_map.Nodup ∧
    (∀ f, f ∈ (LRUReplacer.run ops { num_pages := n }).2.lru_map ↔
      f ∈ (LRUReplacer.run ops { num_pages := n }).2.lru_bucket_list) ∧
    (LRUReplacer.run ops { num_pages := n }).2.Size =
      (LRUReplacer.run ops { num_pages := n }).2.lru_bucket_list.length ∧
    (∀ f, f ∉ ((LRUReplacer.run ops { num_pages := n }).2.Pin f).lru_bucket_list) ∧
    (∀ f, f ∉ (LRUReplacer.run ops { num_pages := n }).2.lru_bucket_list →
      (LRUReplacer.run ops { num_pages := n }).2.Pin f =
        (LRUReplacer.run ops { num_pages := n }).2) := by
  obtain ⟨hc, hm⟩ := LRUReplacer.run_spec ops { num_pages := n } (fun _ => false)
    (LRUReplacer.Consistent_new n) (fun f => by simp)
  refine ⟨hm, hc.nodup, hc.map_nodup, hc.sync, LRUReplacer.Consistent_length _ hc, ?_, ?_⟩
  · intro f hf
    exact (((LRUReplacer.Consistent_Pin _ f hc).2 f).mp hf).2 rfl
  · intro f hf
    simp only [LRUReplacer.Pin, if_pos (fun hc' => hf ((hc.sync f).mp hc'))]

/-! ## The closed form of `FlushAllPagesImpl` -/

namespace BufferPoolManager

theorem flushedPool_nil (b : BufferPoolManager) : flushedPool b [] = b := by
  obtain ⟨n, pages, table, free, repl, ⟨nx, dp⟩, latch⟩ := b
  simp only [flushedPool, List.any_nil, Bool.false_eq_true, if_false]
  congr 2
  funext p
  cases table p <;> rfl

theorem flushedPool_page_id (b : BufferPoolManager) (done : List frame_id_t) (i : frame_id_t) :
    ((flushedPool b done).pages_ i).page_id_ = (b.pages_ i).page_id_ := by
  simp only [flushedPool]
  split <;> rfl

theorem flushedPool_data (b : BufferPoolManager) (done : List frame_id_t) (i : frame_id_t) :
    ((flushedPool b done).pages_ i).data_ = (b.pages_ i).data_ := by
  simp only [flushedPool]
  split <;> rfl

theorem FlushPageImpl_flushedPool (b : BufferPoolManager) (hl : b.latch_ = false)
    (done : List frame_id_t) (i : frame_id_t) :
    ∃ r, FlushPageImpl (flushedPool b done) ((flushedPool b done).pages_ i).page_id_ =
      .ok (r, flushedPool b (done ++ [i])) := by
  rw [flushedPool_page_id]
  cases ht : b.page_table_ (b.pages_ i).page_id_ with
  | none =>
    refine ⟨false, ?_⟩
    rw [FlushPageImpl_absent (flushedPool b done) _ hl ht]
    congr 2
    obtain ⟨n, pages, table, free, repl, ⟨nx, dp⟩, latch⟩ := b
    simp only at ht
    simp only [flushedPool, List.any_append, List.any_cons, List.any_nil, Bool.or_false, ht]
    congr 2
    · funext g
      simp
    · funext p
      cases hp : table p with
      | none => rfl
      | some g =>
        have hne : (pages i).page_id_ ≠ p := by
          intro hc
          rw [hc, hp] at ht
          cases ht
        simp [hne]
  | some g =>
    refine ⟨true, ?_⟩
    rw [FlushPageImpl_resident (flushedPool b done) _ g hl ht]
    congr 2
    obtain ⟨n, pages, table, free, repl, ⟨nx, dp⟩, latch⟩ := b
    simp only at ht
    simp only [flushedPool, List.any_append, List.any_cons, List.any_nil, Bool.or_false, ht,
      DiskManager.WritePage]
    congr 2
    · funext h
      by_cases hh : h = g
      · subst hh
        simp only [if_true, beq_self_eq_true, Bool.or_true]
        split <;> rfl
      · simp [hh, Ne.symm hh]
    · funext p
      by_cases hp : p = (pages i).page_id_
      · subst hp
        simp only [if_true, ht, beq_self_eq_true, Bool.or_true]
        split <;> rfl
      · simp only [if_neg hp]
        cases hq : table p with
        | none => rfl
        | some g' =>
          simp [Ne.symm hp]

theorem FlushAllPagesLoop_flushedPool (b : BufferPoolManager) (hl : b.latch_ = false)
    (l done : List frame_id_t) :
    FlushAllPagesLoop (flushedPool b done) l = .ok (flushedPool b (done ++ l)) := by
  induction l generalizing done with
  | nil => simp [FlushAllPagesLoop, pure, Except.pure]
  | cons i l ih =>
    obtain ⟨r, hr⟩ := FlushPageImpl_flushedPool b hl done i
    simp only [FlushAllPagesLoop, bind, Except.bind, hr]
    rw [ih (done ++ [i])]
    simp

end BufferPoolManager

/-! ## The claims about `unpin_page`, `delete_page` and `flush_page` -/

/-- C11. On a pool whose latch is free, `unpin_page(p, d)` returns false and changes nothing
when `p` is not resident, and when its frame has pin count 0. Otherwise it returns true; the
frame's dirty flag becomes `is_dirty || d` (so `d = false` leaves it as it is), its pin count
goes down by exactly one, and nothing else of the frame, of the other frames, of the page table,
the free list or the disk changes; when the pin count reaches zero the replacer is the old one
after `Unpin(f)`, which holds `f`, and when it does not the replacer is unchanged. -/
theorem unpin_page_contract (b : BufferPoolManager) (p : page_id_t) (d : Bool)
    (hl : b.latch_ = false) :
    (b.page_table_ p = none → b.UnpinPageImpl p d = .ok (false, b)) ∧
    (∀ f, b.page_table_ p = some f → (b.pages_ f).pin_count_ = 0 →
      b.UnpinPageImpl p d = .ok (false, b)) ∧
    (∀ f, b.page_table_ p = some f → (b.pages_ f).pin_count_ ≠ 0 →
      ∃ b', b.UnpinPageImpl p d = .ok (true, b') ∧
        b'.pages_ f = { (b.pages_ f) with is_dirty_ := ((b.pages_ f).is_dirty_ || d),
                                          pin_count_ := (b.pages_ f).pin_count_ - 1 } ∧
        (d = false → (b'.pages_ f).is_dirty_ = (b.pages_ f).is_dirty_) ∧
        (∀ g, g ≠ f → b'.pages_ g = b.pages_ g) ∧
        b'.page_table_ = b.page_table_ ∧ b'.free_list_ = b.free_list_ ∧
        b'.disk_manager_ = b.disk_manager_ ∧ b'.latch_ = false ∧
        ((b.pages_ f).pin_count_ - 1 = 0 →
          b'.replacer_ = b.replacer_.Unpin f ∧ f ∈ b'.replacer_.lru_map ∧
          (f ∉ b.replacer_.lru_map →
            b'.replacer_.lru_bucket_list = f :: b.replacer_.lru_bucket_list)) ∧
        ((b.pages_ f).pin_count_ - 1 ≠ 0 → b'.replacer_ = b.replacer_)) := by
  refine ⟨fun ht => UnpinPageImpl_absent b p d hl ht,
    fun f ht hp => UnpinPageImpl_unpinned b p d f hl ht hp, fun f ht hp => ?_⟩
  refine ⟨_, UnpinPageImpl_pinned b p d f hl ht hp, ?_, ?_, ?_, rfl, rfl, rfl, hl, ?_, ?_⟩
  · simp only [if_true]
  · intro hd
    simp only [if_true, hd, Bool.or_false]
  · intro g hg
    simp only [if_neg hg]
  · intro h0
    simp only [if_pos h0]
    refine ⟨trivial, ?_, ?_⟩
    · unfold LRUReplacer.Unpin
      split
      · assumption
      · simp
    · intro hm
      simp only [LRUReplacer.Unpin, if_neg hm]
  · intro h0
    simp only [if_neg h0]

/-- C13. In a pool that satisfies the pool invariant: `flush_page(p)` returns false and changes
nothing when `p` is not resident; otherwise it returns true, the disk holds the frame's bytes
under id `p` (and is unchanged elsewhere), the frame is clean, and its pin count and bytes, the
other frames, the page table, the free list and the replacer are unchanged. `flush_all` returns,
has this effect for every resident page, changes no frame that holds no resident page and no
disk bytes of a page that is not resident; so, when `INVALID_PAGE_ID` is not resident, every
frame whose page id is `INVALID_PAGE_ID` is left as it is. -/
theorem flush_page_contract (b : BufferPoolManager) (hI : Inv b) :
    (∀ p, b.page_table_ p = none → b.FlushPageImpl p = .ok (false, b)) ∧
    (∀ p f, b.page_table_ p = some f →
      ∃ b', b.FlushPageImpl p = .ok (true, b') ∧
        b'.disk_manager_.pages p = (b.pages_ f).data_ ∧
        (∀ q, q ≠ p → b'.disk_manager_.pages q = b.disk_manager_.pages q) ∧
        b'.disk_manager_.next_page_id_ = b.disk_manager_.next_page_id_ ∧
        b'.pages_ f = { (b.pages_ f) with is_dirty_ := false } ∧
        (∀ g, g ≠ f → b'.pages_ g = b.pages_ g) ∧
        b'.page_table_ = b.page_table_ ∧ b'.free_list_ = b.free_list_ ∧
        b'.replacer_ = b.replacer_ ∧ b'.latch_ = false) ∧
    (∃ b', b.FlushAllPagesImpl = .ok b' ∧
        b'.page_table_ = b.page_table_ ∧ b'.free_list_ = b.free_list_ ∧
        b'.replacer_ = b.replacer_ ∧ b'.latch_ = false ∧
        b'.disk_manager_.next_page_id_ = b.disk_manager_.next_page_id_ ∧
        (∀ p f, b.page_table_ p = some f →
          b'.disk_manager_.pages p = (b.pages_ f).data_ ∧
          b'.pages_ f = { (b.pages_ f) with is_dirty_ := false }) ∧
        (∀ p, b.page_table_ p = none → b'.disk_manager_.pages p = b.disk_manager_.pages p) ∧
        (∀ g, (∀ p, b.page_table_ p ≠ some g) → b'.pages_ g = b.pages_ g) ∧
        (b.page_table_ INVALID_PAGE_ID = none →
          ∀ g, (b.pages_ g).page_id_ = INVALID_PAGE_ID → b'.pages_ g = b.pages_ g)) := by
  refine ⟨fun p ht => FlushPageImpl_absent b p hI.latch ht, fun p f ht => ?_, ?_⟩
  · refine ⟨_, FlushPageImpl_resident b p f hI.latch ht, ?_, ?_, rfl, ?_, ?_, rfl, rfl, rfl,
      hI.latch⟩
    · simp [DiskManager.WritePage]
    · intro q hq
      simp [DiskManager.WritePage, hq]
    · simp
    · intro g hg
      simp [hg]
  · have hloop := FlushAllPagesLoop_flushedPool b hI.latch
      ((List.range b.pool_size_).map (fun i : Nat => (i : Int))) []
    rw [flushedPool_nil, List.nil_append] at hloop
    have hmem : ∀ f, 0 ≤ f → f < (b.pool_size_ : Int) →
        f ∈ (List.range b.pool_size_).map (fun i : Nat => (i : Int)) := by
      intro f h0 h1
      simp only [List.mem_map, List.mem_range]
      exact ⟨f.toNat, by omega, by omega⟩
    have hnot : ∀ g, (∀ p, b.page_table_ p ≠ some g) →
        (flushedPool b ((List.range b.pool_size_).map (fun i : Nat => (i : Int)))).pages_ g =
          b.pages_ g := by
      intro g hg
      simp only [flushedPool]
      rw [if_neg]
      simp only [List.any_eq_true, beq_iff_eq, not_exists, not_and]
      intro i _
      exact hg _
    refine ⟨_, hloop, rfl, rfl, rfl, hI.latch, rfl, ?_, ?_, hnot, ?_⟩
    · intro p f ht
      obtain ⟨h0, h1, hid, _⟩ := hI.table_frame p f ht
      constructor
      · simp only [flushedPool, ht]
        rw [if_pos]
        simp only [List.any_eq_true, beq_iff_eq]
        exact ⟨f, hmem f h0 h1, hid⟩
      · simp only [flushedPool]
        rw [if_pos]
        simp only [List.any_eq_true, beq_iff_eq]
        exact ⟨f, hmem f h0 h1, by rw [hid]; exact ht⟩
    · intro p ht
      simp only [flushedPool, ht]
    · intro hinv g hg
      apply hnot
      intro p hp
      have := (hI.table_frame p g hp).2.2.1
      rw [hg] at this
      rw [← this, hinv] at hp
      cases hp

/-- Witness for C11: page 1, pinned once in a pool of one frame, is unpinned with
`dirty_hint = true`. -/
theorem unpin_page_contract_witness :
    w2.latch_ = false ∧ w2.page_table_ 1 = some 0 ∧ (w2.pages_ 0).pin_count_ = 1 ∧
    ∃ b', w2.UnpinPageImpl 1 true = .ok (true, b') ∧ (b'.pages_ 0).pin_count_ = 0 ∧
      (b'.pages_ 0).is_dirty_ = true ∧ (0 : frame_id_t) ∈ b'.replacer_.lru_map := by
  obtain ⟨b', h1, h2, _, _, _, _, _, _, h3, _⟩ :=
    (unpin_page_contract w2 1 true rfl).2.2 0 rfl (by decide)
  exact ⟨rfl, rfl, rfl, b', h1, by rw [h2]; rfl, by rw [h2]; rfl, (h3 rfl).2.1⟩

theorem v2_run : Run 1 DiskManager.fresh [1] v2 :=
  ⟨[Call.new_page, Call.unpin_page 1 false],
    Calls.cons (Step.new_page rfl : Step Call.new_page [] w0 [1] w1)
      (Calls.cons (Step.unpin_page (r := true) rfl :
        Step (Call.unpin_page 1 false) [1] w1 [1] v2) Calls.nil)⟩

/-- C12, at the failing input. In a pool of one frame, after `new_page` (page 1) and
`unpin_page(1, false)`, page 1 is resident, unpinned and dirty (a new page is dirty); the pool
latch is free. `delete_page(1)` does not return: it calls `FlushPageImpl`, which asks for the
pool latch that `DeletePageImpl` holds. -/
theorem delete_dirty_page_deadlocks :
    Run 1 DiskManager.fresh [1] v2 ∧ v2.latch_ = false ∧ v2.page_table_ 1 = some 0 ∧
    (v2.pages_ 0).pin_count_ = 0 ∧ (v2.pages_ 0).is_dirty_ = true ∧
    v2.DeletePageImpl 1 = .error Fault.deadlock :=
  ⟨v2_run, rfl, rfl, rfl, rfl, rfl⟩

/-- Witness for C13: `flush_all` on a pool of one frame that holds page 1, dirty. -/
theorem flush_page_contract_witness :
    Inv w3 ∧ w3.page_table_ 1 = some 0 ∧ (w3.pages_ 0).is_dirty_ = true ∧
    ∃ b', w3.FlushAllPagesImpl = .ok b' ∧ b'.disk_manager_.pages 1 = exampleData ∧
      (b'.pages_ 0).is_dirty_ = false := by
  have hI : Inv w3 := (Run_Inv 1 DiskManager.fresh [1] w3 w3_run).1
  obtain ⟨b', h1, _, _, _, _, _, h2, _⟩ := (flush_page_contract w3 hI).2.2
  exact ⟨hI, rfl, rfl, b', h1, (h2 1 0 rfl).1, by rw [(h2 1 0 rfl).2]⟩

/-! ## Theorems about `AdjustRoot` -/

namespace BufferPoolManager

theorem FetchPageImpl_returns (b : BufferPoolManager) (p : page_id_t) (hl : b.latch_ = false)
    (hc : CanFetch b p) :
    ∃ f b1, FetchPageImpl b p = .ok (some f, b1) ∧ b1.latch_ = false ∧
      b1.page_table_ p = some f ∧
      ((b1.free_list_ = b.free_list_ ∧ b1.replacer_ = b.replacer_ ∧
          b1.page_table_ = b.page_table_) ∨ (b1.pages_ f).pin_count_ = 1) := by
  cases ht : b.page_table_ p with
  | some f =>
    exact ⟨f, _, FetchPageImpl_resident b p f hl ht, hl, ht, Or.inl ⟨rfl, rfl, rfl⟩⟩
  | none =>
    cases hf : b.free_list_ with
    | cons f rest =>
      refine ⟨f, _, FetchPageImpl_free b p f rest hl ht hf, hl, ?_, Or.inr ?_⟩
      · simp [tableSet]
      · simp
    | nil =>
      have hr : b.replacer_.lru_map ≠ [] := by
        rcases hc with h | h | h
        · exact absurd ht h
        · exact absurd hf h
        · exact h
      refine ⟨_, _, FetchPageImpl_victim b p hl ht hf hr, hl, ?_, Or.inr ?_⟩
      · simp [tableSet]
      · simp

theorem Unpin_map_ne_nil (r : LRUReplacer) (f : frame_id_t) : (r.Unpin f).lru_map ≠ [] := by
  unfold LRUReplacer.Unpin
  split
  · rename_i h
    intro hc
    rw [hc] at h
    simp at h
  · simp

theorem UnpinPageImpl_returns (b : BufferPoolManager) (p : page_id_t) (d : Bool)
    (f : frame_id_t) (hl : b.latch_ = false) (ht : b.page_table_ p = some f) :
    ∃ r b1, UnpinPageImpl b p d = .ok (r, b1) ∧ b1.latch_ = false ∧
      b1.page_table_ = b.page_table_ ∧ b1.free_list_ = b.free_list_ ∧
      (∀ g, (b1.pages_ g).data_ = (b.pages_ g).data_) ∧
      (b.replacer_.lru_map ≠ [] → b1.replacer_.lru_map ≠ []) ∧
      ((b.pages_ f).pin_count_ = 1 → b1.replacer_.lru_map ≠ []) := by
  by_cases hp : (b.pages_ f).pin_count_ = 0
  · refine ⟨false, b, UnpinPageImpl_unpinned b p d f hl ht hp, hl, rfl, rfl, fun _ => rfl,
      fun h => h, ?_⟩
    intro h1
    rw [hp] at h1
    exact absurd h1 (by decide)
  · refine ⟨true, _, UnpinPageImpl_pinned b p d f hl ht hp, hl, rfl, rfl, ?_, ?_, ?_⟩
    · intro g
      by_cases hg : g = f
      · simp [hg]
      · simp [hg]
    · intro h
      simp only
      split
      · exact Unpin_map_ne_nil _ _
      · exact h
    · intro h1
      simp only [h1, sub_self, if_true]
      exact Unpin_map_ne_nil _ _

end BufferPoolManager

namespace BPlusTree

theorem UpdateRootPageId_returns (ins : Bool) (w : World)
    (hl : w.tree.buffer_pool_manager_.latch_ = false)
    (hc : CanFetch w.tree.buffer_pool_manager_ HEADER_PAGE_ID) :
    ∃ b1, UpdateRootPageId ins w =
        .ok ((), { w with tree := { w.tree with buffer_pool_manager_ := b1 } }) ∧
      b1.latch_ = false ∧
      ∀ q, CanFetch w.tree.buffer_pool_manager_ q → CanFetch b1 q := by
  obtain ⟨h, b1, hf, hl1, ht1, hcase⟩ := FetchPageImpl_returns _ _ hl hc
  let b2 : BufferPoolManager := b1.setPage h { (b1.pages_ h) with
    data_ := { (b1.pages_ h).data_ with
      records := if ins then
          (HeaderPage.InsertRecord (b1.pages_ h).data_.records w.tree.index_name_
            w.tree.root_page_id_).2
        else (HeaderPage.UpdateRecord (b1.pages_ h).data_.records w.tree.index_name_
            w.tree.root_page_id_).2 } }
  have hl2 : b2.latch_ = false := hl1
  have ht2 : b2.page_table_ HEADER_PAGE_ID = some h := ht1
  obtain ⟨r, b3, hu, hl3, ht3, hf3, _, hr3, hp3⟩ :=
    UnpinPageImpl_returns b2 HEADER_PAGE_ID true h hl2 ht2
  refine ⟨b3, ?_, hl3, ?_⟩
  · simp only [UpdateRootPageId, pool, PoolM.FetchPage, PoolM.deref, PoolM.UnpinPage, getTree,
      bind, StateT.bind, Except.bind, hf, pure, StateT.pure, Except.pure, get, getThe,
      MonadStateOf.get, StateT.get, modify, modifyGet, MonadStateOf.modifyGet, StateT.modifyGet]
    cases ins
    · simp only [Bool.false_eq_true, if_false]
      have : b2 = b1.setPage h { (b1.pages_ h) with
        data_ := { (b1.pages_ h).data_ with
          records := (HeaderPage.UpdateRecord (b1.pages_ h).data_.records w.tree.index_name_
            w.tree.root_page_id_).2 } } := rfl
      rw [← this, hu]
    · simp only [if_true]
      have : b2 = b1.setPage h { (b1.pages_ h) with
        data_ := { (b1.pages_ h).data_ with
          records := (HeaderPage.InsertRecord (b1.pages_ h).data_.records w.tree.index_name_
            w.tree.root_page_id_).2 } } := rfl
      rw [← this, hu]
  · intro q hq
    rcases hcase with ⟨h1, h2, h3⟩ | h1
    · rcases hq with hq | hq | hq
      · left
        rw [ht3]
        show b1.page_table_ q ≠ none
        rw [h3]
        exact hq
      · right; left
        rw [hf3]
        show b1.free_list_ ≠ []
        rw [h1]
        exact hq
      · right; right
        apply hr3
        show b1.replacer_.lru_map ≠ []
        rw [h2]
        exact hq
    · right; right
      apply hp3
      show ((b1.setPage h _).pages_ h).pin_count_ = 1
      simp only [setPage, if_true]
      exact h1

end BPlusTree

/-- C19. Let the pool latch be free and let the pool be able to supply a frame for the header
page. If the node `old_root_node` points to is a leaf of size 0, `AdjustRoot` returns true and
leaves `root_page_id_` at `INVALID_PAGE_ID`, so that the tree reports empty. If it is an internal
node of size 1 (and the pool can supply a frame for its child), `AdjustRoot` returns true,
`root_page_id_` is the child in slot 0, and that child is resident with parent
`INVALID_PAGE_ID`. In every other case `AdjustRoot` returns false and changes nothing: neither
`root_page_id_` nor any page. -/
theorem adjust_root_contract (w : World) (r : frame_id_t)
    (hl : w.tree.buffer_pool_manager_.latch_ = false)
    (hc : CanFetch w.tree.buffer_pool_manager_ HEADER_PAGE_ID) :
    (((w.tree.buffer_pool_manager_.pages_ r).data_.node.IsLeafPage = true ∧
        (w.tree.buffer_pool_manager_.pages_ r).data_.node.size_ = 0) →
      ∃ w', BPlusTree.AdjustRoot r w = .ok (true, w') ∧
        w'.tree.root_page_id_ = INVALID_PAGE_ID ∧ w'.tree.IsEmpty = true) ∧
    (((w.tree.buffer_pool_manager_.pages_ r).data_.node.IsLeafPage = false ∧
        (w.tree.buffer_pool_manager_.pages_ r).data_.node.size_ = 1 ∧
        CanFetch w.tree.buffer_pool_manager_
          ((w.tree.buffer_pool_manager_.pages_ r).data_.node.array 0).2) →
      ∃ w' c, BPlusTree.AdjustRoot r w = .ok (true, w') ∧
        w'.tree.root_page_id_ = ((w.tree.buffer_pool_manager_.pages_ r).data_.node.array 0).2 ∧
        w'.tree.buffer_pool_manager_.page_table_ w'.tree.root_page_id_ = some c ∧
        (w'.tree.buffer_pool_manager_.pages_ c).data_.node.parent_page_id_ =
          INVALID_PAGE_ID) ∧
    (((w.tree.buffer_pool_manager_.pages_ r).data_.node.IsLeafPage = true ∧
        (w.tree.buffer_pool_manager_.pages_ r).data_.node.size_ ≠ 0) ∨
      ((w.tree.buffer_pool_manager_.pages_ r).data_.node.IsLeafPage = false ∧
        (w.tree.buffer_pool_manager_.pages_ r).data_.node.size_ ≠ 1) →
      BPlusTree.AdjustRoot r w = .ok (false, w)) := by
  refine ⟨?_, ?_, ?_⟩
  · rintro ⟨hleaf, hsize⟩
    obtain ⟨b1, hu, _, _⟩ := BPlusTree.UpdateRootPageId_returns false
      { w with tree := { w.tree with root_page_id_ := INVALID_PAGE_ID } } hl hc
    refine ⟨{ w with tree := { w.tree with root_page_id_ := INVALID_PAGE_ID,
                                           buffer_pool_manager_ := b1 } }, ?_, rfl, rfl⟩
    simp only [BPlusTree.AdjustRoot, BPlusTree.pool, PoolM.readNode, BPlusTree.modifyTree,
      bind, StateT.bind, Except.bind, pure, StateT.pure, Except.pure, get, getThe,
      MonadStateOf.get, StateT.get, modify, modifyGet, MonadStateOf.modifyGet,
      StateT.modifyGet, hleaf, hsize, if_true, hu]
  · rintro ⟨hleaf, hsize, hchild⟩
    obtain ⟨b1, hu, hl1, hc1⟩ := BPlusTree.UpdateRootPageId_returns false
      { w with tree := { w.tree with
          root_page_id_ := ((w.tree.buffer_pool_manager_.pages_ r).data_.node.array 0).2 } }
      hl hc
    obtain ⟨c, b2, hf2, hl2, ht2, _⟩ := FetchPageImpl_returns b1 _ hl1 (hc1 _ hchild)
    obtain ⟨r3, b4, hu4, _, ht4, _, hd4, _, _⟩ := UnpinPageImpl_returns
      (b2.setPage c { (b2.pages_ c) with
        data_ := { (b2.pages_ c).data_ with
          node := { (b2.pages_ c).data_.node with parent_page_id_ := INVALID_PAGE_ID } } })
      ((w.tree.buffer_pool_manager_.pages_ r).data_.node.array 0).2 true c hl2 ht2
    refine ⟨{ w with tree := { w.tree with
        root_page_id_ := ((w.tree.buffer_pool_manager_.pages_ r).data_.node.array 0).2,
        buffer_pool_manager_ := b4 } }, c, ?_, rfl, ?_, ?_⟩
    · simp only [BPlusTree.AdjustRoot, BPlusTree.pool, PoolM.readNode, BPlusTree.modifyTree,
        BPlusTree.getTree, BPlusTree.SetParentPageId, PoolM.modifyNode, PoolM.writeNode,
        PoolM.FetchPage, PoolM.deref, PoolM.UnpinPage, BPlusTreeInternalPage.ValueAt, assert,
        liftM, monadLift, MonadLift.monadLift, StateT.lift,
        bind, StateT.bind, Except.bind, pure, StateT.pure, Except.pure, get, getThe,
        MonadStateOf.get, StateT.get, modify, modifyGet, MonadStateOf.modifyGet,
        StateT.modifyGet, hleaf, hsize, Bool.false_eq_true, if_false, if_true, le_refl,
        zero_lt_one, and_self, decide_True, hu, hf2, hu4]
    · show b4.page_table_ _ = some c
      rw [ht4]
      exact ht2
    · show (b4.pages_ c).data_.node.parent_page_id_ = INVALID_PAGE_ID
      rw [hd4 c]
      simp [setPage]
  · intro h
    rcases h with ⟨hleaf, hsize⟩ | ⟨hleaf, hsize⟩
    · simp only [BPlusTree.AdjustRoot, BPlusTree.pool, PoolM.readNode,
        bind, StateT.bind, Except.bind, pure, StateT.pure, Except.pure, get, getThe,
        MonadStateOf.get, StateT.get, hleaf, hsize, if_true, if_false]
    · simp only [BPlusTree.AdjustRoot, BPlusTree.pool, PoolM.readNode,
        bind, StateT.bind, Except.bind, pure, StateT.pure, Except.pure, get, getThe,
        MonadStateOf.get, StateT.get, hleaf, hsize, Bool.false_eq_true, if_false]

/-- Witness for C19: the internal root (page 2, frame 1) of `adjustWorld` has the single child
page 1, which becomes the root. -/
theorem adjust_root_contract_witness :
    adjustWorld.tree.buffer_pool_manager_.latch_ = false ∧
    CanFetch adjustWorld.tree.buffer_pool_manager_ HEADER_PAGE_ID ∧
    adjustWorld.tree.root_page_id_ = 2 ∧
    ∃ w' c, BPlusTree.AdjustRoot 1 adjustWorld = .ok (true, w') ∧ w'.tree.root_page_id_ = 1 ∧
      w'.tree.buffer_pool_manager_.page_table_ 1 = some c ∧
      (w'.tree.buffer_pool_manager_.pages_ c).data_.node.parent_page_id_ = INVALID_PAGE_ID := by
  have hc : CanFetch adjustWorld.tree.buffer_pool_manager_ HEADER_PAGE_ID :=
    Or.inr (Or.inl (by decide!))
  obtain ⟨w', c, h1, h2, h3, h4⟩ := (adjust_root_contract adjustWorld 1 (by decide!) hc).2.1
    ⟨by decide!, by decide!, Or.inl (by decide!)⟩
  have h5 : w'.tree.root_page_id_ = 1 := h2.trans (by decide!)
  exact ⟨by decide!, hc, by decide!, w', c, h1, h5, h5 ▸ h3, h4⟩

/-! ## The claims about splits and the forward scan -/

/-- C17, at the failing input. The root of `oddLeafWorld` is a leaf of capacity 3 that holds the
keys 10, 20, 30. `insert(5, 500)` returns true; afterwards the old leaf holds 5, 10, 20 (size 3)
and the new leaf holds 30 (size 1), where the claim gives two leaves of size 2. Likewise a full
leaf of capacity 339 with the keys 1, ..., 339 is split by `insert(0, 0)` into leaves of sizes
171 and 169, where the claim gives 170 and 170. -/
theorem odd_leaf_split_uneven :
    (oddLeafWorld.tree.root_page_id_ = 1 ∧
      oddLeafWorld.tree.buffer_pool_manager_.page_table_ 1 = some 0 ∧
      (oddLeafWorld.tree.buffer_pool_manager_.pages_ 0).data_.node.IsLeafPage = true ∧
      (oddLeafWorld.tree.buffer_pool_manager_.pages_ 0).data_.node.size_ = 3 ∧
      (oddLeafWorld.tree.buffer_pool_manager_.pages_ 0).data_.node.max_size_ = 3) ∧
    (resultOf (BPlusTree.Insert 8 5 500 oddLeafWorld) = some true ∧
      (oddLeafWorld1.tree.buffer_pool_manager_.pages_ 0).data_.node.size_ = 3 ∧
      (oddLeafWorld1.tree.buffer_pool_manager_.pages_ 0).data_.node.array 0 = (5, 500) ∧
      (oddLeafWorld1.tree.buffer_pool_manager_.pages_ 0).data_.node.array 1 = (10, 1) ∧
      (oddLeafWorld1.tree.buffer_pool_manager_.pages_ 0).data_.node.array 2 = (20, 2) ∧
      oddLeafWorld1.tree.buffer_pool_manager_.page_table_ 2 = some 1 ∧
      (oddLeafWorld1.tree.buffer_pool_manager_.pages_ 1).data_.node.IsLeafPage = true ∧
      (oddLeafWorld1.tree.buffer_pool_manager_.pages_ 1).data_.node.size_ = 1 ∧
      (oddLeafWorld1.tree.buffer_pool_manager_.pages_ 1).data_.node.array 0 = (30, 3)) ∧
    ((bigLeafWorld.tree.buffer_pool_manager_.pages_ 0).data_.node.size_ = 339 ∧
      (bigLeafWorld.tree.buffer_pool_manager_.pages_ 0).data_.node.max_size_ = 339 ∧
      resultOf (BPlusTree.Insert 8 0 0 bigLeafWorld) = some true ∧
      (bigLeafWorld1.tree.buffer_pool_manager_.pages_ 0).data_.node.size_ = 171 ∧
      (bigLeafWorld1.tree.buffer_pool_manager_.pages_ 1).data_.node.size_ = 169) := by
  decide!

/-- C18, at the failing inputs. (1) On the tree `iw0`, just constructed, with leaf capacity 4,
the inserts of 1, 2, 3, 4, 5 all return true; afterwards `root_page_id_` is `INVALID_PAGE_ID`, no
frame of the pool holds an internal page, and `get_value(3)` returns false. (2) On
`rootLeafWorld`, whose root is the full leaf page 1 with the keys 1, 2, 3, 4, `insert(5, 50)`
returns true after `InsertIntoParent` was called with the root as `old_node`; afterwards
`root_page_id_` is still 1, the page of the old leaf; the new internal page is page 3 of the pool
but carries page id 1; it has size 2, slot 0 points to page 1 and slot 1 is `(3, 77)`, 77 being
the page id that the new leaf carries (page 2 of the pool); both leaves have parent 1; and
`get_value(5)` returns false. -/
theorem root_split_keeps_old_root :
    (resultOf (insertAll 8 [(1, 10), (2, 20), (3, 30), (4, 40), (5, 50)] iw0) =
        some [true, true, true, true, true] ∧
      iw5.tree.root_page_id_ = INVALID_PAGE_ID ∧
      (List.range 10).all (fun i : Nat =>
        decide ((iw5.tree.buffer_pool_manager_.pages_ i).data_.node.page_type_ ≠
          IndexPageType.INTERNAL_PAGE)) = true ∧
      resultOf (BPlusTree.GetValue 8 3 [] iw5) = some (false, [])) ∧
    (rootLeafWorld.tree.root_page_id_ = 1 ∧
      rootLeafWorld.tree.buffer_pool_manager_.page_table_ 1 = some 0 ∧
      (rootLeafWorld.tree.buffer_pool_manager_.pages_ 0).data_.node.IsRootPage = true ∧
      (rootLeafWorld.tree.buffer_pool_manager_.pages_ 0).data_.node.page_id_ = 1 ∧
      (rootLeafWorld.tree.buffer_pool_manager_.pages_ 0).data_.node.size_ = 4) ∧
    (resultOf (BPlusTree.Insert 8 5 50 rootLeafWorld) = some true ∧
      rootLeafWorld1.tree.root_page_id_ = 1 ∧
      rootLeafWorld1.tree.buffer_pool_manager_.page_table_ 1 = some 0 ∧
      rootLeafWorld1.tree.buffer_pool_manager_.page_table_ 2 = some 1 ∧
      rootLeafWorld1.tree.buffer_pool_manager_.page_table_ 3 = some 2 ∧
      (rootLeafWorld1.tree.buffer_pool_manager_.pages_ 2).data_.node.page_type_ =
        IndexPageType.INTERNAL_PAGE ∧
      (rootLeafWorld1.tree.buffer_pool_manager_.pages_ 2).data_.node.size_ = 2 ∧
      (rootLeafWorld1.tree.buffer_pool_manager_.pages_ 2).data_.node.page_id_ = 1 ∧
      ((rootLeafWorld1.tree.buffer_pool_manager_.pages_ 2).data_.node.array 0).2 = 1 ∧
      (rootLeafWorld1.tree.buffer_pool_manager_.pages_ 2).data_.node.array 1 = (3, 77) ∧
      (rootLeafWorld1.tree.buffer_pool_manager_.pages_ 0).data_.node.parent_page_id_ = 1 ∧
      (rootLeafWorld1.tree.buffer_pool_manager_.pages_ 0).data_.node.size_ = 2 ∧
      (rootLeafWorld1.tree.buffer_pool_manager_.pages_ 1).data_.node.parent_page_id_ = 1 ∧
      (rootLeafWorld1.tree.buffer_pool_manager_.pages_ 1).data_.node.page_id_ = 77 ∧
      (rootLeafWorld1.tree.buffer_pool_manager_.pages_ 1).data_.node.size_ = 3 ∧
      resultOf (BPlusTree.GetValue 8 5 [] rootLeafWorld1) = some (false, [])) := by
  decide!

/-- C20, at the failing input. The tree `scanWorld` has the leaves `{1, 2, 3}` (page 1) and
`{4, 5}` (page 2), chained, under the internal root page 3. `begin()` is at slot 0 of the first
leaf and `end()` at slot 2 of the second leaf. An iterator at slot 2 of the first leaf does not
differ from `end()` for the operator `!=`, so the loop
`for (it = begin(); it != end(); ++it)` dereferences the pairs of the keys 1 and 2 and stops:
the pairs of 3, 4 and 5 are not visited. -/
theorem forward_scan_stops_early :
    (scanWorld.tree.root_page_id_ = 3 ∧
      scanWorld.tree.buffer_pool_manager_.page_table_ 1 = some 0 ∧
      scanWorld.tree.buffer_pool_manager_.page_table_ 2 = some 1 ∧
      scanWorld.tree.buffer_pool_manager_.page_table_ 3 = some 2 ∧
      (scanWorld.tree.buffer_pool_manager_.pages_ 0).data_.node.size_ = 3 ∧
      (scanWorld.tree.buffer_pool_manager_.pages_ 0).data_.node.next_page_id_ = 2 ∧
      (scanWorld.tree.buffer_pool_manager_.pages_ 1).data_.node.size_ = 2 ∧
      (scanWorld.tree.buffer_pool_manager_.pages_ 1).data_.node.next_page_id_ =
        INVALID_PAGE_ID) ∧
    resultOf (BPlusTree.begin_ 8 scanWorld) = some { leaf_ := some 0, index_ := 0 } ∧
    resultOf (BPlusTree.end_ 8 scanWorld) = some { leaf_ := some 1, index_ := 2 } ∧
    IndexIterator.ne { leaf_ := some 0, index_ := 2 } { leaf_ := some 1, index_ := 2 } = false ∧
    resultOf (BPlusTree.scan 8 scanWorld) = some [(1, 10), (2, 20)] := by
  decide!

/-! ## The claims about pins, duplicate keys, the leaf chain and redistribution -/

/-- C21, on the code: the pins taken by an `insert` are not all given back. On the empty tree
`tw0`, `insert(1, 100)` returns true and leaves the page 1 that
`StartNewTree` created (frame 0) with pin count 1: its `UnpinPage` is called with the page id of
the freshly initialised leaf, which is `root_page_id_`, still `INVALID_PAGE_ID`. On
`rootLeafWorld`, whose pages all have pin count 0, `insert(5, 50)` splits the root leaf, returns
true and leaves the new leaf (page 2, frame 1) and the new root (page 3, frame 2) with pin count
1: `InsertIntoParent` unpins them under the ids their `Init` was given, 77 and 1. -/
theorem insert_leaves_pages_pinned :
    (resultOf (BPlusTree.Insert 8 1 100 tw0) = some true ∧
      tw1.tree.buffer_pool_manager_.page_table_ 1 = some 0 ∧
      (tw0.tree.buffer_pool_manager_.pages_ 0).pin_count_ = 0 ∧
      (tw1.tree.buffer_pool_manager_.pages_ 0).pin_count_ = 1) ∧
    (resultOf (BPlusTree.Insert 8 5 50 rootLeafWorld) = some true ∧
      (List.range 6).map
          (fun i : Nat => (rootLeafWorld.tree.buffer_pool_manager_.pages_ i).pin_count_) =
        [0, 0, 0, 0, 0, 0] ∧
      rootLeafWorld1.tree.buffer_pool_manager_.page_table_ 2 = some 1 ∧
      rootLeafWorld1.tree.buffer_pool_manager_.page_table_ 3 = some 2 ∧
      (List.range 6).map
          (fun i : Nat => (rootLeafWorld1.tree.buffer_pool_manager_.pages_ i).pin_count_) =
        [0, 1, 1, 0, 0, 0]) := by
  decide!

/-- C25, on the code: `Insert` of a key the leaf already holds returns normally and leaves two
pairs with that key when the key is the only one of the leaf, or sits in its first slot, or in
its last slot; the assertion fails only when the binary search probes the key, here the middle
slot. -/
theorem leaf_insert_accepts_duplicate :
    nodeResultOf (BPlusTreeLeafPage.Insert
        (leafNode 1 INVALID_PAGE_ID INVALID_PAGE_ID 4 [(5, 50)]) 5 99) =
      some (2, [(5, 99), (5, 50)]) ∧
    nodeResultOf (BPlusTreeLeafPage.Insert
        (leafNode 1 INVALID_PAGE_ID INVALID_PAGE_ID 4 [(1, 10), (2, 20), (3, 30)]) 1 99) =
      some (4, [(1, 10), (1, 99), (2, 20), (3, 30)]) ∧
    nodeResultOf (BPlusTreeLeafPage.Insert
        (leafNode 1 INVALID_PAGE_ID INVALID_PAGE_ID 4 [(1, 10), (2, 20), (3, 30)]) 3 99) =
      some (4, [(1, 10), (2, 20), (3, 99), (3, 30)]) ∧
    faultOf (BPlusTreeLeafPage.Insert
        (leafNode 1 INVALID_PAGE_ID INVALID_PAGE_ID 4 [(1, 10), (2, 20), (3, 30)]) 2 99) =
      some Fault.assertion := by
  decide!

/-- C27, on the code: on `rootLeafWorld`, the root leaf `{1, 2, 3, 4}` of capacity 4 with no
successor, `insert(5, 50)` splits the leaf. The buffer pool allocates page 2 (frame 1) for the
new leaf, which receives `{3, 4, 5}` and the old successor `INVALID_PAGE_ID`; but the new leaf
is initialised with the uninitialised `page_id_t` that `Split` read before `NewPageImpl` (77
here), and the old leaf's `next_page_id` becomes that value. No page 77 is in the pool, and the
forward scan of the result fails an assertion. When the uninitialised value reads as 0, both ids
are 0. -/
theorem split_leaf_carries_wrong_page_id :
    ((rootLeafWorld.node 0).next_page_id_ = INVALID_PAGE_ID ∧
      resultOf (BPlusTree.Insert 8 5 50 rootLeafWorld) = some true ∧
      rootLeafWorld1.tree.buffer_pool_manager_.page_table_ 2 = some 1 ∧
      (rootLeafWorld1.node 1).slots = [(3, 30), (4, 40), (5, 50)] ∧
      (rootLeafWorld1.node 1).page_id_ = 77 ∧
      (rootLeafWorld1.node 1).next_page_id_ = INVALID_PAGE_ID ∧
      (rootLeafWorld1.node 0).slots = [(1, 10), (2, 20)] ∧
      (rootLeafWorld1.node 0).next_page_id_ = 77 ∧
      rootLeafWorld1.tree.buffer_pool_manager_.page_table_ 77 = none ∧
      faultOf (BPlusTree.scan 8 rootLeafWorld1) = some Fault.assertion) ∧
    (resultOf (BPlusTree.Insert 8 5 50 rootLeafWorldZero) = some true ∧
      rootLeafWorldZero1.tree.buffer_pool_manager_.page_table_ 2 = some 1 ∧
      (rootLeafWorldZero1.node 1).page_id_ = 0 ∧
      (rootLeafWorldZero1.node 0).next_page_id_ = 0) := by
  decide!

/-- C28, on the code: on `redistributeRightWorld`, leaves `{1, 2}` and `{4, 5, 6, 7}` under
the separator 4, where `get_value(4)` finds 40, `remove(2)` redistributes from the right
neighbour: afterwards the leaves are `{1, 4}` and `{5, 6, 7}`, the separator is still 4, the key
just moved to the left leaf, and `get_value(4)` finds nothing. In the other direction
(`redistributeLeftWorld`, `remove(7)`) the leaves become `{1, 2, 3}` and `{4, 6}` under the
separator 4 and `get_value(4)` still finds 40. -/
theorem redistribute_from_right_breaks_separator :
    ((redistributeRightWorld.node 0).slots = [(1, 10), (2, 20)] ∧
      (redistributeRightWorld.node 1).slots = [(4, 40), (5, 50), (6, 60), (7, 70)] ∧
      (redistributeRightWorld.node 2).slots = [(0, 1), (4, 2)] ∧
      resultOf (BPlusTree.GetValue 8 4 [] redistributeRightWorld) = some (true, [40])) ∧
    (faultOf (BPlusTree.Remove 8 2 redistributeRightWorld) = none ∧
      (redistributeRightWorld1.node 0).slots = [(1, 10), (4, 40)] ∧
      (redistributeRightWorld1.node 1).slots = [(5, 50), (6, 60), (7, 70)] ∧
      (redistributeRightWorld1.node 2).slots = [(0, 1), (4, 2)] ∧
      resultOf (BPlusTree.GetValue 8 4 [] redistributeRightWorld1) = some (false, [])) ∧
    (faultOf (BPlusTree.Remove 8 7 redistributeLeftWorld) = none ∧
      (redistributeLeftWorld1.node 0).slots = [(1, 10), (2, 20), (3, 30)] ∧
      (redistributeLeftWorld1.node 1).slots = [(4, 40), (6, 60)] ∧
      (redistributeLeftWorld1.node 2).slots = [(0, 1), (4, 2)] ∧
      resultOf (BPlusTree.GetValue 8 4 [] redistributeLeftWorld1) = some (true, [40])) := by
  decide!

/-! ## Theorems about the methods of a node -/

theorem SortedFrom_lt {nd : BPlusTreePage} {start : Nat} (hs : nd.SortedFrom start)
    {i j : Int} (hi : (start : Int) ≤ i) (hij : i < j) (hj : j < nd.size_) :
    (nd.array i).1 < (nd.array j).1 := by
  have h := hs j.toNat (by omega) i.toNat (by omega) (by omega)
  rwa [Int.toNat_of_nonneg (by omega), Int.toNat_of_nonneg (by omega)] at h

theorem SortedFrom_le {nd : BPlusTreePage} {start : Nat} (hs : nd.SortedFrom start)
    {i j : Int} (hi : (start : Int) ≤ i) (hij : i ≤ j) (hj : j < nd.size_) :
    (nd.array i).1 ≤ (nd.array j).1 := by
  rcases eq_or_lt_of_le hij with h | h
  · subst h; exact le_refl _
  · exact le_of_lt (SortedFrom_lt hs hi h hj)

theorem comparator_lt {a b : Int} : comparator a b < 0 ↔ a < b := by
  unfold comparator
  by_cases h1 : a < b
  · rw [if_pos h1]; constructor <;> intro <;> linarith
  · rw [if_neg h1]
    by_cases h2 : a = b
    · rw [if_pos h2]; constructor <;> intro <;> linarith
    · rw [if_neg h2]
      have : b < a := lt_of_le_of_ne (not_lt.mp h1) (Ne.symm h2)
      constructor <;> intro <;> linarith

theorem comparator_gt {a b : Int} : comparator a b > 0 ↔ b < a := by
  unfold comparator
  by_cases h1 : a < b
  · rw [if_pos h1]; constructor <;> intro <;> linarith
  · rw [if_neg h1]
    by_cases h2 : a = b
    · rw [if_pos h2]; constructor <;> intro <;> linarith
    · rw [if_neg h2]
      have : b < a := lt_of_le_of_ne (not_lt.mp h1) (Ne.symm h2)
      constructor <;> intro <;> linarith

theorem comparator_ge {a b : Int} : comparator a b ≥ 0 ↔ b ≤ a := by
  unfold comparator
  by_cases h1 : a < b
  · rw [if_pos h1]; constructor <;> intro <;> linarith
  · rw [if_neg h1]
    by_cases h2 : a = b
    · rw [if_pos h2]; constructor <;> intro <;> linarith
    · rw [if_neg h2]
      have : b < a := lt_of_le_of_ne (not_lt.mp h1) (Ne.symm h2)
      constructor <;> intro <;> linarith

theorem tdiv_two_bounds {d : Int} (h : 0 ≤ d) :
    0 ≤ Int.tdiv d 2 ∧ 2 * Int.tdiv d 2 ≤ d ∧ d < 2 * Int.tdiv d 2 + 2 := by
  rw [Int.tdiv_eq_ediv h (by decide)]
  omega

namespace BPlusTreeLeafPage

theorem KeyAt_ok {nd : BPlusTreePage} {i : Int} (h0 : 0 ≤ i) (h1 : i < nd.size_) :
    KeyAt nd i = .ok (nd.array i).1 := by
  simp [KeyAt, assert, h0, h1]

theorem lookupSearch_found {nd : BPlusTreePage} {key : KeyType} (hs : nd.SortedFrom 0)
    {i : Int} (hk : (nd.array i).1 = key) :
    ∀ (fuel : Nat) (low high : Int), 0 ≤ low → high < nd.size_ → low ≤ i → i ≤ high →
      high - low < fuel → lookupSearch nd key fuel low high = .ok (some (nd.array i).2) := by
  intro fuel
  induction fuel with
  | zero => intro low high _ _ _ _ h; omega
  | succ n ih =>
    intro low high hl hh hli hih hf
    have hle : low ≤ high := by omega
    obtain ⟨d0, d1, d2⟩ := tdiv_two_bounds (d := high - low) (by omega)
    have hm0 : 0 ≤ low + Int.tdiv (high - low) 2 := by omega
    have hm1 : low + Int.tdiv (high - low) 2 < nd.size_ := by omega
    rw [lookupSearch, if_pos hle]
    simp only [KeyAt_ok hm0 hm1, bind, Except.bind]
    by_cases c1 : comparator key (nd.array (low + Int.tdiv (high - low) 2)).1 > 0
    · rw [if_pos c1]
      have : low + Int.tdiv (high - low) 2 < i := by
        by_contra hc
        have := SortedFrom_le hs (by simpa using hli.trans' hl) (not_lt.mp hc) hm1
        rw [comparator_gt, ← hk] at c1
        linarith
      exact ih _ _ (by omega) hh (by omega) hih (by omega)
    · rw [if_neg c1]
      by_cases c2 : comparator key (nd.array (low + Int.tdiv (high - low) 2)).1 < 0
      · rw [if_pos c2]
        have : i < low + Int.tdiv (high - low) 2 := by
          by_contra hc
          have := SortedFrom_le hs (by simpa using hm0) (not_lt.mp hc) (by omega : i < nd.size_)
          rw [comparator_lt, ← hk] at c2
          linarith
        exact ih _ _ hl (by omega) hli (by omega) (by omega)
      · rw [if_neg c2]
        rw [comparator_gt] at c1
        rw [comparator_lt] at c2
        have hkm : (nd.array (low + Int.tdiv (high - low) 2)).1 = (nd.array i).1 := by
          rw [hk]; linarith
        have : low + Int.tdiv (high - low) 2 = i := by
          by_contra hne
          rcases lt_or_gt_of_ne hne with h | h
          · have := SortedFrom_lt hs (by simpa using hm0) h (by omega : i < nd.size_)
            linarith
          · have := SortedFrom_lt hs (by simpa using hli.trans' hl) h hm1
            linarith
        rw [this]
        rfl

theorem lookupSearch_absent {nd : BPlusTreePage} {key : KeyType} :
    ∀ (fuel : Nat) (low high : Int), 0 ≤ low → high < nd.size_ →
      (∀ i : Int, low ≤ i → i ≤ high → (nd.array i).1 ≠ key) →
      high - low < fuel → lookupSearch nd key fuel low high = .ok none := by
  intro fuel
  induction fuel with
  | zero =>
    intro low high _ _ _ h
    rw [lookupSearch, if_neg (by omega)]
  | succ n ih =>
    intro low high hl hh hne hf
    rw [lookupSearch]
    by_cases hle : low ≤ high
    · rw [if_pos hle]
      obtain ⟨d0, d1, d2⟩ := tdiv_two_bounds (d := high - low) (by omega)
      have hm0 : 0 ≤ low + Int.tdiv (high - low) 2 := by omega
      have hm1 : low + Int.tdiv (high - low) 2 < nd.size_ := by omega
      simp only [KeyAt_ok hm0 hm1, bind, Except.bind]
      by_cases c1 : comparator key (nd.array (low + Int.tdiv (high - low) 2)).1 > 0
      · rw [if_pos c1]
        exact ih _ _ (by omega) hh (fun i h1 h2 => hne i (by omega) h2) (by omega)
      · rw [if_neg c1]
        by_cases c2 : comparator key (nd.array (low + Int.tdiv (high - low) 2)).1 < 0
        · rw [if_pos c2]
          exact ih _ _ hl (by omega) (fun i h1 h2 => hne i h1 (by omega)) (by omega)
        · exfalso
          rw [comparator_gt] at c1
          rw [comparator_lt] at c2
          exact hne (low + Int.tdiv (high - low) 2) (by omega) (by omega) (by linarith)
    · rw [if_neg hle]

theorem Lookup_found {nd : BPlusTreePage} {key : KeyType} (hs : nd.SortedFrom 0)
    {i : Int} (hi0 : 0 ≤ i) (hi1 : i < nd.size_) (hk : (nd.array i).1 = key) :
    Lookup nd key = .ok (some (nd.array i).2) := by
  have hsz : nd.size_ ≠ 0 := by omega
  have hlo := SortedFrom_le hs (le_refl _) hi0 hi1
  have hhi := SortedFrom_le hs (by simpa using hi0) (by omega : i ≤ nd.size_ - 1) (by omega)
  have c0 : ¬ comparator key (nd.array 0).1 < 0 := by
    rw [comparator_lt, ← hk]; simp only [Nat.cast_zero] at hlo; linarith
  have c1 : ¬ comparator key (nd.array (nd.size_ - 1)).1 > 0 := by
    rw [comparator_gt, ← hk]; linarith
  have hf := lookupSearch_found hs hk nd.size_.toNat 0 (nd.size_ - 1) (le_refl _) (by omega)
    hi0 (by omega) (by omega)
  simp only [Lookup, if_neg hsz, bind, Except.bind, pure, Except.pure,
    KeyAt_ok (le_refl 0) (by omega : (0 : Int) < nd.size_),
    KeyAt_ok (by omega : (0 : Int) ≤ nd.size_ - 1) (by omega : nd.size_ - 1 < nd.size_),
    if_neg c0, decide_eq_true_eq, if_neg c1]
  simpa using hf

theorem Lookup_absent {nd : BPlusTreePage} {key : KeyType} (h0 : 0 ≤ nd.size_)
    (hne : ∀ i : Int, 0 ≤ i → i < nd.size_ → (nd.array i).1 ≠ key) :
    Lookup nd key = .ok none := by
  by_cases hsz : nd.size_ = 0
  · simp [Lookup, hsz, bind, Except.bind, pure, Except.pure]
  · have hf := @lookupSearch_absent nd key nd.size_.toNat 0 (nd.size_ - 1)
      (le_refl _) (by omega) (fun i h1 h2 => hne i h1 (by omega)) (by omega)
    simp only [Lookup, if_neg hsz, bind, Except.bind, pure, Except.pure,
      KeyAt_ok (le_refl 0) (by omega : (0 : Int) < nd.size_),
      KeyAt_ok (by omega : (0 : Int) ≤ nd.size_ - 1) (by omega : nd.size_ - 1 < nd.size_)]
    by_cases c0 : comparator key (nd.array 0).1 < 0
    · simp [c0]
    · by_cases c1 : comparator key (nd.array (nd.size_ - 1)).1 > 0
      · simp [c0, c1]
      · simpa [c0, c1] using hf

end BPlusTreeLeafPage

theorem slots_length (nd : BPlusTreePage) : nd.slots.length = nd.size_.toNat := by
  simp [BPlusTreePage.slots]

theorem slots_getElem (nd : BPlusTreePage) (n : Nat) (h : n < nd.slots.length) :
    nd.slots[n] = nd.array n := by
  simp [BPlusTreePage.slots]

namespace BPlusTreeLeafPage

theorem removeSearch_found {nd : BPlusTreePage} {key : KeyType} (hs : nd.SortedFrom 0)
    {i : Int} (hk : (nd.array i).1 = key) :
    ∀ (fuel : Nat) (low high : Int), 0 ≤ low → high < nd.size_ → low ≤ i → i ≤ high →
      high - low < fuel →
      removeSearch nd key fuel low high =
        .ok (BPlusTreePage.IncreaseSize
          { nd with array := fun j => if i ≤ j ∧ j < i + (nd.size_ - i - 1)
                                      then nd.array (j - i + (i + 1)) else nd.array j } (-1)) := by
  intro fuel
  induction fuel with
  | zero => intro low high _ _ _ _ h; omega
  | succ n ih =>
    intro low high hl hh hli hih hf
    have hle : low ≤ high := by omega
    obtain ⟨d0, d1, d2⟩ := tdiv_two_bounds (d := high - low) (by omega)
    have hm0 : 0 ≤ low + Int.tdiv (high - low) 2 := by omega
    have hm1 : low + Int.tdiv (high - low) 2 < nd.size_ := by omega
    rw [removeSearch, if_pos hle]
    simp only [KeyAt_ok hm0 hm1, bind, Except.bind]
    by_cases c1 : comparator key (nd.array (low + Int.tdiv (high - low) 2)).1 > 0
    · rw [if_pos c1]
      have : low + Int.tdiv (high - low) 2 < i := by
        by_contra hc
        have := SortedFrom_le hs (by simpa using hli.trans' hl) (not_lt.mp hc) hm1
        rw [comparator_gt, ← hk] at c1
        linarith
      exact ih _ _ (by omega) hh (by omega) hih (by omega)
    · rw [if_neg c1]
      by_cases c2 : comparator key (nd.array (low + Int.tdiv (high - low) 2)).1 < 0
      · rw [if_pos c2]
        have : i < low + Int.tdiv (high - low) 2 := by
          by_contra hc
          have := SortedFrom_le hs (by simpa using hm0) (not_lt.mp hc) (by omega : i < nd.size_)
          rw [comparator_lt, ← hk] at c2
          linarith
        exact ih _ _ hl (by omega) hli (by omega) (by omega)
      · rw [if_neg c2]
        rw [comparator_gt] at c1
        rw [comparator_lt] at c2
        have hkm : (nd.array (low + Int.tdiv (high - low) 2)).1 = (nd.array i).1 := by
          rw [hk]; linarith
        have hmi : low + Int.tdiv (high - low) 2 = i := by
          by_contra hne
          rcases lt_or_gt_of_ne hne with h | h
          · have := SortedFrom_lt hs (by simpa using hm0) h (by omega : i < nd.size_)
            linarith
          · have := SortedFrom_lt hs (by simpa using hli.trans' hl) h hm1
            linarith
        rw [hmi]
        simp only [BPlusTreePage.memmove, if_neg (by omega : ¬ nd.size_ - i - 1 < 0)]
        rfl

theorem removeSearch_absent {nd : BPlusTreePage} {key : KeyType} :
    ∀ (fuel : Nat) (low high : Int), 0 ≤ low → high < nd.size_ →
      (∀ i : Int, low ≤ i → i ≤ high → (nd.array i).1 ≠ key) →
      high - low < fuel → removeSearch nd key fuel low high = .ok nd := by
  intro fuel
  induction fuel with
  | zero =>
    intro low high _ _ _ h
    rw [removeSearch, if_neg (by omega)]
  | succ n ih =>
    intro low high hl hh hne hf
    rw [removeSearch]
    by_cases hle : low ≤ high
    · rw [if_pos hle]
      obtain ⟨d0, d1, d2⟩ := tdiv_two_bounds (d := high - low) (by omega)
      have hm0 : 0 ≤ low + Int.tdiv (high - low) 2 := by omega
      have hm1 : low + Int.tdiv (high - low) 2 < nd.size_ := by omega
      simp only [KeyAt_ok hm0 hm1, bind, Except.bind]
      by_cases c1 : comparator key (nd.array (low + Int.tdiv (high - low) 2)).1 > 0
      · rw [if_pos c1]
        exact ih _ _ (by omega) hh (fun i h1 h2 => hne i (by omega) h2) (by omega)
      · rw [if_neg c1]
        by_cases c2 : comparator key (nd.array (low + Int.tdiv (high - low) 2)).1 < 0
        · rw [if_pos c2]
          exact ih _ _ hl (by omega) (fun i h1 h2 => hne i h1 (by omega)) (by omega)
        · exfalso
          rw [comparator_gt] at c1
          rw [comparator_lt] at c2
          exact hne (low + Int.tdiv (high - low) 2) (by omega) (by omega) (by linarith)
    · rw [if_neg hle]

theorem RemoveAndDeleteRecord_found {nd : BPlusTreePage} {key : KeyType} (hs : nd.SortedFrom 0)
    {i : Int} (hi0 : 0 ≤ i) (hi1 : i < nd.size_) (hk : (nd.array i).1 = key) :
    RemoveAndDeleteRecord nd key =
      .ok (nd.size_ + -1, BPlusTreePage.IncreaseSize
          { nd with array := fun j => if i ≤ j ∧ j < i + (nd.size_ - i - 1)
                                      then nd.array (j - i + (i + 1)) else nd.array j } (-1)) := by
  have hsz : nd.size_ ≠ 0 := by omega
  have hlo := SortedFrom_le hs (le_refl _) hi0 hi1
  have hhi := SortedFrom_le hs (by simpa using hi0) (by omega : i ≤ nd.size_ - 1) (by omega)
  have c0 : ¬ comparator key (nd.array 0).1 < 0 := by
    rw [comparator_lt, ← hk]; simp only [Nat.cast_zero] at hlo; linarith
  have c1 : ¬ comparator key (nd.array (nd.size_ - 1)).1 > 0 := by
    rw [comparator_gt, ← hk]; linarith
  have hf := removeSearch_found hs hk nd.size_.toNat 0 (nd.size_ - 1) (le_refl _) (by omega)
    hi0 (by omega) (by omega)
  simp only [RemoveAndDeleteRecord, if_neg hsz, bind, Except.bind, pure, Except.pure,
    KeyAt_ok (le_refl 0) (by omega : (0 : Int) < nd.size_),
    KeyAt_ok (by omega : (0 : Int) ≤ nd.size_ - 1) (by omega : nd.size_ - 1 < nd.size_),
    if_neg c0, decide_eq_true_eq, if_neg c1]
  simp [hf, BPlusTreePage.IncreaseSize]

theorem RemoveAndDeleteRecord_absent {nd : BPlusTreePage} {key : KeyType} (h0 : 0 ≤ nd.size_)
    (hne : ∀ i : Int, 0 ≤ i → i < nd.size_ → (nd.array i).1 ≠ key) :
    RemoveAndDeleteRecord nd key = .ok (nd.size_, nd) := by
  by_cases hsz : nd.size_ = 0
  · simp [RemoveAndDeleteRecord, hsz, bind, Except.bind, pure, Except.pure]
  · have hf := @removeSearch_absent nd key nd.size_.toNat 0 (nd.size_ - 1)
      (le_refl _) (by omega) (fun i h1 h2 => hne i h1 (by omega)) (by omega)
    simp only [RemoveAndDeleteRecord, if_neg hsz, bind, Except.bind, pure, Except.pure,
      KeyAt_ok (le_refl 0) (by omega : (0 : Int) < nd.size_),
      KeyAt_ok (by omega : (0 : Int) ≤ nd.size_ - 1) (by omega : nd.size_ - 1 < nd.size_)]
    by_cases c0 : comparator key (nd.array 0).1 < 0
    · simp [c0]
    · by_cases c1 : comparator key (nd.array (nd.size_ - 1)).1 > 0
      · simp [c0, c1]
      · simp [c0, c1, hf]

end BPlusTreeLeafPage

theorem removed_slots (nd : BPlusTreePage) (i : Int) (hi0 : 0 ≤ i) (hi1 : i < nd.size_) :
    (BPlusTreePage.IncreaseSize
        { nd with array := fun j => if i ≤ j ∧ j < i + (nd.size_ - i - 1)
                                    then nd.array (j - i + (i + 1)) else nd.array j } (-1)).slots =
      nd.slots.eraseIdx i.toNat := by
  apply List.ext_getElem
  · rw [List.length_eraseIdx, slots_length, slots_length, if_pos (by omega)]
    simp only [BPlusTreePage.IncreaseSize]
    omega
  · intro n h1 h2
    rw [slots_getElem, List.getElem_eraseIdx]
    rw [slots_length] at h1
    simp only [BPlusTreePage.IncreaseSize] at h1
    by_cases hn : n < i.toNat
    · rw [dif_pos hn, slots_getElem]
      simp only [BPlusTreePage.IncreaseSize]
      rw [if_neg (by omega)]
    · rw [dif_neg hn, slots_getElem]
      simp only [BPlusTreePage.IncreaseSize]
      rw [if_pos (by omega)]
      congr 1
      push_cast
      omega

theorem inserted_slots {nd nd1 : BPlusTreePage} {p : Int} {item : MappingType}
    (hp0 : 0 ≤ p) (hp1 : p ≤ nd.size_) (hsz : nd1.size_ = nd.size_ + 1)
    (harr : ∀ j : Int, 0 ≤ j → j ≤ nd.size_ →
      nd1.array j = if j < p then nd.array j else if j = p then item else nd.array (j - 1)) :
    nd1.slots = nd.slots.take p.toNat ++ item :: nd.slots.drop p.toNat := by
  apply List.ext_getElem
  · simp only [slots_length, List.length_append, List.length_take, List.length_cons,
      List.length_drop, hsz]
    omega
  · intro n h1 h2
    rw [slots_getElem, harr n (by omega) (by rw [slots_length, hsz] at h1; omega)]
    rw [slots_length, hsz] at h1
    rw [List.getElem_append]
    by_cases hn : (n : Int) < p
    · rw [if_pos hn, dif_pos (by rw [List.length_take, slots_length]; omega),
        List.getElem_take, slots_getElem]
    · rw [if_neg hn, dif_neg (by rw [List.length_take, slots_length]; omega)]
      by_cases hn2 : (n : Int) = p
      · rw [if_pos hn2]
        have : n - (List.take p.toNat nd.slots).length = 0 := by
          rw [List.length_take, slots_length]; omega
        simp only [this, List.getElem_cons_zero]
      · rw [if_neg hn2]
        have : n - (List.take p.toNat nd.slots).length = (n - p.toNat - 1) + 1 := by
          rw [List.length_take, slots_length]; omega
        simp only [this, List.getElem_cons_succ, List.getElem_drop, slots_getElem]
        congr 1
        omega

theorem inserted_sorted {nd nd1 : BPlusTreePage} {p : Int} {key : KeyType} {value : ValueType}
    (hs : nd.SortedFrom 0)
    (hp0 : 0 ≤ p) (hp1 : p ≤ nd.size_) (hsz : nd1.size_ = nd.size_ + 1)
    (harr : ∀ j : Int, 0 ≤ j → j ≤ nd.size_ →
      nd1.array j =
        if j < p then nd.array j else if j = p then (key, value) else nd.array (j - 1))
    (hlt : ∀ j : Int, 0 ≤ j → j < p → (nd.array j).1 < key)
    (hgt : ∀ j : Int, p ≤ j → j < nd.size_ → key < (nd.array j).1) :
    nd1.SortedFrom 0 := by
  intro j hj i hij _
  rw [hsz] at hj
  rw [harr i (by omega) (by omega), harr j (by omega) (by omega)]
  by_cases hjp : (j : Int) < p
  · rw [if_pos hjp, if_pos (by omega)]
    exact hs j (by omega) i hij (Nat.zero_le _)
  · rw [if_neg hjp]
    by_cases hjp2 : (j : Int) = p
    · rw [if_pos hjp2, if_pos (by omega)]
      exact hlt i (by omega) (by omega)
    · rw [if_neg hjp2]
      by_cases hip : (i : Int) < p
      · rw [if_pos hip]
        exact lt_trans (hlt i (by omega) hip) (hgt (j - 1) (by omega) (by omega))
      · rw [if_neg hip]
        by_cases hip2 : (i : Int) = p
        · rw [if_pos hip2]
          exact hgt (j - 1) (by omega) (by omega)
        · rw [if_neg hip2]
          exact SortedFrom_lt hs (by simp; omega) (by omega) (by omega)

namespace BPlusTreeLeafPage

theorem insertSearch_spec {nd : BPlusTreePage} {key : KeyType}
    (hne : ∀ i : Int, 0 ≤ i → i < nd.size_ → (nd.array i).1 ≠ key) :
    ∀ (fuel : Nat) (low high : Int), 0 ≤ low → low < high → high < nd.size_ →
      (nd.array low).1 < key → key < (nd.array high).1 → high - low ≤ fuel + 1 →
      ∃ p : Int, low < p ∧ p ≤ high ∧ (nd.array (p - 1)).1 < key ∧ key < (nd.array p).1 ∧
        insertSearch nd key fuel low high = .ok p := by
  intro fuel
  induction fuel with
  | zero =>
    intro low high hl hlh hh k1 k2 hf
    have : low + 1 = high := by omega
    refine ⟨high, hlh, le_refl _, ?_, k2, ?_⟩
    · rw [← this]; simpa using k1
    · rw [insertSearch, if_neg (by omega)]
  | succ n ih =>
    intro low high hl hlh hh k1 k2 hf
    rw [insertSearch]
    by_cases hc : low < high ∧ low + 1 ≠ high
    · rw [if_pos hc]
      obtain ⟨d0, d1, d2⟩ := tdiv_two_bounds (d := high - low) (by omega)
      simp only []
      by_cases c1 : comparator key (nd.array (low + Int.tdiv (high - low) 2)).1 < 0
      · rw [if_pos c1]
        obtain ⟨p, h1, h2, h3, h4, h5⟩ := ih low (low + Int.tdiv (high - low) 2) hl (by omega)
          (by omega) k1 (comparator_lt.mp c1) (by omega)
        exact ⟨p, h1, by omega, h3, h4, h5⟩
      · rw [if_neg c1]
        by_cases c2 : comparator key (nd.array (low + Int.tdiv (high - low) 2)).1 > 0
        · rw [if_pos c2]
          obtain ⟨p, h1, h2, h3, h4, h5⟩ := ih (low + Int.tdiv (high - low) 2) high (by omega)
            (by omega) hh (comparator_gt.mp c2) k2 (by omega)
          exact ⟨p, by omega, h2, h3, h4, h5⟩
        · exfalso
          rw [comparator_gt] at c2
          rw [comparator_lt] at c1
          exact hne (low + Int.tdiv (high - low) 2) (by omega) (by omega) (by linarith)
    · rw [if_neg hc]
      have : low + 1 = high := by omega
      refine ⟨high, hlh, le_refl _, ?_, k2, rfl⟩
      rw [← this]; simpa using k1

theorem Insert_spec {nd : BPlusTreePage} {key : KeyType} {value : ValueType}
    (h0 : 0 ≤ nd.size_) (hs : nd.SortedFrom 0) (hmax : nd.size_ < nd.max_size_)
    (hne : ∀ i : Int, 0 ≤ i → i < nd.size_ → (nd.array i).1 ≠ key) :
    ∃ (p : Int) (nd1 : BPlusTreePage), 0 ≤ p ∧ p ≤ nd.size_ ∧
      Insert nd key value = .ok (nd.size_ + 1, nd1) ∧ nd1.size_ = nd.size_ + 1 ∧
      (∀ j : Int, 0 ≤ j → j ≤ nd.size_ →
        nd1.array j =
          if j < p then nd.array j else if j = p then (key, value) else nd.array (j - 1)) ∧
      (∀ j : Int, 0 ≤ j → j < p → (nd.array j).1 < key) ∧
      (∀ j : Int, p ≤ j → j < nd.size_ → key < (nd.array j).1) := by
  by_cases hsz : nd.size_ = 0
  · refine ⟨0, (nd.setSlot nd.size_ (key, value)).IncreaseSize 1, le_refl _, h0, ?_, rfl, ?_,
      ?_, ?_⟩
    · simp only [Insert, if_pos hsz, bind, Except.bind, pure, Except.pure, assert,
        BPlusTreePage.IncreaseSize, BPlusTreePage.setSlot, if_true, decide_eq_true_eq]
      rw [if_pos (by omega)]
    · intro j hj0 hj1
      have : j = 0 := by omega
      subst this
      simp [BPlusTreePage.IncreaseSize, BPlusTreePage.setSlot, hsz]
    · intro j hj0 hj1; omega
    · intro j hj0 hj1; omega
  · have hk1 := @KeyAt_ok nd (nd.size_ - 1) (by omega : (0 : Int) ≤ nd.size_ - 1)
      (by omega : nd.size_ - 1 < nd.size_)
    by_cases c1 : comparator key (nd.array (nd.size_ - 1)).1 > 0
    · refine ⟨nd.size_, (nd.setSlot nd.size_ (key, value)).IncreaseSize 1, h0, le_refl _, ?_,
        rfl, ?_, ?_, ?_⟩
      · simp only [Insert, if_neg hsz, hk1, bind, Except.bind, pure, Except.pure, assert,
          BPlusTreePage.IncreaseSize, BPlusTreePage.setSlot, decide_eq_true_eq, if_pos c1,
          if_true]
        rw [if_pos (by omega)]
      · intro j hj0 hj1
        simp only [BPlusTreePage.IncreaseSize, BPlusTreePage.setSlot]
        by_cases hj : j = nd.size_
        · rw [if_pos hj, if_neg (by omega), if_pos hj]
        · rw [if_neg hj, if_pos (by omega)]
      · intro j hj0 hj1
        exact lt_of_le_of_lt (SortedFrom_le hs (by simpa using hj0) (by omega) (by omega))
          (comparator_gt.mp c1)
      · intro j hj0 hj1; omega
    · by_cases c2 : comparator key (nd.array 0).1 < 0
      · refine ⟨0, (({ nd with array := fun i => if 1 ≤ i ∧ i < 1 + nd.size_
                         then nd.array (i - 1 + 0) else nd.array i } : BPlusTreePage).setSlot 0
                     (key, value)).IncreaseSize 1, le_refl _, h0, ?_, rfl, ?_, ?_, ?_⟩
        · simp only [Insert, if_neg hsz, hk1, bind, Except.bind, pure, Except.pure, assert,
            BPlusTreePage.IncreaseSize, BPlusTreePage.setSlot, decide_eq_true_eq, if_neg c1,
            if_pos c2, BPlusTreePage.memmove, if_neg (not_lt.mpr h0), Bool.false_eq_true,
            if_false]
          rw [if_pos (by omega)]
        · intro j hj0 hj1
          simp only [BPlusTreePage.IncreaseSize, BPlusTreePage.setSlot]
          by_cases hj : j = 0
          · rw [if_pos hj, if_neg (by omega), if_pos hj]
          · rw [if_neg hj, if_pos (by omega : 1 ≤ j ∧ j < 1 + nd.size_),
              if_neg (by omega : ¬ j < 0), add_zero, if_neg hj]
        · intro j hj0 hj1; omega
        · intro j hj0 hj1
          exact lt_of_lt_of_le (comparator_lt.mp c2)
            (SortedFrom_le hs (le_refl _) (by simpa using hj0) hj1)
      · have k0 : (nd.array 0).1 < key :=
          lt_of_le_of_ne (not_lt.mp (fun h => c2 (comparator_lt.mpr h)))
            (hne 0 (le_refl _) (by omega))
        have k1 : key < (nd.array (nd.size_ - 1)).1 :=
          lt_of_le_of_ne (not_lt.mp (fun h => c1 (comparator_gt.mpr h)))
            (Ne.symm (hne (nd.size_ - 1) (by omega) (by omega)))
        have hsz2 : 0 < nd.size_ - 1 := by
          rcases lt_or_eq_of_le (by omega : 0 ≤ nd.size_ - 1) with h | h
          · exact h
          · rw [← h] at k1; exact absurd (lt_trans k0 k1) (lt_irrefl _)
        obtain ⟨p, hp0, hp1, hp2, hp3, hp4⟩ := insertSearch_spec hne (nd.size_ - 1).toNat 0
          (nd.size_ - 1) (le_refl _) hsz2 (by omega) k0 k1 (by omega)
        refine ⟨p, (({ nd with array := fun i => if p + 1 ≤ i ∧ i < p + 1 + (nd.size_ - p)
                         then nd.array (i - (p + 1) + p) else nd.array i } : BPlusTreePage).setSlot p
                     (key, value)).IncreaseSize 1, by omega, by omega, ?_, rfl, ?_, ?_, ?_⟩
        · simp only [Insert, if_neg hsz, hk1, bind, Except.bind, pure, Except.pure, assert,
            BPlusTreePage.IncreaseSize, BPlusTreePage.setSlot, decide_eq_true_eq, if_neg c1,
            if_neg c2, hp4, BPlusTreePage.memmove, if_neg (by omega : ¬ nd.size_ - p < 0),
            Bool.false_eq_true, if_false]
          rw [if_pos (by omega)]
        · intro j hj0 hj1
          simp only [BPlusTreePage.IncreaseSize, BPlusTreePage.setSlot]
          by_cases hj : j = p
          · rw [if_pos hj, if_neg (by omega), if_pos hj]
          · rw [if_neg hj]
            by_cases hj2 : j < p
            · rw [if_neg (by omega), if_pos hj2]
            · rw [if_pos (by omega), if_neg hj2, if_neg hj]
              congr 1
              omega
        · intro j hj0 hj1
          exact lt_of_le_of_lt (SortedFrom_le hs (by simpa using hj0) (by omega) (by omega)) hp2
        · intro j hj0 hj1
          exact lt_of_lt_of_le hp3 (SortedFrom_le hs (by simp; omega) hj0 hj1)

end BPlusTreeLeafPage

namespace BPlusTreeInternalPage

theorem lookupSearch_spec {nd : BPlusTreePage} {key : KeyType} (hs : nd.SortedFrom 1) :
    ∀ (fuel : Nat) (low high : Int), 1 ≤ low → low < high → high < nd.size_ →
      (nd.array low).1 ≤ key → key < (nd.array high).1 → high - low ≤ fuel + 1 →
      ∃ m : Int, low ≤ m ∧ m < high ∧ (nd.array m).1 ≤ key ∧ key < (nd.array (m + 1)).1 ∧
        lookupSearch nd key fuel low high = .ok (nd.array m).2 := by
  intro fuel
  induction fuel with
  | zero =>
    intro low high hl hlh hh k1 k2 hf
    have : low + 1 = high := by omega
    refine ⟨low, le_refl _, hlh, k1, by rw [this]; exact k2, ?_⟩
    rw [lookupSearch, if_neg (by omega)]
  | succ n ih =>
    intro low high hl hlh hh k1 k2 hf
    rw [lookupSearch]
    by_cases hc : low < high ∧ low + 1 ≠ high
    · rw [if_pos hc]
      obtain ⟨d0, d1, d2⟩ := tdiv_two_bounds (d := high - low) (by omega)
      simp only []
      by_cases c1 : comparator key (nd.array (low + Int.tdiv (high - low) 2)).1 < 0
      · rw [if_pos c1]
        obtain ⟨m, h1, h2, h3, h4, h5⟩ := ih low (low + Int.tdiv (high - low) 2) hl (by omega)
          (by omega) k1 (comparator_lt.mp c1) (by omega)
        exact ⟨m, h1, by omega, h3, h4, h5⟩
      · rw [if_neg c1]
        by_cases c2 : comparator key (nd.array (low + Int.tdiv (high - low) 2)).1 > 0
        · rw [if_pos c2]
          obtain ⟨m, h1, h2, h3, h4, h5⟩ := ih (low + Int.tdiv (high - low) 2) high (by omega)
            (by omega) hh (le_of_lt (comparator_gt.mp c2)) k2 (by omega)
          exact ⟨m, by omega, h2, h3, h4, h5⟩
        · rw [if_neg c2]
          rw [comparator_gt] at c2
          rw [comparator_lt] at c1
          refine ⟨low + Int.tdiv (high - low) 2, by omega, by omega, not_lt.mp c1, ?_, rfl⟩
          exact lt_of_le_of_lt (not_lt.mp c2)
            (SortedFrom_lt hs (by simp; omega) (by omega) (by omega))
    · rw [if_neg hc]
      have : low + 1 = high := by omega
      exact ⟨low, le_refl _, hlh, k1, by rw [this]; exact k2, rfl⟩

theorem lookupSearch_setSlotKey (nd : BPlusTreePage) (key x : KeyType) :
    ∀ (fuel : Nat) (low high : Int), 1 ≤ low →
      lookupSearch (nd.setSlotKey 0 x) key fuel low high = lookupSearch nd key fuel low high := by
  have harr : ∀ j : Int, 1 ≤ j → (nd.setSlotKey 0 x).array j = nd.array j := by
    intro j hj
    simp only [BPlusTreePage.setSlotKey, BPlusTreePage.setSlot]
    rw [if_neg (by omega)]
  intro fuel
  induction fuel with
  | zero =>
    intro low high hl
    rw [lookupSearch, lookupSearch, harr low hl]
  | succ n ih =>
    intro low high hl
    rw [lookupSearch, lookupSearch]
    by_cases hc : low < high ∧ low + 1 ≠ high
    · obtain ⟨d0, d1, d2⟩ := tdiv_two_bounds (d := high - low) (by omega)
      rw [if_pos hc, if_pos hc]
      simp only []
      rw [harr _ (by omega : 1 ≤ low + Int.tdiv (high - low) 2), ih _ _ hl,
        ih _ _ (by omega : 1 ≤ low + Int.tdiv (high - low) 2)]
    · rw [if_neg hc, if_neg hc, harr low hl]

theorem Lookup_setSlotKey (nd : BPlusTreePage) (key x : KeyType) :
    Lookup (nd.setSlotKey 0 x) key = Lookup nd key := by
  have harr : ∀ j : Int, 1 ≤ j → (nd.setSlotKey 0 x).array j = nd.array j := by
    intro j hj
    simp only [BPlusTreePage.setSlotKey, BPlusTreePage.setSlot]
    rw [if_neg (by omega)]
  have h0 : ((nd.setSlotKey 0 x).array 0).2 = (nd.array 0).2 := by
    simp [BPlusTreePage.setSlotKey, BPlusTreePage.setSlot]
  have hsz : (nd.setSlotKey 0 x).size_ = nd.size_ := rfl
  by_cases h : nd.size_ > 1
  · simp only [Lookup, hsz, h0, harr 1 (le_refl _), harr (nd.size_ - 1) (by omega),
      lookupSearch_setSlotKey nd key x _ _ _ (le_refl _)]
  · simp [Lookup, hsz, assert, h, bind, Except.bind]

theorem Lookup_first {nd : BPlusTreePage} {key : KeyType} (hsz : 2 ≤ nd.size_)
    (hk : key < (nd.array 1).1) : Lookup nd key = .ok (nd.array 0).2 := by
  simp only [Lookup, assert, bind, Except.bind, pure, Except.pure, decide_eq_true_eq,
    if_pos (by omega : nd.size_ > 1), if_pos (comparator_lt.mpr hk)]

theorem Lookup_slot {nd : BPlusTreePage} {key : KeyType} (hs : nd.SortedFrom 1) {i : Int}
    (hi0 : 1 ≤ i) (hi1 : i < nd.size_) (hk : (nd.array i).1 ≤ key)
    (hlast : ∀ j : Int, i < j → j < nd.size_ → key < (nd.array j).1) :
    Lookup nd key = .ok (nd.array i).2 := by
  have c0 : ¬ comparator key (nd.array 1).1 < 0 := by
    rw [comparator_lt, not_lt]
    exact le_trans (SortedFrom_le hs (le_refl _) hi0 hi1) hk
  simp only [Lookup, assert, bind, Except.bind, pure, Except.pure, decide_eq_true_eq,
    if_pos (by omega : nd.size_ > 1), if_neg c0]
  by_cases c1 : comparator key (nd.array (nd.size_ - 1)).1 ≥ 0
  · rw [if_pos c1]
    have : i = nd.size_ - 1 := by
      by_contra hne
      have := hlast (nd.size_ - 1) (by omega) (by omega)
      rw [comparator_ge] at c1
      linarith
    rw [this]
  · rw [if_neg c1]
    rw [comparator_ge, not_le] at c1
    rw [comparator_lt, not_lt] at c0
    have hsz : 1 < nd.size_ - 1 := by
      rcases lt_or_eq_of_le (by omega : 1 ≤ nd.size_ - 1) with h | h
      · exact h
      · rw [← h] at c1; exact absurd (lt_of_le_of_lt c0 c1) (lt_irrefl _)
    obtain ⟨m, h1, h2, h3, h4, h5⟩ := lookupSearch_spec hs (nd.size_ - 2).toNat 1
      (nd.size_ - 1) (le_refl _) hsz (by omega) c0 c1 (by omega)
    rw [h5]
    have : m = i := by
      by_contra hne
      rcases lt_or_gt_of_ne hne with h | h
      · have := SortedFrom_le hs (by simp; omega) (by omega : m + 1 ≤ i) hi1
        linarith
      · have := hlast m h (by omega)
        linarith
    rw [this]

theorem Lookup_returns {nd : BPlusTreePage} {key : KeyType} (hsz : 2 ≤ nd.size_)
    (hs : nd.SortedFrom 1) :
    ∃ i : Int, 0 ≤ i ∧ i < nd.size_ ∧ Lookup nd key = .ok (nd.array i).2 ∧
      (i = 0 → key < (nd.array 1).1) ∧ (1 ≤ i → (nd.array i).1 ≤ key) ∧
      (∀ j : Int, i < j → 1 ≤ j → j < nd.size_ → key < (nd.array j).1) := by
  by_cases hk : key < (nd.array 1).1
  · refine ⟨0, le_refl _, by omega, Lookup_first hsz hk, fun _ => hk, fun h => by omega, ?_⟩
    intro j _ hj1 hj2
    exact lt_of_lt_of_le hk (SortedFrom_le hs (le_refl _) hj1 hj2)
  · by_cases c1 : (nd.array (nd.size_ - 1)).1 ≤ key
    · have hl : ∀ j : Int, nd.size_ - 1 < j → j < nd.size_ → key < (nd.array j).1 := by
        intro j h1 h2; omega
      exact ⟨nd.size_ - 1, by omega, by omega,
        Lookup_slot hs (by omega) (by omega) c1 hl, fun h => by omega, fun _ => c1,
        fun j h1 _ h2 => hl j h1 h2⟩
    · rw [not_lt] at hk
      rw [not_le] at c1
      have hsz2 : 1 < nd.size_ - 1 := by
        rcases lt_or_eq_of_le (by omega : 1 ≤ nd.size_ - 1) with h | h
        · exact h
        · rw [← h] at c1; exact absurd (lt_of_le_of_lt hk c1) (lt_irrefl _)
      obtain ⟨m, h1, h2, h3, h4, _⟩ := lookupSearch_spec hs (nd.size_ - 2).toNat 1
        (nd.size_ - 1) (le_refl _) hsz2 (by omega) hk c1 (by omega)
      have hl : ∀ j : Int, m < j → j < nd.size_ → key < (nd.array j).1 := by
        intro j hj1 hj2
        exact lt_of_lt_of_le h4 (SortedFrom_le hs (by simp; omega) (by omega) hj2)
      exact ⟨m, by omega, by omega, Lookup_slot hs h1 (by omega) h3 hl, fun h => by omega,
        fun _ => h3, fun j hj1 _ hj2 => hl j hj1 hj2⟩

end BPlusTreeInternalPage

/-! ## The claims about the methods of a node -/

/-- C22: for every internal node with at least two slots whose keys in the slots
`1, ..., size - 1` are strictly increasing, `Lookup(k)` returns the child pointer of a slot
`i`: either `i = 0` and `k < key[1]`, or `i` is the largest slot from 1 on with `key[i] ≤ k`.
Hence it returns the child pointer of slot 0 when `k < key[1]`, and that of the largest slot
`i ≥ 1` with `key[i] ≤ k` when there is one. The key of slot 0 has no part in the result. -/
theorem internal_lookup_contract (nd : BPlusTreePage) (key : KeyType) (hsz : 2 ≤ nd.size_)
    (hs : nd.SortedFrom 1) :
    (∃ i : Int, 0 ≤ i ∧ i < nd.size_ ∧
      BPlusTreeInternalPage.Lookup nd key = .ok (nd.array i).2 ∧
      (i = 0 → key < (nd.array 1).1) ∧ (1 ≤ i → (nd.array i).1 ≤ key) ∧
      (∀ j : Int, i < j → 1 ≤ j → j < nd.size_ → key < (nd.array j).1)) ∧
    (key < (nd.array 1).1 → BPlusTreeInternalPage.Lookup nd key = .ok (nd.array 0).2) ∧
    (∀ i : Int, 1 ≤ i → i < nd.size_ → (nd.array i).1 ≤ key →
      (∀ j : Int, i < j → j < nd.size_ → key < (nd.array j).1) →
      BPlusTreeInternalPage.Lookup nd key = .ok (nd.array i).2) ∧
    (∀ x : KeyType,
      BPlusTreeInternalPage.Lookup (nd.setSlotKey 0 x) key =
        BPlusTreeInternalPage.Lookup nd key) :=
  ⟨BPlusTreeInternalPage.Lookup_returns hsz hs,
   fun hk => BPlusTreeInternalPage.Lookup_first hsz hk,
   fun _ hi0 hi1 hk hlast => BPlusTreeInternalPage.Lookup_slot hs hi0 hi1 hk hlast,
   fun x => BPlusTreeInternalPage.Lookup_setSlotKey nd key x⟩

/-- Witness for C22: in `exampleInternal` the key 5 leads to the child of slot 1, the last slot
with a key that is at most 5. -/
theorem internal_lookup_contract_witness :
    2 ≤ exampleInternal.size_ ∧ exampleInternal.SortedFrom 1 ∧
    BPlusTreeInternalPage.Lookup exampleInternal 5 = .ok 2 :=
  ⟨by decide, by decide,
   (internal_lookup_contract exampleInternal 5 (by decide) (by decide)).2.2.1 1 (by decide)
     (by decide) (by decide)
     (fun j h1 h2 => by
       have h3 : j < 3 := h2
       have h : j = 2 := by omega
       subst h
       decide)⟩

/-- C23: for every leaf with a size that is not negative and strictly increasing keys,
`Lookup(k, &v)` returns: it returns true with `v` the value paired with `k` when some slot holds
the key `k`, and false when no slot does. The method is `const`: it returns no new node. -/
theorem leaf_lookup_contract (nd : BPlusTreePage) (key : KeyType) (h0 : 0 ≤ nd.size_)
    (hs : nd.SortedFrom 0) :
    (∀ i : Int, 0 ≤ i → i < nd.size_ → (nd.array i).1 = key →
      BPlusTreeLeafPage.Lookup nd key = .ok (some (nd.array i).2)) ∧
    ((∀ i : Int, 0 ≤ i → i < nd.size_ → (nd.array i).1 ≠ key) →
      BPlusTreeLeafPage.Lookup nd key = .ok none) :=
  ⟨fun _ hi0 hi1 hk => BPlusTreeLeafPage.Lookup_found hs hi0 hi1 hk,
   fun hne => BPlusTreeLeafPage.Lookup_absent h0 hne⟩

/-- Witness for C23: `exampleLeaf` pairs the key 2 with the value 20. -/
theorem leaf_lookup_contract_witness :
    0 ≤ exampleLeaf.size_ ∧ exampleLeaf.SortedFrom 0 ∧
    BPlusTreeLeafPage.Lookup exampleLeaf 2 = .ok (some 20) :=
  ⟨by decide, by decide,
   (leaf_lookup_contract exampleLeaf 2 (by decide) (by decide)).1 1 (by decide) (by decide)
     (by decide)⟩

/-- C24: for every leaf with strictly increasing keys and fewer pairs than its capacity, and
every key `k` that no slot holds, `Insert(k, v)` returns `size + 1` and leaves `size + 1` pairs
with strictly increasing keys: the old pairs in their order, with `(k, v)` at some position `p`
among them. -/
theorem leaf_insert_keeps_order (nd : BPlusTreePage) (key : KeyType) (value : ValueType)
    (h0 : 0 ≤ nd.size_) (hs : nd.SortedFrom 0) (hmax : nd.size_ < nd.max_size_)
    (hne : ∀ i : Int, 0 ≤ i → i < nd.size_ → (nd.array i).1 ≠ key) :
    ∃ (p : Nat) (nd1 : BPlusTreePage),
      BPlusTreeLeafPage.Insert nd key value = .ok (nd.size_ + 1, nd1) ∧
      nd1.size_ = nd.size_ + 1 ∧ nd1.SortedFrom 0 ∧
      nd1.slots = nd.slots.take p ++ (key, value) :: nd.slots.drop p := by
  obtain ⟨p, nd1, hp0, hp1, h1, h2, h3, h4, h5⟩ :=
    @BPlusTreeLeafPage.Insert_spec nd key value h0 hs hmax hne
  exact ⟨p.toNat, nd1, h1, h2, inserted_sorted hs hp0 hp1 h2 h3 h4 h5,
    inserted_slots hp0 hp1 h2 h3⟩

/-- Witness for C24: the key 5 is not in `exampleLeaf`, which has room for it. -/
theorem leaf_insert_keeps_order_witness :
    0 ≤ exampleLeaf.size_ ∧ exampleLeaf.SortedFrom 0 ∧
    exampleLeaf.size_ < exampleLeaf.max_size_ ∧
    ∃ (p : Nat) (nd1 : BPlusTreePage),
      BPlusTreeLeafPage.Insert exampleLeaf 5 50 = .ok (exampleLeaf.size_ + 1, nd1) ∧
      nd1.size_ = exampleLeaf.size_ + 1 ∧ nd1.SortedFrom 0 ∧
      nd1.slots = exampleLeaf.slots.take p ++ (5, 50) :: exampleLeaf.slots.drop p :=
  ⟨by decide, by decide, by decide,
   leaf_insert_keeps_order exampleLeaf 5 50 (by decide) (by decide) (by decide)
     (fun i h1 h2 => by
       have h : i = 0 ∨ i = 1 ∨ i = 2 := by
         have h3 : i < 3 := h2
         omega
       rcases h with h | h | h <;> subst h <;> decide)⟩

/-- C26: for every leaf with strictly increasing keys, `RemoveAndDeleteRecord(k)` returns. If
the slot `i` holds the key `k`, it returns `size - 1` and leaves the pairs of the leaf without
the one of slot `i`, the others in their order. If no slot holds `k`, it returns `size` and
leaves the leaf as it was. In both cases a second call with the same key returns the same size
and changes nothing. -/
theorem remove_and_delete_record_contract (nd : BPlusTreePage) (key : KeyType)
    (h0 : 0 ≤ nd.size_) (hs : nd.SortedFrom 0) :
    (∀ i : Int, 0 ≤ i → i < nd.size_ → (nd.array i).1 = key →
      ∃ nd1 : BPlusTreePage,
        BPlusTreeLeafPage.RemoveAndDeleteRecord nd key = .ok (nd.size_ - 1, nd1) ∧
        nd1.size_ = nd.size_ - 1 ∧ nd1.slots = nd.slots.eraseIdx i.toNat) ∧
    ((∀ i : Int, 0 ≤ i → i < nd.size_ → (nd.array i).1 ≠ key) →
      BPlusTreeLeafPage.RemoveAndDeleteRecord nd key = .ok (nd.size_, nd)) ∧
    (∃ (r : Int) (nd1 : BPlusTreePage),
      BPlusTreeLeafPage.RemoveAndDeleteRecord nd key = .ok (r, nd1) ∧
      BPlusTreeLeafPage.RemoveAndDeleteRecord nd1 key = .ok (r, nd1)) := by
  refine ⟨?_, fun hne => BPlusTreeLeafPage.RemoveAndDeleteRecord_absent h0 hne, ?_⟩
  · intro i hi0 hi1 hk
    exact ⟨_, BPlusTreeLeafPage.RemoveAndDeleteRecord_found hs hi0 hi1 hk, rfl,
      removed_slots nd i hi0 hi1⟩
  · by_cases hp : ∃ i : Int, 0 ≤ i ∧ i < nd.size_ ∧ (nd.array i).1 = key
    · obtain ⟨i, hi0, hi1, hk⟩ := hp
      refine ⟨_, _, BPlusTreeLeafPage.RemoveAndDeleteRecord_found hs hi0 hi1 hk, ?_⟩
      refine BPlusTreeLeafPage.RemoveAndDeleteRecord_absent ?_ ?_
      · simp only [BPlusTreePage.IncreaseSize]
        omega
      · intro j hj0 hj1
        simp only [BPlusTreePage.IncreaseSize] at hj1 ⊢
        by_cases hj : i ≤ j ∧ j < i + (nd.size_ - i - 1)
        · rw [if_pos hj]
          have := SortedFrom_lt hs (by simpa using hi0) (by omega : i < j - i + (i + 1))
            (by omega)
          rw [← hk]
          exact ne_of_gt this
        · rw [if_neg hj]
          have := SortedFrom_lt hs (by simpa using hj0) (by omega : j < i) hi1
          rw [← hk]
          exact ne_of_lt this
    · have hne : ∀ i : Int, 0 ≤ i → i < nd.size_ → (nd.array i).1 ≠ key :=
        fun i h1 h2 h3 => hp ⟨i, h1, h2, h3⟩
      exact ⟨_, _, BPlusTreeLeafPage.RemoveAndDeleteRecord_absent h0 hne,
        BPlusTreeLeafPage.RemoveAndDeleteRecord_absent h0 hne⟩

/-- Witness for C26: `exampleLeaf` holds the key 2 in slot 1. -/
theorem remove_and_delete_record_contract_witness :
    0 ≤ exampleLeaf.size_ ∧ exampleLeaf.SortedFrom 0 ∧
    ∃ nd1 : BPlusTreePage,
      BPlusTreeLeafPage.RemoveAndDeleteRecord exampleLeaf 2 = .ok (exampleLeaf.size_ - 1, nd1) ∧
      nd1.size_ = exampleLeaf.size_ - 1 ∧ nd1.slots = exampleLeaf.slots.eraseIdx (1 : Int).toNat :=
  ⟨by decide, by decide,
   (remove_and_delete_record_contract exampleLeaf 2 (by decide) (by decide)).1 1 (by decide)
     (by decide) (by decide)⟩

/-! ## Theorems about the methods that work through the buffer pool

The calls below fetch pages that are resident: the pool then changes pin counts, dirty flags and
the replacer only, and what the calls do is told by the latch, the page table and the nodes in
the frames. -/

open PoolM

theorem BPlusTreePage.withArray_self (nd : BPlusTreePage) : nd.withArray nd.array = nd := rfl

theorem setNode_same (N : frame_id_t → BPlusTreePage) (f : frame_id_t) (nd : BPlusTreePage) :
    setNode N f nd f = nd := by
  simp [setNode]

theorem setNode_other (N : frame_id_t → BPlusTreePage) {f g : frame_id_t} (nd : BPlusTreePage)
    (h : g ≠ f) : setNode N f nd g = N g := by
  simp [setNode, h]

namespace PoolM

variable {T : page_id_t → Option frame_id_t} {N : frame_id_t → BPlusTreePage}

theorem bind_ok {α β : Type} {m : PoolM α} {k : α → PoolM β} {b b1 : BufferPoolManager} {a : α}
    (h : m b = .ok (a, b1)) : (m >>= k) b = k a b1 := by
  simp only [bind, StateT.bind, h, Except.bind]

theorem holds_self (b : BufferPoolManager) (hl : b.latch_ = false) :
    b.Holds b.page_table_ b.node :=
  ⟨hl, rfl, fun _ => rfl⟩

theorem FetchPage_resident {b : BufferPoolManager} (h : b.Holds T N) {p : page_id_t}
    {f : frame_id_t} (ht : T p = some f) :
    ∃ b1, FetchPage p b = .ok (some f, b1) ∧ b1.Holds T N := by
  obtain ⟨hl, hT, hN⟩ := h
  refine ⟨_, FetchPageImpl_resident b p f hl (hT ▸ ht), hl, hT, ?_⟩
  intro g
  rw [← hN g]
  simp only [BufferPoolManager.node, setPage]
  by_cases hg : g = f
  · rw [if_pos hg, hg]
  · rw [if_neg hg]

theorem UnpinPage_any {b : BufferPoolManager} (h : b.Holds T N) (p : page_id_t) (d : Bool) :
    ∃ r b1, UnpinPage p d b = .ok (r, b1) ∧ b1.Holds T N := by
  obtain ⟨hl, hT, hN⟩ := h
  cases ht : b.page_table_ p with
  | none => exact ⟨false, b, UnpinPageImpl_absent b p d hl ht, hl, hT, hN⟩
  | some f =>
    obtain ⟨r, b1, h1, h2, h3, _, h5, _⟩ := UnpinPageImpl_returns b p d f hl ht
    refine ⟨r, b1, h1, h2, h3.trans hT, ?_⟩
    intro g
    rw [← hN g]
    simp only [BufferPoolManager.node, h5 g]

theorem readNode_ok {b : BufferPoolManager} (h : b.Holds T N) (f : frame_id_t) :
    readNode f b = .ok (N f, b) := by
  rw [← h.2.2 f]
  rfl

theorem writeNode_ok {b : BufferPoolManager} (h : b.Holds T N) (f : frame_id_t)
    (nd : BPlusTreePage) :
    ∃ b1, writeNode f nd b = .ok ((), b1) ∧ b1.Holds T (setNode N f nd) := by
  obtain ⟨hl, hT, hN⟩ := h
  refine ⟨_, rfl, hl, hT, ?_⟩
  intro g
  simp only [BufferPoolManager.node, setPage, setNode]
  by_cases hg : g = f
  · rw [if_pos hg, if_pos hg]
  · rw [if_neg hg, if_neg hg]
    exact hN g

theorem modifyNode_ok {b : BufferPoolManager} (h : b.Holds T N) (f : frame_id_t)
    (g : BPlusTreePage → BPlusTreePage) :
    ∃ b1, modifyNode f g b = .ok ((), b1) ∧ b1.Holds T (setNode N f (g (N f))) := by
  obtain ⟨b1, h1, h2⟩ := writeNode_ok h f (g (N f))
  refine ⟨b1, ?_, h2⟩
  unfold modifyNode
  rw [bind_ok (readNode_ok h f)]
  exact h1

theorem liftM_ok {α : Type} {x : Except Fault α} {a : α} (h : x = .ok a)
    (b : BufferPoolManager) : (liftM x : PoolM α) b = .ok (a, b) := by
  subst h
  rfl

theorem check_ok {c : Bool} (h : c = true) (b : BufferPoolManager) :
    check c b = .ok ((), b) := by
  subst h
  rfl

theorem onNode_ok {α : Type} {b : BufferPoolManager} (h : b.Holds T N) (f : frame_id_t)
    (g : BPlusTreePage → Except Fault (α × BPlusTreePage)) {a : α} {nd : BPlusTreePage}
    (hg : g (N f) = .ok (a, nd)) :
    ∃ b1, onNode f g b = .ok (a, b1) ∧ b1.Holds T (setNode N f nd) := by
  obtain ⟨b1, h1, h2⟩ := writeNode_ok h f nd
  refine ⟨b1, ?_, h2⟩
  unfold onNode
  rw [bind_ok (readNode_ok h f), bind_ok (liftM_ok hg b)]
  show (writeNode f nd >>= fun _ => pure a) b = _
  rw [bind_ok h1]
  rfl

theorem holds_congr {b : BufferPoolManager} {N1 : frame_id_t → BPlusTreePage}
    (h : b.Holds T N) (hN : ∀ g, N g = N1 g) : b.Holds T N1 :=
  ⟨h.1, h.2.1, fun g => (h.2.2 g).trans (hN g)⟩

theorem copyItems_ok {self from_page : frame_id_t} (hne : self ≠ from_page)
    (start from_index : Int) :
    ∀ (count : Nat) (i : Int) (b : BufferPoolManager) (N : frame_id_t → BPlusTreePage),
      b.Holds T N →
      ∃ b1, copyItems self start from_page from_index count i b = .ok ((), b1) ∧
        b1.Holds T (setNode N self
          ((N self).withArray fun j =>
              if start + i ≤ j ∧ j < start + i + count
              then (N from_page).array (from_index + (j - start))
              else (N self).array j)) := by
  intro count
  induction count with
  | zero =>
    intro i b N h
    refine ⟨b, rfl, holds_congr h ?_⟩
    intro g
    by_cases hg : g = self
    · subst hg
      rw [setNode_same]
      have : (fun j : Int => if start + i ≤ j ∧ j < start + i + ((0 : Nat) : Int)
          then (N from_page).array (from_index + (j - start)) else (N g).array j) =
          (N g).array := by
        funext j
        rw [if_neg (by push_cast; omega)]
      rw [this, BPlusTreePage.withArray_self]
    · rw [setNode_other _ _ hg]
  | succ n ih =>
    intro i b N h
    obtain ⟨b1, h1, h2⟩ := modifyNode_ok h self
      (fun nd => nd.setSlot (start + i) ((N from_page).array (from_index + i)))
    obtain ⟨b2, h3, h4⟩ := ih (i + 1) b1 _ h2
    refine ⟨b2, ?_, holds_congr h4 ?_⟩
    · rw [copyItems, bind_ok (readNode_ok h from_page), bind_ok h1]
      exact h3
    · intro g
      by_cases hg : g = self
      · subst hg
        rw [setNode_same, setNode_same, setNode_same, setNode_other _ _ (Ne.symm hne)]
        simp only [BPlusTreePage.setSlot, BPlusTreePage.withArray]
        congr 1
        funext j
        by_cases hj : j = start + i
        · rw [if_neg (by omega), if_pos hj, if_pos (by push_cast; omega), hj]
          congr 2
          omega
        · by_cases hj2 : start + (i + 1) ≤ j ∧ j < start + (i + 1) + n
          · rw [if_pos hj2, if_pos (by push_cast; omega)]
          · rw [if_neg hj2, if_neg hj, if_neg (by push_cast; omega)]
      · rw [setNode_other _ _ hg, setNode_other _ _ hg, setNode_other _ _ hg]

end PoolM

namespace BPlusTreeInternalPage

variable {T : page_id_t → Option frame_id_t} {N : frame_id_t → BPlusTreePage}

end BPlusTreeInternalPage

namespace BPlusTreePage

theorem SameButParent.trans {a b c : BPlusTreePage} (h1 : a.SameButParent b)
    (h2 : b.SameButParent c) : a.SameButParent c :=
  Eq.trans h1 h2

theorem SameButParent.size {a b : BPlusTreePage} (h : a.SameButParent b) : a.size_ = b.size_ := by
  unfold SameButParent at h
  have h1 := congrArg BPlusTreePage.size_ h
  exact h1

theorem SameButParent.array {a b : BPlusTreePage} (h : a.SameButParent b) :
    a.array = b.array := by
  unfold SameButParent at h
  have h1 := congrArg BPlusTreePage.array h
  exact h1

theorem SameButParent.page_id {a b : BPlusTreePage} (h : a.SameButParent b) :
    a.page_id_ = b.page_id_ := by
  unfold SameButParent at h
  have h1 := congrArg BPlusTreePage.page_id_ h
  exact h1

end BPlusTreePage

namespace BPlusTreeInternalPage

variable {T : page_id_t → Option frame_id_t}

end BPlusTreeInternalPage

namespace BPlusTreeInternalPage

variable {T : page_id_t → Option frame_id_t} {N : frame_id_t → BPlusTreePage}

end BPlusTreeInternalPage

namespace PoolM

variable {T : page_id_t → Option frame_id_t} {N : frame_id_t → BPlusTreePage}

end PoolM

namespace BPlusTreeLeafPage

variable {T : page_id_t → Option frame_id_t} {N : frame_id_t → BPlusTreePage}

end BPlusTreeLeafPage

namespace BPlusTreeInternalPage

theorem removeLoop_eq : ∀ (count : Nat) (i : Int) (nd : BPlusTreePage),
    removeLoop count i nd =
      nd.withArray fun j => if i ≤ j ∧ j < i + count then nd.array (j + 1) else nd.array j := by
  intro count
  induction count with
  | zero =>
    intro i nd
    rw [removeLoop]
    have : (fun j : Int => if i ≤ j ∧ j < i + ((0 : Nat) : Int) then nd.array (j + 1)
        else nd.array j) = nd.array := by
      funext j
      rw [if_neg (by push_cast; omega)]
    rw [this, BPlusTreePage.withArray_self]
  | succ n ih =>
    intro i nd
    rw [removeLoop, ih]
    simp only [BPlusTreePage.withArray, BPlusTreePage.setSlot]
    congr 1
    funext j
    by_cases hj : j = i
    · rw [if_neg (by omega), if_pos hj, if_pos (by push_cast; omega), hj]
    · by_cases hj2 : i + 1 ≤ j ∧ j < i + 1 + n
      · rw [if_pos hj2, if_neg (by omega), if_pos (by push_cast; omega)]
      · rw [if_neg hj2, if_neg hj, if_neg (by push_cast; omega)]

theorem Remove_ok {nd : BPlusTreePage} {index : Int} (h0 : 0 ≤ index) (h1 : index < nd.size_) :
    Remove nd index = .ok (nd.withoutSlot index) := by
  have hc : decide (0 ≤ index ∧ index < nd.size_) = true := decide_eq_true ⟨h0, h1⟩
  simp only [Remove, assert, hc, if_true, bind, Except.bind, pure, Except.pure, removeLoop_eq,
    BPlusTreePage.withoutSlot]
  congr 3
  funext j
  by_cases hj : index ≤ j ∧ j < nd.size_ - 1
  · rw [if_pos hj, if_pos (by omega)]
  · rw [if_neg hj, if_neg (by omega)]

end BPlusTreeInternalPage

namespace BPlusTree

theorem tree_bind_ok {α β : Type} {m : TreeM α} {k : α → TreeM β} {w w1 : World} {a : α}
    (h : m w = .ok (a, w1)) : (m >>= k) w = k a w1 := by
  simp only [bind, StateT.bind, h, Except.bind]

theorem put_self {w : World} {txn : Transaction} (h : w.transaction = some txn) :
    w.put w.tree.buffer_pool_manager_ txn = w := by
  obtain ⟨⟨a, b, c, d, e, f, g, i⟩, t, u⟩ := w
  simp only at h
  subst h
  rfl

theorem pool_put {α : Type} {x : PoolM α} {w : World} {b b1 : BufferPoolManager}
    {txn : Transaction} {a : α} (h : x b = .ok (a, b1)) :
    pool x (w.put b txn) = .ok (a, w.put b1 txn) := by
  simp only [pool, World.put, h, bind, Except.bind, pure, Except.pure]

theorem liftM_put {α : Type} {x : Except Fault α} {a : α} (h : x = .ok a) (w : World) :
    (liftM x : TreeM α) w = .ok (a, w) := by
  subst h
  rfl

end BPlusTree

theorem y2_run : Run 1 DiskManager.fresh [1] y2 :=
  ⟨[Call.new_page, Call.unpin_page 1 false, Call.flush_page 1, Call.delete_page 1],
    Calls.cons (Step.new_page rfl : Step Call.new_page [] w0 [1] w1)
      (Calls.cons (Step.unpin_page (r := true) rfl :
          Step (Call.unpin_page 1 false) [1] w1 [1] v2)
        (Calls.cons (Step.flush_page (r := true) rfl :
            Step (Call.flush_page 1) [1] v2 [1] y1)
          (Calls.cons (Step.delete_page (r := true) rfl :
            Step (Call.delete_page 1) [1] y1 [1] y2) Calls.nil)))⟩

/-- C39, at the failing input. In a pool of one frame, after `new_page` (page 1),
`unpin_page(1, false)` and `flush_page(1)`, page 1 is resident in frame 0, unpinned and clean.
`delete_page(1)` returns true and puts frame 0 on the free list, but frame 0 is still in the
replacer: the state `y2` is reachable and has frame 0 both as a free-list entry and as an
eviction candidate. The next `new_page` takes frame 0 from the free list for page 2 and leaves
it pinned; the `new_page` after that finds the free list empty, takes frame 0 as the victim and
evicts page 2 while it is pinned. -/
theorem deleted_frame_stays_in_replacer :
    (y1.page_table_ 1 = some 0 ∧ (y1.pages_ 0).pin_count_ = 0 ∧
      (y1.pages_ 0).is_dirty_ = false ∧ y1.DeletePageImpl 1 = .ok (true, y2)) ∧
    (Run 1 DiskManager.fresh [1] y2 ∧ y2.page_table_ 1 = none ∧ y2.free_list_ = [0] ∧
      y2.replacer_.lru_bucket_list = [0] ∧ y2.replacer_.lru_map = [0]) ∧
    (y2.NewPageImpl = .ok (some (2, 0), y3) ∧ (y3.pages_ 0).pin_count_ = 1 ∧
      y3.page_table_ 2 = some 0 ∧ y3.NewPageImpl = .ok (some (3, 0), y4) ∧
      y4.page_table_ 2 = none ∧ (y4.pages_ 0).page_id_ = 3) :=
  ⟨⟨rfl, rfl, rfl, rfl⟩, ⟨y2_run, rfl, rfl, rfl, rfl⟩, ⟨rfl, rfl, rfl, rfl, rfl, rfl⟩⟩

theorem x2_run : Run 2 DiskManager.fresh [1] x2 :=
  ⟨[Call.new_page, Call.unpin_page 1 true],
    Calls.cons (Step.new_page rfl :
        Step Call.new_page [] (BufferPoolManager.new 2 DiskManager.fresh) [1] x1)
      (Calls.cons (Step.unpin_page (r := true) rfl :
        Step (Call.unpin_page 1 true) [1] x1 [1] x2) Calls.nil)⟩

/-- C40, at the failing input. In a pool of two frames, after `new_page` (page 1) and
`unpin_page(1, true)`, the pool latch is free and page 1 is resident in frame 0, unpinned and
dirty. `flush_page(1)` returns, but `delete_page(1)` does not: while it holds the pool latch it
calls `FlushPageImpl`, which asks for the same latch. -/
theorem delete_page_asks_for_held_latch :
    Run 2 DiskManager.fresh [1] x2 ∧ x2.latch_ = false ∧ x2.page_table_ 1 = some 0 ∧
    (x2.pages_ 0).pin_count_ = 0 ∧ (x2.pages_ 0).is_dirty_ = true ∧
    faultOf (x2.FlushPageImpl 1) = none ∧
    x2.DeletePageImpl 1 = .error Fault.deadlock :=
  ⟨x2_run, rfl, rfl, rfl, rfl, rfl, rfl⟩

/-- C37, at the failing input. In `gapWorld` the leaves are `{1, 2, 3}` and `{5, 6}` with
separator 5. The keys 5 and 6 are stored, and `Begin(5)` is positioned on slot 0 of the second
leaf. `Begin(4)` is positioned on slot 3 of the first leaf (frame 0), which has 3 pairs and a
next leaf: the iterator is not at the end, it is not on the pair of key 5, and dereferencing it
fails the assertion of `GetItem`. -/
theorem begin_stops_at_leaf_end :
    resultOf (BPlusTree.GetValue 8 5 [] gapWorld) = some (true, [50]) ∧
    resultOf (BPlusTree.Begin 8 5 gapWorld) = some { leaf_ := some 1, index_ := 0 } ∧
    resultOf (BPlusTree.Begin 8 4 gapWorld) = some { leaf_ := some 0, index_ := 3 } ∧
    (gapWorld1.node 0).slots = [(1, 10), (2, 20), (3, 30)] ∧
    (gapWorld1.node 0).next_page_id_ = 2 ∧
    valueOf (IndexIterator.isEnd { leaf_ := some 0, index_ := 3 }
      gapWorld1.tree.buffer_pool_manager_) = some false ∧
    faultOf (IndexIterator.get { leaf_ := some 0, index_ := 3 }
      gapWorld1.tree.buffer_pool_manager_) = some Fault.assertion := by
  decide!

/-- C33, at the failing input. `InsertIntoParent(old, 3, new)` on `splitParentWorld`, where the
parent (page 5, frame 4) is full, returns. The buffer pool allocated page 8 (frame 7) for the new
internal node, which holds the slots of the pages 3 and 4 and carries the page id 77, the
uninitialised value that `Split` passed to `Init`. The children of the new internal node, the
leaves of the pages 3 and 4 (frames 2 and 3), have parent page id 77, not 8. The children that
stay in the old parent (pages 1, 6 and 2; frames 0, 5 and 1) have parent page id 5. -/
theorem split_parent_children_get_stale_parent_id :
    (faultOf (BPlusTree.InsertIntoParent 8 0 3 5 splitParentWorld) = none ∧
      splitParentWorld1.tree.buffer_pool_manager_.page_table_ 8 = some 7 ∧
      (splitParentWorld1.node 7).slots = [(20, 3), (30, 4)] ∧
      (splitParentWorld1.node 7).page_id_ = 77) ∧
    (splitParentWorld1.tree.buffer_pool_manager_.page_table_ 3 = some 2 ∧
      (splitParentWorld1.node 2).parent_page_id_ = 77 ∧
      splitParentWorld1.tree.buffer_pool_manager_.page_table_ 4 = some 3 ∧
      (splitParentWorld1.node 3).parent_page_id_ = 77) ∧
    ((splitParentWorld1.node 4).slots = [(0, 1), (3, 6), (10, 2)] ∧
      (splitParentWorld1.node 4).page_id_ = 5 ∧
      (splitParentWorld1.node 0).parent_page_id_ = 5 ∧
      (splitParentWorld1.node 5).parent_page_id_ = 5 ∧
      (splitParentWorld1.node 1).parent_page_id_ = 5) := by
  decide!

/-! ## Theorems about safe nodes, the descent and the release of latches -/

namespace BPlusTreeInternalPage

end BPlusTreeInternalPage

namespace BPlusTree

theorem pool_readNode (w : World) (f : frame_id_t) :
    pool (PoolM.readNode f) w = .ok (w.node f, w) := rfl

theorem CoalesceOrRedistribute_safe (w : World) (fuel : Nat) (leaf : Bool) (node : frame_id_t)
    (hr : (w.node node).IsRootPage = false)
    (hs : (w.node node).size_ > (w.node node).GetMinSize) :
    CoalesceOrRedistribute (fuel + 1) leaf node w = .ok (false, w) := by
  rw [CoalesceOrRedistribute, tree_bind_ok (pool_readNode w node)]
  have hs2 : (w.node node).size_ ≥ (w.node node).GetMinSize := le_of_lt hs
  cases hl : (w.node node).IsLeafPage <;>
    simp only [hr, hl, Bool.false_eq_true, if_false, if_true, decide_eq_true hs,
      decide_eq_true hs2] <;> rfl

end BPlusTree

namespace BPlusTree
variable {T : page_id_t → Option frame_id_t} {N : frame_id_t → BPlusTreePage}

theorem InsertIntoParent_room {b : BufferPoolManager} (h : b.Holds T N) (w : World)
    (txn : Transaction) (fuel : Nat) (old_node new_node pf : frame_id_t) (key : KeyType)
    {r : Int} {nd1 : BPlusTreePage}
    (hr : (N old_node).IsRootPage = false)
    (hp : T (N old_node).parent_page_id_ = some pf)
    (hsafe : (N pf).size_ < (N pf).max_size_)
    (hne : new_node ≠ pf)
    (hI : BPlusTreeInternalPage.InsertNodeAfter (N pf) (N old_node).page_id_ key
      (N new_node).page_id_ = (r, nd1)) :
    ∃ b1, InsertIntoParent (fuel + 1) old_node key new_node (w.put b txn) =
        .ok ((), w.put b1 txn) ∧
      b1.Holds T (setNode (setNode N pf nd1)
        new_node { N new_node with parent_page_id_ := nd1.page_id_ }) := by
  obtain ⟨b1, e1, H1⟩ := FetchPage_resident h hp
  have hg : (fun nd : BPlusTreePage => (pure (BPlusTreeInternalPage.InsertNodeAfter nd
      (N old_node).page_id_ key (N new_node).page_id_) : Except Fault (Int × BPlusTreePage)))
      (N pf) = .ok (r, nd1) := by
    show Except.ok _ = _
    rw [hI]
  obtain ⟨b2, e2, H2⟩ := onNode_ok H1 pf (fun nd : BPlusTreePage =>
      (pure (BPlusTreeInternalPage.InsertNodeAfter nd
        (N old_node).page_id_ key (N new_node).page_id_) : Except Fault (Int × BPlusTreePage))) hg
  obtain ⟨b3, e3, H3⟩ := modifyNode_ok H2 new_node
    (fun nd => { nd with parent_page_id_ := nd1.page_id_ })
  rw [setNode_other _ _ hne] at H3
  obtain ⟨r4, b4, e4, H4⟩ := UnpinPage_any H3 (N new_node).page_id_ true
  obtain ⟨r5, b5, e5, H5⟩ := UnpinPage_any H4 nd1.page_id_ true
  refine ⟨b5, ?_, H5⟩
  rw [InsertIntoParent, tree_bind_ok (pool_put (readNode_ok h old_node))]
  simp only [hr, Bool.false_eq_true, if_false]
  rw [tree_bind_ok (pool_put e1)]
  rw [tree_bind_ok (pool_put (rfl : deref (some pf) b1 = .ok (pf, b1))),
    tree_bind_ok (pool_put (readNode_ok H1 pf))]
  simp only [hsafe, if_true]
  rw [tree_bind_ok (pool_put (readNode_ok H1 old_node)),
    tree_bind_ok (pool_put (readNode_ok H1 new_node)), tree_bind_ok (pool_put e2),
    tree_bind_ok (pool_put (readNode_ok H2 pf))]
  rw [setNode_same]
  unfold SetParentPageId
  rw [tree_bind_ok (pool_put e3), tree_bind_ok (pool_put (readNode_ok H3 new_node)),
    setNode_same]
  show (pool (UnpinPage (N new_node).page_id_ true) >>= _) _ = _
  rw [tree_bind_ok (pool_put e4)]
  rw [pure_bind, tree_bind_ok (pool_put (readNode_ok H4 pf)), setNode_other _ _ hne.symm, setNode_same,
    tree_bind_ok (pool_put e5)]
  rfl

end BPlusTree

namespace PoolM
variable {T : page_id_t → Option frame_id_t} {N : frame_id_t → BPlusTreePage}

theorem setLatch_ok {b : BufferPoolManager} (h : b.Holds T N) (f : frame_id_t)
    (l : ReaderWriterLatch) :
    ∃ b1, setLatch f l b = .ok ((), b1) ∧ b1.Holds T N := by
  obtain ⟨hl, hT, hN⟩ := h
  refine ⟨_, rfl, hl, hT, ?_⟩
  intro g
  rw [← hN g]
  simp only [BufferPoolManager.node, BufferPoolManager.setPage]
  by_cases hg : g = f
  · rw [if_pos hg, hg]
  · rw [if_neg hg]

theorem RUnlatch_ok {b : BufferPoolManager} (h : b.Holds T N) (f : frame_id_t) :
    ∃ b1, RUnlatch f b = .ok ((), b1) ∧ b1.Holds T N :=
  setLatch_ok h f _

theorem WUnlatch_ok {b : BufferPoolManager} (h : b.Holds T N) (f : frame_id_t) :
    ∃ b1, WUnlatch f b = .ok ((), b1) ∧ b1.Holds T N :=
  setLatch_ok h f _

/-- A latch that is granted leaves the page table and the nodes as they are. -/
theorem WLatch_holds {b b1 : BufferPoolManager} (h : b.Holds T N) {f : frame_id_t}
    (e : WLatch f b = .ok ((), b1)) : b1.Holds T N := by
  unfold WLatch at e
  cases hlock : ReaderWriterLatch.WLock (b.pages_ f).rwlatch_ with
  | error x =>
    simp only [bind, StateT.bind, Except.bind, get, getThe, MonadStateOf.get, StateT.get, pure,
      Except.pure, liftM, monadLift, MonadLift.monadLift, StateT.lift, hlock] at e
    cases e
  | ok l =>
    obtain ⟨b2, e2, H2⟩ := setLatch_ok h f l
    simp only [bind, StateT.bind, Except.bind, get, getThe, MonadStateOf.get, StateT.get, pure,
      Except.pure, liftM, monadLift, MonadLift.monadLift, StateT.lift, hlock] at e
    rw [e2] at e
    cases e
    exact H2

theorem RLatch_holds {b b1 : BufferPoolManager} (h : b.Holds T N) {f : frame_id_t}
    (e : RLatch f b = .ok ((), b1)) : b1.Holds T N := by
  unfold RLatch at e
  cases hlock : ReaderWriterLatch.RLock (b.pages_ f).rwlatch_ with
  | error x =>
    simp only [bind, StateT.bind, Except.bind, get, getThe, MonadStateOf.get, StateT.get, pure,
      Except.pure, liftM, monadLift, MonadLift.monadLift, StateT.lift, hlock] at e
    cases e
  | ok l =>
    obtain ⟨b2, e2, H2⟩ := setLatch_ok h f l
    simp only [bind, StateT.bind, Except.bind, get, getThe, MonadStateOf.get, StateT.get, pure,
      Except.pure, liftM, monadLift, MonadLift.monadLift, StateT.lift, hlock] at e
    rw [e2] at e
    cases e
    exact H2

end PoolM

namespace BPlusTree
variable {T : page_id_t → Option frame_id_t} {N : frame_id_t → BPlusTreePage}

theorem tree_bind_inv {α β : Type} {m : TreeM α} {k : α → TreeM β} {w : World}
    {r : β × World} (h : (m >>= k) w = .ok r) :
    ∃ a w1, m w = .ok (a, w1) ∧ k a w1 = .ok r := by
  cases hm : m w with
  | error e =>
    simp only [bind, StateT.bind, hm, Except.bind] at h
    cases h
  | ok p =>
    obtain ⟨a, w1⟩ := p
    refine ⟨a, w1, rfl, ?_⟩
    simpa only [bind, StateT.bind, hm, Except.bind] using h

/-- A loop whose turns all return and keep `P` returns and keeps `P`. -/
theorem forIn_keeps {α : Type} (f : α → PUnit → TreeM (ForInStep PUnit)) (P : World → Prop)
    (hf : ∀ a w, P w → ∃ w1, f a PUnit.unit w = .ok (ForInStep.yield PUnit.unit, w1) ∧ P w1) :
    ∀ (l : List α) (w : World), P w →
      ∃ w1, forIn l PUnit.unit f w = .ok (PUnit.unit, w1) ∧ P w1 := by
  intro l
  induction l with
  | nil => intro w hw; exact ⟨w, rfl, hw⟩
  | cons a l ih =>
    intro w hw
    obtain ⟨w1, e1, h1⟩ := hf a w hw
    obtain ⟨w2, e2, h2⟩ := ih w1 h1
    refine ⟨w2, ?_, h2⟩
    rw [List.forIn_cons, tree_bind_ok e1]
    exact e2

theorem pool_readPage (w : World) (f : frame_id_t) :
    pool (PoolM.readPage f) w = .ok (w.tree.buffer_pool_manager_.pages_ f, w) := rfl

/-- A loop whose turns all return and keep `P`, followed by `k`. -/
theorem forIn_bind_keeps {α β : Type} (f : α → PUnit → TreeM (ForInStep PUnit))
    (P : World → Prop) (k : PUnit → TreeM β) (Q : Except Fault (β × World) → Prop)
    (hf : ∀ a w, P w → ∃ w1, f a PUnit.unit w = .ok (ForInStep.yield PUnit.unit, w1) ∧ P w1)
    (hk : ∀ w1, P w1 → Q (k PUnit.unit w1)) (l : List α) (w : World) (hw : P w) :
    Q ((forIn l PUnit.unit f >>= k) w) := by
  obtain ⟨w1, e1, h1⟩ := forIn_keeps f P hf l w hw
  rw [tree_bind_ok e1]
  exact hk w1 h1

theorem UnlockUnpinPages_ok {b : BufferPoolManager} (h : b.Holds T N) (w : World)
    (txn : Transaction) (op : Operation) (hd : txn.deleted_page_set_ = []) :
    ∃ (w1 : World) (b1 : BufferPoolManager),
      UnlockUnpinPages op (w.put b txn) = .ok ((), w1.put b1 {}) ∧ b1.Holds T N := by
  unfold UnlockUnpinPages
  rw [tree_bind_ok (rfl : (get : TreeM World) (w.put b txn) = .ok (w.put b txn, w.put b txn))]
  have ht : (w.put b txn).transaction = some txn := rfl
  simp only [ht, hd]
  refine forIn_bind_keeps _ (fun w1 => ∃ b1, w1 = w.put b1 txn ∧ b1.Holds T N) _
    (fun X => ∃ (w1 : World) (b1 : BufferPoolManager),
      X = .ok ((), w1.put b1 {}) ∧ b1.Holds T N) ?_ ?_ _ _ ⟨b, rfl, h⟩
  · rintro page w1 ⟨b1, rfl, H1⟩
    by_cases hop : op = Operation.READONLY
    · obtain ⟨b2, e2, H2⟩ := RUnlatch_ok H1 page
      obtain ⟨r3, b3, e3, H3⟩ := UnpinPage_any H2 (b2.pages_ page).page_id_ false
      refine ⟨w.put b3 txn, ?_, b3, rfl, H3⟩
      rw [if_pos hop, tree_bind_ok (pool_put e2), tree_bind_ok (pool_readPage _ page)]
      show (pool (UnpinPage (b2.pages_ page).page_id_ false) >>= _) _ = _
      rw [tree_bind_ok (pool_put e3)]
      rfl
    · obtain ⟨b2, e2, H2⟩ := WUnlatch_ok H1 page
      obtain ⟨r3, b3, e3, H3⟩ := UnpinPage_any H2 (b2.pages_ page).page_id_ true
      refine ⟨w.put b3 txn, ?_, b3, rfl, H3⟩
      rw [if_neg hop, tree_bind_ok (pool_put e2), tree_bind_ok (pool_readPage _ page)]
      show (pool (UnpinPage (b2.pages_ page).page_id_ true) >>= _) _ = _
      rw [tree_bind_ok (pool_put e3)]
      rfl
  · rintro w1 ⟨b1, rfl, H1⟩
    obtain ⟨⟨a1, a2, a3, a4, a5, a6, a7, a8⟩, t, u⟩ := w
    cases a8
    · exact ⟨⟨⟨a1, a2, a3, a4, a5, a6, a7, false⟩, t, u⟩, b1, rfl, H1⟩
    · exact ⟨⟨⟨a1, a2, a3, a4, a5, a6, false, false⟩, t, u⟩, b1, rfl, H1⟩

end BPlusTree

theorem returns_of_resultOf {α : Type} {w : World} {x : Except Fault (α × World)} {a : α}
    (h : resultOf x = some a) : x = .ok (a, worldOf w x) := by
  cases x with
  | error e => cases h
  | ok p =>
    obtain ⟨a1, w1⟩ := p
    cases h
    rfl

namespace BPlusTree
variable {T : page_id_t → Option frame_id_t} {N : frame_id_t → BPlusTreePage}

theorem InsertIntoLeaf_room {b : BufferPoolManager} (h : b.Holds T N) (w0 w : World)
    (txn : Transaction) (fuel : Nat) (key : KeyType) (value : ValueType) (leaf : frame_id_t)
    (hfind : FindLeafPage fuel key false Operation.INSERT w0 = .ok (some leaf, w.put b txn))
    (hd : txn.deleted_page_set_ = [])
    (h0 : 0 ≤ (N leaf).size_) (hs : (N leaf).SortedFrom 0)
    (hne : ∀ i : Int, 0 ≤ i → i < (N leaf).size_ → ((N leaf).array i).1 ≠ key)
    (hsafe : (N leaf).size_ < (N leaf).max_size_) :
    ∃ (nd1 : BPlusTreePage) (w1 : World) (b1 : BufferPoolManager),
      BPlusTreeLeafPage.Insert (N leaf) key value = .ok ((N leaf).size_ + 1, nd1) ∧
      InsertIntoLeaf fuel key value w0 = .ok (true, w1.put b1 {}) ∧
      b1.Holds T (setNode N leaf nd1) := by
  obtain ⟨p, nd1, _, _, hI, _⟩ := @BPlusTreeLeafPage.Insert_spec (N leaf) key value h0 hs hsafe hne
  obtain ⟨b1, e1, H1⟩ := onNode_ok h leaf
    (fun nd => BPlusTreeLeafPage.Insert nd key value) hI
  obtain ⟨w2, b2, e2, H2⟩ := UnlockUnpinPages_ok H1 w txn Operation.INSERT hd
  refine ⟨nd1, w2, b2, hI, ?_, H2⟩
  unfold InsertIntoLeaf
  rw [tree_bind_ok hfind]
  simp only []
  rw [tree_bind_ok (pool_put (readNode_ok h leaf)),
    tree_bind_ok (liftM_put (BPlusTreeLeafPage.Lookup_absent h0 hne) _)]
  simp only [Option.isSome_none, Bool.false_eq_true, if_false, hsafe, if_true]
  rw [pure_bind]
  rw [tree_bind_ok (pool_put e1)]
  rw [pure_bind, tree_bind_ok e2]
  rfl

theorem removeFromLeaf_safe {b : BufferPoolManager} (h : b.Holds T N) (w : World)
    (txn : Transaction) (fuel : Nat) (key : KeyType) (leaf : frame_id_t) {i : Int}
    (hs : (N leaf).SortedFrom 0) (hi0 : 0 ≤ i) (hi1 : i < (N leaf).size_)
    (hk : ((N leaf).array i).1 = key)
    (hr : (N leaf).IsRootPage = false)
    (hsafe : (N leaf).size_ > (N leaf).GetMinSize + 1) :
    ∃ (nd1 : BPlusTreePage) (b1 : BufferPoolManager),
      BPlusTreeLeafPage.RemoveAndDeleteRecord (N leaf) key = .ok ((N leaf).size_ - 1, nd1) ∧
      removeFromLeaf (fuel + 1) key leaf (w.put b txn) = .ok ((), w.put b1 txn) ∧
      b1.Holds T (setNode N leaf nd1) := by
  have hR := BPlusTreeLeafPage.RemoveAndDeleteRecord_found hs hi0 hi1 hk
  obtain ⟨b1, e1, H1⟩ := onNode_ok h leaf
    (fun nd => BPlusTreeLeafPage.RemoveAndDeleteRecord nd key) hR
  refine ⟨_, b1, hR, ?_, H1⟩
  unfold removeFromLeaf
  rw [tree_bind_ok (pool_put (readNode_ok h leaf)), tree_bind_ok (pool_put e1)]
  rw [if_pos (by omega)]
  unfold coalesceOrRedistributeLeaf
  rw [tree_bind_ok (CoalesceOrRedistribute_safe (w.put b1 txn) fuel true leaf ?_ ?_)]
  · rfl
  · show (b1.node leaf).IsRootPage = false
    rw [H1.2.2 leaf, setNode_same]
    exact hr
  · show (b1.node leaf).size_ > (b1.node leaf).GetMinSize
    rw [H1.2.2 leaf, setNode_same]
    simp only [BPlusTreePage.IncreaseSize, BPlusTreePage.GetMinSize] at hsafe ⊢
    omega

end BPlusTree

namespace BPlusTree

theorem pool_onNode_inv {α : Type} {w w1 : World} {f : frame_id_t}
    {g : BPlusTreePage → Except Fault (α × BPlusTreePage)} {a : α}
    (h : pool (PoolM.onNode f g) w = .ok (a, w1)) :
    g (w.node f) = .ok (a, w1.node f) := by
  cases hg : g (w.node f) with
  | error e =>
    have : pool (PoolM.onNode f g) w = .error e := by
      simp only [pool, PoolM.onNode, PoolM.readNode, bind, StateT.bind, Except.bind, get, getThe,
        MonadStateOf.get, StateT.get, pure, Except.pure, StateT.pure, liftM, monadLift,
        MonadLift.monadLift, StateT.lift]
      simp only [World.node] at hg
      rw [hg]
    rw [this] at h
    cases h
  | ok p =>
    obtain ⟨a1, nd1⟩ := p
    have : pool (PoolM.onNode f g) w = .ok (a1, { w with tree := { w.tree with
        buffer_pool_manager_ := w.tree.buffer_pool_manager_.setPage f
          { (w.tree.buffer_pool_manager_.pages_ f) with
            data_ := { (w.tree.buffer_pool_manager_.pages_ f).data_ with node := nd1 } } } }) := by
      simp only [pool, PoolM.onNode, PoolM.readNode, bind, StateT.bind, Except.bind, get, getThe,
        MonadStateOf.get, StateT.get, pure, Except.pure, StateT.pure, liftM, monadLift,
        MonadLift.monadLift, StateT.lift]
      simp only [World.node] at hg
      rw [hg]
      rfl
    rw [this] at h
    cases h
    simp [World.node, BufferPoolManager.setPage]

end BPlusTree

/-- C34: `isSafe(node, INSERT)` holds iff `size < max_size`, and `isSafe(node, DELETE)` holds iff
`size > min_size + 1`. (1) When `FindLeafPage(key, INSERT)` returns a leaf that is safe for
INSERT (sorted, without the key), `InsertIntoLeaf` returns true without a split: the page table
is as it was after the descent, the leaf is what its `Insert` makes of it, with one pair more,
and every other node is as it was. (2) `InsertIntoParent` on a parent that is resident and safe
for INSERT returns without a split: the page table is unchanged, the parent is what
`InsertNodeAfter` makes of it, the new node has the parent as its parent, and every other node
is as it was. (3) After `RemoveAndDeleteRecord` has taken a pair out of a leaf that was safe for
DELETE and not the root, and after `Remove(index)` on such an internal node,
`CoalesceOrRedistribute` returns false and leaves the pool and the transaction as they are. In
(1) and (2) the pool latch is free and the transaction is not null. -/
theorem safe_predicate_sound :
    (∀ nd : BPlusTreePage,
      (BPlusTree.isSafe nd Operation.INSERT = true ↔ nd.size_ < nd.max_size_) ∧
      (BPlusTree.isSafe nd Operation.DELETE = true ↔ nd.size_ > nd.GetMinSize + 1)) ∧
    (∀ (w0 w : World) (txn : Transaction) (fuel : Nat) (key : KeyType) (value : ValueType)
        (leaf : frame_id_t),
      BPlusTree.FindLeafPage fuel key false Operation.INSERT w0 = .ok (some leaf, w) →
      w.tree.buffer_pool_manager_.latch_ = false → w.transaction = some txn →
      txn.deleted_page_set_ = [] →
      0 ≤ (w.node leaf).size_ → (w.node leaf).SortedFrom 0 →
      (∀ i : Int, 0 ≤ i → i < (w.node leaf).size_ → ((w.node leaf).array i).1 ≠ key) →
      BPlusTree.isSafe (w.node leaf) Operation.INSERT = true →
      ∃ w1, BPlusTree.InsertIntoLeaf fuel key value w0 = .ok (true, w1) ∧
        w1.tree.buffer_pool_manager_.page_table_ = w.tree.buffer_pool_manager_.page_table_ ∧
        BPlusTreeLeafPage.Insert (w.node leaf) key value =
          .ok ((w.node leaf).size_ + 1, w1.node leaf) ∧
        (w1.node leaf).size_ = (w.node leaf).size_ + 1 ∧
        ∀ g, g ≠ leaf → w1.node g = w.node g) ∧
    (∀ (w : World) (txn : Transaction) (fuel : Nat) (old_node new_node parent : frame_id_t)
        (key : KeyType),
      w.tree.buffer_pool_manager_.latch_ = false → w.transaction = some txn →
      (w.node old_node).IsRootPage = false →
      w.tree.buffer_pool_manager_.page_table_ (w.node old_node).parent_page_id_ = some parent →
      new_node ≠ parent →
      BPlusTree.isSafe (w.node parent) Operation.INSERT = true →
      ∃ w1, BPlusTree.InsertIntoParent (fuel + 1) old_node key new_node w = .ok ((), w1) ∧
        w1.tree.buffer_pool_manager_.page_table_ = w.tree.buffer_pool_manager_.page_table_ ∧
        w1.node parent = (BPlusTreeInternalPage.InsertNodeAfter (w.node parent)
          (w.node old_node).page_id_ key (w.node new_node).page_id_).2 ∧
        w1.node new_node =
          { w.node new_node with parent_page_id_ := (w1.node parent).page_id_ } ∧
        ∀ g, g ≠ parent → g ≠ new_node → w1.node g = w.node g) ∧
    (∀ (w w1 : World) (fuel : Nat) (flag : Bool) (node : frame_id_t),
      (w.node node).IsRootPage = false →
      BPlusTree.isSafe (w.node node) Operation.DELETE = true →
      ((∃ (key : KeyType) (r : Int), 0 ≤ (w.node node).size_ ∧ (w.node node).SortedFrom 0 ∧
          BPlusTree.pool (PoolM.onNode node
            (fun nd => BPlusTreeLeafPage.RemoveAndDeleteRecord nd key)) w = .ok (r, w1) ∧
          r ≠ (w.node node).size_) ∨
        (∃ index : Int, BPlusTree.pool (PoolM.onNode node (fun nd => do
            let nd ← BPlusTreeInternalPage.Remove nd index
            pure ((), nd))) w = .ok ((), w1))) →
      BPlusTree.CoalesceOrRedistribute (fuel + 1) flag node w1 = .ok (false, w1)) := by
  refine ⟨fun nd => ⟨?_, ?_⟩, ?_, ?_, ?_⟩
  · simp [BPlusTree.isSafe]
  · simp [BPlusTree.isSafe]
  · intro w0 w txn fuel key value leaf hfind hl htx hd h0 hs hne hsafe
    have H := holds_self w.tree.buffer_pool_manager_ hl
    have hw : w.put w.tree.buffer_pool_manager_ txn = w := BPlusTree.put_self htx
    rw [← hw] at hfind
    have hlt : (w.node leaf).size_ < (w.node leaf).max_size_ := by
      simpa [BPlusTree.isSafe] using hsafe
    obtain ⟨nd1, w1, b1, e1, e2, H1⟩ := BPlusTree.InsertIntoLeaf_room H w0 w txn fuel key value
      leaf hfind hd h0 hs hne hlt
    have hn : ∀ g, (w1.put b1 {}).node g =
        setNode w.tree.buffer_pool_manager_.node leaf nd1 g := H1.2.2
    obtain ⟨_, nd2, _, _, e3, e4, _⟩ :=
      @BPlusTreeLeafPage.Insert_spec (w.node leaf) key value h0 hs hlt hne
    have e5 : nd1 = nd2 := by
      have := e1.symm.trans e3
      injection this with this
      injection this
    refine ⟨w1.put b1 {}, e2, H1.2.1, ?_, ?_, ?_⟩
    · rw [hn leaf, setNode_same]; exact e1
    · rw [hn leaf, setNode_same, e5]; exact e4
    · intro g hg
      rw [hn g, setNode_other _ _ hg]
      rfl
  · intro w txn fuel old_node new_node parent key hl htx hr hp hne hsafe
    have H := holds_self w.tree.buffer_pool_manager_ hl
    have hw : w.put w.tree.buffer_pool_manager_ txn = w := BPlusTree.put_self htx
    have hlt : (w.node parent).size_ < (w.node parent).max_size_ := by
      simpa [BPlusTree.isSafe] using hsafe
    obtain ⟨b1, e1, H1⟩ := BPlusTree.InsertIntoParent_room H w txn fuel old_node new_node parent
      key hr hp hlt hne rfl
    rw [hw] at e1
    have hn : ∀ g, (w.put b1 txn).node g = _ := H1.2.2
    refine ⟨w.put b1 txn, e1, H1.2.1, ?_, ?_, ?_⟩
    · rw [hn parent, setNode_other _ _ hne.symm, setNode_same]
      rfl
    · rw [hn new_node, setNode_same, hn parent, setNode_other _ _ hne.symm, setNode_same]
      rfl
    · intro g h1 h2
      rw [hn g, setNode_other _ _ h2, setNode_other _ _ h1]
      rfl
  · intro w w1 fuel flag node hr hsafe hrem
    have hgt : (w.node node).size_ > (w.node node).GetMinSize + 1 := by
      simpa [BPlusTree.isSafe] using hsafe
    rcases hrem with ⟨key, r, h0, hs, e, hne⟩ | ⟨index, e⟩
    · have e1 := BPlusTree.pool_onNode_inv e
      by_cases hp : ∃ i : Int, 0 ≤ i ∧ i < (w.node node).size_ ∧ ((w.node node).array i).1 = key
      · obtain ⟨i, hi0, hi1, hk⟩ := hp
        rw [BPlusTreeLeafPage.RemoveAndDeleteRecord_found hs hi0 hi1 hk] at e1
        injection e1 with e1
        injection e1 with _ e1
        apply BPlusTree.CoalesceOrRedistribute_safe
        · rw [← e1]; exact hr
        · rw [← e1]
          simp only [BPlusTreePage.IncreaseSize, BPlusTreePage.GetMinSize] at hgt ⊢
          omega
      · have habs : ∀ i : Int, 0 ≤ i → i < (w.node node).size_ →
            ((w.node node).array i).1 ≠ key := fun i h1 h2 h3 => hp ⟨i, h1, h2, h3⟩
        rw [BPlusTreeLeafPage.RemoveAndDeleteRecord_absent h0 habs] at e1
        injection e1 with e1
        injection e1 with e1 _
        exact absurd e1.symm hne
    · have e1 := BPlusTree.pool_onNode_inv e
      by_cases hi : 0 ≤ index ∧ index < (w.node node).size_
      · rw [BPlusTreeInternalPage.Remove_ok hi.1 hi.2] at e1
        simp only [bind, Except.bind, pure, Except.pure] at e1
        injection e1 with e1
        injection e1 with _ e1
        apply BPlusTree.CoalesceOrRedistribute_safe
        · rw [← e1]; exact hr
        · rw [← e1]
          simp only [BPlusTreePage.withoutSlot, BPlusTreePage.withArray,
            BPlusTreePage.IncreaseSize, BPlusTreePage.GetMinSize] at hgt ⊢
          omega
      · have : BPlusTreeInternalPage.Remove (w.node node) index = .error Fault.assertion := by
          simp [BPlusTreeInternalPage.Remove, assert, hi, bind, Except.bind]
        rw [this] at e1
        simp only [bind, Except.bind] at e1
        cases e1

/-- Witness for C34: the insert of key 4 into the leaf `{1, 2, 3}` of `gapWorld`, the insert of
the separator 3 into the root of `roomWorld`, and `CoalesceOrRedistribute` after a removal from
the full leaf of `redistributeRightWorld` and from the internal node of `wideWorld`. -/
theorem safe_predicate_sound_witness :
    (∃ w1, BPlusTree.InsertIntoLeaf 8 4 40 gapWorld = .ok (true, w1) ∧
      w1.tree.buffer_pool_manager_.page_table_ =
        gapWorldFound.tree.buffer_pool_manager_.page_table_ ∧
      BPlusTreeLeafPage.Insert (gapWorldFound.node 0) 4 40 =
        .ok ((gapWorldFound.node 0).size_ + 1, w1.node 0) ∧
      (w1.node 0).size_ = (gapWorldFound.node 0).size_ + 1 ∧
      ∀ g, g ≠ 0 → w1.node g = gapWorldFound.node g) ∧
    (∃ w1, BPlusTree.InsertIntoParent (0 + 1) 0 3 3 roomWorld = .ok ((), w1) ∧
      w1.tree.buffer_pool_manager_.page_table_ =
        roomWorld.tree.buffer_pool_manager_.page_table_ ∧
      w1.node 2 = (BPlusTreeInternalPage.InsertNodeAfter (roomWorld.node 2)
        (roomWorld.node 0).page_id_ 3 (roomWorld.node 3).page_id_).2 ∧
      w1.node 3 = { roomWorld.node 3 with parent_page_id_ := (w1.node 2).page_id_ } ∧
      ∀ g, g ≠ 2 → g ≠ 3 → w1.node g = roomWorld.node g) ∧
    BPlusTree.CoalesceOrRedistribute (0 + 1) true 1 fullLeafWorld1 = .ok (false, fullLeafWorld1) ∧
    BPlusTree.CoalesceOrRedistribute (0 + 1) false 0 wideWorld1 = .ok (false, wideWorld1) :=
  ⟨safe_predicate_sound.2.1 gapWorld gapWorldFound { page_set_ := [0] } 8 4 40 0
      (returns_of_resultOf (by decide!)) (by decide!) (by decide!) rfl (by decide!) (by decide!)
      (fun i h1 h2 => by
        have hsz : (gapWorldFound.node 0).size_ = 3 := by decide!
        rw [hsz] at h2
        have h : i = 0 ∨ i = 1 ∨ i = 2 := by omega
        rcases h with h | h | h <;> subst h <;> decide!)
      (by decide!),
   safe_predicate_sound.2.2.1 roomWorld {} 0 0 3 2 3 (by decide!) (by decide!) (by decide!)
      (by decide!) (by decide) (by decide!),
   safe_predicate_sound.2.2.2 redistributeRightWorld fullLeafWorld1 0 true 1 (by decide!)
      (by decide!)
      (Or.inl ⟨5, 3, by decide!, by decide!, returns_of_resultOf (by decide!), by decide!⟩),
   safe_predicate_sound.2.2.2 wideWorld wideWorld1 0 false 0 (by decide!) (by decide!)
      (Or.inr ⟨1, returns_of_resultOf (by decide!)⟩)⟩

/-! ## Theorems about the split of a leaf -/

namespace BufferPoolManager

/-- A `new_page` that returns a frame leaves the pool latch free and the other frames as they
are; the frame it returns is zeroed. -/
theorem NewPageImpl_frames {b b1 : BufferPoolManager} {p : page_id_t} {f : frame_id_t}
    (hl : b.latch_ = false) (h : b.NewPageImpl = .ok (some (p, f), b1)) :
    b1.latch_ = false ∧ (∀ g, g ≠ f → b1.pages_ g = b.pages_ g) ∧
      (b1.pages_ f).data_ = PageData.zero ∧ (b1.pages_ f).pin_count_ = 1 ∧
      b1.page_table_ p = some f := by
  cases hf : b.free_list_ with
  | cons f' rest =>
    rw [NewPageImpl_free b f' rest hl hf] at h
    injection h with h
    injection h with h1 h2
    injection h1 with h1
    injection h1 with h3 h4
    subst h2 h4
    refine ⟨hl, fun g hg => ?_, ?_, ?_, ?_⟩
    · simp only [if_neg hg]
    · simp only [if_true]
    · simp only [if_true]
    · rw [← h3]; simp [tableSet]
  | nil =>
    by_cases hr : b.replacer_.lru_map = []
    · rw [NewPageImpl_exhausted b hl hf hr] at h
      injection h with h
      injection h with h1 _
      cases h1
    · rw [NewPageImpl_victim b hl hf hr] at h
      injection h with h
      injection h with h1 h2
      injection h1 with h1
      injection h1 with h3 h4
      subst h2 h4
      refine ⟨hl, fun g hg => ?_, ?_, ?_, ?_⟩
      · simp only [if_neg hg]
      · simp only [if_true]
      · simp only [if_true]
      · rw [← h3]; simp [tableSet]

end BufferPoolManager

namespace BPlusTreeLeafPage
variable {T : page_id_t → Option frame_id_t} {N : frame_id_t → BPlusTreePage}

theorem leaf_CopyNFrom_ok {b : BufferPoolManager} (h : b.Holds T N)
    {self from_page : frame_id_t} (hne : self ≠ from_page) (from_index size : Int)
    (hs : 0 ≤ size) (hleaf : (N self).IsLeafPage = true) (h0 : (N self).size_ = 0) :
    ∃ b1, CopyNFrom self from_page from_index size b = .ok ((), b1) ∧
      b1.Holds T (setNode N self
        (((N self).withArray fun j =>
            if 0 ≤ j ∧ j < size then (N from_page).array (from_index + j)
            else (N self).array j).IncreaseSize size)) := by
  obtain ⟨b1, h1, h2⟩ := copyItems_ok (T := T) hne 0 from_index size.toNat 0 b N h
  obtain ⟨b2, h3, h4⟩ := modifyNode_ok h2 self (fun nd => nd.IncreaseSize size)
  refine ⟨b2, ?_, holds_congr h4 ?_⟩
  · unfold CopyNFrom
    rw [bind_ok (readNode_ok h self),
      bind_ok (check_ok (by rw [hleaf, h0]; rfl) b), bind_ok h1]
    exact h3
  · intro g
    by_cases hg : g = self
    · subst hg
      rw [setNode_same, setNode_same, setNode_same]
      congr 2
      funext j
      simp only [add_zero, zero_add, sub_zero, Int.toNat_of_nonneg hs]
    · rw [setNode_other _ _ hg, setNode_other _ _ hg, setNode_other _ _ hg]

theorem leaf_MoveHalfTo_ok {b : BufferPoolManager} (h : b.Holds T N)
    {self recipient : frame_id_t} (hne : self ≠ recipient) (hs : 0 < (N self).size_)
    (hleaf : (N recipient).IsLeafPage = true) (h0 : (N recipient).size_ = 0) :
    ∃ b1, MoveHalfTo self recipient b = .ok ((), b1) ∧
      b1.Holds T (setNode (setNode N recipient
          (((N recipient).withArray fun j =>
            if 0 ≤ j ∧ j < Int.tdiv (N self).size_ 2
            then (N self).array ((N self).size_ - Int.tdiv (N self).size_ 2 + j)
            else (N recipient).array j).IncreaseSize (Int.tdiv (N self).size_ 2)))
        self ((N self).IncreaseSize (-1 * Int.tdiv (N self).size_ 2))) := by
  obtain ⟨d0, d1, d2⟩ := tdiv_two_bounds (d := (N self).size_) (le_of_lt hs)
  obtain ⟨b1, h1, h2⟩ := leaf_CopyNFrom_ok h (Ne.symm hne)
    ((N self).size_ - Int.tdiv (N self).size_ 2) (Int.tdiv (N self).size_ 2) d0 hleaf h0
  obtain ⟨b2, h3, h4⟩ := modifyNode_ok h2 self
    (fun nd => nd.IncreaseSize (-1 * Int.tdiv (N self).size_ 2))
  rw [setNode_other _ _ hne] at h4
  refine ⟨b2, ?_, h4⟩
  unfold MoveHalfTo
  rw [bind_ok (readNode_ok h self), bind_ok (check_ok (decide_eq_true hs) b), bind_ok h1]
  exact h3

end BPlusTreeLeafPage

namespace BPlusTree

theorem tree_ite_bind {α β : Type} (c : Prop) [Decidable c] (x y : TreeM α)
    (k : α → TreeM β) :
    ((if c then x else y) >>= k) = if c then x >>= k else y >>= k := by
  split <;> rfl

theorem InsertIntoLeaf_split (w0 w : World) (fuel : Nat) (key : KeyType) (value : ValueType)
    (leaf : frame_id_t)
    (hfind : FindLeafPage fuel key false Operation.INSERT w0 = .ok (some leaf, w))
    (habs : BPlusTreeLeafPage.Lookup (w.node leaf) key = .ok none)
    (hfull : ¬ (w.node leaf).size_ < (w.node leaf).max_size_) :
    InsertIntoLeaf fuel key value w0 =
      (splitAndInsert key value leaf >>= chainAndPromote fuel leaf) w := by
  unfold InsertIntoLeaf
  rw [tree_bind_ok hfind]
  simp only []
  rw [tree_bind_ok (pool_readNode w leaf), tree_bind_ok (liftM_put habs w)]
  simp only [Option.isSome_none, Bool.false_eq_true, if_false, hfull, pure_bind]
  unfold splitAndInsert chainAndPromote chainTogether
  simp only [tree_ite_bind, bind_assoc, pure_bind]

end BPlusTree

namespace BPlusTree
variable {T : page_id_t → Option frame_id_t} {N : frame_id_t → BPlusTreePage}

/-- Closed form of `Split` on a leaf: the new leaf takes the upper `⌊size/2⌋` pairs. -/
theorem Split_leaf_ok {b b1 : BufferPoolManager} (h : b.Holds T N) (w : World)
    (txn : Transaction) (leaf f2 : frame_id_t) (pid : page_id_t)
    (hnew : b.NewPageImpl = .ok (some (pid, f2), b1)) (hne : f2 ≠ leaf)
    (hs : 0 < (N leaf).size_) :
    ∃ b3 N3, Split true leaf (w.put b txn) = .ok (f2, w.put b3 txn) ∧
      b3.Holds b1.page_table_ N3 ∧
      N3 leaf = (N leaf).IncreaseSize (-1 * Int.tdiv (N leaf).size_ 2) ∧
      (N3 f2).size_ = Int.tdiv (N leaf).size_ 2 ∧
      (N3 f2).max_size_ = w.tree.leaf_max_size ∧
      (N3 f2).page_id_ = w.uninitialized ∧
      (N3 f2).next_page_id_ = INVALID_PAGE_ID ∧
      (N3 f2).parent_page_id_ = INVALID_PAGE_ID ∧
      (N3 f2).IsLeafPage = true ∧
      (∀ j : Int, 0 ≤ j → j < Int.tdiv (N leaf).size_ 2 →
        (N3 f2).array j = (N leaf).array ((N leaf).size_ - Int.tdiv (N leaf).size_ 2 + j)) ∧
      ∀ g, g ≠ leaf → g ≠ f2 → N3 g = N g := by
  obtain ⟨hl1, hpg, hz, _, _⟩ := BufferPoolManager.NewPageImpl_frames h.1 hnew
  have H1 := holds_self b1 hl1
  have hN1 : ∀ g, g ≠ f2 → b1.node g = N g := by
    intro g hg
    rw [← h.2.2 g]
    simp only [BufferPoolManager.node, hpg g hg]
  obtain ⟨b2, e2, H2⟩ := modifyNode_ok H1 f2 (fun nd =>
    BPlusTreeLeafPage.Init nd w.tree.leaf_max_size w.uninitialized INVALID_PAGE_ID)
  have hself : setNode b1.node f2 (BPlusTreeLeafPage.Init (b1.node f2) w.tree.leaf_max_size
      w.uninitialized INVALID_PAGE_ID) leaf = N leaf := by
    rw [setNode_other _ _ hne.symm, hN1 leaf hne.symm]
  obtain ⟨b3, e3, H3⟩ := BPlusTreeLeafPage.leaf_MoveHalfTo_ok H2 hne.symm
    (by rw [hself]; exact hs) (by rw [setNode_same]; rfl) (by rw [setNode_same]; rfl)
  rw [hself, setNode_same] at H3
  refine ⟨b3, _, ?_, H3, ?_, ?_, ?_, ?_, ?_, ?_, ?_, ?_, ?_⟩
  · unfold Split
    rw [tree_bind_ok (rfl : (get : TreeM World) (w.put b txn) = .ok (w.put b txn, w.put b txn)),
      tree_bind_ok (pool_put (show PoolM.NewPageImpl b = _ from hnew))]
    simp only [Option.map_some']
    rw [tree_bind_ok (pool_put (rfl : deref (some f2) b1 = .ok (f2, b1)))]
    rw [tree_bind_ok (rfl : getTree (w.put b1 txn) = .ok ((w.put b1 txn).tree, w.put b1 txn))]
    simp only [if_true]
    show (pool (modifyNode f2 fun nd => BPlusTreeLeafPage.Init nd w.tree.leaf_max_size
      w.uninitialized INVALID_PAGE_ID) >>= _) (w.put b1 txn) = _
    rw [tree_bind_ok (pool_put e2), tree_bind_ok (pool_put e3)]
    rfl
  · rw [setNode_same]
  · rw [setNode_other _ _ hne, setNode_same]; simp [BPlusTreePage.IncreaseSize,
      BPlusTreePage.withArray, BPlusTreeLeafPage.Init]
  · rw [setNode_other _ _ hne, setNode_same]; rfl
  · rw [setNode_other _ _ hne, setNode_same]; rfl
  · rw [setNode_other _ _ hne, setNode_same]; rfl
  · rw [setNode_other _ _ hne, setNode_same]; rfl
  · rw [setNode_other _ _ hne, setNode_same]; rfl
  · intro j hj0 hj1
    rw [setNode_other _ _ hne, setNode_same]
    simp only [BPlusTreePage.IncreaseSize, BPlusTreePage.withArray]
    rw [if_pos ⟨hj0, hj1⟩]
  · intro g hg1 hg2
    rw [setNode_other _ _ hg1, setNode_other _ _ hg2, setNode_other _ _ hg2]
    exact hN1 g hg2

end BPlusTree

namespace BPlusTree
variable {T : page_id_t → Option frame_id_t} {N : frame_id_t → BPlusTreePage}

theorem splitAndInsert_ok {b b1 : BufferPoolManager} (h : b.Holds T N) (w : World)
    (txn : Transaction) (key : KeyType) (value : ValueType) (leaf f2 : frame_id_t)
    (pid : page_id_t)
    (hnew : b.NewPageImpl = .ok (some (pid, f2), b1)) (hne : f2 ≠ leaf)
    (h2 : 2 ≤ (N leaf).size_) (hmax : (N leaf).size_ ≤ (N leaf).max_size_)
    (hcap : Int.tdiv (N leaf).size_ 2 < w.tree.leaf_max_size)
    (hs : (N leaf).SortedFrom 0)
    (habs : ∀ i : Int, 0 ≤ i → i < (N leaf).size_ → ((N leaf).array i).1 ≠ key) :
    ∃ (b4 : BufferPoolManager) (N4 : frame_id_t → BPlusTreePage) (a c : KeyType),
      splitAndInsert key value leaf (w.put b txn) = .ok (f2, w.put b4 txn) ∧
      b4.Holds b1.page_table_ N4 ∧
      BPlusTreeLeafPage.KeyAt (N4 leaf) 0 = .ok a ∧
      BPlusTreeLeafPage.KeyAt (N4 f2) 0 = .ok c ∧ a < c := by
  obtain ⟨d0, d1, d2⟩ := tdiv_two_bounds (d := (N leaf).size_) (by omega)
  obtain ⟨b3, N3, e3, H3, hL, hsz, hmx, _, _, _, _, harr, _⟩ :=
    Split_leaf_ok h w txn leaf f2 pid hnew hne (by omega)
  have hk0 : BPlusTreeLeafPage.KeyAt (N3 f2) 0 =
      .ok ((N leaf).array ((N leaf).size_ - Int.tdiv (N leaf).size_ 2)).1 := by
    rw [BPlusTreeLeafPage.KeyAt_ok (le_refl 0) (by rw [hsz]; omega), harr 0 (le_refl 0) (by omega),
      add_zero]
  have hfirst : ((N leaf).array 0).1 <
      ((N leaf).array ((N leaf).size_ - Int.tdiv (N leaf).size_ 2)).1 :=
    SortedFrom_lt hs (le_refl _) (by omega) (by omega)
  have hLsz : (N3 leaf).size_ = (N leaf).size_ - Int.tdiv (N leaf).size_ 2 := by
    rw [hL]; simp only [BPlusTreePage.IncreaseSize]; omega
  have hLarr : (N3 leaf).array = (N leaf).array := by rw [hL]; rfl
  have hLmax : (N3 leaf).max_size_ = (N leaf).max_size_ := by rw [hL]; rfl
  by_cases hc : comparator key ((N leaf).array ((N leaf).size_ - Int.tdiv (N leaf).size_ 2)).1 < 0
  · -- the pair goes into the old leaf
    have hsL : (N3 leaf).SortedFrom 0 := by
      intro j hj i hij hi
      rw [hLarr]
      exact hs j (by rw [hLsz] at hj; omega) i hij hi
    obtain ⟨p, nd1, hp0, hp1, hI, hsz1, harr1, hlt, hgt⟩ :=
      @BPlusTreeLeafPage.Insert_spec (N3 leaf) key value (by rw [hLsz]; omega) hsL
        (by rw [hLsz, hLmax]; omega)
        (fun i hi0 hi1 => by rw [hLarr]; exact habs i hi0 (by rw [hLsz] at hi1; omega))
    obtain ⟨b4, e4, H4⟩ := onNode_ok H3 leaf
      (fun nd => BPlusTreeLeafPage.Insert nd key value) hI
    refine ⟨b4, setNode N3 leaf nd1, (nd1.array 0).1,
      ((N leaf).array ((N leaf).size_ - Int.tdiv (N leaf).size_ 2)).1, ?_, H4, ?_, ?_, ?_⟩
    · unfold splitAndInsert
      rw [tree_bind_ok e3, tree_bind_ok (pool_put (readNode_ok H3 f2)),
        tree_bind_ok (liftM_put hk0 _)]
      simp only [hc, if_true]
      rw [tree_bind_ok (pool_put e4)]
      rfl
    · rw [setNode_same]
      exact BPlusTreeLeafPage.KeyAt_ok (le_refl 0) (by rw [hsz1, hLsz]; omega)
    · rw [setNode_other _ _ hne]
      exact hk0
    · rw [harr1 0 (le_refl 0) (by rw [hLsz]; omega)]
      by_cases hp : (0 : Int) < p
      · rw [if_pos hp, hLarr]
        exact hfirst
      · rw [if_neg hp, if_pos (by omega)]
        exact comparator_lt.1 hc
  · -- the pair goes into the new leaf
    have hklt : ((N leaf).array ((N leaf).size_ - Int.tdiv (N leaf).size_ 2)).1 < key := by
      have h1 := habs ((N leaf).size_ - Int.tdiv (N leaf).size_ 2) (by omega) (by omega)
      have h2 : ¬ key < ((N leaf).array ((N leaf).size_ - Int.tdiv (N leaf).size_ 2)).1 :=
        fun hx => hc (comparator_lt.2 hx)
      exact lt_of_le_of_ne (not_lt.1 h2) h1
    have hs2 : (N3 f2).SortedFrom 0 := by
      intro j hj i hij hi
      rw [hsz] at hj
      rw [harr i (by omega) (by omega), harr j (by omega) (by omega)]
      exact SortedFrom_lt hs (by omega) (by omega) (by omega)
    obtain ⟨p, nd1, hp0, hp1, hI, hsz1, harr1, hlt, hgt⟩ :=
      @BPlusTreeLeafPage.Insert_spec (N3 f2) key value (by rw [hsz]; omega) hs2
        (by rw [hsz, hmx]; exact hcap)
        (fun i hi0 hi1 => by
          rw [hsz] at hi1
          rw [harr i hi0 hi1]
          exact habs _ (by omega) (by omega))
    obtain ⟨b4, e4, H4⟩ := onNode_ok H3 f2
      (fun nd => BPlusTreeLeafPage.Insert nd key value) hI
    have hp : (0 : Int) < p := by
      by_contra hp
      have hp2 : p = 0 := by omega
      have := hgt 0 (by omega) (by rw [hsz]; omega)
      rw [harr 0 (le_refl 0) (by omega), add_zero] at this
      exact absurd this (not_lt.2 (le_of_lt hklt))
    refine ⟨b4, setNode N3 f2 nd1, ((N leaf).array 0).1, (nd1.array 0).1, ?_, H4, ?_, ?_, ?_⟩
    · unfold splitAndInsert
      rw [tree_bind_ok e3, tree_bind_ok (pool_put (readNode_ok H3 f2)),
        tree_bind_ok (liftM_put hk0 _)]
      simp only [hc, if_false]
      rw [tree_bind_ok (pool_put e4)]
      rfl
    · rw [setNode_other _ _ hne.symm, ← hLarr]
      exact BPlusTreeLeafPage.KeyAt_ok (le_refl 0) (by rw [hLsz]; omega)
    · rw [setNode_same]
      exact BPlusTreeLeafPage.KeyAt_ok (le_refl 0) (by rw [hsz1, hsz]; omega)
    · rw [harr1 0 (le_refl 0) (by rw [hsz]; omega), if_pos hp, harr 0 (le_refl 0) (by omega),
        add_zero]
      exact hfirst

end BPlusTree

open PoolM BufferPoolManager

theorem returns_of_valueOf {α : Type} {b : BufferPoolManager}
    {x : Except Fault (α × BufferPoolManager)} {a : α}
    (h : valueOf x = some a) : x = .ok (a, stateOf b x) := by
  cases x with
  | error e => cases h
  | ok p =>
    obtain ⟨a1, b1⟩ := p
    cases h
    rfl

namespace BPlusTree
variable {T : page_id_t → Option frame_id_t} {N : frame_id_t → BPlusTreePage}

theorem chainTogether_right {b : BufferPoolManager} (h : b.Holds T N) (w : World)
    (txn : Transaction) (leaf leaf2 : frame_id_t) {a c : KeyType} (hne : leaf2 ≠ leaf)
    (ha : BPlusTreeLeafPage.KeyAt (N leaf) 0 = .ok a)
    (hc : BPlusTreeLeafPage.KeyAt (N leaf2) 0 = .ok c) (hlt : a < c) :
    ∃ b1, chainTogether leaf leaf2 (w.put b txn) = .ok ((), w.put b1 txn) ∧
      b1.Holds T (setNode (setNode N leaf2
          { N leaf2 with next_page_id_ := (N leaf).next_page_id_ })
        leaf { N leaf with next_page_id_ := (N leaf2).page_id_ }) := by
  obtain ⟨b1, e1, H1⟩ := modifyNode_ok h leaf2
    (fun n2 => { n2 with next_page_id_ := (N leaf).next_page_id_ })
  obtain ⟨b2, e2, H2⟩ := modifyNode_ok H1 leaf
    (fun n => { n with next_page_id_ := (N leaf2).page_id_ })
  rw [setNode_other _ _ hne.symm] at H2
  refine ⟨b2, ?_, H2⟩
  unfold chainTogether
  rw [tree_bind_ok (pool_put (readNode_ok h leaf)), tree_bind_ok (liftM_put ha _),
    tree_bind_ok (pool_put (readNode_ok h leaf2)), tree_bind_ok (liftM_put hc _)]
  simp only [comparator_lt.2 hlt, if_true]
  rw [tree_bind_ok (pool_put (readNode_ok h leaf)), tree_bind_ok (pool_put e1),
    tree_bind_ok (pool_put (readNode_ok H1 leaf2)), setNode_same]
  exact pool_put e2

end BPlusTree

/-- C36: the split of a full leaf in `InsertIntoLeaf`. The leaf that `FindLeafPage` returned is
full (`size = max_size`, the capacity of the tree's leaves, at least 2), its keys are strictly
increasing and `key` is not among them; the pool latch is free, the transaction is not null, and
`new_page` gives a frame other than the leaf's. Then `Split` and the placement of the pair
return, and afterwards the first key of the old leaf is below the first key of the new leaf: the
test of `// chain together` succeeds, the new leaf takes the old leaf's `next_page_id`, the old
leaf's `next_page_id` becomes the page id of the new leaf, and the new leaf is never given the
old leaf's page id as its successor. `InsertIntoLeaf` is these statements followed by
`chainAndPromote`. -/
theorem split_leaf_chains_right (w : World) (txn : Transaction) (key : KeyType)
    (value : ValueType) (leaf leaf2 : frame_id_t) (pid : page_id_t) (b1 : BufferPoolManager)
    (hl : w.tree.buffer_pool_manager_.latch_ = false) (htx : w.transaction = some txn)
    (hnew : w.tree.buffer_pool_manager_.NewPageImpl = .ok (some (pid, leaf2), b1))
    (hne : leaf2 ≠ leaf)
    (h2 : 2 ≤ (w.node leaf).max_size_)
    (hfull : (w.node leaf).size_ = (w.node leaf).max_size_)
    (hcap : w.tree.leaf_max_size = (w.node leaf).max_size_)
    (hs : (w.node leaf).SortedFrom 0)
    (habs : ∀ i : Int, 0 ≤ i → i < (w.node leaf).size_ → ((w.node leaf).array i).1 ≠ key) :
    ∃ (w2 w3 : World) (a c : KeyType),
      BPlusTree.splitAndInsert key value leaf w = .ok (leaf2, w2) ∧
      BPlusTreeLeafPage.KeyAt (w2.node leaf) 0 = .ok a ∧
      BPlusTreeLeafPage.KeyAt (w2.node leaf2) 0 = .ok c ∧
      comparator a c < 0 ∧
      BPlusTree.chainTogether leaf leaf2 w2 = .ok ((), w3) ∧
      (w3.node leaf2).next_page_id_ = (w2.node leaf).next_page_id_ ∧
      (w3.node leaf).next_page_id_ = (w3.node leaf2).page_id_ ∧
      (∀ (w0 : World) (fuel : Nat),
        BPlusTree.FindLeafPage fuel key false Operation.INSERT w0 = .ok (some leaf, w) →
        BPlusTree.InsertIntoLeaf fuel key value w0 =
          BPlusTree.chainAndPromote fuel leaf leaf2 w2) := by
  have H := holds_self w.tree.buffer_pool_manager_ hl
  have hw : w.put w.tree.buffer_pool_manager_ txn = w := BPlusTree.put_self htx
  obtain ⟨d0, d1, d2⟩ := tdiv_two_bounds (d := (w.node leaf).size_) (by omega)
  obtain ⟨b4, N4, a, c, e4, H4, ha, hc, hlt⟩ := BPlusTree.splitAndInsert_ok H w txn key value
    leaf leaf2 pid hnew hne (show 2 ≤ (w.node leaf).size_ by omega)
    (show (w.node leaf).size_ ≤ (w.node leaf).max_size_ by omega)
    (show Int.tdiv (w.node leaf).size_ 2 < w.tree.leaf_max_size by omega) hs habs
  rw [hw] at e4
  obtain ⟨b5, e5, H5⟩ := BPlusTree.chainTogether_right H4 w txn leaf leaf2 hne ha hc hlt
  have hn4 : ∀ g, (w.put b4 txn).node g = N4 g := H4.2.2
  have hn5 : ∀ g, (w.put b5 txn).node g = _ := H5.2.2
  refine ⟨w.put b4 txn, w.put b5 txn, a, c, e4, ?_, ?_, comparator_lt.2 hlt, e5, ?_, ?_, ?_⟩
  · rw [hn4]; exact ha
  · rw [hn4]; exact hc
  · rw [hn5, hn4, setNode_other _ _ hne, setNode_same]
  · rw [hn5, hn5, setNode_same, setNode_other _ _ hne, setNode_same]
  · intro w0 fuel hfind
    rw [BPlusTree.InsertIntoLeaf_split w0 w fuel key value leaf hfind
      (BPlusTreeLeafPage.Lookup_absent (by omega) habs) (by omega),
      BPlusTree.tree_bind_ok e4]

open PoolM BufferPoolManager

/-- Witness for C36: `insert(5, 50)` into the full root leaf `{1, 2, 3, 4}` of `rootLeafWorld`;
`new_page` gives page 2 in frame 1. -/
theorem split_leaf_chains_right_witness :
    ∃ (w2 w3 : World) (a c : KeyType),
      BPlusTree.splitAndInsert 5 50 0 rootLeafWorld = .ok (1, w2) ∧
      BPlusTreeLeafPage.KeyAt (w2.node 0) 0 = .ok a ∧
      BPlusTreeLeafPage.KeyAt (w2.node 1) 0 = .ok c ∧
      comparator a c < 0 ∧
      BPlusTree.chainTogether 0 1 w2 = .ok ((), w3) ∧
      (w3.node 1).next_page_id_ = (w2.node 0).next_page_id_ ∧
      (w3.node 0).next_page_id_ = (w3.node 1).page_id_ ∧
      (∀ (w0 : World) (fuel : Nat),
        BPlusTree.FindLeafPage fuel 5 false Operation.INSERT w0 = .ok (some 0, rootLeafWorld) →
        BPlusTree.InsertIntoLeaf fuel 5 50 w0 = BPlusTree.chainAndPromote fuel 0 1 w2) :=
  split_leaf_chains_right rootLeafWorld {} 5 50 0 1 2
    (stateOf rootLeafWorld.tree.buffer_pool_manager_
      rootLeafWorld.tree.buffer_pool_manager_.NewPageImpl)
    (by decide!) (by decide!) (returns_of_valueOf (by decide!)) (by decide) (by decide!)
    (by decide!) (by decide!) (by decide!)
    (fun i h1 h2 => by
      have hsz : (rootLeafWorld.node 0).size_ = 4 := by decide!
      rw [hsz] at h2
      have h : i = 0 ∨ i = 1 ∨ i = 2 ∨ i = 3 := by omega
      rcases h with h | h | h | h <;> subst h <;> decide!)

/-! ## Theorems about redistribution between internal nodes -/

namespace BPlusTreeInternalPage
variable {T : page_id_t → Option frame_id_t} {N : frame_id_t → BPlusTreePage}

end BPlusTreeInternalPage

namespace BPlusTreeInternalPage
variable {T : page_id_t → Option frame_id_t} {N : frame_id_t → BPlusTreePage}

end BPlusTreeInternalPage

namespace BPlusTreeInternalPage
variable {T : page_id_t → Option frame_id_t} {N : frame_id_t → BPlusTreePage}

end BPlusTreeInternalPage

theorem descend_head {T : page_id_t → Option frame_id_t} {N : frame_id_t → BPlusTreePage}
    {key : KeyType} {leftMost : Bool} :
    ∀ (fuel : Nat) (node : frame_id_t) (path : List frame_id_t),
      descend T N key leftMost fuel node = some path → ∃ rest, path = node :: rest := by
  intro fuel
  induction fuel with
  | zero =>
    intro node path h
    rw [descend] at h
    split at h
    · injection h with h; exact ⟨[], h.symm⟩
    · cases h
  | succ n ih =>
    intro node path h
    rw [descend] at h
    split at h
    · injection h with h; exact ⟨[], h.symm⟩
    · split at h
      · split at h
        · cases hd : descend T N key leftMost n _ with
          | none => rw [hd] at h; cases h
          | some rest =>
            rw [hd] at h
            injection h with h
            exact ⟨rest, h.symm⟩
        · cases h
      · cases h

theorem crab_readonly (N : frame_id_t → BPlusTreePage) :
    ∀ (rest held : List frame_id_t), rest ≠ [] →
      crab N Operation.READONLY held rest = [rest.getLast?.getD 0] := by
  intro rest
  induction rest with
  | nil => intro held h; exact absurd rfl h
  | cons c rest ih =>
    intro held _
    rw [crab]
    simp only [true_or, if_true]
    cases rest with
    | nil => rfl
    | cons d rest2 =>
      rw [ih [c] (by simp)]
      simp [List.getLast?_cons_cons]

theorem crab_crabbed (N : frame_id_t → BPlusTreePage) {op : Operation}
    (hop : op ≠ Operation.READONLY) :
    ∀ (rest path held : List frame_id_t), Crabbed N op path held →
      Crabbed N op (path ++ rest) (crab N op held rest) := by
  intro rest
  induction rest with
  | nil => intro path held h; simpa [crab] using h
  | cons c rest ih =>
    intro path held h
    rw [crab]
    have hassoc : path ++ c :: rest = (path ++ [c]) ++ rest := by simp
    rw [hassoc]
    apply ih
    obtain ⟨pre, hp, hne, hfirst, htail⟩ := h
    by_cases hs : BPlusTree.isSafe (N c) op = true
    · rw [if_pos (Or.inr hs)]
      exact ⟨path, rfl, by simp, Or.inr ⟨c, rfl, hs⟩, by simp⟩
    · rw [if_neg (by rintro (h1 | h1); exact hop h1; exact hs h1)]
      refine ⟨pre, by rw [hp]; simp, by simp, ?_, ?_⟩
      · rcases hfirst with h1 | ⟨x, hx, hsx⟩
        · exact Or.inl h1
        · refine Or.inr ⟨x, ?_, hsx⟩
          cases held with
          | nil => exact absurd rfl hne
          | cons y ys => simpa using hx
      · intro x hx
        cases held with
        | nil => exact absurd rfl hne
        | cons y ys =>
          simp only [List.cons_append, List.tail_cons, List.mem_append, List.mem_singleton] at hx
          rcases hx with hx | hx
          · exact htail x (by simpa using hx)
          · subst hx
            simpa using hs

namespace BPlusTree
variable {T : page_id_t → Option frame_id_t} {N : frame_id_t → BPlusTreePage}

theorem pool_put_inv {α : Type} {x : PoolM α} {w w2 : World} {b : BufferPoolManager}
    {txn : Transaction} {a : α} (h : pool x (w.put b txn) = .ok (a, w2)) :
    ∃ b2, x b = .ok (a, b2) ∧ w2 = w.put b2 txn := by
  cases hx : x b with
  | error e =>
    simp only [pool, World.put, hx, bind, Except.bind] at h
    cases h
  | ok p =>
    obtain ⟨a1, b1⟩ := p
    simp only [pool, World.put, hx, bind, Except.bind, pure, Except.pure] at h
    injection h with h
    injection h with h1 h2
    subst h1
    exact ⟨b1, rfl, h2.symm⟩

theorem liftM_put_inv {α : Type} {x : Except Fault α} {w w2 : World} {a : α}
    (h : (liftM x : TreeM α) w = .ok (a, w2)) : x = .ok a ∧ w2 = w := by
  cases x with
  | error e => cases h
  | ok a1 =>
    have h1 : (liftM (Except.ok a1 : Except Fault α) : TreeM α) w = .ok (a1, w) := rfl
    rw [h1] at h
    injection h with h
    injection h with h2 h3
    subst h2
    exact ⟨rfl, h3.symm⟩

/-- The latch on the child in the loop of `FindLeafPage`, with the release of the ancestors
for READONLY. -/
theorem latchChild_inv {b : BufferPoolManager} (h : b.Holds T N) (w w2 : World)
    (txn : Transaction) (op : Operation) (child : frame_id_t)
    (hd : txn.deleted_page_set_ = [])
    (hret : (if op = Operation.READONLY then do
        pool (PoolM.RLatch child)
        UnlockUnpinPages op
      else pool (PoolM.WLatch child) : TreeM Unit) (w.put b txn) = .ok ((), w2)) :
    ∃ (w3 : World) (b3 : BufferPoolManager) (txn3 : Transaction),
      w2 = w3.put b3 txn3 ∧ b3.Holds T N ∧ txn3.deleted_page_set_ = [] ∧
      txn3.page_set_ = if op = Operation.READONLY then [] else txn.page_set_ := by
  by_cases hop : op = Operation.READONLY
  · rw [if_pos hop] at hret
    obtain ⟨u, w3, e1, e2⟩ := tree_bind_inv hret
    obtain ⟨b3, e3, rfl⟩ := pool_put_inv e1
    have H3 := RLatch_holds h e3
    obtain ⟨w4, b4, e4, H4⟩ := UnlockUnpinPages_ok H3 w txn op hd
    rw [e4] at e2
    injection e2 with e2
    injection e2 with _ e2
    exact ⟨w4, b4, {}, e2.symm, H4, rfl, by rw [if_pos hop]⟩
  · rw [if_neg hop] at hret
    obtain ⟨b3, e3, rfl⟩ := pool_put_inv hret
    exact ⟨w, b3, txn, rfl, WLatch_holds h e3, hd, by rw [if_neg hop]⟩

/-- One turn of the loop of `FindLeafPage` below an internal node, from the fetch of the child
`c` on; `again` is the rest of the loop. -/
theorem descentStep_inv {b : BufferPoolManager} (h : b.Holds T N) (w w1 : World)
    (txn : Transaction) (op : Operation) (parent : frame_id_t) (parent_page_id p : page_id_t)
    (c leaf : frame_id_t) (again : frame_id_t → frame_id_t → TreeM frame_id_t)
    (hd : txn.deleted_page_set_ = []) (hT : T p = some c)
    (hret : (do
      let child ← pool (PoolM.FetchPage p)
      let child ← pool (PoolM.deref child)
      if op = Operation.READONLY then
        pool (PoolM.RLatch child)
        UnlockUnpinPages op
      else
        pool (PoolM.WLatch child)
      let cnd ← pool (PoolM.readNode child)
      liftM (assert (cnd.parent_page_id_ == parent_page_id))
      if op ≠ Operation.READONLY ∧ isSafe cnd op = true then
        UnlockUnpinPages op
      match (← get).transaction with
      | some _ =>
        AddIntoPageSet child
        again parent child
      | none =>
        pool (PoolM.RUnlatch parent)
        let pg ← pool (PoolM.readPage parent)
        let _ ← pool (PoolM.UnpinPage pg.page_id_ false)
        again child child : TreeM frame_id_t) (w.put b txn) = .ok (leaf, w1)) :
    ∃ (w3 : World) (b3 : BufferPoolManager) (txn3 : Transaction),
      b3.Holds T N ∧ txn3.deleted_page_set_ = [] ∧
      txn3.page_set_ =
        (if op = Operation.READONLY ∨ isSafe (N c) op = true then [c]
         else txn.page_set_ ++ [c]) ∧
      again parent c (w3.put b3 txn3) = .ok (leaf, w1) := by
  obtain ⟨b1, e1, H1⟩ := FetchPage_resident h hT
  rw [tree_bind_ok (pool_put e1),
    tree_bind_ok (pool_put (rfl : deref (some c) b1 = .ok (c, b1)))] at hret
  by_cases hop : op = Operation.READONLY
  · simp only [hop, if_true, ne_eq, not_true_eq_false, false_and, if_false, true_or] at hret ⊢
    obtain ⟨u, w2, e2, hret⟩ := tree_bind_inv hret
    obtain ⟨b2, e3, rfl⟩ := pool_put_inv e2
    have H2 := RLatch_holds H1 e3
    obtain ⟨w4, b4, e4, H4⟩ := UnlockUnpinPages_ok H2 w txn Operation.READONLY hd
    rw [tree_bind_ok e4, tree_bind_ok (pool_put (readNode_ok H4 c))] at hret
    obtain ⟨u2, w5, e5, hret⟩ := tree_bind_inv hret
    obtain ⟨_, rfl⟩ := liftM_put_inv e5
    rw [pure_bind] at hret
    exact ⟨w4, b4, ({} : Transaction).AddIntoPageSet c, H4, rfl, rfl, hret⟩
  · simp only [hop, if_false, ne_eq, not_false_eq_true, true_and, false_or] at hret ⊢
    obtain ⟨u, w2, e2, hret⟩ := tree_bind_inv hret
    obtain ⟨b2, e3, rfl⟩ := pool_put_inv e2
    have H2 := WLatch_holds H1 e3
    rw [tree_bind_ok (pool_put (readNode_ok H2 c))] at hret
    obtain ⟨u2, w5, e5, hret⟩ := tree_bind_inv hret
    obtain ⟨_, rfl⟩ := liftM_put_inv e5
    by_cases hs : isSafe (N c) op = true
    · simp only [hs, if_true] at hret ⊢
      obtain ⟨w4, b4, e4, H4⟩ := UnlockUnpinPages_ok H2 w txn op hd
      rw [tree_bind_ok e4] at hret
      exact ⟨w4, b4, ({} : Transaction).AddIntoPageSet c, H4, rfl, rfl, hret⟩
    · simp only [hs, if_false] at hret ⊢
      rw [pure_bind] at hret
      exact ⟨w, b2, txn.AddIntoPageSet c, H2, hd, rfl, hret⟩

theorem findLeafLoop_crab {key : KeyType} {leftMost : Bool} {op : Operation} :
    ∀ (fuel : Nat) (parent node : frame_id_t) (b : BufferPoolManager) (txn : Transaction)
      (w : World) (leaf : frame_id_t) (w1 : World) (path : List frame_id_t),
      b.Holds T N → txn.deleted_page_set_ = [] →
      findLeafLoop key leftMost op fuel parent node (w.put b txn) = .ok (leaf, w1) →
      descend T N key leftMost fuel node = some path →
      path.getLast? = some leaf ∧
      ∃ (w2 : World) (b2 : BufferPoolManager) (txn2 : Transaction),
        w1 = w2.put b2 txn2 ∧ b2.Holds T N ∧
        txn2.page_set_ = crab N op txn.page_set_ path.tail := by
  intro fuel
  induction fuel with
  | zero =>
    intro parent node b txn w leaf w1 path h hd hret hpath
    rw [findLeafLoop, tree_bind_ok (pool_put (readNode_ok h node))] at hret
    rw [descend] at hpath
    by_cases hleaf : (N node).IsLeafPage = true
    · rw [if_pos hleaf] at hret hpath
      injection hpath with hpath
      subst hpath
      injection hret with hret
      injection hret with h1 h2
      subst h1
      exact ⟨rfl, w, b, txn, h2.symm, h, rfl⟩
    · rw [if_neg hleaf] at hpath
      cases hpath
  | succ n ih =>
    intro parent node b txn w leaf w1 path h hd hret hpath
    rw [findLeafLoop, tree_bind_ok (pool_put (readNode_ok h node))] at hret
    rw [descend] at hpath
    by_cases hleaf : (N node).IsLeafPage = true
    · rw [if_pos hleaf] at hret hpath
      injection hpath with hpath
      subst hpath
      injection hret with hret
      injection hret with h1 h2
      subst h1
      exact ⟨rfl, w, b, txn, h2.symm, h, rfl⟩
    · rw [if_neg hleaf] at hret hpath
      cases hX : (if leftMost = true then BPlusTreeInternalPage.ValueAt (N node) 0
          else BPlusTreeInternalPage.Lookup (N node) key) with
      | error e => rw [hX] at hpath; cases hpath
      | ok p =>
        rw [hX] at hpath
        simp only at hpath
        cases hT : T p with
        | none => rw [hT] at hpath; cases hpath
        | some c =>
          rw [hT] at hpath
          simp only at hpath
          cases hrest : descend T N key leftMost n c with
          | none => rw [hrest] at hpath; cases hpath
          | some rest =>
            rw [hrest] at hpath
            injection hpath with hpath
            subst hpath
            have hstep : ∃ (w3 : World) (b3 : BufferPoolManager) (txn3 : Transaction),
                b3.Holds T N ∧ txn3.deleted_page_set_ = [] ∧
                txn3.page_set_ =
                  (if op = Operation.READONLY ∨ isSafe (N c) op = true then [c]
                   else txn.page_set_ ++ [c]) ∧
                findLeafLoop key leftMost op n parent c (w3.put b3 txn3) = .ok (leaf, w1) := by
              cases leftMost
              · simp only [Bool.false_eq_true, if_false] at hret hX
                rw [tree_bind_ok (liftM_put hX _)] at hret
                exact descentStep_inv h w w1 txn op parent (N node).page_id_ p c leaf
                  (findLeafLoop key false op n) hd hT hret
              · simp only [if_true] at hret hX
                rw [tree_bind_ok (liftM_put hX _)] at hret
                exact descentStep_inv h w w1 txn op parent (N node).page_id_ p c leaf
                  (findLeafLoop key true op n) hd hT hret
            obtain ⟨w3, b3, txn3, H3, hd3, hps3, hagain⟩ := hstep
            obtain ⟨hlast, w4, b4, txn4, e4, H4, hps4⟩ :=
              ih parent c b3 txn3 w3 leaf w1 rest H3 hd3 hagain hrest
            obtain ⟨rest2, hr⟩ := descend_head n c rest hrest
            subst hr
            refine ⟨?_, w4, b4, txn4, e4, H4, ?_⟩
            · rw [List.getLast?_cons_cons]
              exact hlast
            · rw [hps4, hps3]
              rfl

end BPlusTree

namespace BPlusTree
variable {T : page_id_t → Option frame_id_t} {N : frame_id_t → BPlusTreePage}

theorem lockRoot_inv (w w1 : World) (b : BufferPoolManager) (txn : Transaction) (u : Unit)
    (hret : (lockRoot >>= fun _ => modifyTree fun t => { t with root_is_locked := true })
      (w.put b txn) = .ok (u, w1)) :
    ∃ w0 : World, w1 = w0.put b txn ∧ w0.tree.root_page_id_ = w.tree.root_page_id_ := by
  obtain ⟨⟨a1, a2, a3, a4, a5, a6, a7, a8⟩, t, u⟩ := w
  cases a7
  · injection hret with hret
    injection hret with _ hret
    exact ⟨⟨⟨a1, a2, a3, a4, a5, a6, true, true⟩, t, u⟩, hret.symm, rfl⟩
  · cases hret

/-- The statements of `FindLeafPage` from the emptiness test on. -/
theorem walk_crab {b : BufferPoolManager} (h : b.Holds T N) (w w1 : World)
    (txn : Transaction) (fuel : Nat) (key : KeyType) (leftMost : Bool) (op : Operation)
    (root leaf : frame_id_t) (path : List frame_id_t)
    (hps : txn.page_set_ = []) (hd : txn.deleted_page_set_ = [])
    (hne : w.tree.root_page_id_ ≠ INVALID_PAGE_ID)
    (hroot : T w.tree.root_page_id_ = some root)
    (hpath : descend T N key leftMost fuel root = some path)
    (hret : (do
      let t ← getTree
      if t.IsEmpty then
        return none
      let parent ← pool (PoolM.FetchPage t.root_page_id_)
      let parent ← pool (PoolM.deref parent)
      if op = Operation.READONLY then
        pool (PoolM.RLatch parent)
      else
        pool (PoolM.WLatch parent)
      AddIntoPageSet parent
      let leaf ← findLeafLoop key leftMost op fuel parent parent
      return some leaf : TreeM (Option frame_id_t)) (w.put b txn) = .ok (some leaf, w1)) :
    path.getLast? = some leaf ∧
    ∃ (w2 : World) (b2 : BufferPoolManager) (txn2 : Transaction),
      w1 = w2.put b2 txn2 ∧ b2.Holds T N ∧
      txn2.page_set_ = crab N op [root] path.tail := by
  rw [tree_bind_ok (rfl : getTree (w.put b txn) = .ok ((w.put b txn).tree, w.put b txn))]
    at hret
  have hemp : (w.put b txn).tree.IsEmpty = false := by
    simp only [IsEmpty, World.put]
    simpa using hne
  simp only [hemp, Bool.false_eq_true, if_false] at hret
  obtain ⟨b1, e1, H1⟩ := FetchPage_resident h hroot
  rw [pure_bind, tree_bind_ok (pool_put (show FetchPage (w.put b txn).tree.root_page_id_ b = _
      from e1)),
    tree_bind_ok (pool_put (rfl : deref (some root) b1 = .ok (root, b1)))] at hret
  have hlatch : ∃ b2, b2.Holds T N ∧
      (AddIntoPageSet root >>= fun _ => do
        let leaf ← findLeafLoop key leftMost op fuel root root
        pure (some leaf)) (w.put b2 txn) = .ok (some leaf, w1) := by
    by_cases hop : op = Operation.READONLY
    · simp only [hop, if_true] at hret
      obtain ⟨u, w2, e2, hret⟩ := tree_bind_inv hret
      obtain ⟨b2, e3, rfl⟩ := pool_put_inv e2
      exact ⟨b2, RLatch_holds H1 e3, by rw [hop]; exact hret⟩
    · simp only [hop, if_false] at hret
      obtain ⟨u, w2, e2, hret⟩ := tree_bind_inv hret
      obtain ⟨b2, e3, rfl⟩ := pool_put_inv e2
      exact ⟨b2, WLatch_holds H1 e3, hret⟩
  obtain ⟨b2, H2, hret2⟩ := hlatch
  have hadd : AddIntoPageSet root (w.put b2 txn) =
      .ok ((), w.put b2 (txn.AddIntoPageSet root)) := rfl
  rw [tree_bind_ok hadd] at hret2
  obtain ⟨lf, w3, e3, hret3⟩ := tree_bind_inv hret2
  injection hret3 with hret3
  injection hret3 with h1 h2
  injection h1 with h1
  subst h1 h2
  obtain ⟨hlast, w4, b4, txn4, e4, H4, hps4⟩ :=
    findLeafLoop_crab fuel root root b2 (txn.AddIntoPageSet root) w lf w3 path H2 hd e3 hpath
  refine ⟨hlast, w4, b4, txn4, e4, H4, ?_⟩
  rw [hps4]
  simp only [Transaction.AddIntoPageSet, hps, List.nil_append]

theorem FindLeafPage_crab {b : BufferPoolManager} (h : b.Holds T N) (w w1 : World)
    (txn : Transaction) (fuel : Nat) (key : KeyType) (leftMost : Bool) (op : Operation)
    (root leaf : frame_id_t) (path : List frame_id_t)
    (hps : txn.page_set_ = []) (hd : txn.deleted_page_set_ = [])
    (hne : w.tree.root_page_id_ ≠ INVALID_PAGE_ID)
    (hroot : T w.tree.root_page_id_ = some root)
    (hpath : descend T N key leftMost fuel root = some path)
    (hret : FindLeafPage fuel key leftMost op (w.put b txn) = .ok (some leaf, w1)) :
    path.getLast? = some leaf ∧
    ∃ (w2 : World) (b2 : BufferPoolManager) (txn2 : Transaction),
      w1 = w2.put b2 txn2 ∧ b2.Holds T N ∧
      txn2.page_set_ = crab N op [root] path.tail := by
  unfold FindLeafPage at hret
  by_cases hop : op = Operation.READONLY
  · simp only [hop, ne_eq, not_true_eq_false, if_false] at hret
    rw [pure_bind] at hret
    rw [hop]
    exact walk_crab h w w1 txn fuel key leftMost Operation.READONLY root leaf path hps hd hne
      hroot hpath hret
  · simp only [hop, ne_eq, not_false_eq_true, if_true] at hret
    rw [← bind_assoc] at hret
    obtain ⟨u, w2, e1, hret⟩ := tree_bind_inv hret
    obtain ⟨w0, rfl, hw0⟩ := lockRoot_inv w w2 b txn u e1
    exact walk_crab h w0 w1 txn fuel key leftMost op root leaf path hps hd (by rw [hw0]; exact hne)
      (by rw [hw0]; exact hroot) hpath (by simpa only [hop, if_false] using hret)

end BPlusTree

/-- C35: the page set after `FindLeafPage`. The tree is not empty, the transaction is not
null and enters with empty page and deleted-page sets, the pool latch is free, and the pages on
the way from the root to the leaf are resident: `path` is the list of their frames, from the
root's. When `FindLeafPage(key, leftMost, op, transaction)` returns, it returns the last frame
of `path`, and the page set of the transaction is, for READONLY, the returned leaf alone, and
for INSERT and DELETE a non-empty suffix of `path` (so it ends at the returned leaf) that starts
at the root or at a node that is safe for `op`, with no node that is safe for `op` after its
first. The nodes are as before the call. -/
theorem find_leaf_crabbing (w w1 : World) (txn : Transaction) (fuel : Nat) (key : KeyType)
    (leftMost : Bool) (op : Operation) (root leaf : frame_id_t) (path : List frame_id_t)
    (hl : w.tree.buffer_pool_manager_.latch_ = false)
    (htx : w.transaction = some txn) (hps : txn.page_set_ = [])
    (hd : txn.deleted_page_set_ = [])
    (hne : w.tree.root_page_id_ ≠ INVALID_PAGE_ID)
    (hroot : w.tree.buffer_pool_manager_.page_table_ w.tree.root_page_id_ = some root)
    (hpath : descend w.tree.buffer_pool_manager_.page_table_ w.node key leftMost fuel root =
      some path)
    (hret : BPlusTree.FindLeafPage fuel key leftMost op w = .ok (some leaf, w1)) :
    path.getLast? = some leaf ∧
    ∃ txn1, w1.transaction = some txn1 ∧
      (op = Operation.READONLY → txn1.page_set_ = [leaf]) ∧
      (op ≠ Operation.READONLY → Crabbed w.node op path txn1.page_set_) ∧
      ∀ g, w1.node g = w.node g := by
  have H := holds_self w.tree.buffer_pool_manager_ hl
  have hw : w.put w.tree.buffer_pool_manager_ txn = w := BPlusTree.put_self htx
  rw [← hw] at hret
  obtain ⟨hlast, w2, b2, txn2, e2, H2, hps2⟩ :=
    BPlusTree.FindLeafPage_crab H w w1 txn fuel key leftMost op root leaf path hps hd hne hroot
      hpath hret
  obtain ⟨rest, hr⟩ := descend_head fuel root path hpath
  subst hr e2
  refine ⟨hlast, txn2, rfl, ?_, ?_, fun g => H2.2.2 g⟩
  · intro hop
    subst hop
    rw [hps2]
    cases rest with
    | nil =>
      simp only [List.getLast?_singleton, Option.some.injEq] at hlast
      subst hlast
      rfl
    | cons c rest2 =>
      rw [List.tail_cons, crab_readonly _ _ _ (by simp)]
      rw [List.getLast?_cons_cons] at hlast
      rw [hlast]
      rfl
  · intro hop
    rw [hps2]
    have h0 : Crabbed w.tree.buffer_pool_manager_.node op [root] [root] :=
      ⟨[], rfl, by simp, Or.inl rfl, by simp⟩
    exact crab_crabbed _ hop rest [root] [root] h0

/-- Witness for C35: `FindLeafPage(4, INSERT)` on `gapWorld` walks from the root (frame 2) to
the leaf `{1, 2, 3}` (frame 0), which is safe for INSERT. -/
theorem find_leaf_crabbing_witness :
    [(2 : frame_id_t), 0].getLast? = some 0 ∧
    ∃ txn1, gapWorldFound.transaction = some txn1 ∧
      (Operation.INSERT = Operation.READONLY → txn1.page_set_ = [0]) ∧
      (Operation.INSERT ≠ Operation.READONLY →
        Crabbed gapWorld.node Operation.INSERT [2, 0] txn1.page_set_) ∧
      ∀ g, gapWorldFound.node g = gapWorld.node g :=
  find_leaf_crabbing gapWorld gapWorldFound {} 8 4 false Operation.INSERT 2 0 [2, 0]
    (by decide!) (by decide!) rfl rfl (by decide!) (by decide!) (by decide!)
    (returns_of_resultOf (by decide!))

/-! ## Theorems about the split of a full parent -/

namespace PoolM
variable {T : page_id_t → Option frame_id_t} {N : frame_id_t → BPlusTreePage}

end PoolM

namespace BPlusTreePage

theorem SameButParent.max_size {a b : BPlusTreePage} (h : a.SameButParent b) :
    a.max_size_ = b.max_size_ := by
  unfold SameButParent at h
  have h1 := congrArg BPlusTreePage.max_size_ h
  exact h1

theorem SameButParent.page_type {a b : BPlusTreePage} (h : a.SameButParent b) :
    a.page_type_ = b.page_type_ := by
  unfold SameButParent at h
  have h1 := congrArg BPlusTreePage.page_type_ h
  exact h1

theorem SameButParent.symm {a b : BPlusTreePage} (h : a.SameButParent b) :
    b.SameButParent a :=
  Eq.symm h

end BPlusTreePage

namespace BPlusTreeInternalPage

end BPlusTreeInternalPage

namespace BPlusTree
variable {T : page_id_t → Option frame_id_t}

end BPlusTree

namespace BPlusTree
variable {T : page_id_t → Option frame_id_t}

end BPlusTree

namespace BPlusTree
variable {T : page_id_t → Option frame_id_t}

end BPlusTree

namespace BPlusTreeInternalPage
variable {T : page_id_t → Option frame_id_t} {N : frame_id_t → BPlusTreePage}

end BPlusTreeInternalPage

namespace BPlusTreeInternalPage
variable {T : page_id_t → Option frame_id_t} {N : frame_id_t → BPlusTreePage}

end BPlusTreeInternalPage

namespace PoolM
variable {T : page_id_t → Option frame_id_t} {N : frame_id_t → BPlusTreePage}

end PoolM

namespace BPlusTree
variable {T : page_id_t → Option frame_id_t} {N : frame_id_t → BPlusTreePage}

end BPlusTree

namespace BPlusTree
variable {T : page_id_t → Option frame_id_t} {N : frame_id_t → BPlusTreePage}

end BPlusTree

namespace PoolM
variable {T : page_id_t → Option frame_id_t} {N : frame_id_t → BPlusTreePage}

end PoolM

namespace BPlusTreeLeafPage
variable {T : page_id_t → Option frame_id_t} {N : frame_id_t → BPlusTreePage}

end BPlusTreeLeafPage

namespace BPlusTree
variable {T : page_id_t → Option frame_id_t} {N : frame_id_t → BPlusTreePage}

end BPlusTree

namespace PoolM
variable {T : page_id_t → Option frame_id_t} {N : frame_id_t → BPlusTreePage}

end PoolM

namespace BPlusTree
variable {T : page_id_t → Option frame_id_t} {N : frame_id_t → BPlusTreePage}

end BPlusTree

namespace BPlusTree
variable {T : page_id_t → Option frame_id_t} {N : frame_id_t → BPlusTreePage}

end BPlusTree

namespace BPlusTreePage

theorem SameButParent.next_page_id {a b : BPlusTreePage} (h : a.SameButParent b) :
    a.next_page_id_ = b.next_page_id_ := by
  unfold SameButParent at h
  have h1 := congrArg BPlusTreePage.next_page_id_ h
  exact h1

theorem SameButParent.slots {a b : BPlusTreePage} (h : a.SameButParent b) :
    a.slots = b.slots := by
  unfold BPlusTreePage.slots
  rw [h.size, h.array]

end BPlusTreePage

namespace BPlusTree
variable {T : page_id_t → Option frame_id_t} {N : frame_id_t → BPlusTreePage}

end BPlusTree

end bustub
